import Mathlib

/-!
# rdp2tcp: a shallow embedding of the multiplexing core

The definitions below transcribe the C sources of rdp2tcp (the framed channel
protocol, the I/O buffers, the command parser, the client tunnel table with its
identifier allocator, and the command handlers of both peers).

Conventions of the embedding

* A byte is a natural number below 256, a byte string is a `List Nat`.
* `unsigned int` arithmetic is written with `u32`, `unsigned char` arithmetic
  with `u8`; `time_t` values are integers.
* The release build is embedded: `debug.h` defines `NDEBUG` unless `DEBUG` is
  set, so every `assert` is compiled out. Asserted preconditions appear as
  hypotheses of theorems where they are needed, not as checks in the code.
* A heap block is the list of its bytes; `realloc` keeps the old bytes and the
  fresh ones are zero. Whether an allocation succeeds is an input (`mem`).
* Pointers into the socket list are positions in the list.
* Logging (`error`, `warn`, `info`, `debug`, `trace`) has no effect on the
  state; `error(...)` evaluates to `-1`.
-/

namespace Rdp2tcp

/-! ## common/rdp2tcp.h -/

def RDP2TCP_MAX_MSGLEN : Nat := 512 * 1024
def RDP2TCP_PING_DELAY : Int := 5

def R2TCMD_CONN : Nat := 0
def R2TCMD_CLOSE : Nat := 1
def R2TCMD_DATA : Nat := 2
def R2TCMD_PING : Nat := 3
def R2TCMD_BIND : Nat := 4
def R2TCMD_RCONN : Nat := 5
def R2TCMD_MAX : Nat := 6

def TUNAF_ANY : Nat := 0
def TUNAF_IPV4 : Nat := 1
def TUNAF_IPV6 : Nat := 2

/-! ## machine arithmetic and memory -/

/-- Reduction of a natural number to an `unsigned int` (32 bits). -/
def u32 (n : Nat) : Nat := n % 4294967296

/-- Reduction of a natural number to an `unsigned char`. -/
def u8 (n : Nat) : Nat := n % 256

/-- The four bytes `htonl(v)` leaves in memory (big-endian). -/
def htonl (v : Nat) : List Nat :=
  [v / 16777216 % 256, v / 65536 % 256, v / 256 % 256, v % 256]

/-- The two bytes `htons(v)` leaves in memory (big-endian). -/
def htons (v : Nat) : List Nat := [v / 256 % 256, v % 256]

/-- The value `ntohl(*(unsigned int *)(data+off))`: four bytes read big-endian. -/
def ntohl (data : List Nat) (off : Nat) : Nat :=
  match data.drop off with
  | b0 :: b1 :: b2 :: b3 :: _ => ((b0 * 256 + b1) * 256 + b2) * 256 + b3
  | _ => 0

/-- The byte `data[off]`. -/
def peek (data : List Nat) (off : Nat) : Nat := (data.drop off).headD 0

/-- The block after `memcpy(block+dst, src, |src|)`. -/
def memcpy (block : List Nat) (dst : Nat) (src : List Nat) : List Nat :=
  block.take dst ++ src ++ block.drop (dst + src.length)

/-- The block after `memmove(block+dst, block+src, n)`. -/
def memmove (block : List Nat) (dst src n : Nat) : List Nat :=
  memcpy block dst ((block.drop src).take n)

/-- The block `realloc(block, n)` returns when it succeeds. -/
def realloc (block : List Nat) (n : Nat) : List Nat :=
  block.take n ++ List.replicate (n - block.length) 0

/-! ## common/iobuf.h, common/iobuf.c -/

def IOBUF_MIN_SIZE : Nat := 2048

/-- The structure `iobuf_t`: used size, allocated size, data block. -/
structure iobuf where
  size : Nat
  total : Nat
  data : List Nat
deriving DecidableEq, Repr

/-- The macro `valid_iobuf`; the block holds `total` bytes. -/
def valid_iobuf (x : iobuf) : Prop := x.size ≤ x.total ∧ x.data.length = x.total

instance (x : iobuf) : Decidable (valid_iobuf x) := by
  unfold valid_iobuf; infer_instance

/-- The function `__iobuf_init`. -/
def iobuf_init : iobuf := { size := 0, total := 0, data := [] }

def iobuf_datalen (buf : iobuf) : Nat := buf.size

/-- The function `iobuf_dataptr`: the block, or a null pointer when empty. -/
def iobuf_dataptr (buf : iobuf) : List Nat := if buf.size ≠ 0 then buf.data else []

/-- The bytes held by the buffer: `iobuf_datalen` bytes from `iobuf_dataptr`. -/
def iobuf_bytes (buf : iobuf) : List Nat := (iobuf_dataptr buf).take (iobuf_datalen buf)

/-- The function `iobuf_consume`. -/
def iobuf_consume (buf : iobuf) (consumed : Nat) : iobuf :=
  let size := buf.size - consumed
  { buf with
    data := if size ≠ 0 then memmove buf.data 0 consumed size else buf.data
    size := size }

/-- The function `iobuf_reserve`: the buffer afterwards and `*reserved`; `none`
is the null pointer returned when `realloc` fails. The pointer returned on
success is `data + size`. -/
def iobuf_reserve (mem : Bool) (buf : iobuf) (size : Nat) : Option (iobuf × Nat) :=
  let avail := buf.total - buf.size
  let size := if size = 0 then IOBUF_MIN_SIZE else size
  if size > avail then
    if mem then
      some ({ buf with data := realloc buf.data (u32 (buf.size + size))
                       total := u32 (buf.size + size) }, size)
    else none
  else some (buf, size)

/-- The function `iobuf_commit`. -/
def iobuf_commit (buf : iobuf) (commited : Nat) : iobuf :=
  { buf with size := u32 (buf.size + commited) }

/-- A store through the pointer `iobuf_reserve` returned: `memcpy(ptr+off, src, |src|)`
with `ptr = data + size`. -/
def iobuf_store (buf : iobuf) (off : Nat) (src : List Nat) : iobuf :=
  { buf with data := memcpy buf.data (buf.size + off) src }

/-- The function `iobuf_append`. -/
def iobuf_append (mem : Bool) (buf : iobuf) (data : List Nat) : Option iobuf :=
  match iobuf_reserve mem buf data.length with
  | none => none
  | some (buf1, _) => some (iobuf_commit (iobuf_store buf1 0 data) data.length)

/-! ## common/msgparser.c -/

/-- A command handler `int (*cmdhandler_t)(const r2tmsg_t *, unsigned int)` acting on
a program state `σ`: it receives the `len` bytes of the message and `len`. -/
abbrev cmdhandler_t (σ : Type) := σ → List Nat → Nat → Int × σ

/-- The table `r2t_min_size`. -/
def r2t_min_size (cmd : Nat) : Nat :=
  match cmd with
  | 0 => 3
  | 1 => 2
  | 2 => 2
  | 3 => 1
  | 4 => 3
  | 5 => 2
  | _ => 0

/-- The `while` loop of `commands_parse`, one iteration per unit of fuel. The
result is the program state and, when the loop ends normally, the final `off`
(`none` stands for an early `return -1`). Running out of fuel is the outer
`none`. -/
def commands_parse_loop {σ : Type} (cmd_handlers : Nat → Option (cmdhandler_t σ))
    (data : List Nat) (avail : Nat) : Nat → Nat → σ → Option (σ × Option Nat)
  | 0, _, _ => none
  | fuel + 1, off, s =>
    if u32 (off + 5) < avail then
      let msg_len := ntohl data off
      if msg_len = 0 ∨ msg_len > RDP2TCP_MAX_MSGLEN then some (s, none)
      else if u32 (off + msg_len + 4) > avail then some (s, some off)
      else
        let off := u32 (off + 4)
        let cmd := peek data off
        if cmd ≥ R2TCMD_MAX then some (s, none)
        else if msg_len < r2t_min_size cmd then some (s, none)
        else
          match cmd_handlers cmd with
          | none => some (s, none)
          | some handler =>
            let r := handler s ((data.drop off).take msg_len) msg_len
            if r.1 ≠ 0 then some (r.2, none)
            else commands_parse_loop cmd_handlers data avail fuel (u32 (off + msg_len)) r.2
    else some (s, some off)

/-- The function `commands_parse`: return value, program state afterwards and
input buffer afterwards. -/
def commands_parse {σ : Type} (cmd_handlers : Nat → Option (cmdhandler_t σ)) (s : σ)
    (ibuf : iobuf) : Option (Int × σ × iobuf) :=
  match commands_parse_loop cmd_handlers (iobuf_dataptr ibuf) (iobuf_datalen ibuf)
      (iobuf_datalen ibuf + 1) 0 s with
  | none => none
  | some (s1, none) => some (-1, s1, ibuf)
  | some (s1, some off) => some (0, s1, if off > 0 then iobuf_consume ibuf off else ibuf)

/-- One recorded handler invocation: command, tunnel id, payload, `len`. -/
structure call where
  cmd : Nat
  tid : Nat
  payload : List Nat
  len : Nat
deriving DecidableEq, Repr

/-- The invocation a handler sees when it is given the message `msg` and `len`. -/
def call_of (msg : List Nat) (len : Nat) : call :=
  call.mk (msg.headD 0) ((msg.drop 1).headD 0) (msg.drop 2) len

/-- The handler table `cmd_handlers` instrumented with a log: every handler
behaves as before and appends its invocation to the log. -/
def traced {σ : Type} (cmd_handlers : Nat → Option (cmdhandler_t σ)) :
    Nat → Option (cmdhandler_t (σ × List call)) :=
  fun cmd =>
    match cmd_handlers cmd with
    | none => none
    | some handler =>
      some (fun st msg len =>
        let r := handler st.1 msg len
        (r.1, (r.2, st.2 ++ [call_of msg len])))

/-- A full table of handlers without state that all return 0. -/
def null_handlers (cmd : Nat) : Option (cmdhandler_t Unit) :=
  if cmd < R2TCMD_MAX then some (fun s _ _ => (0, s)) else none

/-- The iobuf that holds exactly the bytes `bs` in a block of the same size. -/
def iobuf_holding (bs : List Nat) : iobuf := { size := bs.length, total := bs.length, data := bs }

/-! ## common/nethelper.c -/

def NETERR_CLOSED : Int := -1000
def ENOMEM : Int := 12
def AF_UNSPEC : Int := 0
def AF_INET : Int := 2
def AF_INET6 : Int := 10

/-- The outcome of `write(fd, data, size)`: the number of bytes accepted, or
`-1` with `errno` telling that the call would block (`net_pending()`), or `-1`
with another `errno`. -/
inductive write_outcome where
  | wrote (n : Nat)
  | pending
  | failed (errno : Int)
deriving DecidableEq, Repr

/-- The function `net_write`, `size` being the length of `data`: return value,
output buffer afterwards, `*out_size`, and the bytes the descriptor accepted. -/
def net_write (os : write_outcome) (mem : Bool) (obuf : iobuf) (data : List Nat) :
    Int × iobuf × Nat × List Nat :=
  let size := data.length
  let used := iobuf_datalen obuf
  if size > 0 then
    if used = 0 then
      match os with
      | write_outcome.failed errno => (-errno, obuf, 0, [])
      | write_outcome.pending => (1, obuf, 0, [])
      | write_outcome.wrote ret =>
        if ret = 0 then (NETERR_CLOSED, obuf, 0, [])
        else if size - ret = 0 then (0, obuf, ret, data.take ret)
        else
          match iobuf_append mem obuf (data.drop ret) with
          | none => (-ENOMEM, obuf, ret, data.take ret)
          | some obuf1 => (1, obuf1, ret, data.take ret)
    else
      match iobuf_append mem obuf data with
      | none => (-ENOMEM, obuf, 0, [])
      | some obuf1 => (1, obuf1, 0, [])
  else if used = 0 then (0, obuf, 0, [])
  else
    match os with
    | write_outcome.failed errno => (-errno, obuf, 0, [])
    | write_outcome.pending => (1, obuf, 0, [])
    | write_outcome.wrote ret =>
      if ret = 0 then (NETERR_CLOSED, obuf, 0, [])
      else (0, iobuf_consume obuf ret, ret, (iobuf_bytes obuf).take ret)

/-! ## client/r2tcli.h, client/netsock.c, client/channel.c, client/tunnel.c,
client/commands.c, client/socks5.c -/

namespace client

def NETSOCK_CTRLSRV : Nat := 0
def NETSOCK_TUNSRV : Nat := 1
def NETSOCK_S5SRV : Nat := 2
def NETSOCK_CTRLCLI : Nat := 3
def NETSOCK_TUNCLI : Nat := 4
def NETSOCK_S5CLI : Nat := 5
def NETSOCK_RTUNSRV : Nat := 6
def NETSOCK_RTUNCLI : Nat := 7
def NETSOCK_UNDEF : Nat := 0xff

def NETSTATE_INIT : Nat := 0
def NETSTATE_CANCELLED : Nat := 1
def NETSTATE_CONNECTING : Nat := 2
def NETSTATE_CONNECTED : Nat := 3
def NETSTATE_AUTHENTICATING : Nat := 4
def NETSTATE_AUTHENTICATED : Nat := 5

def SOCKS5_VERSION : Nat := 5
def SOCKS5_SUCCESS : Nat := 0
def SOCKS5_ATYPE_IPV4 : Nat := 1
def SOCKS5_ATYPE_IPV6 : Nat := 4

/-- The structure `netsock_t`. The members of the union `u` are separate fields:
`raf`, `rport`, `rhost` (tunsrv, and the remote part of rtunsrv), `lport`,
`lhost`, `bound` (rtunsrv), `obuf`, `ibuf` (tuncli, ctrlcli, sockscli, whose
output buffers share one place), `is_process` (tuncli). Host names are byte
strings without the final NUL. The socket addresses `addr` and `raddr` are left
out: no function embedded here reads them. The fields follow a record through
the functions written for its type; where the code applies a function to a
record of another type, the C members share their storage and the fields here
do not. -/
structure netsock_t where
  fd : Int
  type : Nat
  state : Nat
  tid : Nat
  min_io_size : Nat
  raf : Nat
  rport : Nat
  rhost : List Nat
  lport : Nat
  lhost : List Nat
  bound : Bool
  obuf : iobuf
  ibuf : iobuf
  is_process : Bool
deriving DecidableEq, Repr

/-- The structure `vchannel_t` of the client. -/
structure vchannel_t where
  ts : Int
  last_state : Int
  ibuf : iobuf
  obuf : iobuf
deriving DecidableEq, Repr

/-- The process-wide variables of the client: the list `all_sockets`, the
allocator cursor `last_tid` and the channel singleton `vc`. -/
structure globals where
  all_sockets : List netsock_t
  last_tid : Nat
  vc : vchannel_t
deriving DecidableEq, Repr

/-- What the environment answers during one operation of the client: the
clock, the success of the successive allocations, `write` on the socket
written to, `calloc` of a socket record, `accept` (the new descriptor) and
`net_client` (the new descriptor and whether the connection is still pending),
`none` when the call fails; and `past`, the bytes that lie in memory behind the
message a handler is given (`past i` at `i` bytes after its end), for a handler
that reads beyond its message. -/
structure env_t where
  now : Int
  mem : Nat → Bool
  write : write_outcome
  calloc : Bool
  accept : Option Int
  connect : Option (Int × Bool)
  past : Nat → Nat

/-- The record `ns` at position `i` replaced by `f ns`. -/
def update_at (l : List netsock_t) (i : Nat) (f : netsock_t → netsock_t) : List netsock_t :=
  match l, i with
  | [], _ => []
  | ns :: rest, 0 => f ns :: rest
  | ns :: rest, i + 1 => ns :: update_at rest i f

/-- The channel singleton after `channel_init`. -/
def channel_init : vchannel_t :=
  { ts := 0, last_state := -1, ibuf := iobuf_init, obuf := iobuf_init }

/-- The initial variables: no socket, `last_tid = 0xff`, initialised channel. -/
def init : globals := { all_sockets := [], last_tid := 0xff, vc := channel_init }

/-- The function `tunnel_lookup`: the position of the first record whose tid is
`tid`, `none` for the null pointer. -/
def tunnel_lookup : List netsock_t → Nat → Option Nat
  | [], _ => none
  | ns :: rest, tid =>
    if ns.tid = tid then some 0
    else
      match tunnel_lookup rest tid with
      | none => none
      | some i => some (i + 1)

/-- The `for` loop of `tunnel_generate_id`, one iteration per unit of fuel:
`some (some tid)` when the loop returns `tid`, `some none` when it ends with
`tid == last_tid`, `none` when the fuel runs out. -/
def tunnel_generate_id_loop (all_sockets : List netsock_t) (last_tid : Nat) :
    Nat → Nat → Option (Option Nat)
  | 0, _ => none
  | fuel + 1, tid =>
    if tid ≠ last_tid then
      if tunnel_lookup all_sockets tid = none then some (some tid)
      else tunnel_generate_id_loop all_sockets last_tid fuel (u8 (tid + 1))
    else some none

/-- The function `tunnel_generate_id`: the returned id and the variables
afterwards. An `unsigned char` takes 256 values, so 256 iterations are enough
(`tunnel_generate_id_loop_fuel`). -/
def tunnel_generate_id (g : globals) : Nat × globals :=
  match tunnel_generate_id_loop g.all_sockets g.last_tid 256 (u8 (g.last_tid + 1)) with
  | some (some tid) => (tid, { g with last_tid := tid })
  | _ => (0xff, g)

/-- The function `channel_is_connected` at the time `now`. -/
def channel_is_connected (now : Int) (vc : vchannel_t) : Int × vchannel_t :=
  let connected : Int := if vc.ts ≠ 0 ∧ vc.ts + RDP2TCP_PING_DELAY + 4 > now then 1 else 0
  (connected, if vc.last_state ≠ connected then { vc with last_state := connected } else vc)

/-- The function `write_reserve`: the channel afterwards and `*out_avail`; the
pointer returned is 4 bytes after the reserved place in `vc.obuf`. -/
def write_reserve (mem : Bool) (vc : vchannel_t) (size : Nat) : Option (vchannel_t × Nat) :=
  match iobuf_reserve mem vc.obuf (u32 (size + 4)) with
  | none => none
  | some (obuf, avail) => some ({ vc with obuf := obuf }, u32 (avail + 4294967296 - 4))

/-- The function `write_commit`. -/
def write_commit (vc : vchannel_t) (size : Nat) : vchannel_t :=
  { vc with obuf := iobuf_commit (iobuf_store vc.obuf 0 (htonl size)) (u32 (size + 4)) }

/-- The function `channel_pong` at the time `now`. -/
def channel_pong (now : Int) (vc : vchannel_t) : vchannel_t :=
  { (if vc.last_state ≠ 1 then { vc with last_state := 1 } else vc) with ts := now }

/-- The function `channel_request_tunnel`: the returned tid and the variables
afterwards. -/
def channel_request_tunnel (mem : Bool) (g : globals) (tunaf : Nat) (rhost : List Nat)
    (rport : Nat) (reverse_connect : Bool) : Nat × globals :=
  let r := tunnel_generate_id g
  if r.1 = 0xff then (0xff, r.2)
  else
    let hlen := u32 (1 + rhost.length)
    match write_reserve mem r.2.vc (u32 (5 + hlen)) with
    | none => (0xff, r.2)
    | some (vc1, _) =>
      let b1 := iobuf_store vc1.obuf 4 [if reverse_connect then R2TCMD_BIND else R2TCMD_CONN]
      let b2 := iobuf_store b1 5 [r.1]
      let b3 := iobuf_store b2 6 (htons rport)
      let b4 := iobuf_store b3 8 [tunaf]
      let b5 := iobuf_store b4 9 (rhost ++ [0])
      (r.1, { r.2 with vc := write_commit { vc1 with obuf := b5 } (u32 (5 + hlen)) })

/-- The function `channel_close_tunnel`. -/
def channel_close_tunnel (mem : Bool) (vc : vchannel_t) (tid : Nat) : vchannel_t :=
  match write_reserve mem vc 2 with
  | none => vc
  | some (vc1, _) =>
    write_commit { vc1 with obuf := iobuf_store (iobuf_store vc1.obuf 4 [R2TCMD_CLOSE]) 5 [tid] } 2

/-- The function `channel_forward_iobuf`: return value, channel afterwards and
`ibuf` afterwards. -/
def channel_forward_iobuf (mem : Bool) (vc : vchannel_t) (ibuf : iobuf) (tid : Nat) :
    Int × vchannel_t × iobuf :=
  let len := iobuf_datalen ibuf
  match write_reserve mem vc (u32 (len + 2)) with
  | none => (-1, vc, ibuf)
  | some (vc1, _) =>
    let b1 := iobuf_store vc1.obuf 4 [R2TCMD_DATA]
    let b2 := iobuf_store b1 5 [tid]
    let b3 := iobuf_store b2 6 (iobuf_bytes ibuf)
    (0, write_commit { vc1 with obuf := b3 } (u32 (len + 2)), iobuf_consume ibuf len)

/-- The record `netsock_alloc` sets up: `calloc`, then `type`, `tid` and `fd`. -/
def netsock_new (fd : Int) : netsock_t :=
  { fd := fd, type := NETSTATE_INIT, state := 0, tid := 0xff, min_io_size := 0, raf := 0,
    rport := 0, rhost := [], lport := 0, lhost := [], bound := false, obuf := iobuf_init,
    ibuf := iobuf_init, is_process := false }

/-- The function `netsock_cancel` on the record at position `i`. -/
def netsock_cancel (g : globals) (i : Nat) : globals :=
  { g with all_sockets := update_at g.all_sockets i (fun ns => { ns with state := NETSTATE_CANCELLED }) }

/-- The function `netsock_close` on the record at position `i`. -/
def netsock_close (g : globals) (i : Nat) : globals :=
  { g with all_sockets := g.all_sockets.eraseIdx i }

/-- The function `netsock_write` on the record at position `i`: return value and
variables afterwards. -/
def netsock_write (os : write_outcome) (mem : Bool) (g : globals) (i : Nat) (buf : List Nat) :
    Int × globals :=
  match g.all_sockets[i]? with
  | none => (-1, g)
  | some ns =>
    let r := net_write os mem ns.obuf buf
    (r.1, { g with all_sockets := update_at g.all_sockets i (fun ns => { ns with obuf := r.2.1 }) })

/-- The function `tunnel_close` on the record at position `i`. -/
def tunnel_close (mem : Bool) (g : globals) (i : Nat) (notify_server : Bool) : globals :=
  match g.all_sockets[i]? with
  | none => g
  | some ns =>
    let tid := ns.tid
    let g1 :=
      if tid ≠ 0xff then
        let g2 := if notify_server then { g with vc := channel_close_tunnel mem g.vc tid } else g
        if tid = g2.last_tid then { g2 with last_tid := u8 (g2.last_tid + 255) } else g2
      else g
    netsock_cancel g1 i

/-- The function `controller_answer` on the controller client at position
`cli`, `text` being the formatted answer. -/
def controller_answer (os : write_outcome) (mem : Bool) (g : globals) (cli : Nat)
    (text : List Nat) : Int × globals :=
  if text.length > 0 then netsock_write os mem g cli (text ++ [10]) else (-1, g)

/-- The bytes of a string constant. -/
def str (s : String) : List Nat := s.toList.map Char.toNat

/-- The function `netsock_alloc`: the position of the new record (`none` for the
null pointer) and the variables afterwards. The memory of the answer sent to
`cli` when `calloc` fails is `mem`. -/
def netsock_alloc (e : env_t) (mem : Bool) (g : globals) (cli : Option Nat) (fd : Int) :
    Option Nat × globals :=
  if e.calloc then
    (some g.all_sockets.length, { g with all_sockets := g.all_sockets ++ [netsock_new fd] })
  else
    match cli with
    | none => (none, g)
    | some c =>
      (none, (controller_answer e.write mem g c (str "failed to allocated socket structure")).2)

/-- The function `netsock_accept`. -/
def netsock_accept (e : env_t) (g : globals) : Option Nat × globals :=
  match e.accept with
  | none => (none, g)
  | some fd =>
    match netsock_alloc e false g none fd with
    | (none, g1) => (none, g1)
    | (some cli, g1) =>
      (some cli, { g1 with all_sockets := update_at g1.all_sockets cli (fun ns =>
        { ns with state := NETSTATE_CONNECTED }) })

/-- The function `netsock_connect`. -/
def netsock_connect (e : env_t) (g : globals) : Option Nat × globals :=
  match e.connect with
  | none => (none, g)
  | some (fd, pending) =>
    match netsock_alloc e false g none fd with
    | (none, g1) => (none, g1)
    | (some cli, g1) =>
      (some cli, { g1 with all_sockets := update_at g1.all_sockets cli (fun ns =>
        { ns with state := if pending then NETSTATE_CONNECTING else NETSTATE_CONNECTED }) })

/-- The function `tunnel_accept_event` on the listener at position `srv`. -/
def tunnel_accept_event (e : env_t) (g : globals) (srv : Nat) : globals :=
  match g.all_sockets[srv]? with
  | none => g
  | some s =>
    match netsock_accept e g with
    | (none, g1) => g1
    | (some cli, g1) =>
      let g2 := { g1 with all_sockets := update_at g1.all_sockets cli (fun ns =>
        { ns with type := NETSOCK_TUNCLI, obuf := iobuf_init }) }
      let c := channel_is_connected e.now g2.vc
      let g3 := { g2 with vc := c.2 }
      if c.1 ≠ 0 then
        let r := channel_request_tunnel (e.mem 0) g3 s.raf s.rhost s.rport false
        if r.1 ≠ 0xff then
          { r.2 with all_sockets := update_at r.2.all_sockets cli (fun ns =>
            { ns with tid := r.1, state := NETSTATE_CONNECTING }) }
        else netsock_close r.2 cli
      else netsock_close g3 cli

/-- The remote host of a reverse listener as `tunnels_restart` reads it. The
record holds `lhost`, NUL, `rhost`, NUL in one block, and the length of the
first string with its NUL in `lhost_len`, which `(unsigned short) lhost_len`
cuts to 16 bits; the remote host is the string at `&lhost[lhost_len]`. -/
def rtunsrv_rhost (lhost rhost : List Nat) : List Nat :=
  ((lhost ++ 0 :: (rhost ++ [0])).drop ((lhost.length + 1) % 65536)).takeWhile (fun b => b ≠ 0)

/-- The function `tunnel_add_reverse` called for the controller client at
position `cli`; `text` is the formatted registration answer. The field `rhost`
of the record is the remote host as it is read back from the record
(`rtunsrv_rhost`). -/
def tunnel_add_reverse (e : env_t) (g : globals) (cli : Nat) (lhost : List Nat) (lport : Nat)
    (rhost : List Nat) (rport : Nat) (text : List Nat) : Int × globals :=
  match netsock_alloc e (e.mem 0) g (some cli) (-1) with
  | (none, g1) => (0, g1)
  | (some ns, g1) =>
    let g2 := { g1 with all_sockets := update_at g1.all_sockets ns (fun r =>
      { r with type := NETSOCK_RTUNSRV, lport := lport, rport := rport, lhost := lhost,
               rhost := rtunsrv_rhost lhost rhost }) }
    let c := channel_is_connected e.now g2.vc
    let g3 := { g2 with vc := c.2 }
    if c.1 ≠ 0 then
      let r := channel_request_tunnel (e.mem 1) g3 TUNAF_ANY rhost rport true
      let g4 := { r.2 with all_sockets := update_at r.2.all_sockets ns (fun x =>
        { x with tid := r.1 }) }
      if r.1 = 0xff then
        controller_answer e.write (e.mem 2) (netsock_close g4 ns) cli
          (str "error: failed to request port binding")
      else controller_answer e.write (e.mem 2) g4 cli text
    else controller_answer e.write (e.mem 2) g3 cli text

/-- The function `tunnel_connect_event` on the record at position `i`. -/
def tunnel_connect_event (g : globals) (i : Nat) (af : Int) : globals :=
  { g with all_sockets := update_at g.all_sockets i (fun ns =>
    { ns with state := NETSTATE_CONNECTED,
              is_process := if af ≠ AF_UNSPEC then ns.is_process else true }) }

/-- The function `tunnel_bind_event` on the record at position `i`. -/
def tunnel_bind_event (g : globals) (i : Nat) : globals :=
  { g with all_sockets := update_at g.all_sockets i (fun ns => { ns with bound := true }) }

/-- The function `tunnel_revconnect_event` for the reverse listener at position
`srv`. -/
def tunnel_revconnect_event (e : env_t) (g : globals) (srv : Nat) (new_id : Nat) : globals :=
  match g.all_sockets[srv]? with
  | none => g
  | some _ =>
    match netsock_connect e g with
    | (none, g1) => { g1 with vc := channel_close_tunnel (e.mem 1) g1.vc new_id }
    | (some cli, g1) =>
      { g1 with all_sockets := update_at g1.all_sockets cli (fun ns =>
        { ns with type := NETSOCK_RTUNCLI, tid := new_id, obuf := iobuf_init }) }

/-- The function `socks5_connect_event` on the record at position `cli`; `addr`
holds the bytes of the message from its member `addr` on. `memcpy` reads 4
bytes there for `AF_INET` and 16 bytes for any other family; the bytes it reads
beyond the message are those of `e.past`. -/
def socks5_connect_event (e : env_t) (g : globals) (cli : Nat) (af : Int) (addr : List Nat)
    (port : Nat) : globals :=
  match g.all_sockets[cli]? with
  | none => g
  | some c =>
    if c.state ≠ NETSTATE_CONNECTING then tunnel_close (e.mem 1) g cli true
    else
      let addr_len := if af = AF_INET then 4 else 16
      let atyp := if af = AF_INET then SOCKS5_ATYPE_IPV4 else SOCKS5_ATYPE_IPV6
      let ans := [SOCKS5_VERSION, SOCKS5_SUCCESS, 0, atyp] ++
        (addr ++ (List.range (addr_len - addr.length)).map e.past).take addr_len ++
        [u8 (port / 256), port % 256]
      let g1 := { g with all_sockets := update_at g.all_sockets cli (fun ns =>
        { ns with state := NETSTATE_CONNECTED }) }
      let w := netsock_write e.write (e.mem 1) g1 cli ans
      if w.1 ≥ 0 then
        match w.2.all_sockets[cli]? with
        | none => w.2
        | some c1 =>
          if iobuf_datalen c1.ibuf > 0 then
            let f := channel_forward_iobuf (e.mem 2) w.2.vc c1.ibuf c1.tid
            let g2 := { w.2 with vc := f.2.1, all_sockets := update_at w.2.all_sockets cli (fun ns =>
              { ns with ibuf := f.2.2 }) }
            if f.1 < 0 then tunnel_close (e.mem 3) g2 cli true else g2
          else w.2
      else tunnel_close (e.mem 3) w.2 cli true

/-- The end of `socks5_setup`, once the request of the client at position `cli`
is parsed into `tunaf`, `host` and `port`: the call of `channel_request_tunnel`
and what follows. -/
def socks5_setup_request (e : env_t) (g : globals) (cli : Nat) (tunaf : Nat) (host : List Nat)
    (port : Nat) : Int × globals :=
  let r := channel_request_tunnel (e.mem 0) g tunaf host port false
  if r.1 = 0xff then (-1, r.2)
  else
    (0, { r.2 with all_sockets := update_at r.2.all_sockets cli (fun ns =>
      { ns with tid := r.1, state := NETSTATE_CONNECTING }) })

/-- The loop of `tunnels_kill_clients` over the socket list. -/
def tunnels_kill_clients_loop : List netsock_t → List netsock_t
  | [] => []
  | ns :: rest =>
    if ns.type = NETSOCK_RTUNSRV then
      { ns with tid := 0xff, bound := false } :: tunnels_kill_clients_loop rest
    else if ns.type > NETSOCK_CTRLCLI then tunnels_kill_clients_loop rest
    else ns :: tunnels_kill_clients_loop rest

/-- The function `tunnels_kill_clients`. -/
def tunnels_kill_clients (g : globals) : globals :=
  { g with all_sockets := tunnels_kill_clients_loop g.all_sockets }

/-- The loop of `tunnels_restart`: `done` holds the records already visited and
kept, the last argument those still to visit; the `k`-th visited record uses the
allocation `mem k`. -/
def tunnels_restart_loop (mem : Nat → Bool) :
    Nat → globals → List netsock_t → List netsock_t → globals
  | _, g, done, [] => { g with all_sockets := done }
  | k, g, done, ns :: rest =>
    if ns.type = NETSOCK_RTUNSRV then
      let r := channel_request_tunnel (mem k) { g with all_sockets := done ++ ns :: rest }
        TUNAF_ANY ns.rhost ns.rport true
      if r.1 ≠ 0xff then
        tunnels_restart_loop mem (k + 1) r.2 (done ++ [{ ns with tid := r.1 }]) rest
      else tunnels_restart_loop mem (k + 1) r.2 done rest
    else tunnels_restart_loop mem (k + 1) g (done ++ [ns]) rest

/-- The function `tunnels_restart`. -/
def tunnels_restart (mem : Nat → Bool) (g : globals) : globals :=
  tunnels_restart_loop mem 0 g [] g.all_sockets

/-- The main loop of `main` on the record at position `i`: a cancelled record is
closed. -/
def main_reap (g : globals) (i : Nat) : globals :=
  match g.all_sockets[i]? with
  | none => g
  | some ns => if ns.state = NETSTATE_CANCELLED then netsock_close g i else g

/-- The function `badproto`. -/
def badproto (mem : Bool) (g : globals) (cli : Nat) : Int × globals :=
  (-1, tunnel_close mem g cli false)

/-- The function `check_tunnel_id`: the position of the record, `none` for the
null pointer. -/
def check_tunnel_id (mem : Bool) (g : globals) (msg : List Nat) : Option Nat × globals :=
  match tunnel_lookup g.all_sockets (peek msg 1) with
  | none => (none, { g with vc := channel_close_tunnel mem g.vc (peek msg 1) })
  | some ns => (some ns, g)

/-- The function `check_binding_answer`. The fields of `msg` are `id` at offset
1, `err` at 2, `af` at 3, `port` at 4 and `addr` at 6. -/
def check_binding_answer (e : env_t) (mode : Nat) (g : globals) (msg : List Nat) (len : Nat) :
    Int × globals :=
  match check_tunnel_id (e.mem 0) g msg with
  | (none, g1) => (0, g1)
  | (some cli, g1) =>
    if mode = 2 ∨ peek msg 2 = 0 then
      if len < 8 then badproto (e.mem 1) g1 cli
      else
        let port := peek msg 4 * 256 + peek msg 5
        let af : Option Int :=
          if peek msg 3 = TUNAF_ANY then
            if mode ≠ 0 then none else if len ≠ 10 then none else some AF_UNSPEC
          else if peek msg 3 = TUNAF_IPV4 then
            if len ≠ 10 then none else some AF_INET
          else if peek msg 3 = TUNAF_IPV6 then
            if len ≠ 22 then none else some AF_INET6
          else none
        match af with
        | none => badproto (e.mem 1) g1 cli
        | some af =>
          if mode ≠ 2 then
            match g1.all_sockets[cli]? with
            | none => (0, g1)
            | some c =>
              if c.type = NETSOCK_TUNCLI then (0, tunnel_connect_event g1 cli af)
              else if c.type = NETSOCK_S5CLI then
                (0, socks5_connect_event e g1 cli af (msg.drop 6) port)
              else (0, tunnel_bind_event g1 cli)
          else if tunnel_lookup g1.all_sockets (peek msg 2) = none then
            (0, tunnel_revconnect_event e g1 cli (peek msg 2))
          else (0, { g1 with vc := channel_close_tunnel (e.mem 1) g1.vc (peek msg 2) })
    else (0, tunnel_close (e.mem 1) g1 cli false)

def cmd_conn (e : env_t) : cmdhandler_t globals :=
  fun g msg len => check_binding_answer e 0 g msg len

def cmd_bind (e : env_t) : cmdhandler_t globals :=
  fun g msg len => check_binding_answer e 1 g msg len

def cmd_close (e : env_t) : cmdhandler_t globals :=
  fun g msg _ =>
    match check_tunnel_id (e.mem 0) g msg with
    | (none, g1) => (0, g1)
    | (some tun, g1) => (0, netsock_cancel g1 tun)

/-- The function `tunnel_write` of the client. -/
def tunnel_write (e : env_t) (g : globals) (ns : Nat) (buf : List Nat) : Int × globals :=
  netsock_write e.write (e.mem 1) g ns buf

def cmd_data (e : env_t) : cmdhandler_t globals :=
  fun g msg len =>
    match check_tunnel_id (e.mem 0) g msg with
    | (none, g1) => (0, g1)
    | (some clitun, g1) => tunnel_write e g1 clitun ((msg.drop 2).take (len - 2))

def cmd_ping (e : env_t) : cmdhandler_t globals :=
  fun g _ _ => (0, { g with vc := channel_pong e.now g.vc })

def cmd_rconn (e : env_t) : cmdhandler_t globals :=
  fun g msg len => check_binding_answer e 2 g msg len

/-- The table `cmd_handlers` of the client. -/
def cmd_handlers (e : env_t) (cmd : Nat) : Option (cmdhandler_t globals) :=
  match cmd with
  | 0 => some (cmd_conn e)
  | 1 => some (cmd_close e)
  | 2 => some (cmd_data e)
  | 3 => some (cmd_ping e)
  | 4 => some (cmd_bind e)
  | 5 => some (cmd_rconn e)
  | _ => none

/-- No two records hold the same tid, the value 0xff apart. -/
def tids_unique (l : List netsock_t) : Prop :=
  l.Pairwise (fun a b => a.tid = b.tid → a.tid = 0xff)

/-- The states the client reaches from the empty table. The tunnel operations
are those of the sources; `alloc` stands for every other creation of a record
(controller, listeners, accepted SOCKS5 and controller clients: `netsock_alloc`
gives it the tid 0xff), `update` for every other change, which leaves the tids,
the membership of the table and the cursor as they are. -/
inductive reachable : globals → Prop where
  | init : reachable init
  | alloc (g : globals) (ns : netsock_t) : reachable g → ns.tid = 0xff →
      reachable { g with all_sockets := g.all_sockets ++ [ns] }
  | update (g g1 : globals) : reachable g → g1.last_tid = g.last_tid →
      g1.all_sockets.map (fun ns => ns.tid) = g.all_sockets.map (fun ns => ns.tid) →
      reachable g1
  | accept (g : globals) (e : env_t) (srv : Nat) : reachable g →
      reachable (tunnel_accept_event e g srv)
  | socks5 (g : globals) (e : env_t) (cli tunaf : Nat) (host : List Nat) (port : Nat) :
      reachable g → reachable (socks5_setup_request e g cli tunaf host port).2
  | add_reverse (g : globals) (e : env_t) (cli : Nat) (lhost : List Nat) (lport : Nat)
      (rhost : List Nat) (rport : Nat) (text : List Nat) : reachable g →
      reachable (tunnel_add_reverse e g cli lhost lport rhost rport text).2
  | restart (g : globals) (mem : Nat → Bool) : reachable g → reachable (tunnels_restart mem g)
  | kill_clients (g : globals) : reachable g → reachable (tunnels_kill_clients g)
  | answer (g : globals) (e : env_t) (mode : Nat) (msg : List Nat) (len : Nat) :
      reachable g → reachable (check_binding_answer e mode g msg len).2
  | close (g : globals) (mem : Bool) (i : Nat) (notify_server : Bool) : reachable g →
      reachable (tunnel_close mem g i notify_server)
  | cancel (g : globals) (i : Nat) : reachable g → reachable (netsock_cancel g i)
  | reap (g : globals) (i : Nat) : reachable g → reachable (main_reap g i)
  | netsock_close (g : globals) (i : Nat) : reachable g → reachable (netsock_close g i)

/-- A table that holds every id of 0..255 except `free`, one record per id. -/
def table_without (free : Nat) : List netsock_t :=
  ((List.range 256).filter (fun t => t ≠ free)).map (fun t => { netsock_new 3 with tid := t })

/-- Successive calls of `tunnel_generate_id`, each returned id being recorded in
the table by a new record `mk tid` before the next call: the ids returned and
the variables afterwards. -/
def generate_ids (mk : Nat → netsock_t) : Nat → globals → List Nat × globals
  | 0, g => ([], g)
  | k + 1, g =>
    let r := tunnel_generate_id g
    let rest := generate_ids mk k { r.2 with all_sockets := r.2.all_sockets ++ [mk r.1] }
    (r.1 :: rest.1, rest.2)

end client

/-! ## server/r2twin.h, server/aio.c, server/channel.c -/

namespace server

/-- The structure `aio_t` (the OS event handle is left out). -/
structure aio_t where
  buf : iobuf
  min_io_size : Nat
  pending : Bool
deriving DecidableEq, Repr

/-- The structure `vchannel_t` of the server (the OS handles are left out). -/
structure vchannel_t where
  connected : Bool
  rio : aio_t
  wio : aio_t
deriving DecidableEq, Repr

/-- The state `channel_init` leaves when it succeeds: `memset(&vc, 0, ...)`
followed by `aio_init_forward`. -/
def channel_init : vchannel_t :=
  { connected := false
    rio := { buf := iobuf_init, min_io_size := 1024, pending := false }
    wio := { buf := iobuf_init, min_io_size := 0, pending := false } }

/-- The outcome of `WriteFile`: success with `w` bytes written, or the value
of `GetLastError()`. -/
inductive write_file_result where
  | done (w : Nat)
  | io_pending
  | broken_pipe
  | invalid_function
  | failure
deriving DecidableEq, Repr

/-- What the operating system answers during one call of `aio_write`:
`GetOverlappedResult` (`none` when it fails, else the transferred length) and
`WriteFile`. -/
structure write_os where
  overlapped : Option Nat
  write_file : write_file_result
deriving DecidableEq, Repr

/-- The function `aio_write`: return value, the `aio_t` afterwards, and the bytes
that were consumed from the buffer, which are the bytes transferred to `fd`. -/
def aio_write (os : write_os) (wio : aio_t) : Int × aio_t × List Nat :=
  let first : Option (aio_t × List Nat) :=
    if wio.pending then
      match os.overlapped with
      | none => none
      | some len =>
        some ({ wio with pending := false, buf := iobuf_consume wio.buf len },
              (iobuf_bytes wio.buf).take len)
    else some (wio, [])
  match first with
  | none => (-1, { wio with pending := false }, [])
  | some (wio1, sent1) =>
    let len := iobuf_datalen wio1.buf
    if len = 0 then (0, wio1, sent1)
    else
      match os.write_file with
      | write_file_result.done w =>
        if w = 0 then (-1, wio1, sent1)
        else (0, { wio1 with buf := iobuf_consume wio1.buf w },
              sent1 ++ (iobuf_bytes wio1.buf).take w)
      | write_file_result.io_pending => (0, { wio1 with pending := true }, sent1)
      | write_file_result.broken_pipe => (0, wio1, sent1)
      | write_file_result.invalid_function => (-1, wio1, sent1)
      | write_file_result.failure => (-1, wio1, sent1)

/-- The function `channel_write_event` of the server. -/
def channel_write_event (os : write_os) (vc : vchannel_t) : Int × vchannel_t × List Nat :=
  let r := aio_write os vc.wio
  let vc1 := { vc with wio := r.2.1 }
  let vc2 := if (decide (r.1 ≥ 0)) != vc1.connected then
      { vc1 with connected := !vc1.connected } else vc1
  (0, vc2, r.2.2)

/-- The function `channel_write` of the server, `data_len` being the length of
`data`: return value, channel afterwards, bytes transferred to the channel. -/
def channel_write (mem : Bool) (os : write_os) (vc : vchannel_t) (cmd tun_id : Nat)
    (data : List Nat) : Int × vchannel_t × List Nat :=
  let data_len := data.length
  let used := iobuf_datalen vc.wio.buf
  match iobuf_reserve mem vc.wio.buf (u32 (data_len + 6)) with
  | none => (-1, vc, [])
  | some (buf1, _) =>
    let buf2 := iobuf_store buf1 0 (htonl (u32 (data_len + 2)))
    let buf3 := iobuf_store buf2 4 [cmd]
    let buf4 := iobuf_store buf3 5 [tun_id]
    let buf5 := iobuf_store buf4 6 data
    let buf6 := iobuf_commit buf5 (u32 (data_len + 6))
    let vc1 := { vc with wio := { vc.wio with buf := buf6 } }
    if used > 0 then (0, vc1, []) else channel_write_event os vc1

/-! ## server/commands.c -/

/-- The structure `tunnel_t` (the OS handles and the address are left out). -/
structure tunnel_t where
  connected : Nat
  server : Nat
  id : Nat
  rio : aio_t
  wio : aio_t
deriving DecidableEq, Repr

/-- The process-wide variables of the server: the channel singleton `vc` and the
list of tunnels. -/
structure globals where
  vc : vchannel_t
  tunnels : List tunnel_t
deriving DecidableEq, Repr

/-- Modelled from the spec: `tunnel_lookup` of the server, whose source file
server/tunnel.c is missing. The table maps a tid to its tunnel record and the
lookup walks the table: the position of the first tunnel whose id is `id`,
`none` for the null pointer. -/
def tunnel_lookup : List tunnel_t → Nat → Option Nat
  | [], _ => none
  | tun :: rest, id =>
    if tun.id = id then some 0
    else
      match tunnel_lookup rest id with
      | none => none
      | some i => some (i + 1)

/-- The function `cmd_data` of the server. The function `tunnel_write` of the
missing file server/tunnel.c is a parameter. -/
def cmd_data (tunnel_write : globals → Nat → List Nat → Int × globals) : cmdhandler_t globals :=
  fun g msg len =>
    match tunnel_lookup g.tunnels (peek msg 1) with
    | none => (0, g)
    | some tun => tunnel_write g tun ((msg.drop 2).take (len - 2))

/-- The function `cmd_close` of the server. The function `tunnel_close` of the
missing file server/tunnel.c is a parameter. -/
def cmd_close (tunnel_close : globals → Nat → globals) : cmdhandler_t globals :=
  fun g msg _ =>
    match tunnel_lookup g.tunnels (peek msg 1) with
    | none => (0, g)
    | some tun => (0, tunnel_close g tun)

end server

/-- A frame handed to `channel_write`: command, tunnel id, payload. -/
structure frame where
  cmd : Nat
  tid : Nat
  payload : List Nat
deriving DecidableEq, Repr

/-- The bytes of a frame on the channel:
`[u32 big-endian length][u8 cmd][u8 tid][payload]`, length counting cmd+tid+payload. -/
def frame_bytes (f : frame) : List Nat :=
  htonl (f.payload.length + 2) ++ f.cmd :: f.tid :: f.payload

/-- The bytes of a list of frames, in order. -/
def wire : List frame → List Nat
  | [] => []
  | f :: fs => frame_bytes f ++ wire fs

/-- The server calling `channel_write` once per frame, in order, the `i`-th call
running in the environment `env i`. The result is `none` when a call does not
return 0, else the channel afterwards and all bytes transferred to the channel. -/
def channel_write_all (env : Nat → Bool × server.write_os) :
    Nat → server.vchannel_t → List frame → Option (server.vchannel_t × List Nat)
  | _, vc, [] => some (vc, [])
  | i, vc, f :: fs =>
    let r := server.channel_write (env i).1 (env i).2 vc f.cmd f.tid f.payload
    if r.1 ≠ 0 then none
    else
      match channel_write_all env (i + 1) r.2.1 fs with
      | none => none
      | some (vc1, sent) => some (vc1, r.2.2 ++ sent)

/-- The bytes of a connection request as the protocol lays them out: length,
command, tid, port (big-endian), address family, host name, NUL. -/
def request_bytes (cmd tid tunaf : Nat) (host : List Nat) (port : Nat) : List Nat :=
  htonl (5 + host.length + 1) ++ [cmd, tid] ++ htons port ++ [tunaf] ++ host ++ [0]

/-- The success reply of SOCKS5 as the protocol lays it out: version, reply code
0, reserved byte, address type (1 for ipv4, 4 for ipv6), the address bytes and
the port, high byte first. -/
def socks5_reply (af : Int) (addr : List Nat) (port : Nat) : List Nat :=
  [5, 0, 0, if af = AF_INET then 1 else 4] ++ addr ++ [port / 256, port % 256]

/-! ## client: the reconnection of the reverse listeners -/

namespace client

/-- Whether every request `tunnels_restart_loop` issues is given an id: an id
is free and the allocation succeeds each time. The arguments are those of the
loop. -/
def restart_requests_ok (mem : Nat → Bool) :
    Nat → globals → List netsock_t → List netsock_t → Bool
  | _, _, _, [] => true
  | k, g, done, ns :: rest =>
    if ns.type = NETSOCK_RTUNSRV then
      let r := channel_request_tunnel (mem k) { g with all_sockets := done ++ ns :: rest }
        TUNAF_ANY ns.rhost ns.rport true
      decide (r.1 ≠ 0xff) &&
        restart_requests_ok mem (k + 1) r.2 (done ++ [{ ns with tid := r.1 }]) rest
    else restart_requests_ok mem (k + 1) g (done ++ [ns]) rest

/-- What `tunnels_kill_clients` is to do with one record: a reverse-listener
marker is reset, a forward, SOCKS5 or reverse client socket is removed, a
listener or a controller client is kept. -/
def kill_clients_spec (ns : netsock_t) : Option netsock_t :=
  if ns.type = NETSOCK_RTUNSRV then some { ns with tid := 0xff, bound := false }
  else if ns.type = NETSOCK_TUNCLI ∨ ns.type = NETSOCK_S5CLI ∨ ns.type = NETSOCK_RTUNCLI then none
  else some ns

/-- The reverse-listener markers of a table, in order. -/
def markers (l : List netsock_t) : List netsock_t :=
  l.filter (fun ns => decide (ns.type = NETSOCK_RTUNSRV))

/-- The addresses a reverse-listener marker records. -/
def marker_fields (ns : netsock_t) : List Nat × Nat × List Nat × Nat :=
  (ns.lhost, ns.lport, ns.rhost, ns.rport)

/-- A record before and after `tunnels_restart` when the requests succeed: a
marker is given a tid, any other record is left as it is. -/
def restarted (a b : netsock_t) : Prop :=
  if a.type = NETSOCK_RTUNSRV then b = { a with tid := b.tid } ∧ b.tid ≠ 0xff else b = a

/-- The BIND frames of the markers of a table, in order. -/
def bind_frames (l : List netsock_t) : List Nat :=
  (markers l).flatMap (fun ns => request_bytes R2TCMD_BIND ns.tid TUNAF_ANY ns.rhost ns.rport)

/-- The room the BIND frames of the markers of a table take. -/
def bind_room (l : List netsock_t) : Nat :=
  ((markers l).map (fun ns => ns.rhost.length + 10)).sum

end client

/-- The C string at the head of a block: the bytes before the first NUL. -/
def cstring (block : List Nat) : List Nat := block.takeWhile (fun b => b ≠ 0)

/-! ## server/commands.c: the connection requests -/

namespace server

def R2TERR_BADMSG : Nat := 2

/-- The function `protoerror`; `error(...)` returns -1. -/
def protoerror (mem : Bool) (os : write_os) (g : globals) (tid err : Nat) : Int × globals :=
  (-1, { g with vc := (channel_write mem os g.vc R2TCMD_CONN tid [err]).2.1 })

/-- The table `r2taf_to_sysaf`, read at an index of 0..2. -/
def r2taf_to_sysaf (af : Nat) : Int :=
  match af with
  | 0 => AF_UNSPEC
  | 1 => AF_INET
  | _ => AF_INET6

/-- The function `start_tcp_tunnel`. The fields of `msg` are `id` at offset 1,
`port` at 2, `af` at 4 and `hostname` from 5. The function `tunnel_create` of
the missing file server/tunnel.c is a parameter: the variables after the call
with the arguments id, address family, host name, port and `bind_socket`. -/
def start_tcp_tunnel (tunnel_create : globals → Nat → Int → List Nat → Nat → Bool → globals)
    (mem : Bool) (os : write_os) (g : globals) (msg : List Nat) (len : Nat)
    (bind_tunnel : Bool) : Int × globals :=
  if len < 7 then protoerror mem os g (peek msg 1) R2TERR_BADMSG
  else if tunnel_lookup g.tunnels (peek msg 1) ≠ none then (-1, g)
  else if peek msg 4 > TUNAF_IPV6 then protoerror mem os g (peek msg 1) R2TERR_BADMSG
  else if peek msg (5 + (len - 6)) ≠ 0 then protoerror mem os g (peek msg 1) R2TERR_BADMSG
  else
    (0, tunnel_create g (peek msg 1) (r2taf_to_sysaf (peek msg 4)) (cstring (msg.drop 5))
      (peek msg 2 * 256 + peek msg 3) bind_tunnel)

/-- The function `cmd_conn` of the server. -/
def cmd_conn (tunnel_create : globals → Nat → Int → List Nat → Nat → Bool → globals)
    (mem : Bool) (os : write_os) : cmdhandler_t globals :=
  fun g msg len => start_tcp_tunnel tunnel_create mem os g msg len false

/-- The function `cmd_bind` of the server. -/
def cmd_bind (tunnel_create : globals → Nat → Int → List Nat → Nat → Bool → globals)
    (mem : Bool) (os : write_os) : cmdhandler_t globals :=
  fun g msg len => start_tcp_tunnel tunnel_create mem os g msg len true

/-- The table `cmd_handlers` of the server. The functions `tunnel_create`,
`tunnel_write` and `tunnel_close` of the missing file server/tunnel.c are
parameters. -/
def cmd_handlers (tunnel_create : globals → Nat → Int → List Nat → Nat → Bool → globals)
    (tunnel_write : globals → Nat → List Nat → Int × globals)
    (tunnel_close : globals → Nat → globals) (mem : Bool) (os : write_os) (cmd : Nat) :
    Option (cmdhandler_t globals) :=
  match cmd with
  | 0 => some (cmd_conn tunnel_create mem os)
  | 1 => some (cmd_close tunnel_close)
  | 2 => some (cmd_data tunnel_write)
  | 4 => some (cmd_bind tunnel_create mem os)
  | _ => none

end server

/-! ## common/nethelper.c: reading -/

def NETBUF_MAX_SIZE : Nat := 1024 * 16

/-- The outcome of `read(fd, buf, n)`: the bytes waiting on the descriptor, of
which the first `n` at most are delivered (no byte at all is the end of the
stream), or `-1` with `errno` telling that the call would block
(`net_pending()`), or `-1` with another `errno`. -/
inductive read_outcome where
  | got (data : List Nat)
  | pending
  | failed (errno : Int)
deriving DecidableEq, Repr

/-- The function `net_read` called with a non-null `min_size`: return value,
input buffer afterwards, `*min_size` afterwards and `*out_size`. -/
def net_read (os : read_outcome) (mem : Bool) (ibuf : iobuf) (prefix_size min_size : Nat) :
    Int × iobuf × Nat × Nat :=
  let min1 := if min_size = 0 then IOBUF_MIN_SIZE else min_size
  match iobuf_reserve mem ibuf min1 with
  | none => (-ENOMEM, ibuf, min1, 0)
  | some (buf1, avail) =>
    match os with
    | read_outcome.got data =>
      let bytes := data.take (avail - prefix_size)
      let ret := bytes.length
      if ret > 0 then
        let buf2 := iobuf_commit (iobuf_store buf1 prefix_size bytes) (u32 (prefix_size + ret))
        let min2 :=
          if ret = avail - prefix_size then
            if u32 (min1 * 2) > NETBUF_MAX_SIZE then NETBUF_MAX_SIZE else u32 (min1 * 2)
          else min1
        (0, buf2, min2, ret)
      else (NETERR_CLOSED, buf1, min1, 0)
    | read_outcome.pending => (1, buf1, min1, 0)
    | read_outcome.failed errno => (-errno, buf1, min1, 0)

/-- The value `ntohs(v)` of a 16-bit `v` on a little-endian host, the kind of
host the client is built for: the two bytes swapped. -/
def ntohs_le (v : Nat) : Nat := v % 256 * 256 + v / 256 % 256

/-- A byte in decimal digits. -/
def decimal (n : Nat) : List Nat :=
  if n < 10 then [48 + n]
  else if n < 100 then [48 + n / 10, 48 + n % 10]
  else [48 + n / 100, 48 + n / 10 % 10, 48 + n % 10]

/-- The text `inet_ntop(AF_INET, addr, ...)` of the C library writes for four
address bytes: dotted decimal; `none` is the null pointer. -/
def inet_ntop4 (addr : List Nat) : Option (List Nat) :=
  match addr with
  | [a, b, c, d] => some (decimal a ++ [46] ++ decimal b ++ [46] ++ decimal c ++ [46] ++ decimal d)
  | _ => none

/-! ## client/netsock.c, client/socks5.c: the SOCKS5 negotiation -/

namespace client

def SOCKS5_ATYPE_FQDN : Nat := 3
def SOCKS5_NOAUTH : Nat := 0
def SOCKS5_CONNECT : Nat := 1
def SOCKS5_UNKCOMMAND : Nat := 7
def SOCKS5_UNKADDRTYPE : Nat := 8

/-- The function `netsock_read` on the record at position `i`, reading into the
input buffer of that record: return value, variables afterwards and the number
of bytes read. -/
def netsock_read (os : read_outcome) (mem : Bool) (g : globals) (i : Nat) (prefix_size : Nat) :
    Int × globals × Nat :=
  match g.all_sockets[i]? with
  | none => (-1, g, 0)
  | some ns =>
    let r := net_read os mem ns.ibuf prefix_size ns.min_io_size
    (r.1, { g with all_sockets := update_at g.all_sockets i (fun x =>
      { x with ibuf := r.2.1, min_io_size := r.2.2.1 }) }, r.2.2.2)

/-- The function `socks_error`. -/
def socks_error (os : write_outcome) (mem : Bool) (g : globals) (cli : Nat) (ret : Nat) :
    Int × globals :=
  (-1, (netsock_write os mem g cli [SOCKS5_VERSION, ret]).2)

/-- The `switch` of `socks5_setup` on the address type `buf[3]`: either the
value the function returns at once with the variables then, or `tunaf`, `host`
and `port_off`. The C library function `inet_ntop` is a parameter (`none` for
its null pointer); `malloc` succeeds when `e.mem 5` holds; `host` is a C string,
read up to its first NUL. -/
def socks5_setup_address (e : env_t) (inet_ntop : Int → List Nat → Option (List Nat))
    (g : globals) (cli : Nat) (buf : List Nat) (len : Nat) :
    Except (Int × globals) (Nat × List Nat × Nat) :=
  if peek buf 3 = SOCKS5_ATYPE_IPV4 then
    if len < 10 then Except.error (1, g)
    else
      match inet_ntop AF_INET ((buf.drop 4).take 4) with
      | none => Except.error (-1, g)
      | some ip => Except.ok (TUNAF_IPV4, cstring ip, 8)
  else if peek buf 3 = SOCKS5_ATYPE_FQDN then
    if len < 7 + peek buf 4 then Except.error (1, g)
    else if ¬ e.mem 5 then Except.error (-1, g)
    else if cstring ((buf.drop 5).take (peek buf 4)) = [] then Except.error (-1, g)
    else Except.ok (TUNAF_ANY, cstring ((buf.drop 5).take (peek buf 4)), 5 + peek buf 4)
  else if peek buf 3 = SOCKS5_ATYPE_IPV6 then
    if len < 22 then Except.error (1, g)
    else
      match inet_ntop AF_INET6 ((buf.drop 4).take 16) with
      | none => Except.error (-1, g)
      | some ip => Except.ok (TUNAF_IPV6, cstring ip, 20)
  else Except.error (socks_error e.write (e.mem 1) g cli SOCKS5_UNKADDRTYPE)

/-- The function `socks5_setup` once `netsock_read` has returned without error,
on the client at position `cli`. -/
def socks5_setup_parse (e : env_t) (inet_ntop : Int → List Nat → Option (List Nat))
    (g : globals) (cli : Nat) : Int × globals :=
  match g.all_sockets[cli]? with
  | none => (-1, g)
  | some c =>
    let len := iobuf_datalen c.ibuf
    let buf := iobuf_dataptr c.ibuf
    if len = 0 then (1, g)
    else if peek buf 0 ≠ SOCKS5_VERSION then (-1, g)
    else if c.state = NETSTATE_AUTHENTICATING then
      if len < 2 then (1, g)
      else if peek buf 1 = 0 then (-1, g)
      else if peek buf 1 + 2 > len then (1, g)
      else if SOCKS5_NOAUTH ∉ (buf.drop 2).take (peek buf 1) then (-1, g)
      else
        let g2 := { g with all_sockets := update_at g.all_sockets cli (fun ns =>
          { ns with ibuf := iobuf_consume ns.ibuf (peek buf 1 + 2) }) }
        let w := netsock_write e.write (e.mem 1) g2 cli [5, SOCKS5_NOAUTH]
        (0, { w.2 with all_sockets := update_at w.2.all_sockets cli (fun ns =>
          { ns with state := NETSTATE_AUTHENTICATED }) })
    else if c.state ≠ NETSTATE_AUTHENTICATED then (-1, g)
    else if len < 8 then (1, g)
    else if peek buf 2 ≠ 0 then (-1, g)
    else if peek buf 1 ≠ SOCKS5_CONNECT then socks_error e.write (e.mem 1) g cli SOCKS5_UNKCOMMAND
    else
      match socks5_setup_address e inet_ntop g cli buf len with
      | Except.error r => r
      | Except.ok (tunaf, host, port_off) =>
        let port := ntohs_le (peek buf (port_off + 1) * 256 + peek buf port_off)
        if port = 0 then (-1, g)
        else
          socks5_setup_request e
            { g with all_sockets := update_at g.all_sockets cli (fun ns =>
              { ns with ibuf := iobuf_consume ns.ibuf (port_off + 2) }) }
            cli tunaf host port

/-- The function `socks5_setup` on the client at position `cli`; the read uses
the allocation `e.mem 4`. -/
def socks5_setup (e : env_t) (rd : read_outcome) (inet_ntop : Int → List Nat → Option (List Nat))
    (g : globals) (cli : Nat) : Int × globals :=
  let r := netsock_read rd (e.mem 4) g cli 0
  if r.1 < 0 then (-1, r.2.1) else socks5_setup_parse e inet_ntop r.2.1 cli

end client

/-! ## the C library: strings -/

/-- The function `isspace` of the C locale. -/
def isspace (c : Nat) : Bool := decide (c = 32 ∨ (9 ≤ c ∧ c ≤ 13))

/-- The function `isdigit`. -/
def isdigit (c : Nat) : Bool := decide (48 ≤ c ∧ c ≤ 57)

def LONG_MAX : Int := 9223372036854775807

/-- The decimal digits at the head of a string: their value after the digits
already read (`acc`) and their number. -/
def strtol_digits : List Nat → Nat → Nat × Nat
  | [], acc => (acc, 0)
  | c :: rest, acc =>
    if isdigit c then
      let r := strtol_digits rest (acc * 10 + (c - 48))
      (r.1, r.2 + 1)
    else (acc, 0)

/-- The function `strtol(s, &end, 10)` of the C library on the bytes from `s`
on: white space is skipped, a sign is optional, the digits follow; the value
(0 without a digit, the nearest `long` when out of range) and the offset of
`end` from `s` (0 without a digit). -/
def strtol (s : List Nat) : Int × Nat :=
  let ws := (s.takeWhile isspace).length
  let s1 := s.drop ws
  let sign : Nat := match s1 with
    | 45 :: _ => 1
    | 43 :: _ => 1
    | _ => 0
  let neg : Bool := match s1 with
    | 45 :: _ => true
    | _ => false
  let d := strtol_digits (s1.drop sign) 0
  if d.2 = 0 then (0, 0)
  else
    let v : Int := if neg then -(d.1 : Int) else (d.1 : Int)
    (if v > LONG_MAX then LONG_MAX else if v < -LONG_MAX - 1 then -LONG_MAX - 1 else v,
      ws + sign + d.2)

/-- The function `strchr(block+off, c)`: the offset of the first `c` in the C
string at `off`, its end included; `none` is the null pointer. -/
def strchr (block : List Nat) (off c : Nat) : Option Nat :=
  let s := cstring (block.drop off)
  if c = 0 then some (off + s.length)
  else if s.indexOf c < s.length then some (off + s.indexOf c) else none

/-- The function `memchr(block+off, c, n)`: the offset of the first `c` among
`n` bytes from `off`; `none` is the null pointer. -/
def memchr (block : List Nat) (off c n : Nat) : Option Nat :=
  let s := (block.drop off).take n
  if s.indexOf c < s.length then some (off + s.indexOf c) else none

/-- What `%hu` prints: the decimal digits of a 16-bit number. -/
def utoa_loop : Nat → Nat → List Nat
  | 0, _ => []
  | fuel + 1, n => if n < 10 then [48 + n] else utoa_loop fuel (n / 10) ++ [48 + n % 10]

def utoa (n : Nat) : List Nat := utoa_loop 5 n

/-! ## client/controller.c, and the commands it runs -/

namespace client

/-- What the environment answers while the controller runs one command: the
environment `e` of the operations embedded above, `net_server` (the listening
descriptor, `none` when it fails, `errtext` being the text of `net_error`),
whether `net_resolve` succeeds, whether `netaddr_cmp` finds the address of the
record at a position equal to the resolved one, the line `dump_sockets` formats
for the record at a position, and the outcome of the successive writes of
`dump_sockets`. The formatted answers are taken to fit their buffers. -/
structure ctrl_env where
  e : env_t
  server : Option Int
  errtext : List Nat
  resolve : Bool
  same_addr : Nat → Bool
  line : Nat → List Nat
  writes : Nat → write_outcome

/-- The function `extract_port` on the string at the offset `data` of `block`:
the block afterwards, and `*out_port` with the offset returned, `none` for the
null pointer. -/
def extract_port (block : List Nat) (data : Nat) : List Nat × Option (Nat × Nat) :=
  match strchr block data 32 with
  | none => (block, none)
  | some ptr =>
    let block1 := memcpy block ptr [0]
    let r := strtol (block1.drop (ptr + 1))
    if r.1 ≤ 0 ∨ r.1 > 0xffff then (block1, none)
    else if peek block1 (ptr + 1 + r.2) ≠ 0 ∧ peek block1 (ptr + 1 + r.2) ≠ 32 then (block1, none)
    else (block1, some (r.1.toNat, ptr + 1 + r.2))

/-- The loop of `dump_sockets` over the positions of the socket list; `n` counts
the answers written so far. -/
def dump_sockets_loop (ce : ctrl_env) (cli : Nat) : List Nat → Nat → globals → Int × globals × Nat
  | [], n, g => (0, g, n)
  | i :: rest, n, g =>
    if i = cli then dump_sockets_loop ce cli rest n g
    else
      let r := controller_answer (ce.writes n) (ce.e.mem n) g cli (ce.line i)
      if r.1 ≠ 0 then (r.1, r.2, n + 1) else dump_sockets_loop ce cli rest (n + 1) r.2

/-- The function `dump_sockets`. -/
def dump_sockets (ce : ctrl_env) (g : globals) (cli : Nat) : Int × globals :=
  let r := dump_sockets_loop ce cli (List.range g.all_sockets.length) 0 g
  if r.1 ≥ 0 then controller_answer (ce.writes r.2.2) (ce.e.mem r.2.2) r.2.1 cli [10]
  else (r.1, r.2.1)

/-- The function `netsock_bind`: the position of the new record, `none` for the
null pointer, and the variables afterwards. -/
def netsock_bind (ce : ctrl_env) (g : globals) (cli : Option Nat) : Option Nat × globals :=
  match ce.server with
  | none =>
    match cli with
    | none => (none, g)
    | some c => (none, (controller_answer ce.e.write (ce.e.mem 0) g c
        (str "error: " ++ ce.errtext)).2)
  | some fd =>
    match netsock_alloc ce.e false g none fd with
    | (none, g1) => (none, g1)
    | (some srv, g1) =>
      (some srv, { g1 with all_sockets := update_at g1.all_sockets srv (fun ns =>
        { ns with state := NETSTATE_CONNECTED }) })

/-- The function `sysaf_to_rdpaf`. -/
def sysaf_to_rdpaf (af : Int) : Nat :=
  if af = AF_INET then TUNAF_IPV4 else if af = AF_INET6 then TUNAF_IPV6 else TUNAF_ANY

/-- The function `tunnel_add`. -/
def tunnel_add (ce : ctrl_env) (g : globals) (cli : Nat) (lhost : List Nat) (lport : Nat)
    (raf : Int) (rhost : List Nat) (rport : Nat) : Int × globals :=
  match netsock_bind ce g (some cli) with
  | (none, g1) => (0, g1)
  | (some ns, g1) =>
    let g2 := { g1 with all_sockets := update_at g1.all_sockets ns (fun r =>
      { r with type := NETSOCK_TUNSRV, raf := sysaf_to_rdpaf raf, rport := rport,
               rhost := rhost }) }
    controller_answer ce.e.write (ce.e.mem 1) g2 cli
      (if rport ≠ 0 then
        str "tunnel [" ++ lhost ++ str "]:" ++ utoa lport ++ str " --> [" ++ rhost ++ str "]:" ++
          utoa rport ++ str " registered"
       else
        str "tunnel [" ++ lhost ++ str "]:" ++ utoa lport ++ str " --> " ++ rhost ++
          str " registered")

/-- The function `socks5_bind`. -/
def socks5_bind (ce : ctrl_env) (g : globals) (cli : Nat) (host : List Nat) (port : Nat) :
    Int × globals :=
  match netsock_bind ce g (some cli) with
  | (none, g1) => (0, g1)
  | (some srv, g1) =>
    controller_answer ce.e.write (ce.e.mem 1)
      { g1 with all_sockets := update_at g1.all_sockets srv (fun r =>
        { r with type := NETSOCK_S5SRV }) } cli
      (str "SOCKS5 server listening on " ++ host ++ str ":" ++ utoa port)

/-- The search of `tunnel_del`: the position of the first listener that
matches, counted from `i`. -/
def tunnel_del_find (ce : ctrl_env) (lhost : List Nat) (lport : Nat) :
    Nat → List netsock_t → Option Nat
  | _, [] => none
  | i, ns :: rest =>
    if (if ns.type = NETSOCK_TUNSRV ∨ ns.type = NETSOCK_S5SRV then ce.same_addr i
        else if ns.type = NETSOCK_RTUNSRV then decide (lport = ns.lport ∧ lhost = ns.lhost)
        else false) then some i
    else tunnel_del_find ce lhost lport (i + 1) rest

/-- The function `tunnel_del`. -/
def tunnel_del (ce : ctrl_env) (g : globals) (cli : Nat) (lhost : List Nat) (lport : Nat) :
    Int × globals :=
  if ¬ ce.resolve then
    controller_answer ce.e.write (ce.e.mem 1) g cli (str "error: " ++ ce.errtext)
  else
    match tunnel_del_find ce lhost lport 0 g.all_sockets with
    | some ns =>
      controller_answer ce.e.write (ce.e.mem 1) (tunnel_close (ce.e.mem 0) g ns true) cli
        (str "tunnel [" ++ lhost ++ str "]:" ++ utoa lport ++ str " removed")
    | none =>
      controller_answer ce.e.write (ce.e.mem 1) g cli
        (str "error: tunnel [" ++ lhost ++ str "]:" ++ utoa lport ++ str " not found")

/-- How one command of the controller ends: `fail` when the function leaves
with -1 at once (`goto badproto`, or `return -1`), `ran` with the value of the
command that ran; both with the block of the input buffer and the variables then. -/
inductive ctrl_step where
  | fail (block : List Nat) (g : globals)
  | ran (ret : Int) (block : List Nat) (g : globals)

/-- One command of `controller_read_event`, from `cmd = *data` up to the call
of the function that runs it; `data` is the offset of the line in `block`, the
block of the input buffer, in which the line is already NUL-terminated. -/
def controller_command (ce : ctrl_env) (g : globals) (cli : Nat) (block : List Nat)
    (data : Nat) : ctrl_step :=
  let cmd := peek block data
  if cmd ≠ 0 ∧ cmd ∉ str "ltrxs-" then ctrl_step.fail block g
  else if cmd = 108 then
    let r := dump_sockets ce g cli
    ctrl_step.ran r.1 block r.2
  else if peek block (data + 1) ≠ 32 then ctrl_step.fail block g
  else if peek block (data + 2) = 0 then ctrl_step.fail block g
  else
    match extract_port block (data + 2) with
    | (block1, none) => ctrl_step.fail block1 g
    | (block1, some (lport, d1)) =>
      if cmd = 45 then
        let r := tunnel_del ce g cli (cstring (block1.drop (data + 2))) lport
        ctrl_step.ran r.1 block1 r.2
      else if cmd = 115 then
        let r := socks5_bind ce g cli (cstring (block1.drop (data + 2))) lport
        ctrl_step.ran r.1 block1 r.2
      else if peek block1 d1 ≠ 32 then ctrl_step.fail block1 g
      else if peek block1 (d1 + 1) = 0 then ctrl_step.fail block1 g
      else if cmd = 120 then
        let r := tunnel_add ce g cli (cstring (block1.drop (data + 2))) lport AF_UNSPEC
          (cstring (block1.drop (d1 + 1))) 0
        ctrl_step.ran r.1 block1 r.2
      else
        match extract_port block1 (d1 + 1) with
        | (block2, none) => ctrl_step.fail block2 g
        | (block2, some (rport, _)) =>
          if cmd = 116 then
            let r := tunnel_add ce g cli (cstring (block2.drop (data + 2))) lport AF_UNSPEC
              (cstring (block2.drop (d1 + 1))) rport
            ctrl_step.ran r.1 block2 r.2
          else
            let r := tunnel_add_reverse ce.e g cli (cstring (block2.drop (data + 2))) lport
              (cstring (block2.drop (d1 + 1))) rport
              (str "tunnel [" ++ cstring (block2.drop (data + 2)) ++ str "]:" ++ utoa lport ++
                str " <-- [" ++ cstring (block2.drop (d1 + 1)) ++ str "]:" ++ utoa rport ++
                str " is being registred")
            ctrl_step.ran r.1 block2 r.2

/-- The `do ... while` loop of `controller_read_event`, one line per unit of
fuel; the `k`-th line runs in the environment `ce k`. The result is the value
to return, the variables, the block of the input buffer and `parsed`, which is
`none` when the function leaves before `iobuf_consume`; the result is `none`
when the fuel runs out. -/
def controller_loop (ce : Nat → ctrl_env) (cli avail : Nat) :
    Nat → Nat → globals → List Nat → Nat → Option (Int × globals × List Nat × Option Nat)
  | 0, _, _, _, _ => none
  | fuel + 1, k, g, block, parsed =>
    match memchr block parsed 10 (avail - parsed) with
    | none => some (1, g, block, some parsed)
    | some e1 =>
      let block1 := memcpy block e1 [0]
      if peek block1 parsed = 0 then some (-1, g, block1, none)
      else
        let parsed1 := u32 (parsed + u32 (e1 - parsed + 1))
        let block2 := if peek block1 (e1 - 1) = 13 then memcpy block1 (e1 - 1) [0] else block1
        match controller_command (ce k) g cli block2 parsed with
        | ctrl_step.fail b g1 => some (-1, g1, b, none)
        | ctrl_step.ran ret b g1 =>
          if ret = 0 ∧ parsed1 < avail then controller_loop ce cli avail fuel (k + 1) g1 b parsed1
          else some (ret, g1, b, some parsed1)

/-- The function `controller_read_event` on the controller client at position
`cli`; the read uses the allocation `mem`. A line holds at least one byte, so
that `avail + 1` iterations are enough. -/
def controller_read_event (rd : read_outcome) (mem : Bool) (ce : Nat → ctrl_env) (g : globals)
    (cli : Nat) : Option (Int × globals) :=
  let r := netsock_read rd mem g cli 0
  if r.1 ≠ 0 then some (r.1, r.2.1)
  else
    match r.2.1.all_sockets[cli]? with
    | none => some (-1, r.2.1)
    | some c =>
      let avail := iobuf_datalen c.ibuf
      match controller_loop ce cli avail (avail + 1) 0 r.2.1 (iobuf_dataptr c.ibuf) 0 with
      | none => none
      | some (_, g1, block, none) =>
        some (-1, { g1 with all_sockets := update_at g1.all_sockets cli (fun ns =>
          { ns with ibuf := { ns.ibuf with data := block } }) })
      | some (ret, g1, block, some parsed) =>
        some (ret, { g1 with all_sockets := update_at g1.all_sockets cli (fun ns =>
          { ns with ibuf :=
            if parsed > 0 then iobuf_consume { ns.ibuf with data := block } parsed
            else { ns.ibuf with data := block } }) })

end client

/-- The value of a string of decimal digits. -/
def decimal_value (digits : List Nat) : Nat := digits.foldl (fun acc c => acc * 10 + (c - 48)) 0

/-- The listener record a forward tunnel is registered as: descriptor `fd`,
connected state, type tunsrv, the remote family, host and port. -/
def client.tunsrv_record (fd : Int) (raf : Nat) (rhost : List Nat) (rport : Nat) :
    client.netsock_t :=
  { client.netsock_new fd with state := client.NETSTATE_CONNECTED, type := client.NETSOCK_TUNSRV, raf := raf, rport := rport, rhost := rhost }

/-! ## client/channel.c: reading from the channel, and the head of the loop of
client/main.c -/

namespace client

/-- The value of the `unsigned int` whose four bytes in memory are `b`, on a
little-endian host. -/
def le32 (b : List Nat) : Nat :=
  peek b 0 + 256 * (peek b 1 + 256 * (peek b 2 + 256 * peek b 3))

/-- The first loop of `channel_read_event`, which reads the four bytes of
`msglen`: one iteration per unit of fuel, the `k`-th call of `read` on the pipe
being answered by `pipe k`, `avail` bytes being still missing after the bytes
`acc`. The result `some (some (bytes, k))` holds the four bytes and the number
of calls made so far, `some none` is `goto chan_read_err`, `none` is the fuel
running out. -/
def channel_read_header (pipe : Nat → read_outcome) :
    Nat → Nat → Nat → List Nat → Option (Option (List Nat × Nat))
  | 0, _, _, _ => none
  | fuel + 1, k, avail, acc =>
    match pipe k with
    | read_outcome.got data =>
      let bytes := data.take avail
      if bytes.length = 0 then some none
      else if avail - bytes.length > 0 then
        channel_read_header pipe fuel (k + 1) (avail - bytes.length) (acc ++ bytes)
      else some (some (acc ++ bytes, k + 1))
    | read_outcome.pending => some none
    | read_outcome.failed _ => some none

/-- The second loop of `channel_read_event`, which reads the body of the chunk
through the pointer `iobuf_reserve` returned: `off` is the distance of `ptr`
from that pointer. The result holds the buffer and the last value of `r`,
`none` when it is negative (`goto chan_read_err`); the outer `none` is the fuel
running out. -/
def channel_read_body (pipe : Nat → read_outcome) :
    Nat → Nat → iobuf → Nat → Nat → Option (iobuf × Option Nat)
  | 0, _, _, _, _ => none
  | fuel + 1, k, buf, off, msglen =>
    match pipe k with
    | read_outcome.got data =>
      let bytes := data.take msglen
      let buf1 := iobuf_store buf off bytes
      if msglen - bytes.length > 0 then
        channel_read_body pipe fuel (k + 1) buf1 (off + bytes.length) (msglen - bytes.length)
      else some (buf1, some bytes.length)
    | read_outcome.pending => some (buf, none)
    | read_outcome.failed _ => some (buf, none)

/-- The function `channel_read_event` up to its call of `commands_parse`, on the
input buffer of the channel: -1 with the buffer then when the function returns
-1, or 0 with the buffer after `iobuf_commit`. The first loop ends within four
iterations; the second one is given `fuel` iterations. -/
def channel_read_chunk (pipe : Nat → read_outcome) (mem : Bool) (fuel : Nat) (ibuf : iobuf) :
    Option (Int × iobuf) :=
  match channel_read_header pipe 4 0 4 [] with
  | none => none
  | some none => some (-1, ibuf)
  | some (some (hdr, k)) =>
    match iobuf_reserve mem ibuf (le32 hdr) with
    | none => some (-1, ibuf)
    | some (buf1, _) =>
      match channel_read_body pipe fuel k buf1 0 (le32 hdr) with
      | none => none
      | some (buf2, none) => some (-1, buf2)
      | some (buf2, some r) => some (0, iobuf_commit buf2 r)

/-- The function `channel_read_event`: return value and variables afterwards.
The handlers of `commands_parse` act on the variables of the client, the input
buffer of the channel being handed to `commands_parse` itself. -/
def channel_read_event (e : env_t) (pipe : Nat → read_outcome) (mem : Bool) (fuel : Nat)
    (g : globals) : Option (Int × globals) :=
  match channel_read_chunk pipe mem fuel g.vc.ibuf with
  | none => none
  | some (ret, ibuf) =>
    if ret ≠ 0 then some (-1, { g with vc := { g.vc with ibuf := ibuf } })
    else
      match commands_parse (cmd_handlers e) { g with vc := { g.vc with ibuf := ibuf } } ibuf with
      | none => none
      | some (_, g2, ibuf1) => some (0, { g2 with vc := { g2.vc with ibuf := ibuf1, ts := e.now } })

/-- The head of one iteration of the loop of `main`: the state of the channel
is compared with `last_state`, and the tunnels are killed or restarted when it
has changed. The result holds the variables and `last_state` afterwards. -/
def main_check_state (e : env_t) (g : globals) (last_state : Int) : globals × Int :=
  let c := channel_is_connected e.now g.vc
  if c.1 ≠ last_state then
    (if c.1 = 0 then tunnels_kill_clients { g with vc := c.2 }
      else tunnels_restart e.mem { g with vc := c.2 }, c.1)
  else ({ g with vc := c.2 }, last_state)

end client

/-! ## a stream of frames read in pieces -/

/-- The state after the handlers of a list of frames have been called in order,
each on the message of its frame (command, tunnel id, payload) and its length. -/
def run_handlers {σ : Type} (cmd_handlers : Nat → Option (cmdhandler_t σ)) :
    σ → List frame → σ
  | s, [] => s
  | s, f :: fs =>
    match cmd_handlers f.cmd with
    | none => s
    | some handler =>
      run_handlers cmd_handlers (handler s (f.cmd :: f.tid :: f.payload) (f.payload.length + 2)).2 fs

/-- The handler calls a list of frames is to give, in order. -/
def dispatch_log (frames : List frame) : List call :=
  frames.map (fun f => call.mk f.cmd f.tid f.payload (f.payload.length + 2))

/-- The frames of a stream that lie entirely within its first `p` bytes. -/
def whole_frames : List frame → Nat → List frame
  | [], _ => []
  | f :: fs, p =>
    if (frame_bytes f).length ≤ p then f :: whole_frames fs (p - (frame_bytes f).length)
    else []

/-- The bytes of the partial frame at the tail of the first `p` bytes of a
stream of frames: what follows the whole frames. -/
def partial_tail (frames : List frame) (p : Nat) : List Nat :=
  ((wire frames).take p).drop (wire (whole_frames frames p)).length

/-! ## the I/O buffer as a queue of bytes -/

/-- An operation on an I/O buffer: `iobuf_append` of some bytes, `iobuf_reserve`
of a size, `iobuf_commit` of bytes written through the reserved pointer, and
`iobuf_consume`. -/
inductive iobuf_op where
  | append (data : List Nat)
  | reserve (size : Nat)
  | commit (written : List Nat)
  | consume (consumed : Nat)
deriving DecidableEq, Repr

/-- One operation as the sources perform it, `mem` telling whether `realloc`
succeeds. The result is `none` when the operation fails, and when it is called
outside the conditions the claim lays down for it: an append of no byte, a
commit of no byte or of more bytes than the free capacity, a consume of no byte
or of more bytes than the buffer holds. -/
def iobuf_apply (mem : Bool) (b : iobuf) : iobuf_op → Option iobuf
  | iobuf_op.append data => if 0 < data.length then iobuf_append mem b data else none
  | iobuf_op.reserve size => (iobuf_reserve mem b size).map (fun r => r.1)
  | iobuf_op.commit written =>
    if 0 < written.length ∧ written.length ≤ b.total - b.size then
      some (iobuf_commit (iobuf_store b 0 written) written.length)
    else none
  | iobuf_op.consume consumed =>
    if 0 < consumed ∧ consumed ≤ b.size then some (iobuf_consume b consumed) else none

/-- A sequence of operations, each with the answer of `realloc`. -/
def iobuf_run : iobuf → List (Bool × iobuf_op) → Option iobuf
  | b, [] => some b
  | b, (mem, op) :: ops =>
    match iobuf_apply mem b op with
    | none => none
    | some b1 => iobuf_run b1 ops

/-- The list model of one operation: append and commit add bytes at the tail,
consume drops the first bytes, reserve changes nothing. -/
def queue_apply (q : List Nat) : iobuf_op → List Nat
  | iobuf_op.append data => q ++ data
  | iobuf_op.reserve _ => q
  | iobuf_op.commit written => q ++ written
  | iobuf_op.consume consumed => q.drop consumed

/-- The list model of a sequence of operations. -/
def queue_run : List Nat → List (Bool × iobuf_op) → List Nat
  | q, [] => q
  | q, (_, op) :: ops => queue_run (queue_apply q op) ops

/-- The size a reservation asks for: 2048 when the argument is 0. -/
def reserve_size (size : Nat) : Nat := if size = 0 then IOBUF_MIN_SIZE else size

/-- The sizes of a sequence of operations stay within an `unsigned int`: the
length of the queue plus the size asked for by an append or by a reservation is
below 2^32 each time. -/
def ops_fit : List Nat → List (Bool × iobuf_op) → Bool
  | _, [] => true
  | q, (_, op) :: ops =>
    (match op with
      | iobuf_op.append data => decide (q.length + data.length < 4294967296)
      | iobuf_op.reserve size => decide (q.length + reserve_size size < 4294967296)
      | _ => true) && ops_fit (queue_apply q op) ops

/-! ## common/nethelper.h, common/netaddr.c -/

/-- The two bytes of a 16-bit value in the memory of a little-endian host. -/
def le16 (v : Nat) : List Nat := [v % 256, v / 256 % 256]

/-- The function `memcmp` on two blocks of the same length: 0 when they are
equal, else the difference of the first bytes that differ. -/
def memcmp : List Nat → List Nat → Int
  | a :: as, b :: bs => if a = b then memcmp as bs else (a : Int) - (b : Int)
  | _, _ => 0

/-- The macro `netaddr_af`: the member `ip4.sin_family` of the union `netaddr_t`.
A `netaddr_t` is the block of the 28 bytes of its largest member; in
`struct sockaddr_in` the family is at offset 0, the port at 2 and `sin_addr` at
4, in `struct sockaddr_in6` the family is at 0, the port at 2, `sin6_flowinfo`
at 4 and `sin6_addr` at 8 (system headers). -/
def netaddr_af (na : List Nat) : Nat := peek na 0 + 256 * peek na 1

/-- The function `netaddr_set` on the block `a`. -/
def netaddr_set (af : Int) (addr : List Nat) (port : Nat) (a : List Nat) : List Nat :=
  if af = AF_INET then
    memcpy (memcpy (memcpy a 0 (le16 AF_INET.toNat)) 2 (le16 (ntohs_le port))) 4 (addr.take 4)
  else
    memcpy (memcpy (memcpy a 0 (le16 AF_INET.toNat)) 2 (le16 (ntohs_le port))) 8 (addr.take 16)

/-- The function `netaddr_cmp`. -/
def netaddr_cmp (a b : List Nat) : Int :=
  if netaddr_af a ≠ netaddr_af b then 1
  else if netaddr_af a = AF_INET.toNat then
    if (a.drop 2).take 2 ≠ (b.drop 2).take 2 then 1
    else if (a.drop 4).take 4 ≠ (b.drop 4).take 4 then 1 else 0
  else if (a.drop 2).take 2 ≠ (b.drop 2).take 2 then 1
  else memcmp ((a.drop 8).take 16) ((b.drop 8).take 16)

/-! ## server/events.c -/

namespace server

/-- The variables of server/events.c: `events_count` and the arrays
`all_events` and `evtid_to_tunid`, of 0x102 slots each. A `HANDLE` is a number. -/
structure events_t where
  events_count : Nat
  all_events : List Nat
  evtid_to_tunid : List Nat
deriving DecidableEq, Repr

/-- The variables as their static initialisers leave them. -/
def events_static : events_t :=
  { events_count := 0, all_events := List.replicate 0x102 0,
    evtid_to_tunid := List.replicate 0x102 0 }

/-- The function `events_init`. -/
def events_init (ev : events_t) (wevt revt : Nat) : events_t :=
  { ev with all_events := (ev.all_events.set 0 wevt).set 1 revt, events_count := 2 }

/-- The function `event_add_tunnel`: return value, variables afterwards, and
the indices of the slots it writes. -/
def event_add_tunnel (ev : events_t) (evt id : Nat) : Int × events_t × List Nat :=
  let i := ev.events_count
  if i ≥ 0x101 then (-1, ev, [])
  else
    (0, { events_count := u32 (ev.events_count + 1), all_events := ev.all_events.set i evt,
          evtid_to_tunid := ev.evtid_to_tunid.set i id }, [i])

/-- The function `event_add_process`: return value, variables afterwards, and
the indices of the slots it writes. -/
def event_add_process (ev : events_t) (proc re we id : Nat) : Int × events_t × List Nat :=
  let i := ev.events_count
  if u32 (i + 2) ≥ 0x101 then (-1, ev, [])
  else
    (0, { events_count := u32 (ev.events_count + 3),
          all_events := ((ev.all_events.set i proc).set (i + 1) re).set (i + 2) we,
          evtid_to_tunid := ((ev.evtid_to_tunid.set i id).set (i + 1) id).set (i + 2) id },
      [i, i + 1, i + 2])

/-- The `for` loop of `event_del_tunnel`, one iteration per unit of fuel: the
values of `i` and `j` when the loop ends. -/
def event_del_scan (evtid_to_tunid : List Nat) (events_count id : Nat) :
    Nat → Nat → Nat → Nat × Nat
  | 0, i, j => (i, j)
  | fuel + 1, i, j =>
    if i < events_count then
      if peek evtid_to_tunid i = id then
        event_del_scan evtid_to_tunid events_count id fuel (u32 (i + 1)) (u32 (j + 1))
      else if j ≠ 0 then (i, j)
      else event_del_scan evtid_to_tunid events_count id fuel (u32 (i + 1)) j
    else (i, j)

/-- The function `event_del_tunnel`: variables afterwards, and the indices of
the slots it writes. The loop runs from `i = 2` and ends within `events_count`
iterations. -/
def event_del_tunnel (ev : events_t) (id : Nat) : events_t × List Nat :=
  let r := event_del_scan ev.evtid_to_tunid ev.events_count id ev.events_count 2 0
  if r.2 > 0 then
    if r.1 < ev.events_count then
      ({ events_count := ev.events_count - r.2,
         all_events := memmove ev.all_events (r.1 - r.2) r.1 (ev.events_count - r.1),
         evtid_to_tunid := memmove ev.evtid_to_tunid (r.1 - r.2) r.1 (ev.events_count - r.1) },
        List.range' (r.1 - r.2) (ev.events_count - r.1))
    else ({ ev with events_count := ev.events_count - r.2 }, [])
  else (ev, [])

/-- A call of one of the three functions. -/
inductive event_op where
  | add_tunnel (evt id : Nat)
  | add_process (proc re we id : Nat)
  | del_tunnel (id : Nat)
deriving DecidableEq, Repr

/-- One call: return value (0 for `event_del_tunnel`, which returns nothing),
variables afterwards and the indices of the slots written. -/
def event_apply (ev : events_t) : event_op → Int × events_t × List Nat
  | event_op.add_tunnel evt id => event_add_tunnel ev evt id
  | event_op.add_process proc re we id => event_add_process ev proc re we id
  | event_op.del_tunnel id => (0, event_del_tunnel ev id)

/-- A sequence of calls: the variables afterwards and the indices of all the
slots written. -/
def events_run : events_t → List event_op → events_t × List Nat
  | ev, [] => (ev, [])
  | ev, op :: ops =>
    let r := event_apply ev op
    let rest := events_run r.2.1 ops
    (rest.1, r.2.2 ++ rest.2)

/-- The registrations of the tunnels, in order: the id of a tunnel with its
handles, one for a socket tunnel and three for a process tunnel. -/
abbrev registry := List (Nat × List Nat)

/-- The handles of the registrations, in order. -/
def registry_handles (regs : registry) : List Nat := regs.flatMap (fun r => r.2)

/-- The tunnel ids paired with the handles of the registrations, in order. -/
def registry_ids (regs : registry) : List Nat :=
  regs.flatMap (fun r => List.replicate r.2.length r.1)

/-- What one call is to do with the registrations: an add that finds room
registers the tunnel after the others, a delete removes the registration of the
tunnel and keeps the others in order. -/
def registry_apply (regs : registry) : event_op → registry
  | event_op.add_tunnel evt id =>
    if 2 + (registry_handles regs).length ≥ 0x101 then regs else regs ++ [(id, [evt])]
  | event_op.add_process proc re we id =>
    if 2 + (registry_handles regs).length + 2 ≥ 0x101 then regs
    else regs ++ [(id, [proc, re, we])]
  | event_op.del_tunnel id => regs.filter (fun r => decide (r.1 ≠ id))

/-- What a sequence of calls is to do with the registrations. -/
def registry_run : registry → List event_op → registry
  | regs, [] => regs
  | regs, op :: ops => registry_run (registry_apply regs op) ops

/-- The call registers no tunnel id a second time: an add that finds room names
an id that is not registered when the call is made. -/
def registers_once (regs : registry) : event_op → Bool
  | event_op.add_tunnel _ id =>
    decide (2 + (registry_handles regs).length ≥ 0x101 ∨ id ∉ regs.map (fun r => r.1))
  | event_op.add_process _ _ _ id =>
    decide (2 + (registry_handles regs).length + 2 ≥ 0x101 ∨ id ∉ regs.map (fun r => r.1))
  | event_op.del_tunnel _ => true

/-- Each tunnel id is registered at most once in the sequence of calls. -/
def registered_once : registry → List event_op → Bool
  | _, [] => true
  | regs, op :: ops => registers_once regs op && registered_once (registry_apply regs op) ops

/-- The variables hold the registrations: the channel events in the slots 0
and 1, then the handles of the registrations with their tunnel ids, up to
`events_count`. -/
def events_hold (ev : events_t) (wevt revt : Nat) (regs : registry) : Prop :=
  ev.events_count = 2 + (registry_handles regs).length ∧
  ev.all_events.take ev.events_count = wevt :: revt :: registry_handles regs ∧
  (ev.evtid_to_tunid.take ev.events_count).drop 2 = registry_ids regs

end server

/-- The bounds of the event table of the server: `events_count` within 2..257
and arrays of 258 slots. -/
def events_bounds (ev : server.events_t) : Prop :=
  2 ≤ ev.events_count ∧ ev.events_count ≤ 257 ∧ ev.all_events.length = 258 ∧
  ev.evtid_to_tunid.length = 258

/-- The registrations are well formed: no tunnel id is registered twice, and a
registration holds one handle (socket tunnel) or three (process tunnel). -/
def registry_ok (regs : server.registry) : Prop :=
  (regs.map (fun r => r.1)).Nodup ∧ ∀ r ∈ regs, r.2.length = 1 ∨ r.2.length = 3

/-- The variables of server/events.c after `events_init` on the static
variables and a sequence of calls. -/
def server.events_after (wevt revt : Nat) (ops : List server.event_op) : server.events_t :=
  (server.events_run (server.events_init server.events_static wevt revt) ops).1

/-! ## Theorems: the command parser -/

theorem u32_of_lt {n : Nat} (h : n < 4294967296) : u32 n = n := Nat.mod_eq_of_lt h

theorem commands_parse_loop_total {σ : Type} (cmd_handlers : Nat → Option (cmdhandler_t σ))
    (data : List Nat) (avail : Nat) (havail : avail + RDP2TCP_MAX_MSGLEN + 4 < 4294967296) :
    ∀ (fuel off : Nat) (s : σ), off ≤ avail → avail - off < fuel →
      ∃ r, commands_parse_loop cmd_handlers data avail fuel off s = some r := by
  intro fuel
  induction fuel with
  | zero => intro off s _ h; omega
  | succ fuel ih =>
    intro off s hoff hfuel
    simp only [commands_parse_loop]
    simp only [RDP2TCP_MAX_MSGLEN] at havail
    split
    · rename_i h5
      split
      · exact ⟨_, rfl⟩
      · rename_i hlen
        split
        · exact ⟨_, rfl⟩
        · rename_i hcomplete
          split
          · exact ⟨_, rfl⟩
          · split
            · exact ⟨_, rfl⟩
            · split
              · exact ⟨_, rfl⟩
              · split
                · exact ⟨_, rfl⟩
                · simp only [RDP2TCP_MAX_MSGLEN, not_or] at hlen
                  simp only [u32] at h5 hcomplete ⊢
                  apply ih <;> omega
    · exact ⟨_, rfl⟩

theorem commands_parse_loop_log {σ : Type} (cmd_handlers : Nat → Option (cmdhandler_t σ))
    (data : List Nat) (avail : Nat) :
    ∀ (fuel off : Nat) (st : σ × List call) (r : (σ × List call) × Option Nat),
      commands_parse_loop (traced cmd_handlers) data avail fuel off st = some r →
      ∃ l, r.1.2 = st.2 ++ l := by
  intro fuel
  induction fuel with
  | zero => intro off st r h; simp [commands_parse_loop] at h
  | succ fuel ih =>
    intro off st r h
    simp only [commands_parse_loop] at h
    split at h
    · split at h
      · cases h; exact ⟨[], by simp⟩
      · split at h
        · cases h; exact ⟨[], by simp⟩
        · split at h
          · cases h; exact ⟨[], by simp⟩
          · split at h
            · cases h; exact ⟨[], by simp⟩
            · split at h
              · cases h; exact ⟨[], by simp⟩
              · rename_i handler hh
                simp only [traced] at hh
                split at hh
                · cases hh
                · cases hh
                  split at h
                  · cases h; exact ⟨_, rfl⟩
                  · obtain ⟨l, hl⟩ := ih _ _ _ h
                    exact ⟨_ :: l, by rw [hl]; simp; rfl⟩
    · cases h; exact ⟨[], by simp⟩

/-- One iteration of the parser loop on a complete, well-formed frame at `off`. -/
theorem commands_parse_loop_dispatch {σ : Type} (cmd_handlers : Nat → Option (cmdhandler_t σ))
    (data : List Nat) (avail fuel off : Nat) (s : σ) (handler : cmdhandler_t σ)
    (havail : avail < 4294967296)
    (hpos : 0 < ntohl data off) (hmax : ntohl data off ≤ 524288)
    (hfull : off + ntohl data off + 4 ≤ avail) (hoff : off + 5 < avail)
    (hcmd : peek data (off + 4) < 6)
    (hmin : r2t_min_size (peek data (off + 4)) ≤ ntohl data off)
    (hh : cmd_handlers (peek data (off + 4)) = some handler) :
    commands_parse_loop cmd_handlers data avail (fuel + 1) off s =
      if (handler s ((data.drop (off + 4)).take (ntohl data off)) (ntohl data off)).1 ≠ 0 then
        some ((handler s ((data.drop (off + 4)).take (ntohl data off)) (ntohl data off)).2, none)
      else
        commands_parse_loop cmd_handlers data avail fuel (off + 4 + ntohl data off)
          (handler s ((data.drop (off + 4)).take (ntohl data off)) (ntohl data off)).2 := by
  have h5 : u32 (off + 5) < avail := by simp only [u32]; omega
  have h4 : u32 (off + 4) = off + 4 := by simp only [u32]; omega
  have hL1 : ¬ (ntohl data off = 0 ∨ ntohl data off > RDP2TCP_MAX_MSGLEN) := by
    simp only [RDP2TCP_MAX_MSGLEN, not_or]; omega
  have hc : ¬ u32 (off + ntohl data off + 4) > avail := by simp only [u32]; omega
  have hb1 : ¬ peek data (off + 4) ≥ R2TCMD_MAX := by simp only [R2TCMD_MAX]; omega
  have hb2 : ¬ ntohl data off < r2t_min_size (peek data (off + 4)) := by omega
  have hu : u32 (off + 4 + ntohl data off) = off + 4 + ntohl data off := by
    simp only [u32]; omega
  simp only [commands_parse_loop, h5, hL1, hc, hb1, hb2, if_true, if_false, h4, hh, hu]

/-- One iteration of the parser loop on a frame that is rejected. -/
theorem commands_parse_loop_reject {σ : Type} (cmd_handlers : Nat → Option (cmdhandler_t σ))
    (data : List Nat) (avail fuel off : Nat) (s : σ)
    (havail : avail < 4294967296) (hoff : off + 5 < avail)
    (hbad : (ntohl data off = 0 ∨ ntohl data off > 524288) ∨
      (off + ntohl data off + 4 ≤ avail ∧
        (peek data (off + 4) ≥ 6 ∨ ntohl data off < r2t_min_size (peek data (off + 4))))) :
    commands_parse_loop cmd_handlers data avail (fuel + 1) off s = some (s, none) := by
  have h5 : u32 (off + 5) < avail := by simp only [u32]; omega
  have h4 : u32 (off + 4) = off + 4 := by simp only [u32]; omega
  by_cases hL1 : ntohl data off = 0 ∨ ntohl data off > RDP2TCP_MAX_MSGLEN
  · simp only [commands_parse_loop, h5, hL1, if_true]
  · rcases hbad with hbad | ⟨hfull, hbad⟩
    · exact absurd hbad hL1
    · have hc : ¬ u32 (off + ntohl data off + 4) > avail := by simp only [u32]; omega
      simp only [commands_parse_loop, h5, hL1, hc, if_true, if_false, h4]
      rcases hbad with hbad | hbad
      · have hb : peek data (off + 4) ≥ R2TCMD_MAX := hbad
        simp only [hb, if_true]
      · by_cases hb1 : peek data (off + 4) ≥ R2TCMD_MAX
        · simp only [hb1, if_true]
        · simp only [hb1, hbad, if_true, if_false]

/-- C2. A frame at the head of an input buffer of at least 6 bytes is rejected
(return -1, no handler invoked, buffer untouched) when its length field is 0 or
exceeds 524288, and, once fully buffered, when its command byte is 6 or more or
its length is below the minimum of its command; a fully buffered frame that
passes these checks and whose handler is installed is dispatched: the handler
invocation on its `L` message bytes with `len = L` is the first entry of the log. -/
theorem C2_malformed_headers_rejected {σ : Type}
    (cmd_handlers : Nat → Option (cmdhandler_t σ)) (s : σ) (ibuf : iobuf)
    (hlen : 6 ≤ iobuf_datalen ibuf)
    (hsize : iobuf_datalen ibuf + RDP2TCP_MAX_MSGLEN + 4 < 4294967296) :
    let data := iobuf_dataptr ibuf
    let L := ntohl data 0
    let cmd := peek data 4
    ((L = 0 ∨ L > 524288) →
      commands_parse (traced cmd_handlers) (s, []) ibuf = some (-1, (s, []), ibuf)) ∧
    (L + 4 ≤ iobuf_datalen ibuf → (cmd ≥ 6 ∨ L < r2t_min_size cmd) →
      commands_parse (traced cmd_handlers) (s, []) ibuf = some (-1, (s, []), ibuf)) ∧
    (0 < L → L ≤ 524288 → L + 4 ≤ iobuf_datalen ibuf → cmd < 6 → r2t_min_size cmd ≤ L →
      ∀ handler, cmd_handlers cmd = some handler →
      ∃ ret s1 log ibuf1, commands_parse (traced cmd_handlers) (s, []) ibuf =
        some (ret, (s1, call_of ((data.drop 4).take L) L :: log), ibuf1)) := by
  intro data L cmd
  have havail : iobuf_datalen ibuf < 4294967296 := by omega
  refine ⟨?_, ?_, ?_⟩
  · intro hL
    have := commands_parse_loop_reject (traced cmd_handlers) data (iobuf_datalen ibuf)
      (iobuf_datalen ibuf) 0 (s, []) havail (by omega) (Or.inl hL)
    simp only [commands_parse, data, this]
  · intro hfull hbad
    have := commands_parse_loop_reject (traced cmd_handlers) data (iobuf_datalen ibuf)
      (iobuf_datalen ibuf) 0 (s, []) havail (by omega)
      (Or.inr ⟨by simpa [Nat.add_comm] using hfull, by simpa using hbad⟩)
    simp only [commands_parse, data, this]
  · intro hpos hmax hfull hcmd hmin handler hh
    have hh1 : traced cmd_handlers (peek data (0 + 4)) = some (fun st msg len =>
        let r := handler st.1 msg len
        (r.1, (r.2, st.2 ++ [call_of msg len]))) := by
      have h1 : cmd_handlers (peek data 4) = some handler := hh
      simp only [traced, Nat.zero_add, h1]
    have hd := commands_parse_loop_dispatch (traced cmd_handlers) data (iobuf_datalen ibuf)
      (iobuf_datalen ibuf) 0 (s, []) _ havail hpos hmax (by simpa [Nat.add_comm] using hfull)
      (by omega) (by simpa using hcmd) (by simpa using hmin) hh1
    simp only [Nat.zero_add, List.nil_append] at hd
    by_cases hr : (handler s ((data.drop 4).take (ntohl data 0)) (ntohl data 0)).1 ≠ 0
    · rw [if_pos hr] at hd
      refine ⟨-1, (handler s ((data.drop 4).take (ntohl data 0)) (ntohl data 0)).2, [], ibuf, ?_⟩
      simp only [commands_parse, data, L] at hd ⊢
      rw [hd]
    · rw [if_neg hr] at hd
      obtain ⟨r, hr1⟩ := commands_parse_loop_total (traced cmd_handlers) data
        (iobuf_datalen ibuf) hsize (iobuf_datalen ibuf) (4 + ntohl data 0)
        ((handler s ((data.drop 4).take (ntohl data 0)) (ntohl data 0)).2,
          [call_of ((data.drop 4).take (ntohl data 0)) (ntohl data 0)])
        (by have : L + 4 ≤ iobuf_datalen ibuf := hfull
            simp only [L] at this; omega) (by omega)
      obtain ⟨l, hl⟩ := commands_parse_loop_log _ _ _ _ _ _ _ hr1
      rw [hr1] at hd
      obtain ⟨⟨s1, log1⟩, o⟩ := r
      simp only at hl
      subst hl
      simp only [commands_parse, data, L] at hd ⊢
      rw [hd]
      cases o with
      | none => exact ⟨_, _, _, _, rfl⟩
      | some off => exact ⟨_, _, _, _, rfl⟩

/-- Witness of C2: a DATA frame for tunnel 7 with an empty payload is dispatched. -/
theorem C2_malformed_headers_rejected_witness :
    6 ≤ iobuf_datalen (iobuf_holding [0, 0, 0, 2, 2, 7]) ∧
    ∃ ret s1 log ibuf1,
      commands_parse (traced null_handlers) ((), []) (iobuf_holding [0, 0, 0, 2, 2, 7]) =
        some (ret, (s1, call.mk 2 7 [] 2 :: log), ibuf1) :=
  ⟨by decide,
   (C2_malformed_headers_rejected null_handlers () (iobuf_holding [0, 0, 0, 2, 2, 7])
      (by decide) (by decide)).2.2 (by decide) (by decide) (by decide) (by decide) (by decide)
      _ rfl⟩

/-- C3 (the literal reading fails). A buffer holding exactly the five bytes
00 00 00 01 03, a PING frame of the length 1, is not dispatched, though a
handler that returns 0 is installed for every command: `commands_parse` returns
0, calls no handler and consumes nothing. The loop runs while `off + 5 < avail`,
that is with six bytes at least: the same frame followed by one more byte is
dispatched to the PING handler and its five bytes are consumed. -/
theorem C3_lone_ping_not_dispatched :
    commands_parse (traced null_handlers) ((), []) (iobuf_holding [0, 0, 0, 1, 3]) =
      some (0, ((), []), iobuf_holding [0, 0, 0, 1, 3]) ∧
    commands_parse (traced null_handlers) ((), []) (iobuf_holding [0, 0, 0, 1, 3, 0]) =
      some (0, ((), [call.mk 3 0 [] 1]), iobuf.mk 1 6 [0, 0, 0, 1, 3, 0]) := by
  constructor <;> decide

/-- The parser does nothing with a buffer of five bytes or fewer, and nothing
with a frame of which bytes are missing. -/
theorem commands_parse_loop_wait {σ : Type} (cmd_handlers : Nat → Option (cmdhandler_t σ))
    (data : List Nat) (avail fuel : Nat) (s : σ) (havail : avail < 4294967296)
    (h : avail ≤ 5 ∨ (0 < ntohl data 0 ∧ ntohl data 0 ≤ 524288 ∧ avail < ntohl data 0 + 4)) :
    commands_parse_loop cmd_handlers data avail (fuel + 1) 0 s = some (s, some 0) := by
  by_cases h5 : u32 (0 + 5) < avail
  · have h6 : ¬ avail ≤ 5 := by simp only [u32] at h5; omega
    obtain ⟨hpos, hmax, hmiss⟩ := h.resolve_left h6
    have hL1 : ¬ (ntohl data 0 = 0 ∨ ntohl data 0 > RDP2TCP_MAX_MSGLEN) := by
      simp only [RDP2TCP_MAX_MSGLEN, not_or]; omega
    have hc : u32 (0 + ntohl data 0 + 4) > avail := by simp only [u32]; omega
    simp only [commands_parse_loop, h5, hL1, hc, if_true, if_false]
  · simp only [commands_parse_loop, h5, if_false]

/-- C3 (as amended): the frame completeness rule. `commands_parse` leaves a
buffer of five bytes or fewer as it is: it returns 0, calls no handler and
consumes nothing. With six bytes or more in the buffer and a length field `L`
of 1..524288, it does the same while `L + 4` exceeds the number of buffered
bytes; once `L + 4` bytes are buffered, a frame whose command is below 6, whose
length reaches the minimum of its command and whose handler is installed is
dispatched: the handler is called on the `L` bytes that follow the length
field, and when this frame is all the buffer holds and the handler returns 0,
`commands_parse` returns 0 and consumes the `L + 4` bytes. -/
theorem C3_frame_completeness_rule {σ : Type}
    (cmd_handlers : Nat → Option (cmdhandler_t σ)) (s : σ) (ibuf : iobuf)
    (hsize : iobuf_datalen ibuf + RDP2TCP_MAX_MSGLEN + 4 < 4294967296) :
    (iobuf_datalen ibuf ≤ 5 →
      commands_parse (traced cmd_handlers) (s, []) ibuf = some (0, (s, []), ibuf)) ∧
    (6 ≤ iobuf_datalen ibuf → 0 < ntohl (iobuf_dataptr ibuf) 0 →
      ntohl (iobuf_dataptr ibuf) 0 ≤ 524288 →
      iobuf_datalen ibuf < ntohl (iobuf_dataptr ibuf) 0 + 4 →
      commands_parse (traced cmd_handlers) (s, []) ibuf = some (0, (s, []), ibuf)) ∧
    (6 ≤ iobuf_datalen ibuf → 0 < ntohl (iobuf_dataptr ibuf) 0 →
      ntohl (iobuf_dataptr ibuf) 0 ≤ 524288 →
      ntohl (iobuf_dataptr ibuf) 0 + 4 ≤ iobuf_datalen ibuf →
      peek (iobuf_dataptr ibuf) 4 < 6 →
      r2t_min_size (peek (iobuf_dataptr ibuf) 4) ≤ ntohl (iobuf_dataptr ibuf) 0 →
      ∀ handler, cmd_handlers (peek (iobuf_dataptr ibuf) 4) = some handler →
      (∃ ret s1 log ibuf1, commands_parse (traced cmd_handlers) (s, []) ibuf =
        some (ret, (s1, call_of (((iobuf_dataptr ibuf).drop 4).take
          (ntohl (iobuf_dataptr ibuf) 0)) (ntohl (iobuf_dataptr ibuf) 0) :: log), ibuf1)) ∧
      (ntohl (iobuf_dataptr ibuf) 0 + 4 = iobuf_datalen ibuf →
        (handler s (((iobuf_dataptr ibuf).drop 4).take (ntohl (iobuf_dataptr ibuf) 0))
          (ntohl (iobuf_dataptr ibuf) 0)).1 = 0 →
        commands_parse (traced cmd_handlers) (s, []) ibuf =
          some (0, ((handler s (((iobuf_dataptr ibuf).drop 4).take
              (ntohl (iobuf_dataptr ibuf) 0)) (ntohl (iobuf_dataptr ibuf) 0)).2,
            [call_of (((iobuf_dataptr ibuf).drop 4).take (ntohl (iobuf_dataptr ibuf) 0))
              (ntohl (iobuf_dataptr ibuf) 0)]),
            iobuf_consume ibuf (iobuf_datalen ibuf)))) := by
  have havail : iobuf_datalen ibuf < 4294967296 := by omega
  refine ⟨?_, ?_, ?_⟩
  · intro h5
    have := commands_parse_loop_wait (traced cmd_handlers) (iobuf_dataptr ibuf)
      (iobuf_datalen ibuf) (iobuf_datalen ibuf) (s, []) havail (Or.inl h5)
    simp only [commands_parse, this, gt_iff_lt, lt_self_iff_false, if_false]
  · intro _ hpos hmax hmiss
    have := commands_parse_loop_wait (traced cmd_handlers) (iobuf_dataptr ibuf)
      (iobuf_datalen ibuf) (iobuf_datalen ibuf) (s, []) havail (Or.inr ⟨hpos, hmax, hmiss⟩)
    simp only [commands_parse, this, gt_iff_lt, lt_self_iff_false, if_false]
  · intro h6 hpos hmax hfull hcmd hmin handler hh
    have hh1 : traced cmd_handlers (peek (iobuf_dataptr ibuf) (0 + 4)) = some (fun st msg len =>
        let r := handler st.1 msg len
        (r.1, (r.2, st.2 ++ [call_of msg len]))) := by
      simp only [traced, Nat.zero_add, hh]
    have hd := commands_parse_loop_dispatch (traced cmd_handlers) (iobuf_dataptr ibuf)
      (iobuf_datalen ibuf) (iobuf_datalen ibuf) 0 (s, []) _ havail hpos hmax
      (by omega) (by omega) (by simpa using hcmd) (by simpa using hmin) hh1
    simp only [Nat.zero_add, List.nil_append] at hd
    constructor
    · by_cases hr : (handler s (((iobuf_dataptr ibuf).drop 4).take
          (ntohl (iobuf_dataptr ibuf) 0)) (ntohl (iobuf_dataptr ibuf) 0)).1 ≠ 0
      · rw [if_pos hr] at hd
        refine ⟨-1, (handler s (((iobuf_dataptr ibuf).drop 4).take
          (ntohl (iobuf_dataptr ibuf) 0)) (ntohl (iobuf_dataptr ibuf) 0)).2, [], ibuf, ?_⟩
        simp only [commands_parse, hd]
      · rw [if_neg hr] at hd
        obtain ⟨r, hr1⟩ := commands_parse_loop_total (traced cmd_handlers) (iobuf_dataptr ibuf)
          (iobuf_datalen ibuf) hsize (iobuf_datalen ibuf) (4 + ntohl (iobuf_dataptr ibuf) 0)
          ((handler s (((iobuf_dataptr ibuf).drop 4).take (ntohl (iobuf_dataptr ibuf) 0))
              (ntohl (iobuf_dataptr ibuf) 0)).2,
            [call_of (((iobuf_dataptr ibuf).drop 4).take (ntohl (iobuf_dataptr ibuf) 0))
              (ntohl (iobuf_dataptr ibuf) 0)])
          (by omega) (by omega)
        obtain ⟨l, hl⟩ := commands_parse_loop_log _ _ _ _ _ _ _ hr1
        rw [hr1] at hd
        obtain ⟨⟨s1, log1⟩, o⟩ := r
        simp only at hl
        subst hl
        simp only [commands_parse, hd]
        cases o with
        | none => exact ⟨_, _, _, _, rfl⟩
        | some off => exact ⟨_, _, _, _, rfl⟩
    · intro hall hret
      rw [if_neg (by rw [hret]; simp)] at hd
      generalize ((handler s (((iobuf_dataptr ibuf).drop 4).take (ntohl (iobuf_dataptr ibuf) 0))
          (ntohl (iobuf_dataptr ibuf) 0)).2,
        [call_of (((iobuf_dataptr ibuf).drop 4).take (ntohl (iobuf_dataptr ibuf) 0))
          (ntohl (iobuf_dataptr ibuf) 0)]) = st1 at hd ⊢
      have hend : ∀ f, commands_parse_loop (traced cmd_handlers) (iobuf_dataptr ibuf)
          (iobuf_datalen ibuf) (f + 1) (4 + ntohl (iobuf_dataptr ibuf) 0) st1 =
          some (st1, some (4 + ntohl (iobuf_dataptr ibuf) 0)) := by
        intro f
        have h5 : ¬ u32 (4 + ntohl (iobuf_dataptr ibuf) 0 + 5) < iobuf_datalen ibuf := by
          simp only [u32]; omega
        simp only [commands_parse_loop, h5, if_false]
      have hfuel : iobuf_datalen ibuf = (iobuf_datalen ibuf - 1) + 1 := by omega
      have hend1 := hend (iobuf_datalen ibuf - 1)
      rw [← hfuel] at hend1
      rw [hend1] at hd
      have hoff : 4 + ntohl (iobuf_dataptr ibuf) 0 > 0 := by omega
      simp only [commands_parse, hd, hoff, if_true]
      rw [show 4 + ntohl (iobuf_dataptr ibuf) 0 = iobuf_datalen ibuf by omega]

/-- Witness of C3: the six bytes 00 00 00 02 03 00, a PING frame as the peers
send it, are dispatched and consumed. -/
theorem C3_frame_completeness_rule_witness :
    commands_parse (traced null_handlers) ((), []) (iobuf_holding [0, 0, 0, 2, 3, 0]) =
      some (0, ((), [call.mk 3 0 [] 2]), iobuf_consume (iobuf_holding [0, 0, 0, 2, 3, 0]) 6) :=
  ((C3_frame_completeness_rule null_handlers () (iobuf_holding [0, 0, 0, 2, 3, 0])
    (by decide)).2.2 (by decide) (by decide) (by decide) (by decide) (by decide) (by decide)
    (fun s _ _ => (0, s)) rfl).2 (by decide) rfl

/-- C4 (the code at the failing input). The buffer holds a CLOSE frame for
tunnel 7 followed by a frame with the unknown command 9. `commands_parse` calls
the CLOSE handler, returns -1 on the second frame and leaves the buffer as it
was, CLOSE frame included; a second call on that buffer calls the CLOSE handler
for tunnel 7 again. With the handlers of the client, whose socket table is
empty, the two calls queue two CLOSE frames for tunnel 7 toward the server. -/
theorem C4_handled_frame_not_consumed_on_error :
    commands_parse (traced null_handlers) ((), [])
        (iobuf_holding [0, 0, 0, 2, 1, 7, 0, 0, 0, 2, 9, 0]) =
      some (-1, ((), [call.mk 1 7 [] 2]), iobuf_holding [0, 0, 0, 2, 1, 7, 0, 0, 0, 2, 9, 0]) ∧
    commands_parse (traced null_handlers) ((), [call.mk 1 7 [] 2])
        (iobuf_holding [0, 0, 0, 2, 1, 7, 0, 0, 0, 2, 9, 0]) =
      some (-1, ((), [call.mk 1 7 [] 2, call.mk 1 7 [] 2]),
        iobuf_holding [0, 0, 0, 2, 1, 7, 0, 0, 0, 2, 9, 0]) ∧
    ((commands_parse
        (client.cmd_handlers
          (client.env_t.mk 0 (fun _ => true) write_outcome.pending true none none (fun _ => 0)))
        client.init (iobuf_holding [0, 0, 0, 2, 1, 7, 0, 0, 0, 2, 9, 0])).bind
      (fun r => commands_parse
        (client.cmd_handlers
          (client.env_t.mk 0 (fun _ => true) write_outcome.pending true none none (fun _ => 0)))
        r.2.1 r.2.2)).map (fun r => (r.1, iobuf_bytes r.2.1.vc.obuf, r.2.2)) =
      some (-1, [0, 0, 0, 2, 1, 7, 0, 0, 0, 2, 1, 7],
        iobuf_holding [0, 0, 0, 2, 1, 7, 0, 0, 0, 2, 9, 0]) := by
  refine ⟨?_, ?_, ?_⟩ <;> decide

/-- The parser always returns: the fuel given by `commands_parse` is enough. -/
theorem commands_parse_total {σ : Type} (cmd_handlers : Nat → Option (cmdhandler_t σ)) (s : σ)
    (ibuf : iobuf) (hsize : iobuf_datalen ibuf + RDP2TCP_MAX_MSGLEN + 4 < 4294967296) :
    ∃ r, commands_parse cmd_handlers s ibuf = some r := by
  obtain ⟨r, hr⟩ := commands_parse_loop_total cmd_handlers (iobuf_dataptr ibuf)
    (iobuf_datalen ibuf) hsize (iobuf_datalen ibuf + 1) 0 s (Nat.zero_le _) (by omega)
  obtain ⟨s1, o⟩ := r
  simp only [commands_parse, hr]
  cases o with
  | none => exact ⟨_, rfl⟩
  | some off => exact ⟨_, rfl⟩

/-! ## Theorems: the I/O buffer and the channel writer of the server -/

theorem iobuf_bytes_eq (b : iobuf) : iobuf_bytes b = b.data.take b.size := by
  unfold iobuf_bytes iobuf_dataptr iobuf_datalen
  split
  · rfl
  · rename_i h
    simp only [ne_eq, Decidable.not_not] at h
    simp [h]

theorem memcpy_length (block : List Nat) (dst : Nat) (src : List Nat)
    (h : dst + src.length ≤ block.length) : (memcpy block dst src).length = block.length := by
  simp only [memcpy, List.length_append, List.length_take, List.length_drop]
  omega

theorem memcpy_take (block : List Nat) (dst : Nat) (src : List Nat)
    (h : dst + src.length ≤ block.length) :
    (memcpy block dst src).take (dst + src.length) = block.take dst ++ src := by
  have hl : (block.take dst ++ src).length = dst + src.length := by
    simp only [List.length_append, List.length_take]; omega
  simp only [memcpy]
  rw [← hl, List.take_left']
  rfl

theorem iobuf_store_spec (b : iobuf) (off : Nat) (src : List Nat)
    (hv : b.data.length = b.total) (h : b.size + off + src.length ≤ b.total) :
    (iobuf_store b off src).size = b.size ∧ (iobuf_store b off src).total = b.total ∧
    (iobuf_store b off src).data.length = b.total ∧
    (iobuf_store b off src).data.take (b.size + off + src.length) =
      b.data.take (b.size + off) ++ src := by
  refine ⟨rfl, rfl, ?_, ?_⟩
  · simp only [iobuf_store]
    rw [memcpy_length _ _ _ (by omega), hv]
  · simp only [iobuf_store]
    exact memcpy_take _ _ _ (by omega)

theorem iobuf_reserve_spec (mem : Bool) (b b1 : iobuf) (n r : Nat) (hv : valid_iobuf b)
    (hn : 0 < n) (hb : b.size + n < 4294967296) (h : iobuf_reserve mem b n = some (b1, r)) :
    b1.size = b.size ∧ b1.data.length = b1.total ∧ b.size + n ≤ b1.total ∧
    b1.data.take b.size = b.data.take b.size := by
  obtain ⟨hv1, hv2⟩ := hv
  have hn0 : ¬ n = 0 := by omega
  simp only [iobuf_reserve, hn0, if_false] at h
  split at h
  · rename_i hgt
    split at h
    · simp only [Option.some.injEq, Prod.mk.injEq] at h
      obtain ⟨h1, _⟩ := h
      subst h1
      have hu : u32 (b.size + n) = b.size + n := u32_of_lt hb
      simp only [hu, realloc]
      refine ⟨trivial, ?_, le_refl _, ?_⟩
      · simp only [List.length_append, List.length_take, List.length_replicate]; omega
      · rw [List.take_append_of_le_length (by simp only [List.length_take]; omega),
          List.take_take]
        congr 1
        omega
    · cases h
  · rename_i hle
    simp only [Option.some.injEq, Prod.mk.injEq] at h
    obtain ⟨h1, _⟩ := h
    subst h1
    exact ⟨rfl, hv2, by omega, rfl⟩

theorem iobuf_consume_spec (b : iobuf) (n : Nat) (hv : valid_iobuf b) :
    valid_iobuf (iobuf_consume b n) ∧
    (iobuf_bytes b).take n ++ iobuf_bytes (iobuf_consume b n) = iobuf_bytes b := by
  obtain ⟨hv1, hv2⟩ := hv
  by_cases hz : b.size - n = 0
  · have hc : iobuf_consume b n = { b with size := 0 } := by
      simp only [iobuf_consume, hz, ne_eq, not_true_eq_false, if_false]
    rw [hc]
    refine ⟨⟨Nat.zero_le _, hv2⟩, ?_⟩
    simp only [iobuf_bytes_eq, List.take_zero, List.append_nil, List.take_take]
    congr 1
    omega
  · have hc : iobuf_consume b n =
        { b with size := b.size - n, data := memmove b.data 0 n (b.size - n) } := by
      simp only [iobuf_consume, hz, ne_eq, not_false_eq_true, if_true]
    have hlen : ((b.data.drop n).take (b.size - n)).length = b.size - n := by
      simp only [List.length_take, List.length_drop]; omega
    rw [hc]
    refine ⟨⟨?_, ?_⟩, ?_⟩
    · show b.size - n ≤ b.total
      omega
    · show (memmove b.data 0 n (b.size - n)).length = b.total
      simp only [memmove]
      rw [memcpy_length _ _ _ (by rw [hlen]; omega), hv2]
    · simp only [iobuf_bytes_eq, memmove]
      have := memcpy_take b.data 0 ((b.data.drop n).take (b.size - n)) (by rw [hlen]; omega)
      rw [hlen] at this
      simp only [Nat.zero_add, List.take_zero, List.nil_append] at this
      rw [this, List.take_take, ← List.drop_take]
      have hmin : min n b.size = n := by omega
      rw [hmin]
      have h2 : List.take n b.data = List.take n (List.take b.size b.data) := by
        rw [List.take_take, hmin]
      rw [h2, List.take_append_drop]

theorem aio_write_spec (os : server.write_os) (wio : server.aio_t) (hv : valid_iobuf wio.buf) :
    valid_iobuf (server.aio_write os wio).2.1.buf ∧
    (server.aio_write os wio).2.2 ++ iobuf_bytes (server.aio_write os wio).2.1.buf =
      iobuf_bytes wio.buf := by
  have second : ∀ (wio1 : server.aio_t) (sent1 : List Nat), valid_iobuf wio1.buf →
      sent1 ++ iobuf_bytes wio1.buf = iobuf_bytes wio.buf →
      valid_iobuf (match (some (wio1, sent1) : Option (server.aio_t × List Nat)) with
        | none => ((-1 : Int), { wio with pending := false }, ([] : List Nat))
        | some (wio1, sent1) =>
          if iobuf_datalen wio1.buf = 0 then (0, wio1, sent1)
          else
            match os.write_file with
            | server.write_file_result.done w =>
              if w = 0 then (-1, wio1, sent1)
              else (0, { wio1 with buf := iobuf_consume wio1.buf w },
                    sent1 ++ (iobuf_bytes wio1.buf).take w)
            | server.write_file_result.io_pending => (0, { wio1 with pending := true }, sent1)
            | server.write_file_result.broken_pipe => (0, wio1, sent1)
            | server.write_file_result.invalid_function => (-1, wio1, sent1)
            | server.write_file_result.failure => (-1, wio1, sent1)).2.1.buf ∧
      (match (some (wio1, sent1) : Option (server.aio_t × List Nat)) with
        | none => ((-1 : Int), { wio with pending := false }, ([] : List Nat))
        | some (wio1, sent1) =>
          if iobuf_datalen wio1.buf = 0 then (0, wio1, sent1)
          else
            match os.write_file with
            | server.write_file_result.done w =>
              if w = 0 then (-1, wio1, sent1)
              else (0, { wio1 with buf := iobuf_consume wio1.buf w },
                    sent1 ++ (iobuf_bytes wio1.buf).take w)
            | server.write_file_result.io_pending => (0, { wio1 with pending := true }, sent1)
            | server.write_file_result.broken_pipe => (0, wio1, sent1)
            | server.write_file_result.invalid_function => (-1, wio1, sent1)
            | server.write_file_result.failure => (-1, wio1, sent1)).2.2 ++
        iobuf_bytes (match (some (wio1, sent1) : Option (server.aio_t × List Nat)) with
        | none => ((-1 : Int), { wio with pending := false }, ([] : List Nat))
        | some (wio1, sent1) =>
          if iobuf_datalen wio1.buf = 0 then (0, wio1, sent1)
          else
            match os.write_file with
            | server.write_file_result.done w =>
              if w = 0 then (-1, wio1, sent1)
              else (0, { wio1 with buf := iobuf_consume wio1.buf w },
                    sent1 ++ (iobuf_bytes wio1.buf).take w)
            | server.write_file_result.io_pending => (0, { wio1 with pending := true }, sent1)
            | server.write_file_result.broken_pipe => (0, wio1, sent1)
            | server.write_file_result.invalid_function => (-1, wio1, sent1)
            | server.write_file_result.failure => (-1, wio1, sent1)).2.1.buf =
        iobuf_bytes wio.buf := by
    intro wio1 sent1 hv1 hs
    simp only
    split
    · exact ⟨hv1, hs⟩
    · cases os.write_file with
      | done w =>
        simp only
        split
        · exact ⟨hv1, hs⟩
        · obtain ⟨hc1, hc2⟩ := iobuf_consume_spec wio1.buf w hv1
          refine ⟨hc1, ?_⟩
          simp only [List.append_assoc, hc2, hs]
      | io_pending => exact ⟨hv1, hs⟩
      | broken_pipe => exact ⟨hv1, hs⟩
      | invalid_function => exact ⟨hv1, hs⟩
      | failure => exact ⟨hv1, hs⟩
  unfold server.aio_write
  by_cases hp : wio.pending = true
  · cases ho : os.overlapped with
    | none =>
      simp only [hp, ho, if_true]
      exact ⟨hv, by simp⟩
    | some len =>
      simp only [hp, ho, if_true]
      obtain ⟨hc1, hc2⟩ := iobuf_consume_spec wio.buf len hv
      exact second { wio with pending := false, buf := iobuf_consume wio.buf len }
        ((iobuf_bytes wio.buf).take len) hc1 hc2
  · simp only [hp, if_false]
    exact second wio [] hv (by simp)

theorem channel_write_event_spec (os : server.write_os) (vc : server.vchannel_t)
    (hv : valid_iobuf vc.wio.buf) :
    valid_iobuf (server.channel_write_event os vc).2.1.wio.buf ∧
    (server.channel_write_event os vc).2.2 ++
      iobuf_bytes (server.channel_write_event os vc).2.1.wio.buf = iobuf_bytes vc.wio.buf := by
  have h := aio_write_spec os vc.wio hv
  simp only [server.channel_write_event]
  split <;> exact h

/-- The buffer after the stores and the commit of `channel_write`. -/
theorem channel_write_buffer (b1 : iobuf) (cmd tid : Nat) (data : List Nat)
    (hlen : b1.data.length = b1.total) (hroom : b1.size + (data.length + 6) ≤ b1.total)
    (hb : b1.size + data.length + 6 < 4294967296) :
    valid_iobuf (iobuf_commit (iobuf_store (iobuf_store (iobuf_store (iobuf_store b1 0
      (htonl (u32 (data.length + 2)))) 4 [cmd]) 5 [tid]) 6 data) (u32 (data.length + 6))) ∧
    iobuf_bytes (iobuf_commit (iobuf_store (iobuf_store (iobuf_store (iobuf_store b1 0
      (htonl (u32 (data.length + 2)))) 4 [cmd]) 5 [tid]) 6 data) (u32 (data.length + 6))) =
      b1.data.take b1.size ++ frame_bytes ⟨cmd, tid, data⟩ := by
  have hu2 : u32 (data.length + 2) = data.length + 2 := u32_of_lt (by omega)
  have hu6 : u32 (data.length + 6) = data.length + 6 := u32_of_lt (by omega)
  have h4 : (htonl (data.length + 2)).length = 4 := rfl
  rw [hu2, hu6]
  obtain ⟨a1, a2, a3, a4⟩ := iobuf_store_spec b1 0 (htonl (data.length + 2)) hlen
    (by rw [h4]; omega)
  generalize iobuf_store b1 0 (htonl (data.length + 2)) = b2 at a1 a2 a3 a4 ⊢
  obtain ⟨c1, c2, c3, c4⟩ := iobuf_store_spec b2 4 [cmd] (by rw [a3, a2])
    (by simp only [List.length_singleton]; omega)
  generalize iobuf_store b2 4 [cmd] = b3 at c1 c2 c3 c4 ⊢
  obtain ⟨d1, d2, d3, d4⟩ := iobuf_store_spec b3 5 [tid] (by rw [c3, c2])
    (by simp only [List.length_singleton]; omega)
  generalize iobuf_store b3 5 [tid] = b4 at d1 d2 d3 d4 ⊢
  obtain ⟨e1, e2, e3, e4⟩ := iobuf_store_spec b4 6 data (by rw [d3, d2]) (by omega)
  generalize iobuf_store b4 6 data = b5 at e1 e2 e3 e4 ⊢
  have hsz : u32 (b5.size + (data.length + 6)) = b1.size + data.length + 6 := by
    rw [u32_of_lt (by omega)]; omega
  refine ⟨⟨?_, ?_⟩, ?_⟩
  · show u32 (b5.size + (data.length + 6)) ≤ b5.total
    rw [hsz]; omega
  · show b5.data.length = b5.total
    rw [e3, e2]
  · rw [iobuf_bytes_eq]
    show b5.data.take (u32 (b5.size + (data.length + 6))) = _
    rw [hsz]
    have k1 : b1.size + data.length + 6 = b4.size + 6 + data.length := by omega
    have k2 : b4.size + 6 = b3.size + 5 + [tid].length := by
      simp only [List.length_singleton]; omega
    have k3 : b3.size + 5 = b2.size + 4 + [cmd].length := by
      simp only [List.length_singleton]; omega
    have k4 : b2.size + 4 = b1.size + 0 + (htonl (data.length + 2)).length := by
      rw [h4]; omega
    rw [k1, e4, k2, d4, k3, c4, k4, a4]
    simp only [frame_bytes, Nat.add_zero, List.append_assoc, List.singleton_append,
      List.cons_append, List.nil_append]

theorem channel_write_spec (mem : Bool) (os : server.write_os) (vc : server.vchannel_t)
    (cmd tid : Nat) (data : List Nat) (hv : valid_iobuf vc.wio.buf)
    (hb : vc.wio.buf.size + data.length + 6 < 4294967296)
    (hr : (server.channel_write mem os vc cmd tid data).1 = 0) :
    valid_iobuf (server.channel_write mem os vc cmd tid data).2.1.wio.buf ∧
    (server.channel_write mem os vc cmd tid data).2.2 ++
      iobuf_bytes (server.channel_write mem os vc cmd tid data).2.1.wio.buf =
      iobuf_bytes vc.wio.buf ++ frame_bytes ⟨cmd, tid, data⟩ := by
  have hu6 : u32 (data.length + 6) = data.length + 6 := u32_of_lt (by omega)
  unfold server.channel_write at hr ⊢
  cases hres : iobuf_reserve mem vc.wio.buf (u32 (data.length + 6)) with
  | none => simp [hres] at hr
  | some p =>
    obtain ⟨b1, r⟩ := p
    rw [hu6] at hres
    obtain ⟨r1, r2, r3, r4⟩ := iobuf_reserve_spec mem vc.wio.buf b1 (data.length + 6) r hv
      (by omega) (by omega) hres
    obtain ⟨w1, w2⟩ := channel_write_buffer b1 cmd tid data r2 (by omega) (by omega)
    rw [r1, r4, ← iobuf_bytes_eq] at w2
    simp only [hu6, hres]
    rw [hu6] at w1 w2
    split
    · exact ⟨w1, by simpa using w2⟩
    · have := channel_write_event_spec os
        (server.vchannel_t.mk vc.connected vc.rio
          (server.aio_t.mk _ vc.wio.min_io_size vc.wio.pending))
        (show valid_iobuf (server.vchannel_t.mk vc.connected vc.rio
          (server.aio_t.mk _ vc.wio.min_io_size vc.wio.pending)).wio.buf from w1)
      exact ⟨this.1, this.2.trans w2⟩

theorem iobuf_bytes_length (b : iobuf) (hv : valid_iobuf b) : (iobuf_bytes b).length = b.size := by
  rw [iobuf_bytes_eq, List.length_take]
  have := hv.1
  have := hv.2
  omega

theorem frame_bytes_length (f : frame) : (frame_bytes f).length = f.payload.length + 6 := by
  simp only [frame_bytes, htonl, List.length_append, List.length_cons, List.length_nil]
  omega

theorem channel_write_all_spec (env : Nat → Bool × server.write_os) :
    ∀ (frames : List frame) (i : Nat) (vc vc1 : server.vchannel_t) (sent : List Nat),
      valid_iobuf vc.wio.buf → vc.wio.buf.size + (wire frames).length < 4294967296 →
      channel_write_all env i vc frames = some (vc1, sent) →
      valid_iobuf vc1.wio.buf ∧
      sent ++ iobuf_bytes vc1.wio.buf = iobuf_bytes vc.wio.buf ++ wire frames := by
  intro frames
  induction frames with
  | nil =>
    intro i vc vc1 sent hv _ h
    simp only [channel_write_all, Option.some.injEq, Prod.mk.injEq] at h
    obtain ⟨h1, h2⟩ := h
    subst h1 h2
    exact ⟨hv, by simp [wire]⟩
  | cons f fs ih =>
    intro i vc vc1 sent hv hb h
    simp only [wire, List.length_append, frame_bytes_length] at hb
    simp only [channel_write_all] at h
    split at h
    · cases h
    · rename_i hr
      simp only [ne_eq, Decidable.not_not] at hr
      obtain ⟨w1, w2⟩ := channel_write_spec (env i).1 (env i).2 vc f.cmd f.tid f.payload hv
        (by omega) hr
      have hlen := congrArg List.length w2
      simp only [List.length_append, iobuf_bytes_length _ w1, iobuf_bytes_length _ hv,
        frame_bytes_length] at hlen
      split at h
      · cases h
      · rename_i vc2 sent2 hrest
        simp only [Option.some.injEq, Prod.mk.injEq] at h
        obtain ⟨h1, h2⟩ := h
        subst h1 h2
        obtain ⟨v1, v2⟩ := ih (i + 1) _ vc2 sent2 w1 (by omega) hrest
        refine ⟨v1, ?_⟩
        rw [List.append_assoc, v2, ← List.append_assoc, w2]
        simp only [wire, List.append_assoc]

theorem ntohl_htonl (data : List Nat) (off n : Nat) (t : List Nat)
    (h : data.drop off = htonl n ++ t) (hn : n < 4294967296) : ntohl data off = n := by
  simp only [ntohl, h, htonl, List.cons_append, List.nil_append]
  omega

/-- The invocation that the handler of a frame is expected to see. -/
theorem call_of_frame (f : frame) :
    call_of (f.cmd :: f.tid :: f.payload) (f.payload.length + 2) =
      call.mk f.cmd f.tid f.payload (f.payload.length + 2) := rfl

theorem commands_parse_loop_wire {σ : Type} (cmd_handlers : Nat → Option (cmdhandler_t σ))
    (hH : ∀ cmd, cmd < 6 → ∃ handler, cmd_handlers cmd = some handler ∧
      ∀ s msg len, (handler s msg len).1 = 0)
    (data : List Nat) (avail : Nat) (havail : avail + 5 < 4294967296) :
    ∀ (frames : List frame),
      (∀ f ∈ frames, f.cmd < 6 ∧ r2t_min_size f.cmd ≤ f.payload.length + 2 ∧
        f.payload.length + 2 ≤ 524288) →
      ∀ (fuel off : Nat) (st : σ × List call) (rest : List Nat),
        data.drop off = wire frames ++ rest → avail = off + (wire frames).length →
        frames.length < fuel →
        ∃ s1, commands_parse_loop (traced cmd_handlers) data avail fuel off st =
          some ((s1, st.2 ++ frames.map
            (fun f => call.mk f.cmd f.tid f.payload (f.payload.length + 2))), some avail) := by
  intro frames
  induction frames with
  | nil =>
    intro _ fuel off st rest _ hav hfuel
    cases fuel with
    | zero => simp at hfuel
    | succ fuel =>
      simp only [wire, List.length_nil, Nat.add_zero] at hav
      subst hav
      have h5 : ¬ u32 (avail + 5) < avail := by simp only [u32]; omega
      refine ⟨st.1, ?_⟩
      simp only [commands_parse_loop, h5, if_false, List.map_nil, List.append_nil]
  | cons f fs ih =>
    intro hframes fuel off st rest hdrop hav hfuel
    cases fuel with
    | zero => simp at hfuel
    | succ fuel =>
      obtain ⟨hcmd, hmin, hmax⟩ := hframes f (List.mem_cons_self _ _)
      simp only [wire, List.length_append, frame_bytes_length] at hav
      have hdrop1 : data.drop off = htonl (f.payload.length + 2) ++
          (f.cmd :: f.tid :: (f.payload ++ (wire fs ++ rest))) := by
        rw [hdrop]
        simp only [wire, frame_bytes, List.append_assoc, List.cons_append]
      have hL : ntohl data off = f.payload.length + 2 :=
        ntohl_htonl data off _ _ hdrop1 (by omega)
      have hdrop4 : data.drop (off + 4) = f.cmd :: f.tid :: (f.payload ++ (wire fs ++ rest)) := by
        have : data.drop (off + 4) = (data.drop off).drop 4 := by
          rw [List.drop_drop]
        rw [this, hdrop1]
        rfl
      have hpeek : peek data (off + 4) = f.cmd := by simp only [peek, hdrop4, List.headD_cons]
      have hmsg : (data.drop (off + 4)).take (f.payload.length + 2) =
          f.cmd :: f.tid :: f.payload := by
        rw [hdrop4]
        simp only [List.take_succ_cons, List.cons.injEq, true_and]
        exact List.take_left' rfl
      obtain ⟨handler, hh, hzero⟩ := hH f.cmd hcmd
      have hh1 : traced cmd_handlers (peek data (off + 4)) = some (fun st msg len =>
          let r := handler st.1 msg len
          (r.1, (r.2, st.2 ++ [call_of msg len]))) := by
        simp only [traced, hpeek, hh]
      have hd := commands_parse_loop_dispatch (traced cmd_handlers) data avail fuel off st _
        (by omega) (by omega) (by omega) (by omega) (by omega) (by rw [hpeek]; exact hcmd)
        (by rw [hpeek, hL]; exact hmin) hh1
      simp only [hL, hmsg, hzero, ne_eq, not_true_eq_false, if_false, call_of_frame] at hd
      have hdrop6 : data.drop (off + 4 + (f.payload.length + 2)) = wire fs ++ rest := by
        have : data.drop (off + 4 + (f.payload.length + 2)) =
            (data.drop off).drop (f.payload.length + 6) := by
          rw [List.drop_drop]; congr 1; omega
        rw [this, hdrop]
        simp only [wire, List.append_assoc]
        exact List.drop_left' (frame_bytes_length f)
      obtain ⟨s1, hs1⟩ := ih (fun g hg => hframes g (List.mem_cons_of_mem _ hg)) fuel
        (off + 4 + (f.payload.length + 2))
        ((handler st.1 (f.cmd :: f.tid :: f.payload) (f.payload.length + 2)).2,
          st.2 ++ [call.mk f.cmd f.tid f.payload (f.payload.length + 2)]) rest hdrop6
        (by omega) (by simp only [List.length_cons] at hfuel; omega)
      refine ⟨s1, ?_⟩
      rw [hd, hs1]
      simp only [List.map_cons, List.append_assoc, List.singleton_append]

theorem length_le_wire (frames : List frame) : frames.length ≤ (wire frames).length := by
  induction frames with
  | nil => simp [wire]
  | cons f fs ih =>
    simp only [wire, List.length_cons, List.length_append, frame_bytes_length]
    omega

theorem null_handlers_total : ∀ cmd, cmd < 6 → ∃ handler, null_handlers cmd = some handler ∧
    ∀ (s : Unit) (msg : List Nat) (len : Nat), (handler s msg len).1 = 0 := by
  intro cmd h
  exact ⟨fun s _ _ => (0, s), by simp only [null_handlers, R2TCMD_MAX, h, if_true],
    fun _ _ _ => rfl⟩

/-- C1. Frame round trip, in order. The server calls `channel_write` once per
frame; every frame has `cmd < 6` and a length `|payload|+2` between the minimum
of its command and 524288, and every call returns 0. Then the bytes appended to
the channel (those already transferred followed by those still buffered) are
the frames in wire format, in order; and `commands_parse`, run on an input buffer
that holds exactly the appended bytes, with every handler installed and
returning 0, returns 0, empties the buffer and invokes one handler per frame,
in the same order, with the same cmd, tid, payload and `len = |payload|+2`. -/
theorem C1_frame_round_trip {σ : Type} (env : Nat → Bool × server.write_os)
    (vc vc1 : server.vchannel_t) (sent : List Nat) (frames : List frame)
    (cmd_handlers : Nat → Option (cmdhandler_t σ)) (s : σ) (ibuf : iobuf)
    (hframes : ∀ f ∈ frames, f.cmd < 6 ∧ r2t_min_size f.cmd ≤ f.payload.length + 2 ∧
      f.payload.length + 2 ≤ 524288)
    (hv : valid_iobuf vc.wio.buf)
    (hwrite : channel_write_all env 0 vc frames = some (vc1, sent))
    (hH : ∀ cmd, cmd < 6 → ∃ handler, cmd_handlers cmd = some handler ∧
      ∀ s msg len, (handler s msg len).1 = 0)
    (hibuf : valid_iobuf ibuf)
    (happ : iobuf_bytes vc.wio.buf ++ iobuf_bytes ibuf = sent ++ iobuf_bytes vc1.wio.buf)
    (hsize : iobuf_datalen vc.wio.buf + (wire frames).length + 5 < 4294967296) :
    sent ++ iobuf_bytes vc1.wio.buf = iobuf_bytes vc.wio.buf ++ wire frames ∧
    ∃ s1 ibuf1, commands_parse (traced cmd_handlers) (s, []) ibuf =
        some (0, (s1, frames.map
          (fun f => call.mk f.cmd f.tid f.payload (f.payload.length + 2))), ibuf1) ∧
      iobuf_datalen ibuf1 = 0 := by
  simp only [iobuf_datalen] at hsize
  obtain ⟨_, hw⟩ := channel_write_all_spec env frames 0 vc vc1 sent hv (by omega) hwrite
  refine ⟨hw, ?_⟩
  have hbytes : iobuf_bytes ibuf = wire frames := by
    rw [hw] at happ
    exact List.append_cancel_left happ
  have hlen : ibuf.size = (wire frames).length := by
    rw [← hbytes, iobuf_bytes_length _ hibuf]
  have hdata : (iobuf_dataptr ibuf).drop 0 =
      wire frames ++ (iobuf_dataptr ibuf).drop (iobuf_datalen ibuf) := by
    rw [← hbytes, iobuf_bytes, List.drop_zero, List.take_append_drop]
  obtain ⟨s1, hs1⟩ := commands_parse_loop_wire cmd_handlers hH (iobuf_dataptr ibuf)
    (iobuf_datalen ibuf) (by simp only [iobuf_datalen]; omega) frames hframes
    (iobuf_datalen ibuf + 1) 0 (s, []) _ hdata (by simp only [iobuf_datalen]; omega)
    (by have := length_le_wire frames
        simp only [iobuf_datalen]; omega)
  refine ⟨s1, if iobuf_datalen ibuf > 0 then iobuf_consume ibuf (iobuf_datalen ibuf) else ibuf,
    ?_, ?_⟩
  · simp only [commands_parse, hs1, List.nil_append]
  · split
    · simp only [iobuf_datalen, iobuf_consume, Nat.sub_self]
    · omega

/-- Witness of C1: a PING frame and a DATA frame for tunnel 7 written on a fresh
channel whose first `WriteFile` accepts three bytes. -/
theorem C1_frame_round_trip_witness :
    ∃ s1 ibuf1, commands_parse (traced null_handlers) ((), [])
        (iobuf_holding [0, 0, 0, 2, 3, 0, 0, 0, 0, 5, 2, 7, 1, 2, 3]) =
        some (0, (s1, [call.mk 3 0 [] 2, call.mk 2 7 [1, 2, 3] 5]), ibuf1) ∧
      iobuf_datalen ibuf1 = 0 :=
  (C1_frame_round_trip
    (fun _ => (true, server.write_os.mk none (server.write_file_result.done 3)))
    server.channel_init
    (server.vchannel_t.mk true (server.aio_t.mk iobuf_init 1024 false)
      (server.aio_t.mk (iobuf.mk 12 12 [2, 3, 0, 0, 0, 0, 5, 2, 7, 1, 2, 3]) 0 false))
    [0, 0, 0]
    [frame.mk 3 0 [], frame.mk 2 7 [1, 2, 3]]
    null_handlers ()
    (iobuf_holding [0, 0, 0, 2, 3, 0, 0, 0, 0, 5, 2, 7, 1, 2, 3])
    (by decide) (by decide) (by decide) null_handlers_total (by decide) (by decide)
    (by decide)).2

/-! ## Theorems: the identifier allocator of the client -/

theorem tunnel_lookup_none_iff (l : List client.netsock_t) (tid : Nat) :
    client.tunnel_lookup l tid = none ↔ ∀ ns ∈ l, ns.tid ≠ tid := by
  induction l with
  | nil => simp [client.tunnel_lookup]
  | cons a t ih =>
    simp only [client.tunnel_lookup, List.mem_cons, forall_eq_or_imp]
    by_cases h : a.tid = tid
    · simp [h]
    · simp only [h, if_false, ne_eq, not_false_eq_true, true_and]
      rw [← ih]
      cases client.tunnel_lookup t tid <;> simp

/-- The loop of `tunnel_generate_id` ends before 256 units of fuel are used. -/
theorem tunnel_generate_id_loop_fuel (l : List client.netsock_t) (last_tid : Nat)
    (hlast : last_tid < 256) :
    ∀ (n fuel tid : Nat), tid < 256 → (last_tid + 256 - tid) % 256 = n → n < fuel →
      client.tunnel_generate_id_loop l last_tid fuel tid ≠ none := by
  intro n
  induction n with
  | zero =>
    intro fuel tid htid hd hfuel
    cases fuel with
    | zero => omega
    | succ fuel =>
      have : tid = last_tid := by omega
      simp [client.tunnel_generate_id_loop, this]
  | succ n ih =>
    intro fuel tid htid hd hfuel
    cases fuel with
    | zero => omega
    | succ fuel =>
      simp only [client.tunnel_generate_id_loop]
      split
      · split
        · simp
        · apply ih
          · simp only [u8]; omega
          · simp only [u8]; omega
          · omega
      · simp

/-- The loop of `tunnel_generate_id` never runs out of the fuel it is given. -/
theorem tunnel_generate_id_total (g : client.globals) (hlast : g.last_tid < 256) :
    client.tunnel_generate_id_loop g.all_sockets g.last_tid 256 (u8 (g.last_tid + 1)) ≠ none :=
  tunnel_generate_id_loop_fuel g.all_sockets g.last_tid hlast _ 256 (u8 (g.last_tid + 1))
    (by simp only [u8]; omega) rfl (by omega)

/-- When every id from `tid` up to the cursor is held, the loop ends without an id. -/
theorem tunnel_generate_id_loop_held (l : List client.netsock_t) (last_tid : Nat)
    (hlast : last_tid < 256) :
    ∀ (n fuel tid : Nat), tid + n = last_tid → n < fuel →
      (∀ t, tid ≤ t → t < last_tid → client.tunnel_lookup l t ≠ none) →
      client.tunnel_generate_id_loop l last_tid fuel tid = some none := by
  intro n
  induction n with
  | zero =>
    intro fuel tid hd hfuel _
    cases fuel with
    | zero => omega
    | succ fuel =>
      have : tid = last_tid := by omega
      simp [client.tunnel_generate_id_loop, this]
  | succ n ih =>
    intro fuel tid hd hfuel hheld
    cases fuel with
    | zero => omega
    | succ fuel =>
      have hne : tid ≠ last_tid := by omega
      have hh := hheld tid (le_refl _) (by omega)
      have hu : u8 (tid + 1) = tid + 1 := by simp only [u8]; omega
      simp only [client.tunnel_generate_id_loop, hne, ne_eq, not_false_eq_true, if_true, hh,
        if_false, hu]
      exact ih fuel (tid + 1) (by omega) (by omega) (fun t h1 h2 => hheld t (by omega) h2)

/-- The id after the cursor is returned at once when it is free. -/
theorem tunnel_generate_id_first (g : client.globals) (k : Nat)
    (hk : u8 (g.last_tid + 1) = k) (hne : k ≠ g.last_tid)
    (hfree : ∀ ns ∈ g.all_sockets, ns.tid ≠ k) :
    client.tunnel_generate_id g = (k, { g with last_tid := k }) := by
  have hl := (tunnel_lookup_none_iff g.all_sockets k).2 hfree
  unfold client.tunnel_generate_id
  rw [show (256 : Nat) = 255 + 1 from rfl, client.tunnel_generate_id_loop]
  simp only [hk, hne, ne_eq, not_false_eq_true, if_true, hl]

set_option maxRecDepth 100000 in
/-- C5 (the code at the failing input). The cursor is 5 and the table holds
every id of 0..255 except 5 (254 tunnels and a listener with the tid 0xff):
id 5 is free, yet `tunnel_generate_id` returns 0xff and leaves the cursor at 5.
The loop `for (tid = last_tid+1; tid != last_tid; ++tid)` never probes the
cursor value itself. -/
theorem C5_generate_id_misses_cursor_id :
    client.tunnel_lookup (client.table_without 5) 5 = none ∧
    client.tunnel_generate_id (client.globals.mk (client.table_without 5) 5 client.channel_init) =
      (0xff, client.globals.mk (client.table_without 5) 5 client.channel_init) := by
  constructor <;> decide

/-- From a state in which the ids below `k` are the only ones of 0..254 in use
and the cursor is at `k - 1` (0xff when `k = 0`), the next `j` calls return
`k, k+1, ..., k+j-1`. -/
theorem generate_ids_range (mk : Nat → client.netsock_t) (hmk : ∀ t, (mk t).tid = t) :
    ∀ (j k : Nat) (g : client.globals), k + j ≤ 255 → g.last_tid = u8 (k + 255) →
      (∀ ns ∈ g.all_sockets, ns.tid < 255 → ns.tid < k) →
      (∀ t, t < k → ∃ ns ∈ g.all_sockets, ns.tid = t) →
      (client.generate_ids mk j g).1 = List.range' k j ∧
      (client.generate_ids mk j g).2.last_tid = u8 (k + j + 255) ∧
      (∀ t, t < k + j → ∃ ns ∈ (client.generate_ids mk j g).2.all_sockets, ns.tid = t) := by
  intro j
  induction j with
  | zero =>
    intro k g _ hlast _ hheld
    exact ⟨rfl, hlast, hheld⟩
  | succ j ih =>
    intro k g hk hlast hfree hheld
    have hfirst := tunnel_generate_id_first g k (by rw [hlast]; simp only [u8]; omega)
      (by rw [hlast]; simp only [u8]; omega)
      (fun ns hns heq => by have := hfree ns hns (by omega); omega)
    simp only [client.generate_ids, hfirst]
    obtain ⟨h1, h2, h3⟩ := ih (k + 1)
      { all_sockets := g.all_sockets ++ [mk k], last_tid := k, vc := g.vc } (by omega)
      (by simp only [u8]; omega)
      (by
        intro ns hns hlt
        rcases List.mem_append.1 hns with h | h
        · have := hfree ns h hlt; omega
        · simp only [List.mem_singleton] at h
          rw [h, hmk]; omega)
      (by
        intro t ht
        by_cases htk : t < k
        · obtain ⟨ns, hns, e⟩ := hheld t htk
          exact ⟨ns, List.mem_append_left _ hns, e⟩
        · exact ⟨mk k, by simp, by rw [hmk]; omega⟩)
    refine ⟨?_, ?_, ?_⟩
    · rw [h1]; rfl
    · rw [h2]; congr 1; omega
    · intro t ht
      exact h3 t (by omega)

/-- With the cursor at 254 and every id of 0..254 in use no id is returned. -/
theorem tunnel_generate_id_full (g : client.globals) (hlast : g.last_tid = 254)
    (hheld : ∀ t, t < 255 → ∃ ns ∈ g.all_sockets, ns.tid = t) :
    (client.tunnel_generate_id g).1 = 0xff := by
  have hl : ∀ t, t < 255 → client.tunnel_lookup g.all_sockets t ≠ none := by
    intro t ht hnone
    obtain ⟨ns, hns, e⟩ := hheld t ht
    exact (tunnel_lookup_none_iff _ _).1 hnone ns hns e
  unfold client.tunnel_generate_id
  rw [show (256 : Nat) = 255 + 1 from rfl, client.tunnel_generate_id_loop, hlast]
  have h255 : u8 (254 + 1) = 255 := rfl
  have h0 : u8 (255 + 1) = 0 := rfl
  simp only [h255, h0, ne_eq, Nat.reduceEqDiff, not_false_eq_true, if_true]
  have hloop := tunnel_generate_id_loop_held g.all_sockets 254 (by omega) 254 255 0 (by omega)
    (by omega) (fun t _ h2 => hl t (by omega))
  by_cases h : client.tunnel_lookup g.all_sockets 255 = none
  · simp only [h, if_true]
  · simp only [h, if_false, hloop]

/-- C6. Starting with the cursor at 0xff and a table holding no id of 0..254,
255 successive calls of `tunnel_generate_id`, each returned id being recorded
in the table before the next call, return 0, 1, ..., 254 in that order, and the
following call returns 0xff. -/
theorem C6_allocator_enumerates_id_space (mk : Nat → client.netsock_t) (g : client.globals)
    (hmk : ∀ t, (mk t).tid = t) (hcursor : g.last_tid = 0xff)
    (hfree : ∀ ns ∈ g.all_sockets, ¬ ns.tid < 255) :
    (client.generate_ids mk 255 g).1 = List.range 255 ∧
    (client.tunnel_generate_id (client.generate_ids mk 255 g).2).1 = 0xff := by
  obtain ⟨h1, h2, h3⟩ := generate_ids_range mk hmk 255 0 g (by omega) (by rw [hcursor]; rfl)
    (fun ns hns hlt => absurd hlt (hfree ns hns)) (fun t ht => by omega)
  refine ⟨?_, tunnel_generate_id_full _ (by rw [h2]; rfl) (fun t ht => h3 t (by omega))⟩
  rw [h1, List.range_eq_range']

/-- Witness of C6: the initial variables of the client, each id recorded by a
fresh record. -/
theorem C6_allocator_enumerates_id_space_witness :
    (client.generate_ids (fun t => { client.netsock_new 3 with tid := t }) 255 client.init).1 =
      List.range 255 ∧
    (client.tunnel_generate_id
      (client.generate_ids (fun t => { client.netsock_new 3 with tid := t }) 255
        client.init).2).1 = 0xff :=
  C6_allocator_enumerates_id_space (fun t => { client.netsock_new 3 with tid := t }) client.init
    (fun _ => rfl) rfl (fun _ h => by simp [client.init] at h)

/-! ## Theorems: liveness of the channel on the client -/

/-- C8. `channel_is_connected` returns 1 exactly when the last-activity timestamp
is not 0 and `now - ts < ping_delay + 4`, and 0 otherwise; `ping_delay + 4` is 9
seconds, so a channel that has seen activity is still connected 8 seconds after
it and disconnected from 9 seconds of silence on. -/
theorem C8_channel_is_connected (now : Int) (vc : client.vchannel_t) :
    ((client.channel_is_connected now vc).1 = 1 ↔
      (vc.ts ≠ 0 ∧ now - vc.ts < RDP2TCP_PING_DELAY + 4)) ∧
    ((client.channel_is_connected now vc).1 = 0 ↔
      ¬ (vc.ts ≠ 0 ∧ now - vc.ts < RDP2TCP_PING_DELAY + 4)) ∧
    RDP2TCP_PING_DELAY + 4 = 9 ∧
    (vc.ts ≠ 0 → (client.channel_is_connected (vc.ts + 8) vc).1 = 1 ∧
      ∀ d : Int, 9 ≤ d → (client.channel_is_connected (vc.ts + d) vc).1 = 0) := by
  have key : ∀ n : Int, (vc.ts ≠ 0 ∧ vc.ts + RDP2TCP_PING_DELAY + 4 > n) ↔
      (vc.ts ≠ 0 ∧ n - vc.ts < RDP2TCP_PING_DELAY + 4) := by
    intro n
    simp only [RDP2TCP_PING_DELAY]
    constructor <;> rintro ⟨h1, h2⟩ <;> exact ⟨h1, by omega⟩
  refine ⟨?_, ?_, rfl, ?_⟩
  · simp only [client.channel_is_connected]
    rw [← key]
    split <;> simp_all
  · simp only [client.channel_is_connected]
    rw [← key]
    split <;> simp_all
  · intro hts
    refine ⟨?_, ?_⟩
    · simp only [client.channel_is_connected, RDP2TCP_PING_DELAY]
      rw [if_pos ⟨hts, by omega⟩]
    · intro d hd
      simp only [client.channel_is_connected, RDP2TCP_PING_DELAY]
      rw [if_neg (by rintro ⟨_, h⟩; omega)]

/-- Witness of C8: last activity at time 100. -/
theorem C8_channel_is_connected_witness :
    (client.channel_is_connected 108 (client.vchannel_t.mk 100 1 iobuf_init iobuf_init)).1 = 1 ∧
    (client.channel_is_connected 109 (client.vchannel_t.mk 100 1 iobuf_init iobuf_init)).1 = 0 :=
  ⟨((C8_channel_is_connected 0 (client.vchannel_t.mk 100 1 iobuf_init iobuf_init)).2.2.2
      (by decide)).1,
   ((C8_channel_is_connected 0 (client.vchannel_t.mk 100 1 iobuf_init iobuf_init)).2.2.2
      (by decide)).2 9 (by decide)⟩

/-! ## Theorems: frames queued by the client -/

/-- The function `write_commit` turns the `n` bytes assembled after the place
of the length prefix into one more frame of the output buffer. -/
theorem write_commit_spec (vc : client.vchannel_t) (body : List Nat)
    (hlen : vc.obuf.data.length = vc.obuf.total)
    (hroom : vc.obuf.size + 4 + body.length ≤ vc.obuf.total)
    (hbody : (vc.obuf.data.drop (vc.obuf.size + 4)).take body.length = body)
    (hb : vc.obuf.size + 4 + body.length < 4294967296) :
    valid_iobuf (client.write_commit vc body.length).obuf ∧
    iobuf_bytes (client.write_commit vc body.length).obuf =
      vc.obuf.data.take vc.obuf.size ++ htonl body.length ++ body ∧
    (client.write_commit vc body.length).ts = vc.ts ∧
    (client.write_commit vc body.length).last_state = vc.last_state ∧
    (client.write_commit vc body.length).ibuf = vc.ibuf := by
  have h4 : (htonl body.length).length = 4 := rfl
  have hsz : u32 (vc.obuf.size + u32 (body.length + 4)) = vc.obuf.size + 4 + body.length := by
    rw [u32_of_lt (by omega : body.length + 4 < 4294967296), u32_of_lt (by omega)]; omega
  have hdata : (iobuf_store vc.obuf 0 (htonl body.length)).data =
      vc.obuf.data.take vc.obuf.size ++ (htonl body.length ++
        vc.obuf.data.drop (vc.obuf.size + 4)) := by
    simp only [iobuf_store, memcpy, Nat.add_zero, h4, List.append_assoc]
  have hl1 : (vc.obuf.data.take vc.obuf.size).length = vc.obuf.size := by
    rw [List.length_take]; omega
  refine ⟨⟨?_, ?_⟩, ?_, rfl, rfl, rfl⟩
  · show u32 (vc.obuf.size + u32 (body.length + 4)) ≤ vc.obuf.total
    rw [hsz]; exact hroom
  · show (iobuf_store vc.obuf 0 (htonl body.length)).data.length = vc.obuf.total
    rw [(iobuf_store_spec vc.obuf 0 (htonl body.length) hlen (by rw [h4]; omega)).2.2.1]
  · rw [iobuf_bytes_eq]
    show (iobuf_store vc.obuf 0 (htonl body.length)).data.take
      (u32 (vc.obuf.size + u32 (body.length + 4))) = _
    have hl2 : (vc.obuf.data.take vc.obuf.size ++ htonl body.length).length =
        vc.obuf.size + 4 := by
      rw [List.length_append, hl1, h4]
    rw [hsz, hdata, ← List.append_assoc, ← hl2, List.take_append, hl2, hbody]

/-- The bytes at the end of a block of which a prefix is known. -/
theorem drop_take_of_take_eq (l pre suf : List Nat) (n : Nat) (hn : pre.length = n)
    (h : l.take (n + suf.length) = pre ++ suf) : (l.drop n).take suf.length = suf := by
  rw [List.take_drop, h, List.drop_left' hn]

theorem take_of_take_eq (l pre suf : List Nat) (n : Nat) (hn : pre.length = n)
    (h : l.take (n + suf.length) = pre ++ suf) : l.take n = pre := by
  have : l.take n = (l.take (n + suf.length)).take n := by
    rw [List.take_take]; congr 1; omega
  rw [this, h, List.take_left' hn]

/-- The function `channel_close_tunnel` appends the frame 00 00 00 02 01 tid to
the output buffer when the reservation succeeds. -/
theorem channel_close_tunnel_spec (mem : Bool) (vc : client.vchannel_t) (tid : Nat)
    (hv : valid_iobuf vc.obuf) (hb : vc.obuf.size + 6 < 4294967296)
    (hres : iobuf_reserve mem vc.obuf 6 ≠ none) :
    valid_iobuf (client.channel_close_tunnel mem vc tid).obuf ∧
    iobuf_bytes (client.channel_close_tunnel mem vc tid).obuf =
      iobuf_bytes vc.obuf ++ [0, 0, 0, 2, 1, tid] ∧
    (client.channel_close_tunnel mem vc tid).ts = vc.ts ∧
    (client.channel_close_tunnel mem vc tid).last_state = vc.last_state ∧
    (client.channel_close_tunnel mem vc tid).ibuf = vc.ibuf := by
  cases hr : iobuf_reserve mem vc.obuf 6 with
  | none => exact absurd hr hres
  | some p =>
    obtain ⟨b1, r⟩ := p
    obtain ⟨r1, r2, r3, r4⟩ := iobuf_reserve_spec mem vc.obuf b1 6 r hv (by omega) (by omega) hr
    have hu : u32 (2 + 4) = 6 := rfl
    simp only [client.channel_close_tunnel, client.write_reserve, hu, hr]
    obtain ⟨a1, a2, a3, a4⟩ := iobuf_store_spec b1 4 [R2TCMD_CLOSE] r2
      (by simp only [List.length_singleton]; omega)
    generalize hb2 : iobuf_store b1 4 [R2TCMD_CLOSE] = b2 at a1 a2 a3 a4 ⊢
    obtain ⟨c1, c2, c3, c4⟩ := iobuf_store_spec b2 5 [tid] (by rw [a3, a2])
      (by simp only [List.length_singleton]; omega)
    generalize hb3 : iobuf_store b2 5 [tid] = b3 at c1 c2 c3 c4 ⊢
    have htake : b3.data.take (b3.size + 4 + [R2TCMD_CLOSE, tid].length) =
        b1.data.take (b1.size + 4) ++ [R2TCMD_CLOSE, tid] := by
      have e1 : b3.size + 4 + [R2TCMD_CLOSE, tid].length = b2.size + 5 + [tid].length := by
        simp only [List.length_cons, List.length_nil]; omega
      have e2 : b2.size + 5 = b1.size + 4 + [R2TCMD_CLOSE].length := by
        simp only [List.length_cons, List.length_nil]; omega
      rw [e1, c4, e2, a4]
      simp only [List.append_assoc, List.singleton_append]
    have hpl : (b1.data.take (b1.size + 4)).length = b3.size + 4 := by
      rw [List.length_take]; omega
    have hbody := drop_take_of_take_eq b3.data _ [R2TCMD_CLOSE, tid] (b3.size + 4) hpl htake
    have hpre := take_of_take_eq b3.data _ [R2TCMD_CLOSE, tid] (b3.size + 4) hpl htake
    have hpre2 : b3.data.take b3.size = b1.data.take b1.size := by
      have : b3.data.take b3.size = (b3.data.take (b3.size + 4)).take b3.size := by
        rw [List.take_take]; congr 1; omega
      rw [this, hpre, List.take_take]
      congr 1
      omega
    obtain ⟨w1, w2, w3, w4, w5⟩ := write_commit_spec
      (client.vchannel_t.mk vc.ts vc.last_state vc.ibuf b3) [R2TCMD_CLOSE, tid]
      (by show b3.data.length = b3.total; rw [c3, c2])
      (by show b3.size + 4 + 2 ≤ b3.total; omega) hbody
      (by show b3.size + 4 + 2 < 4294967296; omega)
    refine ⟨w1, Eq.trans w2 ?_, w3, w4, w5⟩
    show b3.data.take b3.size ++ htonl 2 ++ [R2TCMD_CLOSE, tid] = _
    rw [hpre2, r1, r4, iobuf_bytes_eq]
    simp [htonl, R2TCMD_CLOSE]

/-- What `check_tunnel_id` does when no record holds the tid of the message. -/
theorem check_tunnel_id_unknown (mem : Bool) (g : client.globals) (msg : List Nat)
    (hunknown : ∀ ns ∈ g.all_sockets, ns.tid ≠ peek msg 1) :
    client.check_tunnel_id mem g msg =
      (none, { g with vc := client.channel_close_tunnel mem g.vc (peek msg 1) }) := by
  have hl := (tunnel_lookup_none_iff g.all_sockets (peek msg 1)).2 hunknown
  simp only [client.check_tunnel_id, hl]

/-- C9. Unknown tid on the client. For a CONN, BIND, RCONN, CLOSE or DATA frame
whose tid is held by no record of the socket table, the handler of the client
returns 0, leaves the socket table and the allocator cursor unchanged and
appends exactly the CLOSE frame 00 00 00 02 01 tid to the channel output
buffer, provided the six bytes can be reserved in that buffer. -/
theorem C9_unknown_tid_client (e : client.env_t) (g : client.globals) (cmd : Nat)
    (handler : cmdhandler_t client.globals) (msg : List Nat) (len : Nat)
    (hcmd : cmd = R2TCMD_CONN ∨ cmd = R2TCMD_BIND ∨ cmd = R2TCMD_RCONN ∨ cmd = R2TCMD_CLOSE ∨
      cmd = R2TCMD_DATA)
    (hh : client.cmd_handlers e cmd = some handler)
    (hunknown : ∀ ns ∈ g.all_sockets, ns.tid ≠ peek msg 1)
    (hv : valid_iobuf g.vc.obuf) (hb : g.vc.obuf.size + 6 < 4294967296)
    (hres : iobuf_reserve (e.mem 0) g.vc.obuf 6 ≠ none) :
    (handler g msg len).1 = 0 ∧
    (handler g msg len).2.all_sockets = g.all_sockets ∧
    (handler g msg len).2.last_tid = g.last_tid ∧
    iobuf_bytes (handler g msg len).2.vc.obuf =
      iobuf_bytes g.vc.obuf ++ [0, 0, 0, 2, 1, peek msg 1] ∧
    (handler g msg len).2.vc.ibuf = g.vc.ibuf := by
  have hc := check_tunnel_id_unknown (e.mem 0) g msg hunknown
  have hs := channel_close_tunnel_spec (e.mem 0) g.vc (peek msg 1) hv hb hres
  have key : handler g msg len =
      (0, { g with vc := client.channel_close_tunnel (e.mem 0) g.vc (peek msg 1) }) := by
    rcases hcmd with h | h | h | h | h <;> subst h <;>
      simp only [client.cmd_handlers, R2TCMD_CONN, R2TCMD_BIND, R2TCMD_RCONN, R2TCMD_CLOSE,
        R2TCMD_DATA, Option.some.injEq] at hh <;> subst hh <;>
      simp only [client.cmd_conn, client.cmd_bind, client.cmd_rconn, client.cmd_close,
        client.cmd_data, client.check_binding_answer, hc]
  rw [key]
  exact ⟨rfl, rfl, rfl, hs.2.1, hs.2.2.2.2⟩

/-- Witness of C9: a DATA frame for tunnel 7 on the client without any socket. -/
theorem C9_unknown_tid_client_witness :
    (client.cmd_data (client.env_t.mk 0 (fun _ => true) write_outcome.pending true none none (fun _ => 0))
      client.init [2, 7, 1, 2, 3] 5).1 = 0 ∧
    iobuf_bytes (client.cmd_data
      (client.env_t.mk 0 (fun _ => true) write_outcome.pending true none none (fun _ => 0))
      client.init [2, 7, 1, 2, 3] 5).2.vc.obuf = [0, 0, 0, 2, 1, 7] :=
  have h := C9_unknown_tid_client
    (client.env_t.mk 0 (fun _ => true) write_outcome.pending true none none (fun _ => 0)) client.init 2
    (client.cmd_data (client.env_t.mk 0 (fun _ => true) write_outcome.pending true none none (fun _ => 0)))
    [2, 7, 1, 2, 3] 5 (by decide) rfl (fun _ h => by simp [client.init] at h) (by decide)
    (by decide) (by decide)
  ⟨h.1, h.2.2.2.1⟩

/-! ## Theorems: unknown tid on the server -/

theorem server_tunnel_lookup_none_iff (l : List server.tunnel_t) (id : Nat) :
    server.tunnel_lookup l id = none ↔ ∀ tun ∈ l, tun.id ≠ id := by
  induction l with
  | nil => simp [server.tunnel_lookup]
  | cons a t ih =>
    simp only [server.tunnel_lookup, List.mem_cons, forall_eq_or_imp]
    by_cases h : a.id = id
    · simp [h]
    · simp only [h, if_false, ne_eq, not_false_eq_true, true_and]
      rw [← ih]
      cases server.tunnel_lookup t id <;> simp

/-- C10 (counterexample). A server without tunnels and with an empty channel
output buffer receives a DATA frame for tunnel 7: `cmd_data` returns 0 and
leaves every variable as it was, so the output buffer is still empty and does
not hold the CLOSE frame 00 00 00 02 01 07. -/
theorem C10_server_queues_no_close :
    server.cmd_data (fun g _ _ => (0, g)) (server.globals.mk server.channel_init [])
        [2, 7, 1, 2, 3] 5 = (0, server.globals.mk server.channel_init []) ∧
    iobuf_bytes (server.cmd_data (fun g _ _ => (0, g))
        (server.globals.mk server.channel_init []) [2, 7, 1, 2, 3] 5).2.vc.wio.buf = [] ∧
    ¬ (iobuf_bytes (server.cmd_data (fun g _ _ => (0, g))
        (server.globals.mk server.channel_init []) [2, 7, 1, 2, 3] 5).2.vc.wio.buf =
      [0, 0, 0, 2, 1, 7]) := by
  refine ⟨rfl, rfl, ?_⟩
  decide

/-- C10 (amended). When the server receives a DATA frame whose tid is held by no
tunnel, `cmd_data` discards the payload, returns 0 and changes nothing: no
tunnel is written to and nothing is queued on the channel. -/
theorem C10_unknown_tid_server
    (tunnel_write : server.globals → Nat → List Nat → Int × server.globals)
    (g : server.globals) (msg : List Nat) (len : Nat)
    (hunknown : ∀ tun ∈ g.tunnels, tun.id ≠ peek msg 1) :
    server.cmd_data tunnel_write g msg len = (0, g) := by
  have hl := (server_tunnel_lookup_none_iff g.tunnels (peek msg 1)).2 hunknown
  simp only [server.cmd_data, hl]

/-- Witness of C10: a DATA frame for tunnel 7 on a server whose only tunnel has
the id 3; the tunnel writer would fail if it were called. -/
theorem C10_unknown_tid_server_witness :
    server.cmd_data (fun g _ _ => (-1, g))
      (server.globals.mk server.channel_init
        [server.tunnel_t.mk 1 0 3 server.channel_init.rio server.channel_init.wio])
      [2, 7, 1, 2, 3] 5 =
    (0, server.globals.mk server.channel_init
        [server.tunnel_t.mk 1 0 3 server.channel_init.rio server.channel_init.wio]) :=
  C10_unknown_tid_server _ _ _ _ (by decide)

/-! ## Theorems: uniqueness of the tids on the client -/

theorem tids_unique_iff_map (l : List client.netsock_t) :
    client.tids_unique l ↔
      (l.map (fun ns => ns.tid)).Pairwise (fun a b => a = b → a = 0xff) := by
  simp only [client.tids_unique, List.pairwise_map]

theorem tids_unique_congr (l1 l2 : List client.netsock_t)
    (h : l2.map (fun ns => ns.tid) = l1.map (fun ns => ns.tid))
    (hu : client.tids_unique l1) : client.tids_unique l2 := by
  rw [tids_unique_iff_map] at hu ⊢
  rw [h]; exact hu

theorem map_tid_update_at (l : List client.netsock_t) (f : client.netsock_t → client.netsock_t)
    (hf : ∀ a, (f a).tid = a.tid) :
    ∀ i, (client.update_at l i f).map (fun ns => ns.tid) = l.map (fun ns => ns.tid) := by
  induction l with
  | nil => intro i; rfl
  | cons a t ih =>
    intro i
    cases i with
    | zero => simp [client.update_at, hf]
    | succ i => simp [client.update_at, ih i]

theorem mem_update_at (l : List client.netsock_t) (f : client.netsock_t → client.netsock_t) :
    ∀ i b, b ∈ client.update_at l i f → b ∈ l ∨ ∃ a ∈ l, b = f a := by
  induction l with
  | nil => intro i b h; simp [client.update_at] at h
  | cons a t ih =>
    intro i b h
    cases i with
    | zero =>
      simp only [client.update_at, List.mem_cons] at h
      rcases h with h | h
      · exact Or.inr ⟨a, List.mem_cons_self _ _, h⟩
      · exact Or.inl (List.mem_cons_of_mem _ h)
    | succ i =>
      simp only [client.update_at, List.mem_cons] at h
      rcases h with h | h
      · exact Or.inl (by rw [h]; exact List.mem_cons_self _ _)
      · rcases ih i b h with h1 | ⟨c, hc, e⟩
        · exact Or.inl (List.mem_cons_of_mem _ h1)
        · exact Or.inr ⟨c, List.mem_cons_of_mem _ hc, e⟩

theorem tids_unique_append_one (l : List client.netsock_t) (ns : client.netsock_t)
    (hu : client.tids_unique l) (hfresh : ns.tid = 0xff ∨ ∀ b ∈ l, b.tid ≠ ns.tid) :
    client.tids_unique (l ++ [ns]) := by
  simp only [client.tids_unique, List.pairwise_append, List.pairwise_cons, List.mem_singleton,
    List.not_mem_nil, false_implies, implies_true, List.Pairwise.nil, and_true, true_and,
    forall_eq]
  refine ⟨hu, ?_⟩
  intro a ha heq
  rcases hfresh with h | h
  · rw [heq, h]
  · exact absurd heq (h a ha)

/-- Giving a record a tid that no record holds, or 0xff, keeps the tids unique. -/
theorem tids_unique_update_at_fresh (f : client.netsock_t → client.netsock_t) (t : Nat)
    (hf : ∀ a, (f a).tid = t) :
    ∀ (l : List client.netsock_t) (i : Nat), client.tids_unique l →
      (t = 0xff ∨ ∀ b ∈ l, b.tid ≠ t) → client.tids_unique (client.update_at l i f) := by
  intro l
  induction l with
  | nil => intro i _ _; exact List.Pairwise.nil
  | cons a rest ih =>
    intro i hu hfresh
    have hu' := List.pairwise_cons.1 hu
    cases i with
    | zero =>
      simp only [client.update_at]
      refine List.pairwise_cons.2 ⟨?_, hu'.2⟩
      intro b hb heq
      rw [hf] at heq ⊢
      rcases hfresh with h | h
      · exact h
      · exact absurd heq.symm (h b (List.mem_cons_of_mem _ hb))
    | succ i =>
      simp only [client.update_at]
      refine List.pairwise_cons.2 ⟨?_, ih i hu'.2 ?_⟩
      · intro b hb heq
        rcases mem_update_at rest f i b hb with h1 | ⟨c, _, e⟩
        · exact hu'.1 b h1 heq
        · rw [e, hf] at heq
          rcases hfresh with h | h
          · rw [heq, h]
          · exact absurd heq (h a (List.mem_cons_self _ _))
      · rcases hfresh with h | h
        · exact Or.inl h
        · exact Or.inr (fun b hb => h b (List.mem_cons_of_mem _ hb))

theorem tids_unique_eraseIdx (l : List client.netsock_t) (i : Nat)
    (hu : client.tids_unique l) : client.tids_unique (l.eraseIdx i) :=
  List.Pairwise.sublist (List.eraseIdx_sublist l i) hu

/-- Replacing the tid of a record inside the table. -/
theorem tids_unique_replace (done rest : List client.netsock_t) (ns ns1 : client.netsock_t)
    (hu : client.tids_unique (done ++ ns :: rest))
    (hfresh : ns1.tid = 0xff ∨ ∀ b ∈ done ++ ns :: rest, b.tid ≠ ns1.tid) :
    client.tids_unique ((done ++ [ns1]) ++ rest) := by
  simp only [client.tids_unique, List.pairwise_append, List.pairwise_cons, List.mem_cons,
    List.mem_append, List.mem_singleton, List.not_mem_nil, false_implies, implies_true,
    List.Pairwise.nil, and_true, true_and, forall_eq_or_imp, forall_eq] at hu hfresh ⊢
  obtain ⟨h1, ⟨h2, h3⟩, h4⟩ := hu
  refine ⟨⟨h1, ?_⟩, h3, ?_⟩
  · intro a ha heq
    rcases hfresh with h | h
    · rw [heq, h]
    · exact absurd heq (h a (Or.inl ha))
  · intro a ha b hb heq
    rcases ha with ha | ha | ha
    · exact (h4 a ha).2 b hb heq
    · subst ha
      rcases hfresh with h | h
      · exact h
      · exact absurd heq.symm (h b (Or.inr (Or.inr hb)))
    · exact absurd ha id

theorem tids_unique_remove (done rest : List client.netsock_t) (ns : client.netsock_t)
    (hu : client.tids_unique (done ++ ns :: rest)) : client.tids_unique (done ++ rest) :=
  List.Pairwise.sublist
    (List.Sublist.append (List.Sublist.refl done) (List.sublist_cons_self ns rest)) hu

theorem tunnel_generate_id_loop_found (l : List client.netsock_t) (last_tid : Nat) :
    ∀ (fuel tid t : Nat), client.tunnel_generate_id_loop l last_tid fuel tid = some (some t) →
      client.tunnel_lookup l t = none := by
  intro fuel
  induction fuel with
  | zero => intro tid t h; simp [client.tunnel_generate_id_loop] at h
  | succ fuel ih =>
    intro tid t h
    simp only [client.tunnel_generate_id_loop] at h
    split at h
    · split at h
      · rename_i hfree
        simp only [Option.some.injEq] at h
        rw [← h]; exact hfree
      · exact ih _ _ h
    · simp at h

/-- The id `tunnel_generate_id` returns is 0xff or held by no record, and the
table is left as it was. -/
theorem tunnel_generate_id_fresh (g : client.globals) :
    (client.tunnel_generate_id g).2.all_sockets = g.all_sockets ∧
    ((client.tunnel_generate_id g).1 = 0xff ∨
      ∀ b ∈ g.all_sockets, b.tid ≠ (client.tunnel_generate_id g).1) := by
  unfold client.tunnel_generate_id
  split
  · rename_i tid h
    exact ⟨rfl, Or.inr ((tunnel_lookup_none_iff _ _).1
      (tunnel_generate_id_loop_found _ _ _ _ _ h))⟩
  · exact ⟨rfl, Or.inl rfl⟩

theorem channel_request_tunnel_fresh (mem : Bool) (g : client.globals) (tunaf : Nat)
    (rhost : List Nat) (rport : Nat) (reverse_connect : Bool) :
    (client.channel_request_tunnel mem g tunaf rhost rport reverse_connect).2.all_sockets =
      g.all_sockets ∧
    ((client.channel_request_tunnel mem g tunaf rhost rport reverse_connect).1 = 0xff ∨
      ∀ b ∈ g.all_sockets,
        b.tid ≠ (client.channel_request_tunnel mem g tunaf rhost rport reverse_connect).1) := by
  obtain ⟨h1, h2⟩ := tunnel_generate_id_fresh g
  unfold client.channel_request_tunnel
  simp only
  split
  · exact ⟨h1, Or.inl rfl⟩
  · split
    · exact ⟨h1, Or.inl rfl⟩
    · exact ⟨h1, h2⟩

theorem netsock_cancel_tids (g : client.globals) (i : Nat) :
    (client.netsock_cancel g i).all_sockets.map (fun ns => ns.tid) =
      g.all_sockets.map (fun ns => ns.tid) := by
  unfold client.netsock_cancel
  apply map_tid_update_at
  intro a; rfl

theorem netsock_write_tids (os : write_outcome) (mem : Bool) (g : client.globals) (i : Nat)
    (buf : List Nat) :
    (client.netsock_write os mem g i buf).2.all_sockets.map (fun ns => ns.tid) =
      g.all_sockets.map (fun ns => ns.tid) := by
  unfold client.netsock_write
  split
  · rfl
  · dsimp only
    apply map_tid_update_at
    intro a; rfl

theorem controller_answer_tids (os : write_outcome) (mem : Bool) (g : client.globals)
    (cli : Nat) (text : List Nat) :
    (client.controller_answer os mem g cli text).2.all_sockets.map (fun ns => ns.tid) =
      g.all_sockets.map (fun ns => ns.tid) := by
  unfold client.controller_answer
  split
  · exact netsock_write_tids _ _ _ _ _
  · rfl

theorem tunnel_close_tids (mem : Bool) (g : client.globals) (i : Nat) (notify_server : Bool) :
    (client.tunnel_close mem g i notify_server).all_sockets.map (fun ns => ns.tid) =
      g.all_sockets.map (fun ns => ns.tid) := by
  unfold client.tunnel_close
  split
  · rfl
  · rw [netsock_cancel_tids]
    dsimp only
    split_ifs <;> rfl

theorem tunnel_close_unique (mem : Bool) (g : client.globals) (i : Nat) (notify_server : Bool)
    (hu : client.tids_unique g.all_sockets) :
    client.tids_unique (client.tunnel_close mem g i notify_server).all_sockets :=
  tids_unique_congr _ _ (tunnel_close_tids mem g i notify_server) hu

/-- What `netsock_alloc` does to the table: a record with the tid 0xff is added at
the end, or the tids are left as they were. -/
theorem netsock_alloc_cases (e : client.env_t) (mem : Bool) (g : client.globals)
    (cli : Option Nat) (fd : Int) :
    ((client.netsock_alloc e mem g cli fd).1 = some g.all_sockets.length ∧
      (client.netsock_alloc e mem g cli fd).2 =
        { g with all_sockets := g.all_sockets ++ [client.netsock_new fd] }) ∨
    ((client.netsock_alloc e mem g cli fd).1 = none ∧
      (client.netsock_alloc e mem g cli fd).2.all_sockets.map (fun ns => ns.tid) =
        g.all_sockets.map (fun ns => ns.tid) ∧
      (client.netsock_alloc e mem g cli fd).2.last_tid = g.last_tid) := by
  unfold client.netsock_alloc
  split
  · exact Or.inl ⟨rfl, rfl⟩
  · split
    · exact Or.inr ⟨rfl, rfl, rfl⟩
    · refine Or.inr ⟨rfl, controller_answer_tids _ _ _ _ _, ?_⟩
      simp only [client.controller_answer, client.netsock_write]
      split
      · split <;> rfl
      · rfl

theorem tids_unique_alloc (g : client.globals) (fd : Int)
    (hu : client.tids_unique g.all_sockets) :
    client.tids_unique (g.all_sockets ++ [client.netsock_new fd]) :=
  tids_unique_append_one _ _ hu (Or.inl rfl)

/-- Storing the id returned by `channel_request_tunnel` in a record keeps the
tids unique. -/
theorem tids_unique_request (mem : Bool) (g : client.globals) (tunaf : Nat) (rhost : List Nat)
    (rport : Nat) (reverse_connect : Bool) (i : Nat)
    (f : client.netsock_t → client.netsock_t)
    (hf : ∀ a, (f a).tid =
      (client.channel_request_tunnel mem g tunaf rhost rport reverse_connect).1)
    (hu : client.tids_unique g.all_sockets) :
    client.tids_unique (client.update_at
      (client.channel_request_tunnel mem g tunaf rhost rport reverse_connect).2.all_sockets
      i f) := by
  obtain ⟨h1, h2⟩ := channel_request_tunnel_fresh mem g tunaf rhost rport reverse_connect
  rw [h1]
  exact tids_unique_update_at_fresh f _ hf _ i hu h2

theorem tids_unique_update_same (l : List client.netsock_t) (i : Nat)
    (f : client.netsock_t → client.netsock_t) (hf : ∀ a, (f a).tid = a.tid)
    (hu : client.tids_unique l) : client.tids_unique (client.update_at l i f) :=
  tids_unique_congr _ _ (map_tid_update_at l f hf i) hu

theorem netsock_alloc_unique (e : client.env_t) (mem : Bool) (g : client.globals)
    (cli : Option Nat) (fd : Int) (hu : client.tids_unique g.all_sockets) :
    client.tids_unique (client.netsock_alloc e mem g cli fd).2.all_sockets := by
  rcases netsock_alloc_cases e mem g cli fd with ⟨_, h2⟩ | ⟨_, h2, _⟩
  · rw [h2]; exact tids_unique_alloc g fd hu
  · exact tids_unique_congr _ _ h2 hu

theorem netsock_accept_unique (e : client.env_t) (g : client.globals)
    (hu : client.tids_unique g.all_sockets) :
    client.tids_unique (client.netsock_accept e g).2.all_sockets := by
  unfold client.netsock_accept
  split
  · exact hu
  · rename_i fd _
    have ha := netsock_alloc_unique e false g none fd hu
    split
    · rename_i g1 heq
      rw [heq] at ha; exact ha
    · rename_i cli g1 heq
      rw [heq] at ha
      refine tids_unique_update_same _ _ _ ?_ ha
      intro a; rfl

theorem netsock_connect_unique (e : client.env_t) (g : client.globals)
    (hu : client.tids_unique g.all_sockets) :
    client.tids_unique (client.netsock_connect e g).2.all_sockets := by
  unfold client.netsock_connect
  split
  · exact hu
  · rename_i fd pending _
    have ha := netsock_alloc_unique e false g none fd hu
    split
    · rename_i g1 heq
      rw [heq] at ha; exact ha
    · rename_i cli g1 heq
      rw [heq] at ha
      refine tids_unique_update_same _ _ _ ?_ ha
      intro a; rfl

theorem tunnel_accept_event_unique (e : client.env_t) (g : client.globals) (srv : Nat)
    (hu : client.tids_unique g.all_sockets) :
    client.tids_unique (client.tunnel_accept_event e g srv).all_sockets := by
  unfold client.tunnel_accept_event
  split
  · exact hu
  · have ha := netsock_accept_unique e g hu
    split
    · rename_i g1 heq
      rw [heq] at ha; exact ha
    · rename_i cli g1 heq
      rw [heq] at ha
      dsimp only
      have hu2 : client.tids_unique (client.update_at g1.all_sockets cli
          (fun ns => { ns with type := client.NETSOCK_TUNCLI, obuf := iobuf_init })) := by
        refine tids_unique_update_same _ _ _ ?_ ha
        intro a; rfl
      split
      · split
        · refine tids_unique_request _ _ _ _ _ _ _ _ ?_ hu2
          intro a; rfl
        · unfold client.netsock_close
          apply tids_unique_eraseIdx
          rw [(channel_request_tunnel_fresh _ _ _ _ _ _).1]
          exact hu2
      · exact tids_unique_eraseIdx _ _ hu2

theorem socks5_setup_request_unique (e : client.env_t) (g : client.globals) (cli tunaf : Nat)
    (host : List Nat) (port : Nat) (hu : client.tids_unique g.all_sockets) :
    client.tids_unique (client.socks5_setup_request e g cli tunaf host port).2.all_sockets := by
  unfold client.socks5_setup_request
  dsimp only
  split
  · rw [(channel_request_tunnel_fresh _ _ _ _ _ _).1]
    exact hu
  · refine tids_unique_request _ _ _ _ _ _ _ _ ?_ hu
    intro a; rfl

theorem tunnel_add_reverse_unique (e : client.env_t) (g : client.globals) (cli : Nat)
    (lhost : List Nat) (lport : Nat) (rhost : List Nat) (rport : Nat) (text : List Nat)
    (hu : client.tids_unique g.all_sockets) :
    client.tids_unique
      (client.tunnel_add_reverse e g cli lhost lport rhost rport text).2.all_sockets := by
  unfold client.tunnel_add_reverse
  have ha := netsock_alloc_unique e (e.mem 0) g (some cli) (-1) hu
  split
  · rename_i g1 heq
    rw [heq] at ha; exact ha
  · rename_i ns g1 heq
    rw [heq] at ha
    dsimp only
    have hu2 : client.tids_unique (client.update_at g1.all_sockets ns
        (fun r => { r with type := client.NETSOCK_RTUNSRV, lport := lport, rport := rport,
                           lhost := lhost, rhost := client.rtunsrv_rhost lhost rhost })) := by
      refine tids_unique_update_same _ _ _ ?_ ha
      intro a; rfl
    split
    · have hu4 : client.tids_unique (client.update_at
          (client.channel_request_tunnel (e.mem 1)
            (client.globals.mk (client.update_at g1.all_sockets ns
              (fun r => { r with type := client.NETSOCK_RTUNSRV, lport := lport, rport := rport,
                                 lhost := lhost, rhost := client.rtunsrv_rhost lhost rhost }))
              g1.last_tid (client.channel_is_connected e.now g1.vc).2)
            TUNAF_ANY rhost rport true).2.all_sockets ns
          (fun x => { x with tid := (client.channel_request_tunnel (e.mem 1)
            (client.globals.mk (client.update_at g1.all_sockets ns
              (fun r => { r with type := client.NETSOCK_RTUNSRV, lport := lport, rport := rport,
                                 lhost := lhost, rhost := client.rtunsrv_rhost lhost rhost }))
              g1.last_tid (client.channel_is_connected e.now g1.vc).2)
            TUNAF_ANY rhost rport true).1 })) := by
        refine tids_unique_request _ _ _ _ _ _ _ _ ?_ hu2
        intro a; rfl
      split
      · apply tids_unique_congr _ _ (controller_answer_tids _ _ _ _ _)
        exact tids_unique_eraseIdx _ _ hu4
      · apply tids_unique_congr _ _ (controller_answer_tids _ _ _ _ _)
        exact hu4
    · apply tids_unique_congr _ _ (controller_answer_tids _ _ _ _ _)
      exact hu2

theorem tunnels_restart_loop_unique (mem : Nat → Bool) :
    ∀ (rest : List client.netsock_t) (k : Nat) (g : client.globals)
      (done : List client.netsock_t), client.tids_unique (done ++ rest) →
      client.tids_unique (client.tunnels_restart_loop mem k g done rest).all_sockets := by
  intro rest
  induction rest with
  | nil =>
    intro k g done hu
    simp only [client.tunnels_restart_loop]
    simpa using hu
  | cons ns rest ih =>
    intro k g done hu
    simp only [client.tunnels_restart_loop]
    split
    · split
      · apply ih
        exact tids_unique_replace done rest ns _ hu
          (channel_request_tunnel_fresh (mem k)
            (client.globals.mk (done ++ ns :: rest) g.last_tid g.vc) TUNAF_ANY ns.rhost ns.rport
            true).2
      · apply ih
        exact tids_unique_remove done rest ns hu
    · apply ih
      simpa using hu

theorem tunnels_restart_unique (mem : Nat → Bool) (g : client.globals)
    (hu : client.tids_unique g.all_sockets) :
    client.tids_unique (client.tunnels_restart mem g).all_sockets :=
  tunnels_restart_loop_unique mem g.all_sockets 0 g [] (by simpa using hu)

theorem mem_tunnels_kill_clients_loop (l : List client.netsock_t) :
    ∀ b, b ∈ client.tunnels_kill_clients_loop l → b.tid = 0xff ∨ ∃ a ∈ l, a.tid = b.tid := by
  induction l with
  | nil => intro b h; simp [client.tunnels_kill_clients_loop] at h
  | cons a rest ih =>
    intro b h
    have lift : (b.tid = 0xff ∨ ∃ c ∈ rest, c.tid = b.tid) →
        (b.tid = 0xff ∨ ∃ c ∈ a :: rest, c.tid = b.tid) := by
      rintro (h1 | ⟨c, hc, e⟩)
      · exact Or.inl h1
      · exact Or.inr ⟨c, List.mem_cons_of_mem _ hc, e⟩
    simp only [client.tunnels_kill_clients_loop] at h
    split at h
    · simp only [List.mem_cons] at h
      rcases h with h | h
      · exact Or.inl (by rw [h])
      · exact lift (ih b h)
    · split at h
      · exact lift (ih b h)
      · simp only [List.mem_cons] at h
        rcases h with h | h
        · exact Or.inr ⟨a, List.mem_cons_self _ _, by rw [h]⟩
        · exact lift (ih b h)

theorem tunnels_kill_clients_loop_unique (l : List client.netsock_t)
    (hu : client.tids_unique l) : client.tids_unique (client.tunnels_kill_clients_loop l) := by
  induction l with
  | nil => exact List.Pairwise.nil
  | cons a rest ih =>
    have hu' := List.pairwise_cons.1 hu
    simp only [client.tunnels_kill_clients_loop]
    split
    · refine List.pairwise_cons.2 ⟨fun _ _ _ => rfl, ih hu'.2⟩
    · split
      · exact ih hu'.2
      · refine List.pairwise_cons.2 ⟨?_, ih hu'.2⟩
        intro b hb heq
        rcases mem_tunnels_kill_clients_loop rest b hb with h | ⟨c, hc, e⟩
        · rw [heq, h]
        · exact hu'.1 c hc (by rw [heq, e])

theorem netsock_connect_fresh (e : client.env_t) (g : client.globals) (t : Nat)
    (hfresh : t = 0xff ∨ ∀ b ∈ g.all_sockets, b.tid ≠ t) :
    t = 0xff ∨ ∀ b ∈ (client.netsock_connect e g).2.all_sockets, b.tid ≠ t := by
  rcases hfresh with h | h
  · exact Or.inl h
  · by_cases ht : t = 0xff
    · exact Or.inl ht
    · refine Or.inr ?_
      have key : ∀ b ∈ (client.netsock_connect e g).2.all_sockets,
          b.tid = 0xff ∨ ∃ a ∈ g.all_sockets, a.tid = b.tid := by
        intro b hb
        have hm : b.tid ∈ (client.netsock_connect e g).2.all_sockets.map (fun ns => ns.tid) :=
          List.mem_map.2 ⟨b, hb, rfl⟩
        have htids : (client.netsock_connect e g).2.all_sockets.map (fun ns => ns.tid) =
            g.all_sockets.map (fun ns => ns.tid) ∨
            (client.netsock_connect e g).2.all_sockets.map (fun ns => ns.tid) =
            g.all_sockets.map (fun ns => ns.tid) ++ [0xff] := by
          unfold client.netsock_connect
          split
          · exact Or.inl rfl
          · rename_i fd pending _
            rcases netsock_alloc_cases e false g none fd with ⟨h1, h2⟩ | ⟨h1, h2, _⟩
            · split
              · rename_i g1 heq
                rw [heq] at h1; cases h1
              · rename_i cli g1 heq
                rw [heq] at h2
                simp only at h2
                refine Or.inr ?_
                dsimp only
                rw [map_tid_update_at _ _ (by intro a; rfl), h2]
                simp [client.netsock_new]
            · split
              · rename_i g1 heq
                rw [heq] at h2
                exact Or.inl h2
              · rename_i cli g1 heq
                rw [heq] at h1; cases h1
        rcases htids with h1 | h1
        · rw [h1] at hm
          obtain ⟨a, ha, e1⟩ := List.mem_map.1 hm
          exact Or.inr ⟨a, ha, e1⟩
        · rw [h1, List.mem_append, List.mem_singleton] at hm
          rcases hm with hm | hm
          · obtain ⟨a, ha, e1⟩ := List.mem_map.1 hm
            exact Or.inr ⟨a, ha, e1⟩
          · exact Or.inl hm
      intro b hb heq
      rcases key b hb with h1 | ⟨a, ha, e1⟩
      · exact ht (by rw [← heq, h1])
      · exact h a ha (by rw [e1, heq])

theorem tunnel_revconnect_event_unique (e : client.env_t) (g : client.globals) (srv : Nat)
    (new_id : Nat) (hu : client.tids_unique g.all_sockets)
    (hfresh : new_id = 0xff ∨ ∀ b ∈ g.all_sockets, b.tid ≠ new_id) :
    client.tids_unique (client.tunnel_revconnect_event e g srv new_id).all_sockets := by
  unfold client.tunnel_revconnect_event
  split
  · exact hu
  · have hc := netsock_connect_unique e g hu
    have hf := netsock_connect_fresh e g new_id hfresh
    split
    · rename_i g1 heq
      rw [heq] at hc; exact hc
    · rename_i cli g1 heq
      rw [heq] at hc hf
      refine tids_unique_update_at_fresh _ new_id ?_ _ cli hc hf
      intro a; rfl

theorem socks5_connect_event_unique (e : client.env_t) (g : client.globals) (cli : Nat)
    (af : Int) (addr : List Nat) (port : Nat) (hu : client.tids_unique g.all_sockets) :
    client.tids_unique (client.socks5_connect_event e g cli af addr port).all_sockets := by
  unfold client.socks5_connect_event
  split
  · exact hu
  · split
    · exact tunnel_close_unique _ _ _ _ hu
    · dsimp only
      have hu1 : client.tids_unique (client.update_at g.all_sockets cli
          (fun ns => { ns with state := client.NETSTATE_CONNECTED })) := by
        refine tids_unique_update_same _ _ _ ?_ hu
        intro a; rfl
      generalize hans : [client.SOCKS5_VERSION, client.SOCKS5_SUCCESS, 0,
        if af = AF_INET then client.SOCKS5_ATYPE_IPV4 else client.SOCKS5_ATYPE_IPV6] ++
        List.take (if af = AF_INET then 4 else 16)
          (addr ++ (List.range ((if af = AF_INET then 4 else 16) - addr.length)).map e.past) ++
        [u8 (port / 256), port % 256] = ans
      have hw := tids_unique_congr _ _ (netsock_write_tids e.write (e.mem 1)
        (client.globals.mk (client.update_at g.all_sockets cli
          (fun ns => { ns with state := client.NETSTATE_CONNECTED })) g.last_tid g.vc) cli ans)
        hu1
      split
      · split
        · exact hw
        · split
          · split
            · apply tunnel_close_unique
              dsimp only
              refine tids_unique_update_same _ _ _ ?_ hw
              intro a; rfl
            · dsimp only
              refine tids_unique_update_same _ _ _ ?_ hw
              intro a; rfl
          · exact hw
      · exact tunnel_close_unique _ _ _ _ hw

theorem check_tunnel_id_sockets (mem : Bool) (g : client.globals) (msg : List Nat) :
    (client.check_tunnel_id mem g msg).2.all_sockets = g.all_sockets := by
  unfold client.check_tunnel_id
  split <;> rfl

theorem check_binding_answer_unique (e : client.env_t) (mode : Nat) (g : client.globals)
    (msg : List Nat) (len : Nat) (hu : client.tids_unique g.all_sockets) :
    client.tids_unique (client.check_binding_answer e mode g msg len).2.all_sockets := by
  unfold client.check_binding_answer
  have hs := check_tunnel_id_sockets (e.mem 0) g msg
  split
  · rename_i g1 heq
    rw [heq] at hs
    simp only at hs ⊢
    rw [hs]; exact hu
  · rename_i cli g1 heq
    rw [heq] at hs
    simp only at hs
    have hu1 : client.tids_unique g1.all_sockets := by rw [hs]; exact hu
    split
    · split
      · exact tunnel_close_unique _ _ _ _ hu1
      · dsimp only
        split
        · exact tunnel_close_unique _ _ _ _ hu1
        · split
          · split
            · exact hu1
            · split
              · refine tids_unique_update_same _ _ _ ?_ hu1
                intro a; rfl
              · split
                · exact socks5_connect_event_unique _ _ _ _ _ _ hu1
                · refine tids_unique_update_same _ _ _ ?_ hu1
                  intro a; rfl
          · split
            · rename_i hfree
              exact tunnel_revconnect_event_unique _ _ _ _ hu1
                (Or.inr ((tunnel_lookup_none_iff _ _).1 hfree))
            · exact hu1
    · exact tunnel_close_unique _ _ _ _ hu1

theorem main_reap_unique (g : client.globals) (i : Nat)
    (hu : client.tids_unique g.all_sockets) :
    client.tids_unique (client.main_reap g i).all_sockets := by
  unfold client.main_reap
  split
  · exact hu
  · split
    · exact tids_unique_eraseIdx _ _ hu
    · exact hu

/-- C7. Tid uniqueness on the client: in every state reachable from the empty
table through the tunnel operations of the client (forward accept, SOCKS5
connect request, reverse-listener registration, `tunnels_restart`, the CONN,
BIND and RCONN handlers, `tunnel_close`, cancel and reaping,
`tunnels_kill_clients`, and any other creation of a record or change that leaves
the tids alone), no two records of the socket table hold the same tid other than
0xff. -/
theorem C7_tid_uniqueness (g : client.globals) (h : client.reachable g) :
    client.tids_unique g.all_sockets := by
  induction h with
  | init => exact List.Pairwise.nil
  | alloc g ns _ htid ih => exact tids_unique_append_one _ _ ih (Or.inl htid)
  | update g g1 _ _ htids ih => exact tids_unique_congr _ _ htids ih
  | accept g e srv _ ih => exact tunnel_accept_event_unique e g srv ih
  | socks5 g e cli tunaf host port _ ih =>
    exact socks5_setup_request_unique e g cli tunaf host port ih
  | add_reverse g e cli lhost lport rhost rport text _ ih =>
    exact tunnel_add_reverse_unique e g cli lhost lport rhost rport text ih
  | restart g mem _ ih => exact tunnels_restart_unique mem g ih
  | kill_clients g _ ih => exact tunnels_kill_clients_loop_unique _ ih
  | answer g e mode msg len _ ih => exact check_binding_answer_unique e mode g msg len ih
  | close g mem i notify_server _ ih => exact tunnel_close_unique mem g i notify_server ih
  | cancel g i _ ih => exact tids_unique_congr _ _ (netsock_cancel_tids g i) ih
  | reap g i _ ih => exact main_reap_unique g i ih
  | netsock_close g i _ ih => exact tids_unique_eraseIdx _ _ ih

/-- Witness of C7: a forward listener is created, the channel comes alive at
time 100, and two local connections are accepted at time 101; the table then
holds the tids 0xff, 0 and 1. -/
theorem C7_tid_uniqueness_witness :
    client.tids_unique
      (client.tunnel_accept_event
        (client.env_t.mk 101 (fun _ => true) write_outcome.pending true (some 6) none (fun _ => 0))
        (client.tunnel_accept_event
          (client.env_t.mk 101 (fun _ => true) write_outcome.pending true (some 5) none (fun _ => 0))
          (client.globals.mk [client.netsock_new 4] 0xff
            (client.vchannel_t.mk 100 1 iobuf_init iobuf_init)) 0) 0).all_sockets ∧
    (client.tunnel_accept_event
        (client.env_t.mk 101 (fun _ => true) write_outcome.pending true (some 6) none (fun _ => 0))
        (client.tunnel_accept_event
          (client.env_t.mk 101 (fun _ => true) write_outcome.pending true (some 5) none (fun _ => 0))
          (client.globals.mk [client.netsock_new 4] 0xff
            (client.vchannel_t.mk 100 1 iobuf_init iobuf_init)) 0) 0).all_sockets.map
      (fun ns => ns.tid) = [0xff, 0, 1] :=
  ⟨C7_tid_uniqueness _
    (client.reachable.accept _ _ _
      (client.reachable.accept _ _ _
        (client.reachable.update _
          (client.globals.mk [client.netsock_new 4] 0xff
            (client.vchannel_t.mk 100 1 iobuf_init iobuf_init))
          (client.reachable.alloc _ (client.netsock_new 4) client.reachable.init rfl)
          rfl rfl))),
   by decide⟩

/-! ## Theorems: the answers of the server -/

theorem tunnel_lookup_some (l : List client.netsock_t) (tid i : Nat)
    (h : client.tunnel_lookup l tid = some i) : ∃ ns, l[i]? = some ns ∧ ns.tid = tid := by
  induction l generalizing i with
  | nil => simp [client.tunnel_lookup] at h
  | cons a rest ih =>
    simp only [client.tunnel_lookup] at h
    by_cases ha : a.tid = tid
    · rw [if_pos ha] at h
      cases h
      exact ⟨a, by simp, ha⟩
    · rw [if_neg ha] at h
      cases hr : client.tunnel_lookup rest tid with
      | none => rw [hr] at h; cases h
      | some j =>
        rw [hr] at h
        cases h
        obtain ⟨ns, h1, h2⟩ := ih j hr
        exact ⟨ns, by simpa using h1, h2⟩

theorem tunnel_close_quiet (mem : Bool) (g : client.globals) (i : Nat) (ns : client.netsock_t)
    (h : g.all_sockets[i]? = some ns) :
    (client.tunnel_close mem g i false).vc = g.vc ∧
    (client.tunnel_close mem g i false).all_sockets =
      client.update_at g.all_sockets i (fun r => { r with state := client.NETSTATE_CANCELLED }) := by
  simp only [client.tunnel_close, h, client.netsock_cancel]
  by_cases h1 : ns.tid ≠ 0xff
  · by_cases h2 : ns.tid = g.last_tid <;> simp [h1, h2]
    split <;> simp
  · simp [h1]

/-- C11: an answer of the server to a known tid that reports success (or a
reverse-connect notification) is accepted, the handler returning 0, when its
length is 10 for ipv4, 22 for ipv6, or 10 for any-family in a CONN answer; with
every other length and every other address family the handler returns the error
-1, the record addressed is cancelled, no other record changes and the channel,
hence its output queue, is left as it was: no CLOSE is queued and no event is
delivered. -/
theorem C11_answer_length_validation (e : client.env_t) (mode : Nat) (g : client.globals)
    (msg : List Nat) (len cli : Nat)
    (hknown : client.tunnel_lookup g.all_sockets (peek msg 1) = some cli)
    (hok : mode = 2 ∨ peek msg 2 = 0) :
    (((peek msg 3 = TUNAF_IPV4 ∧ len = 10) ∨ (peek msg 3 = TUNAF_IPV6 ∧ len = 22) ∨
        (peek msg 3 = TUNAF_ANY ∧ mode = 0 ∧ len = 10)) →
      (client.check_binding_answer e mode g msg len).1 = 0) ∧
    (¬ ((peek msg 3 = TUNAF_IPV4 ∧ len = 10) ∨ (peek msg 3 = TUNAF_IPV6 ∧ len = 22) ∨
        (peek msg 3 = TUNAF_ANY ∧ mode = 0 ∧ len = 10)) →
      (client.check_binding_answer e mode g msg len).1 = -1 ∧
      (client.check_binding_answer e mode g msg len).2.vc = g.vc ∧
      (client.check_binding_answer e mode g msg len).2.all_sockets =
        client.update_at g.all_sockets cli
          (fun r => { r with state := client.NETSTATE_CANCELLED })) := by
  obtain ⟨ns, hns, -⟩ := tunnel_lookup_some _ _ _ hknown
  have hq := tunnel_close_quiet (e.mem 1) g cli ns hns
  simp only [client.check_binding_answer, client.check_tunnel_id, hknown, if_pos hok,
    client.badproto, TUNAF_ANY, TUNAF_IPV4, TUNAF_IPV6]
  constructor
  · intro hv
    rcases hv with ⟨h1, h2⟩ | ⟨h1, h2⟩ | ⟨h1, h2, h3⟩
    · subst h2
      rw [if_neg (by omega)]
      simp only [h1, hns]
      repeat' split
      all_goals first | rfl | omega | simp_all
    · subst h2
      rw [if_neg (by omega)]
      simp only [h1, hns]
      repeat' split
      all_goals first | rfl | omega | simp_all
    · subst h3
      subst h2
      rw [if_neg (by omega)]
      simp only [h1, hns]
      repeat' split
      all_goals first | rfl | omega | simp_all
  · intro hv
    by_cases hl : len < 8
    · rw [if_pos hl]
      exact ⟨rfl, hq.1, hq.2⟩
    · rw [if_neg hl]
      have : (if peek msg 3 = 0 then
            if mode ≠ 0 then (none : Option Int) else if len ≠ 10 then none else some AF_UNSPEC
          else if peek msg 3 = 1 then if len ≠ 10 then none else some AF_INET
          else if peek msg 3 = 2 then if len ≠ 22 then none else some AF_INET6
          else none) = none := by
        repeat' split
        all_goals first | rfl | (exfalso; apply hv; omega)
      rw [this]
      exact ⟨rfl, hq.1, hq.2⟩

/-- Witness of C11: a CONN answer of 9 bytes for the ipv4 family, addressed to
the only record of the table. -/
theorem C11_answer_length_validation_witness :
    (client.check_binding_answer
      (client.env_t.mk 0 (fun _ => true) write_outcome.pending true none none (fun _ => 0)) 0
      (client.globals.mk [{ client.netsock_new 3 with tid := 7 }] 0xff client.channel_init)
      [0, 7, 0, 1, 0, 80, 127, 0, 0] 9).1 = -1 ∧
    (client.check_binding_answer
      (client.env_t.mk 0 (fun _ => true) write_outcome.pending true none none (fun _ => 0)) 0
      (client.globals.mk [{ client.netsock_new 3 with tid := 7 }] 0xff client.channel_init)
      [0, 7, 0, 1, 0, 80, 127, 0, 0] 9).2.vc = client.channel_init :=
  have h := (C11_answer_length_validation
    (client.env_t.mk 0 (fun _ => true) write_outcome.pending true none none (fun _ => 0)) 0
    (client.globals.mk [{ client.netsock_new 3 with tid := 7 }] 0xff client.channel_init)
    [0, 7, 0, 1, 0, 80, 127, 0, 0] 9 0 (by decide) (by decide)).2 (by decide)
  ⟨h.1, h.2.1⟩

/-! ## Theorems: frames assembled in the output buffer of the channel -/

theorem iobuf_append_spec (mem : Bool) (b b1 : iobuf) (data : List Nat) (hv : valid_iobuf b)
    (hn : 0 < data.length) (hb : b.size + data.length < 4294967296)
    (h : iobuf_append mem b data = some b1) :
    valid_iobuf b1 ∧ iobuf_bytes b1 = iobuf_bytes b ++ data := by
  unfold iobuf_append at h
  cases hr : iobuf_reserve mem b data.length with
  | none => rw [hr] at h; cases h
  | some p =>
    obtain ⟨b2, r⟩ := p
    rw [hr] at h
    simp only [Option.some.injEq] at h
    obtain ⟨r1, r2, r3, r4⟩ := iobuf_reserve_spec mem b b2 data.length r hv hn hb hr
    obtain ⟨a1, a2, a3, a4⟩ := iobuf_store_spec b2 0 data r2 (by omega)
    have hsz : b1.size = b.size + data.length := by
      rw [← h]
      show u32 (b2.size + data.length) = _
      rw [r1, u32_of_lt hb]
    have hd : b1.data = (iobuf_store b2 0 data).data := by rw [← h]; rfl
    have ht : b1.total = b2.total := by rw [← h]; rfl
    refine ⟨⟨by omega, by rw [hd, a3, ht]⟩, ?_⟩
    rw [iobuf_bytes_eq, iobuf_bytes_eq, hsz, hd, ← r1]
    rw [show b2.size + data.length = b2.size + 0 + data.length by omega, a4, Nat.add_zero,
      r1, r4]

/-- A store that follows the bytes already laid out after the reserved place. -/
theorem iobuf_store_chain (b : iobuf) (off off1 : Nat) (pre acc src : List Nat)
    (hv : b.data.length = b.total) (ho : off1 = off + src.length) (h : b.size + off1 ≤ b.total)
    (hp : b.data.take (b.size + off) = pre ++ acc) :
    (iobuf_store b off src).size = b.size ∧ (iobuf_store b off src).total = b.total ∧
    (iobuf_store b off src).data.length = (iobuf_store b off src).total ∧
    (iobuf_store b off src).data.take ((iobuf_store b off src).size + off1) =
      pre ++ (acc ++ src) := by
  subst ho
  obtain ⟨a1, a2, a3, a4⟩ := iobuf_store_spec b off src hv (by omega)
  refine ⟨a1, a2, by rw [a3, a2], ?_⟩
  rw [a1, ← Nat.add_assoc, a4, hp, List.append_assoc]

theorem write_reserve_spec (mem : Bool) (vc vc1 : client.vchannel_t) (n r : Nat)
    (hv : valid_iobuf vc.obuf) (hb : vc.obuf.size + 4 + n < 4294967296)
    (h : client.write_reserve mem vc n = some (vc1, r)) :
    vc1.obuf.size = vc.obuf.size ∧ vc1.obuf.data.length = vc1.obuf.total ∧
    vc.obuf.size + 4 + n ≤ vc1.obuf.total ∧
    vc1.obuf.data.take vc.obuf.size = iobuf_bytes vc.obuf ∧
    vc1.ts = vc.ts ∧ vc1.last_state = vc.last_state ∧ vc1.ibuf = vc.ibuf := by
  unfold client.write_reserve at h
  rw [u32_of_lt (by omega : n + 4 < 4294967296)] at h
  cases hr : iobuf_reserve mem vc.obuf (n + 4) with
  | none => rw [hr] at h; cases h
  | some p =>
    obtain ⟨b2, r2⟩ := p
    rw [hr] at h
    simp only [Option.some.injEq, Prod.mk.injEq] at h
    obtain ⟨h1, -⟩ := h
    subst h1
    obtain ⟨r1, r2, r3, r4⟩ := iobuf_reserve_spec mem vc.obuf b2 (n + 4) _ hv (by omega)
      (by omega) hr
    refine ⟨r1, r2, ?_, ?_, rfl, rfl, rfl⟩
    · show vc.obuf.size + 4 + n ≤ b2.total
      omega
    · rw [iobuf_bytes_eq]; exact r4

/-- The frame `write_commit` completes: the bytes queued before, the length and
the body laid out after the reserved length field. -/
theorem write_commit_frame (vc1 : client.vchannel_t) (b : iobuf) (body : List Nat)
    (hs : b.size = vc1.obuf.size) (hl : b.data.length = b.total)
    (hroom : b.size + 4 + body.length ≤ b.total)
    (hl1 : vc1.obuf.size + 4 ≤ vc1.obuf.data.length)
    (ht : b.data.take (b.size + (4 + body.length)) =
      vc1.obuf.data.take (vc1.obuf.size + 4) ++ body)
    (hb : b.size + 4 + body.length < 4294967296) :
    valid_iobuf (client.write_commit { vc1 with obuf := b } body.length).obuf ∧
    iobuf_bytes (client.write_commit { vc1 with obuf := b } body.length).obuf =
      vc1.obuf.data.take vc1.obuf.size ++ htonl body.length ++ body ∧
    (client.write_commit { vc1 with obuf := b } body.length).ts = vc1.ts ∧
    (client.write_commit { vc1 with obuf := b } body.length).last_state = vc1.last_state ∧
    (client.write_commit { vc1 with obuf := b } body.length).ibuf = vc1.ibuf := by
  rw [← Nat.add_assoc] at ht
  have hpl : (vc1.obuf.data.take (vc1.obuf.size + 4)).length = b.size + 4 := by
    rw [List.length_take]; omega
  have hbody := drop_take_of_take_eq b.data _ body (b.size + 4) hpl ht
  have hpre := take_of_take_eq b.data _ body (b.size + 4) hpl ht
  have hpre2 : b.data.take b.size = vc1.obuf.data.take vc1.obuf.size := by
    have : b.data.take b.size = (b.data.take (b.size + 4)).take b.size := by
      rw [List.take_take]; congr 1; omega
    rw [this, hpre, List.take_take]
    congr 1
    omega
  obtain ⟨w1, w2, w3, w4, w5⟩ := write_commit_spec
    (client.vchannel_t.mk vc1.ts vc1.last_state vc1.ibuf b) body hl hroom hbody hb
  refine ⟨w1, Eq.trans w2 ?_, w3, w4, w5⟩
  show b.data.take b.size ++ htonl body.length ++ body = _
  rw [hpre2]

theorem tunnel_generate_id_frame (g : client.globals) :
    (client.tunnel_generate_id g).2.vc = g.vc ∧
    (client.tunnel_generate_id g).2.all_sockets = g.all_sockets ∧
    ((client.tunnel_generate_id g).1 ≠ 0xff →
      (client.tunnel_generate_id g).2.last_tid = (client.tunnel_generate_id g).1) := by
  unfold client.tunnel_generate_id
  split
  · exact ⟨rfl, rfl, fun _ => rfl⟩
  · exact ⟨rfl, rfl, fun h => absurd rfl h⟩

/-- The request `channel_request_tunnel` queues when an id is free and the
output buffer can grow: the frame follows the bytes queued before. -/
theorem channel_request_tunnel_spec (mem : Bool) (g : client.globals) (tunaf : Nat)
    (rhost : List Nat) (rport : Nat) (rev : Bool)
    (hv : valid_iobuf g.vc.obuf) (hb : g.vc.obuf.size + rhost.length + 10 < 4294967296)
    (hid : (client.tunnel_generate_id g).1 ≠ 0xff)
    (hres : iobuf_reserve mem g.vc.obuf (rhost.length + 10) ≠ none) :
    (client.channel_request_tunnel mem g tunaf rhost rport rev).1 =
      (client.tunnel_generate_id g).1 ∧
    (client.channel_request_tunnel mem g tunaf rhost rport rev).2.all_sockets =
      g.all_sockets ∧
    (client.channel_request_tunnel mem g tunaf rhost rport rev).2.last_tid =
      (client.tunnel_generate_id g).1 ∧
    valid_iobuf (client.channel_request_tunnel mem g tunaf rhost rport rev).2.vc.obuf ∧
    iobuf_bytes (client.channel_request_tunnel mem g tunaf rhost rport rev).2.vc.obuf =
      iobuf_bytes g.vc.obuf ++
        request_bytes (if rev then R2TCMD_BIND else R2TCMD_CONN)
          (client.tunnel_generate_id g).1 tunaf rhost rport ∧
    (client.channel_request_tunnel mem g tunaf rhost rport rev).2.vc.ts = g.vc.ts ∧
    (client.channel_request_tunnel mem g tunaf rhost rport rev).2.vc.last_state =
      g.vc.last_state ∧
    (client.channel_request_tunnel mem g tunaf rhost rport rev).2.vc.ibuf = g.vc.ibuf := by
  obtain ⟨f1, f2, f3⟩ := tunnel_generate_id_frame g
  have f3 := f3 hid
  generalize hcmd : (if rev then R2TCMD_BIND else R2TCMD_CONN) = cmd
  have hu1 : u32 (1 + rhost.length) = 1 + rhost.length := u32_of_lt (by omega)
  have hu2 : u32 (5 + (1 + rhost.length)) = rhost.length + 6 := by
    rw [u32_of_lt (by omega)]; omega
  unfold client.channel_request_tunnel
  simp only [hid, if_false, hu1, hu2, hcmd]
  generalize client.tunnel_generate_id g = r at f1 f2 f3 hid ⊢
  obtain ⟨tid, g1⟩ := r
  simp only at f1 f2 f3 hid ⊢
  rw [← f1] at hv hb hres ⊢
  cases hw : client.write_reserve mem g1.vc (rhost.length + 6) with
  | none =>
    exfalso
    apply hres
    unfold client.write_reserve at hw
    rw [u32_of_lt (by omega : rhost.length + 6 + 4 < 4294967296)] at hw
    cases hr : iobuf_reserve mem g1.vc.obuf (rhost.length + 10) with
    | none => rfl
    | some p => rw [show rhost.length + 6 + 4 = rhost.length + 10 by omega, hr] at hw; cases hw
  | some p =>
    obtain ⟨vc1, av⟩ := p
    obtain ⟨r1, r2, r3, r4, r5, r6, r7⟩ := write_reserve_spec mem g1.vc vc1 (rhost.length + 6) av
      hv (by omega) hw
    simp only
    have h2 : (htons rport).length = 2 := rfl
    obtain ⟨a1, a2, a3, a4⟩ := iobuf_store_chain vc1.obuf 4 5
      (vc1.obuf.data.take (vc1.obuf.size + 4)) [] [cmd] r2 rfl (by omega)
      (List.append_nil _).symm
    generalize iobuf_store vc1.obuf 4 [cmd] = b1 at a1 a2 a3 a4 ⊢
    obtain ⟨c1, c2, c3, c4⟩ := iobuf_store_chain b1 5 6 _ _ [tid] (by rw [a3]) rfl (by omega) a4
    generalize iobuf_store b1 5 [tid] = b2 at c1 c2 c3 c4 ⊢
    obtain ⟨d1, d2, d3, d4⟩ := iobuf_store_chain b2 6 8 _ _ (htons rport) (by rw [c3]) rfl
      (by omega) c4
    generalize iobuf_store b2 6 (htons rport) = b3 at d1 d2 d3 d4 ⊢
    obtain ⟨e1, e2, e3, e4⟩ := iobuf_store_chain b3 8 9 _ _ [tunaf] (by rw [d3]) rfl
      (by omega) d4
    generalize iobuf_store b3 8 [tunaf] = b4 at e1 e2 e3 e4 ⊢
    obtain ⟨k1, k2, k3, k4⟩ := iobuf_store_chain b4 9 (4 + (rhost.length + 6)) _ _ (rhost ++ [0])
      (by rw [e3]) (by simp only [List.length_append, List.length_singleton]; omega)
      (by omega) e4
    generalize iobuf_store b4 9 (rhost ++ [0]) = b5 at k1 k2 k3 k4 ⊢
    have hbl : ([] ++ [cmd] ++ [tid] ++ htons rport ++ [tunaf] ++ (rhost ++ [0])).length =
        rhost.length + 6 := by
      simp only [List.length_append, List.length_singleton, List.length_nil, h2]; omega
    obtain ⟨w1, w2, w3, w4, w5⟩ := write_commit_frame vc1 b5
      ([] ++ [cmd] ++ [tid] ++ htons rport ++ [tunaf] ++ (rhost ++ [0]))
      (by omega) k3 (by rw [hbl]; omega) (by omega) (by rw [hbl]; exact k4)
      (by rw [hbl]; omega)
    rw [hbl] at w1 w2 w3 w4 w5
    refine ⟨trivial, f2, f3, w1, w2.trans ?_, w3.trans r5, w4.trans r6, w5.trans r7⟩
    rw [r1, r4]
    simp only [request_bytes, show 5 + rhost.length + 1 = rhost.length + 6 by omega,
      List.append_assoc, List.nil_append, List.singleton_append, List.cons_append]

/-! ## Theorems: the SOCKS5 reply of the client -/

theorem getElem?_update_at (l : List client.netsock_t) (f : client.netsock_t → client.netsock_t) :
    ∀ i j, (client.update_at l i f)[j]? = if j = i then (l[i]?).map f else l[j]? := by
  induction l with
  | nil => intro i j; simp [client.update_at]
  | cons a t ih =>
    intro i j
    cases i with
    | zero =>
      cases j with
      | zero => simp [client.update_at]
      | succ j => simp [client.update_at]
    | succ i =>
      cases j with
      | zero => simp [client.update_at]
      | succ j => simp [client.update_at, ih i j]

theorem length_update_at (l : List client.netsock_t) (f : client.netsock_t → client.netsock_t) :
    ∀ i, (client.update_at l i f).length = l.length := by
  induction l with
  | nil => intro i; rfl
  | cons a t ih =>
    intro i
    cases i with
    | zero => rfl
    | succ i => simp [client.update_at, ih i]

/-- What `net_write` does with a non-empty message when the descriptor accepts
at least one byte and memory is available: the bytes the descriptor accepted,
followed by the bytes of the output buffer, are the bytes queued before
followed by the message. -/
theorem net_write_taken (k : Nat) (obuf : iobuf) (data : List Nat) (hk : 0 < k)
    (hv : valid_iobuf obuf) (hn : 0 < data.length)
    (hb : obuf.size + data.length < 4294967296) :
    0 ≤ (net_write (write_outcome.wrote k) true obuf data).1 ∧
    valid_iobuf (net_write (write_outcome.wrote k) true obuf data).2.1 ∧
    (net_write (write_outcome.wrote k) true obuf data).2.2.2 ++
      iobuf_bytes (net_write (write_outcome.wrote k) true obuf data).2.1 =
      iobuf_bytes obuf ++ data := by
  have hres : ∀ (d : List Nat), iobuf_append true obuf d ≠ none := by
    intro d h
    unfold iobuf_append iobuf_reserve at h
    simp only [if_true] at h
    split_ifs at h
  unfold net_write
  simp only [hn, if_true, iobuf_datalen]
  by_cases hu : obuf.size = 0
  · have he : iobuf_bytes obuf = [] := by rw [iobuf_bytes_eq, hu]; rfl
    simp only [hu, if_true, Nat.pos_iff_ne_zero.1 hk, if_false]
    by_cases hs : data.length - k = 0
    · simp only [hs, if_true]
      refine ⟨le_refl _, hv, ?_⟩
      rw [he, List.take_of_length_le (by omega)]
      simp
    · simp only [hs, if_false]
      cases ha : iobuf_append true obuf (List.drop k data) with
      | none => exact absurd ha (hres _)
      | some b1 =>
        obtain ⟨a1, a2⟩ := iobuf_append_spec true obuf b1 _ hv
          (by rw [List.length_drop]; omega) (by rw [List.length_drop]; omega) ha
        refine ⟨by simp, a1, ?_⟩
        show List.take k data ++ iobuf_bytes b1 = _
        rw [a2, he, List.nil_append, List.nil_append, List.take_append_drop]
  · simp only [hu, if_false]
    cases ha : iobuf_append true obuf data with
    | none => exact absurd ha (hres _)
    | some b1 =>
      obtain ⟨a1, a2⟩ := iobuf_append_spec true obuf b1 _ hv hn hb ha
      exact ⟨by simp, a1, by show [] ++ iobuf_bytes b1 = _; rw [a2, List.nil_append]⟩

/-- The DATA frame `channel_forward_iobuf` queues when the output buffer of the
channel can grow; the forwarded buffer is left empty. -/
theorem channel_forward_iobuf_spec (mem : Bool) (vc : client.vchannel_t) (ibuf : iobuf)
    (tid : Nat) (hv : valid_iobuf vc.obuf) (hvi : valid_iobuf ibuf)
    (hb : vc.obuf.size + ibuf.size + 6 < 4294967296)
    (hres : iobuf_reserve mem vc.obuf (ibuf.size + 6) ≠ none) :
    (client.channel_forward_iobuf mem vc ibuf tid).1 = 0 ∧
    valid_iobuf (client.channel_forward_iobuf mem vc ibuf tid).2.1.obuf ∧
    iobuf_bytes (client.channel_forward_iobuf mem vc ibuf tid).2.1.obuf =
      iobuf_bytes vc.obuf ++ frame_bytes ⟨R2TCMD_DATA, tid, iobuf_bytes ibuf⟩ ∧
    iobuf_bytes (client.channel_forward_iobuf mem vc ibuf tid).2.2 = [] ∧
    (client.channel_forward_iobuf mem vc ibuf tid).2.1.ts = vc.ts ∧
    (client.channel_forward_iobuf mem vc ibuf tid).2.1.last_state = vc.last_state ∧
    (client.channel_forward_iobuf mem vc ibuf tid).2.1.ibuf = vc.ibuf := by
  have hlen := iobuf_bytes_length ibuf hvi
  have hu : u32 (ibuf.size + 2) = ibuf.size + 2 := u32_of_lt (by omega)
  unfold client.channel_forward_iobuf
  simp only [iobuf_datalen, hu]
  cases hw : client.write_reserve mem vc (ibuf.size + 2) with
  | none =>
    exfalso
    apply hres
    unfold client.write_reserve at hw
    rw [u32_of_lt (by omega : ibuf.size + 2 + 4 < 4294967296)] at hw
    cases hr : iobuf_reserve mem vc.obuf (ibuf.size + 6) with
    | none => rfl
    | some p => rw [show ibuf.size + 2 + 4 = ibuf.size + 6 by omega, hr] at hw; cases hw
  | some p =>
    obtain ⟨vc1, av⟩ := p
    obtain ⟨r1, r2, r3, r4, r5, r6, r7⟩ := write_reserve_spec mem vc vc1 (ibuf.size + 2) av
      hv (by omega) hw
    simp only
    obtain ⟨a1, a2, a3, a4⟩ := iobuf_store_chain vc1.obuf 4 5
      (vc1.obuf.data.take (vc1.obuf.size + 4)) [] [R2TCMD_DATA] r2 rfl (by omega)
      (List.append_nil _).symm
    generalize iobuf_store vc1.obuf 4 [R2TCMD_DATA] = b1 at a1 a2 a3 a4 ⊢
    obtain ⟨c1, c2, c3, c4⟩ := iobuf_store_chain b1 5 6 _ _ [tid] (by rw [a3]) rfl (by omega) a4
    generalize iobuf_store b1 5 [tid] = b2 at c1 c2 c3 c4 ⊢
    obtain ⟨d1, d2, d3, d4⟩ := iobuf_store_chain b2 6 (4 + (ibuf.size + 2)) _ _ (iobuf_bytes ibuf)
      (by rw [c3]) (by rw [hlen]; omega) (by omega) c4
    generalize iobuf_store b2 6 (iobuf_bytes ibuf) = b3 at d1 d2 d3 d4 ⊢
    have hbl : ([] ++ [R2TCMD_DATA] ++ [tid] ++ iobuf_bytes ibuf).length = ibuf.size + 2 := by
      simp only [List.length_append, List.length_singleton, List.length_nil, hlen]; omega
    obtain ⟨w1, w2, w3, w4, w5⟩ := write_commit_frame vc1 b3
      ([] ++ [R2TCMD_DATA] ++ [tid] ++ iobuf_bytes ibuf)
      (by omega) d3 (by rw [hbl]; omega) (by omega) (by rw [hbl]; exact d4)
      (by rw [hbl]; omega)
    rw [hbl] at w1 w2 w3 w4 w5
    refine ⟨trivial, w1, w2.trans ?_, ?_, w3.trans r5, w4.trans r6, w5.trans r7⟩
    · rw [r1, r4]
      simp only [frame_bytes, hlen, List.append_assoc, List.nil_append, List.singleton_append,
        List.cons_append]
    · rw [iobuf_bytes_eq]
      simp [iobuf_consume]

theorem tunnel_close_sockets (mem : Bool) (g : client.globals) (i : Nat) (notify : Bool) :
    (client.tunnel_close mem g i notify).all_sockets =
      client.update_at g.all_sockets i (fun r => { r with state := client.NETSTATE_CANCELLED }) := by
  unfold client.tunnel_close
  cases h : g.all_sockets[i]? with
  | none =>
    simp only
    apply List.ext_getElem?
    intro j
    rw [getElem?_update_at]
    split
    · rename_i hj; subst hj; simp [h]
    · rfl
  | some ns =>
    simp only [client.netsock_cancel]
    split_ifs <;> rfl

theorem iobuf_reserve_true (b : iobuf) (n : Nat) : iobuf_reserve true b n ≠ none := by
  intro h
  unfold iobuf_reserve at h
  simp only [if_true] at h
  split_ifs at h

/-- What `net_write` does with a non-empty message when the output buffer
already holds data and memory is available: nothing is written, the message is
queued after the data. -/
theorem net_write_queued (os : write_outcome) (obuf : iobuf) (data : List Nat)
    (hv : valid_iobuf obuf) (hn : 0 < data.length) (hu : obuf.size ≠ 0)
    (hb : obuf.size + data.length < 4294967296) :
    (net_write os true obuf data).1 = 1 ∧
    (net_write os true obuf data).2.2.2 = [] ∧
    iobuf_bytes (net_write os true obuf data).2.1 = iobuf_bytes obuf ++ data := by
  unfold net_write
  simp only [hn, if_true, iobuf_datalen, hu, if_false]
  cases ha : iobuf_append true obuf data with
  | none =>
    exfalso
    unfold iobuf_append at ha
    cases hr : iobuf_reserve true obuf data.length with
    | none => exact iobuf_reserve_true _ _ hr
    | some p => rw [hr] at ha; cases ha
  | some b1 =>
    obtain ⟨-, a2⟩ := iobuf_append_spec true obuf b1 _ hv hn hb ha
    exact ⟨rfl, rfl, a2⟩

/-- What `net_write` does with a non-empty message when the output buffer is
empty and the direct write would block: it returns 1, nothing is written and
nothing is queued. -/
theorem net_write_blocked (mem : Bool) (obuf : iobuf) (data : List Nat)
    (hn : 0 < data.length) (hu : obuf.size = 0) :
    net_write write_outcome.pending mem obuf data = (1, obuf, 0, []) := by
  unfold net_write
  simp only [hn, if_true, iobuf_datalen, hu]

/-- What `socks5_connect_event` does on a client in the state Connecting when
`netsock_write` reports no error for the reply. -/
theorem socks5_connect_event_connecting (e : client.env_t) (g : client.globals) (cli : Nat)
    (c : client.netsock_t) (af : Int) (addr : List Nat) (port : Nat)
    (hc : g.all_sockets[cli]? = some c)
    (haddr : addr.length = if af = AF_INET then 4 else 16) (hport : port < 65536)
    (hvi : valid_iobuf c.ibuf) (hvc : valid_iobuf g.vc.obuf)
    (hbc : g.vc.obuf.size + c.ibuf.size + 6 < 4294967296)
    (hst : c.state = client.NETSTATE_CONNECTING)
    (hw0 : 0 ≤ (net_write e.write (e.mem 1) c.obuf (socks5_reply af addr port)).1)
    (hres : 0 < c.ibuf.size → iobuf_reserve (e.mem 2) g.vc.obuf (c.ibuf.size + 6) ≠ none) :
    (∃ c1, (client.socks5_connect_event e g cli af addr port).all_sockets[cli]? = some c1 ∧
      c1.state = client.NETSTATE_CONNECTED ∧
      c1.obuf = (net_write e.write (e.mem 1) c.obuf (socks5_reply af addr port)).2.1 ∧
      iobuf_bytes c1.ibuf = [] ∧ c1.tid = c.tid ∧ c1.type = c.type ∧ c1.fd = c.fd) ∧
    (∀ j, j ≠ cli →
      (client.socks5_connect_event e g cli af addr port).all_sockets[j]? = g.all_sockets[j]?) ∧
    iobuf_bytes (client.socks5_connect_event e g cli af addr port).vc.obuf =
      iobuf_bytes g.vc.obuf ++
        (if 0 < c.ibuf.size then frame_bytes ⟨R2TCMD_DATA, c.tid, iobuf_bytes c.ibuf⟩ else []) := by
  have hal : (if af = AF_INET then 4 else 16 : Nat) = addr.length := haddr.symm
  have hans : [client.SOCKS5_VERSION, client.SOCKS5_SUCCESS, 0,
      if af = AF_INET then client.SOCKS5_ATYPE_IPV4 else client.SOCKS5_ATYPE_IPV6] ++
      (addr ++ (List.range ((if af = AF_INET then 4 else 16) - addr.length)).map e.past).take
        (if af = AF_INET then 4 else 16) ++ [u8 (port / 256), port % 256] =
      socks5_reply af addr port := by
    rw [hal, List.take_left' rfl, u8, Nat.mod_eq_of_lt (by omega)]
    rfl
  have h1 : (client.update_at g.all_sockets cli
      (fun ns => { ns with state := client.NETSTATE_CONNECTED }))[cli]? =
      some { c with state := client.NETSTATE_CONNECTED } := by
    rw [getElem?_update_at, if_pos rfl, hc]; rfl
  unfold client.socks5_connect_event
  simp only [hc, hst, ne_eq, not_true_eq_false, if_false, hans, client.netsock_write, h1]
  generalize net_write e.write (e.mem 1) c.obuf (socks5_reply af addr port) = w at hw0 ⊢
  rw [if_pos hw0]
  simp only [getElem?_update_at, if_true, eq_self_iff_true, hc, Option.map_some', iobuf_datalen]
  by_cases hz : c.ibuf.size > 0
  · obtain ⟨f1, f2, f3, f4, -⟩ := channel_forward_iobuf_spec (e.mem 2) g.vc c.ibuf c.tid hvc hvi
      hbc (hres hz)
    simp only [hz, if_true, f1, lt_self_iff_false, if_false, getElem?_update_at,
      eq_self_iff_true, hc, Option.map_some']
    refine ⟨⟨_, rfl, rfl, rfl, f4, rfl, rfl, rfl⟩, ?_, f3⟩
    intro j hj
    simp only [hj, if_false]
  · simp only [hz, if_false, getElem?_update_at, if_true, eq_self_iff_true, hc, Option.map_some',
      List.append_nil]
    refine ⟨⟨_, rfl, rfl, rfl, ?_, rfl, rfl, rfl⟩, ?_, trivial⟩
    · rw [iobuf_bytes_eq, show c.ibuf.size = 0 by omega]; rfl
    · intro j hj
      simp only [hj, if_false]

/-- The handler `cmd_conn` of the client on a successful answer (error byte 0)
of the family ipv4 with 4 address bytes, or ipv6 with 16, for the tid of a
SOCKS5 client: it returns 0 and calls `socks5_connect_event` with `AF_INET` or
`AF_INET6`, the address bytes of the answer and its port. -/
theorem cmd_conn_socks5 (e : client.env_t) (g : client.globals) (tid tunaf phi plo : Nat)
    (addr : List Nat) (cli : Nat) (c : client.netsock_t)
    (hlook : client.tunnel_lookup g.all_sockets tid = some cli)
    (hc : g.all_sockets[cli]? = some c) (htype : c.type = client.NETSOCK_S5CLI)
    (haf : (tunaf = 1 ∧ addr.length = 4) ∨ (tunaf = 2 ∧ addr.length = 16)) :
    client.cmd_conn e g ([R2TCMD_CONN, tid, 0, tunaf, phi, plo] ++ addr) (6 + addr.length) =
      (0, client.socks5_connect_event e g cli (if tunaf = 1 then AF_INET else AF_INET6) addr
        (phi * 256 + plo)) := by
  have ht : ¬ (client.NETSOCK_S5CLI = client.NETSOCK_TUNCLI) := by decide
  unfold client.cmd_conn client.check_binding_answer client.check_tunnel_id
  rcases haf with ⟨h1, h2⟩ | ⟨h1, h2⟩
  · subst h1
    simp [peek, hlook, hc, htype, ht, h2, TUNAF_ANY, TUNAF_IPV4]
  · subst h1
    simp [peek, hlook, hc, htype, ht, h2, TUNAF_ANY, TUNAF_IPV4, TUNAF_IPV6]

/-- C16 (the code diverges from the claim): the success reply of SOCKS5. The
handler `cmd_conn` is given the answer of the server for the tid of a SOCKS5
client: error byte 0, family ipv4 with 4 address bytes or ipv6 with 16, and the
port; it returns 0. When the client is in the state Connecting,
`socks5_connect_event` gives `netsock_write` exactly the reply 05 00 00 atyp,
the address bytes and the port high byte first, atyp being 1 for ipv4 and 4 for
ipv6. Whenever that call reports no error, the state becomes Connected, the
output buffer of the client is the one `net_write` leaves, the bytes held in
the input buffer of the client are queued on the channel as one DATA frame for
its tid and the input buffer is left empty, no other record changes. When the
descriptor accepts data, what it accepts followed by what the output buffer
holds is what was queued before followed by the reply; when the output buffer
already holds data, the reply is queued after them. When the output buffer is
empty and the write would block, `net_write` returns 1 without writing or
queueing anything: no error is reported, the client is Connected and the reply
is lost. When the client is in another state, it is cancelled, its output
buffer is untouched (no reply is sent) and a CLOSE frame for its tid is queued
on the channel. -/
theorem C16_socks5_success_reply (e : client.env_t) (g : client.globals)
    (tid tunaf phi plo : Nat) (addr : List Nat) (cli : Nat) (c : client.netsock_t)
    (hlook : client.tunnel_lookup g.all_sockets tid = some cli)
    (hc : g.all_sockets[cli]? = some c) (htype : c.type = client.NETSOCK_S5CLI)
    (haf : (tunaf = 1 ∧ addr.length = 4) ∨ (tunaf = 2 ∧ addr.length = 16))
    (hphi : phi < 256) (hplo : plo < 256)
    (hvo : valid_iobuf c.obuf) (hvi : valid_iobuf c.ibuf) (hvc : valid_iobuf g.vc.obuf)
    (hbo : c.obuf.size + 22 < 4294967296)
    (hbc : g.vc.obuf.size + c.ibuf.size + 6 < 4294967296) :
    (client.cmd_conn e g ([R2TCMD_CONN, tid, 0, tunaf, phi, plo] ++ addr) (6 + addr.length)).1 = 0 ∧
    (c.state = client.NETSTATE_CONNECTING →
      (0 ≤ (net_write e.write (e.mem 1) c.obuf
          ([5, 0, 0, if tunaf = 1 then 1 else 4] ++ addr ++ [phi, plo])).1 →
        (0 < c.ibuf.size → iobuf_reserve (e.mem 2) g.vc.obuf (c.ibuf.size + 6) ≠ none) →
        (∃ c1, (client.cmd_conn e g ([R2TCMD_CONN, tid, 0, tunaf, phi, plo] ++ addr)
            (6 + addr.length)).2.all_sockets[cli]? = some c1 ∧
          c1.state = client.NETSTATE_CONNECTED ∧
          c1.obuf = (net_write e.write (e.mem 1) c.obuf
            ([5, 0, 0, if tunaf = 1 then 1 else 4] ++ addr ++ [phi, plo])).2.1 ∧
          iobuf_bytes c1.ibuf = [] ∧ c1.tid = c.tid ∧ c1.type = c.type ∧ c1.fd = c.fd) ∧
        (∀ j, j ≠ cli →
          (client.cmd_conn e g ([R2TCMD_CONN, tid, 0, tunaf, phi, plo] ++ addr)
            (6 + addr.length)).2.all_sockets[j]? = g.all_sockets[j]?) ∧
        iobuf_bytes (client.cmd_conn e g ([R2TCMD_CONN, tid, 0, tunaf, phi, plo] ++ addr)
            (6 + addr.length)).2.vc.obuf =
          iobuf_bytes g.vc.obuf ++
            (if 0 < c.ibuf.size then frame_bytes ⟨R2TCMD_DATA, c.tid, iobuf_bytes c.ibuf⟩
             else [])) ∧
      (∀ k, e.write = write_outcome.wrote k → 0 < k → e.mem 1 = true →
        0 ≤ (net_write e.write (e.mem 1) c.obuf
          ([5, 0, 0, if tunaf = 1 then 1 else 4] ++ addr ++ [phi, plo])).1 ∧
        (net_write e.write (e.mem 1) c.obuf
            ([5, 0, 0, if tunaf = 1 then 1 else 4] ++ addr ++ [phi, plo])).2.2.2 ++
          iobuf_bytes (net_write e.write (e.mem 1) c.obuf
            ([5, 0, 0, if tunaf = 1 then 1 else 4] ++ addr ++ [phi, plo])).2.1 =
          iobuf_bytes c.obuf ++ ([5, 0, 0, if tunaf = 1 then 1 else 4] ++ addr ++ [phi, plo])) ∧
      (c.obuf.size ≠ 0 → e.mem 1 = true →
        (net_write e.write (e.mem 1) c.obuf
          ([5, 0, 0, if tunaf = 1 then 1 else 4] ++ addr ++ [phi, plo])).1 = 1 ∧
        (net_write e.write (e.mem 1) c.obuf
          ([5, 0, 0, if tunaf = 1 then 1 else 4] ++ addr ++ [phi, plo])).2.2.2 = [] ∧
        iobuf_bytes (net_write e.write (e.mem 1) c.obuf
            ([5, 0, 0, if tunaf = 1 then 1 else 4] ++ addr ++ [phi, plo])).2.1 =
          iobuf_bytes c.obuf ++ ([5, 0, 0, if tunaf = 1 then 1 else 4] ++ addr ++ [phi, plo])) ∧
      (e.write = write_outcome.pending → c.obuf.size = 0 →
        net_write e.write (e.mem 1) c.obuf
            ([5, 0, 0, if tunaf = 1 then 1 else 4] ++ addr ++ [phi, plo]) =
          (1, c.obuf, 0, []) ∧
        iobuf_bytes c.obuf = [])) ∧
    (c.state ≠ client.NETSTATE_CONNECTING →
      (client.cmd_conn e g ([R2TCMD_CONN, tid, 0, tunaf, phi, plo] ++ addr)
          (6 + addr.length)).2.all_sockets =
        client.update_at g.all_sockets cli
          (fun r => { r with state := client.NETSTATE_CANCELLED }) ∧
      (c.tid ≠ 0xff → g.vc.obuf.size + 6 < 4294967296 →
        iobuf_reserve (e.mem 1) g.vc.obuf 6 ≠ none →
        iobuf_bytes (client.cmd_conn e g ([R2TCMD_CONN, tid, 0, tunaf, phi, plo] ++ addr)
            (6 + addr.length)).2.vc.obuf =
          iobuf_bytes g.vc.obuf ++ [0, 0, 0, 2, 1, c.tid])) := by
  rw [cmd_conn_socks5 e g tid tunaf phi plo addr cli c hlook hc htype haf]
  have haddr : addr.length = if (if tunaf = 1 then AF_INET else AF_INET6) = AF_INET then 4
      else 16 := by
    rcases haf with ⟨h1, h2⟩ | ⟨h1, h2⟩
    · subst h1; rw [h2]; rfl
    · subst h1; rw [h2]; rfl
  have hreply : socks5_reply (if tunaf = 1 then AF_INET else AF_INET6) addr (phi * 256 + plo) =
      [5, 0, 0, if tunaf = 1 then 1 else 4] ++ addr ++ [phi, plo] := by
    have h1 : (phi * 256 + plo) / 256 = phi := by omega
    have h2 : (phi * 256 + plo) % 256 = plo := by omega
    rcases haf with ⟨h, -⟩ | ⟨h, -⟩
    · subst h; simp only [socks5_reply, h1, h2]; rfl
    · subst h; simp only [socks5_reply, h1, h2]; rfl
  have hrl : ([5, 0, 0, if tunaf = 1 then 1 else 4] ++ addr ++ [phi, plo]).length =
      addr.length + 6 := by simp
  have hal : addr.length ≤ 16 := by rcases haf with ⟨-, h⟩ | ⟨-, h⟩ <;> omega
  refine ⟨rfl, ?_, ?_⟩
  · intro hst
    refine ⟨?_, ?_, ?_, ?_⟩
    · intro hw0 hres
      rw [← hreply] at hw0 ⊢
      exact socks5_connect_event_connecting e g cli c _ addr (phi * 256 + plo) hc haddr
        (by omega) hvi hvc hbc hst hw0 hres
    · intro k hw hk hmem
      rw [hw, hmem]
      obtain ⟨n1, -, n3⟩ := net_write_taken k c.obuf _ hk hvo (by rw [hrl]; omega)
        (by rw [hrl]; omega)
      exact ⟨n1, n3⟩
    · intro hu hmem
      rw [hmem]
      exact net_write_queued e.write c.obuf _ hvo (by rw [hrl]; omega) hu (by rw [hrl]; omega)
    · intro hw hu
      rw [hw]
      exact ⟨net_write_blocked (e.mem 1) c.obuf _ (by rw [hrl]; omega) hu,
        by rw [iobuf_bytes_eq, hu]; rfl⟩
  · intro hst
    have h : client.socks5_connect_event e g cli (if tunaf = 1 then AF_INET else AF_INET6) addr
        (phi * 256 + plo) = client.tunnel_close (e.mem 1) g cli true := by
      unfold client.socks5_connect_event
      simp only [hc, hst, ne_eq, not_false_eq_true, if_true]
    refine ⟨by rw [h, tunnel_close_sockets], ?_⟩
    intro htid hb hres
    have hvcq : (client.tunnel_close (e.mem 1) g cli true).vc =
        client.channel_close_tunnel (e.mem 1) g.vc c.tid := by
      unfold client.tunnel_close
      simp only [hc, htid, ne_eq, not_false_eq_true, if_true, client.netsock_cancel]
      split_ifs <;> rfl
    show iobuf_bytes (client.socks5_connect_event e g cli _ addr _).vc.obuf = _
    rw [h, hvcq]
    exact (channel_close_tunnel_spec (e.mem 1) g.vc c.tid hvc hb hres).2.1

/-- Witness of C16, at the failing input: the answer for 127.0.0.1, port 80
(frame bytes 00 03 00 01 00 50 7F 00 00 01 after the length) delivered for the
SOCKS5 client of tid 3, in the state Connecting with an empty output buffer,
while a write on its descriptor would block. The handler returns 0 and the
client is Connected (3), its output buffer is still empty, and `net_write`,
given the reply 05 00 00 01 7F 00 00 01 00 50, has written nothing and
returned 1: the reply is neither sent nor queued. -/
theorem C16_socks5_success_reply_witness :
    (client.cmd_conn
      (client.env_t.mk 0 (fun _ => true) write_outcome.pending true none none (fun _ => 0))
      (client.globals.mk [{ client.netsock_new 3 with type := 5, state := 2, tid := 3 }] 3
        client.channel_init)
      [0, 3, 0, 1, 0, 80, 127, 0, 0, 1] 10).1 = 0 ∧
    (client.cmd_conn
      (client.env_t.mk 0 (fun _ => true) write_outcome.pending true none none (fun _ => 0))
      (client.globals.mk [{ client.netsock_new 3 with type := 5, state := 2, tid := 3 }] 3
        client.channel_init)
      [0, 3, 0, 1, 0, 80, 127, 0, 0, 1] 10).2.all_sockets.map
        (fun ns => (ns.state, ns.tid, iobuf_bytes ns.obuf)) = [(3, 3, [])] ∧
    net_write write_outcome.pending true iobuf_init [5, 0, 0, 1, 127, 0, 0, 1, 0, 80] =
      (1, iobuf_init, 0, []) :=
  have h := C16_socks5_success_reply
    (client.env_t.mk 0 (fun _ => true) write_outcome.pending true none none (fun _ => 0))
    (client.globals.mk [{ client.netsock_new 3 with type := 5, state := 2, tid := 3 }] 3
      client.channel_init)
    3 1 0 80 [127, 0, 0, 1] 0 { client.netsock_new 3 with type := 5, state := 2, tid := 3 }
    (by decide) (by decide) (by decide) (Or.inl ⟨rfl, rfl⟩) (by decide) (by decide)
    (by decide) (by decide) (by decide) (by decide) (by decide)
  ⟨h.1, by decide, ((h.2.1 rfl).2.2.2 rfl rfl).1⟩

/-! ## Theorems: the reverse listeners across a reconnection -/

theorem tunnels_kill_clients_loop_spec (l : List client.netsock_t)
    (ht : ∀ ns ∈ l, ns.type ≤ 7) :
    client.tunnels_kill_clients_loop l = l.filterMap client.kill_clients_spec := by
  induction l with
  | nil => rfl
  | cons a t ih =>
    have ha := ht a (List.mem_cons_self _ _)
    have iht := ih (fun ns h => ht ns (List.mem_cons_of_mem _ h))
    rw [client.tunnels_kill_clients_loop, List.filterMap_cons, iht]
    unfold client.kill_clients_spec
    simp only [client.NETSOCK_RTUNSRV, client.NETSOCK_CTRLCLI, client.NETSOCK_TUNCLI,
      client.NETSOCK_S5CLI, client.NETSOCK_RTUNCLI]
    by_cases h6 : a.type = 6
    · simp only [h6, if_true]
    · simp only [h6, if_false]
      by_cases h3 : a.type > 3
      · have : a.type = 4 ∨ a.type = 5 ∨ a.type = 7 := by omega
        simp only [h3, this, if_true]
      · have : ¬ (a.type = 4 ∨ a.type = 5 ∨ a.type = 7) := by omega
        simp only [h3, this, if_false]

theorem channel_request_tunnel_ok (mem : Bool) (g : client.globals) (tunaf : Nat)
    (rhost : List Nat) (rport : Nat) (rev : Bool)
    (hb : g.vc.obuf.size + rhost.length + 10 < 4294967296)
    (h : (client.channel_request_tunnel mem g tunaf rhost rport rev).1 ≠ 0xff) :
    (client.tunnel_generate_id g).1 ≠ 0xff ∧
    iobuf_reserve mem g.vc.obuf (rhost.length + 10) ≠ none := by
  obtain ⟨f1, -, -⟩ := tunnel_generate_id_frame g
  have hu1 : u32 (1 + rhost.length) = 1 + rhost.length := u32_of_lt (by omega)
  have hu2 : u32 (5 + (1 + rhost.length)) = rhost.length + 6 := by
    rw [u32_of_lt (by omega)]; omega
  have hu3 : u32 (rhost.length + 6 + 4) = rhost.length + 10 := by
    rw [u32_of_lt (by omega)]
  unfold client.channel_request_tunnel at h
  simp only [hu1, hu2, client.write_reserve, hu3, f1] at h
  by_cases hid : (client.tunnel_generate_id g).1 = 0xff
  · rw [if_pos hid] at h
    exact absurd rfl h
  · refine ⟨hid, ?_⟩
    rw [if_neg hid] at h
    intro hn
    rw [hn] at h
    exact absurd rfl h

theorem request_bytes_length (cmd tid tunaf : Nat) (host : List Nat) (port : Nat) :
    (request_bytes cmd tid tunaf host port).length = host.length + 10 := by
  simp only [request_bytes, htonl, htons, List.length_append, List.length_cons,
    List.length_nil]
  omega

theorem tunnels_restart_loop_spec (mem : Nat → Bool) :
    ∀ (rest : List client.netsock_t) (k : Nat) (g : client.globals)
      (done : List client.netsock_t),
      valid_iobuf g.vc.obuf → g.vc.obuf.size + client.bind_room rest < 4294967296 →
      client.restart_requests_ok mem k g done rest = true →
      ∃ tail, (client.tunnels_restart_loop mem k g done rest).all_sockets = done ++ tail ∧
        List.Forall₂ client.restarted rest tail ∧
        iobuf_bytes (client.tunnels_restart_loop mem k g done rest).vc.obuf =
          iobuf_bytes g.vc.obuf ++ client.bind_frames tail ∧
        valid_iobuf (client.tunnels_restart_loop mem k g done rest).vc.obuf ∧
        (client.tunnels_restart_loop mem k g done rest).vc.ts = g.vc.ts ∧
        (client.tunnels_restart_loop mem k g done rest).vc.ibuf = g.vc.ibuf := by
  intro rest
  induction rest with
  | nil =>
    intro k g done hv _ _
    exact ⟨[], by simp [client.tunnels_restart_loop], List.Forall₂.nil,
      by simp [client.tunnels_restart_loop, client.bind_frames, client.markers], hv, rfl, rfl⟩
  | cons ns rest ih =>
    intro k g done hv hb hok
    by_cases hm : ns.type = client.NETSOCK_RTUNSRV
    · have hroom : client.bind_room (ns :: rest) =
          ns.rhost.length + 10 + client.bind_room rest := by
        simp [client.bind_room, client.markers, hm]
      rw [hroom] at hb
      simp only [client.restart_requests_ok, if_pos hm, Bool.and_eq_true,
        decide_eq_true_eq] at hok
      obtain ⟨hne, hok2⟩ := hok
      simp only [client.tunnels_restart_loop, if_pos hm, if_pos hne]
      obtain ⟨hid, hres⟩ := channel_request_tunnel_ok (mem k)
        { g with all_sockets := done ++ ns :: rest } TUNAF_ANY ns.rhost ns.rport true
        (by show g.vc.obuf.size + _ + 10 < _; omega) hne
      obtain ⟨s1, -, -, s4, s5, s6, -, s8⟩ := channel_request_tunnel_spec (mem k)
        { g with all_sockets := done ++ ns :: rest } TUNAF_ANY ns.rhost ns.rport true hv
        (by show g.vc.obuf.size + _ + 10 < _; omega) hid hres
      generalize client.channel_request_tunnel (mem k)
        { g with all_sockets := done ++ ns :: rest } TUNAF_ANY ns.rhost ns.rport true = r
        at hne hok2 s1 s4 s5 s6 s8 ⊢
      have hsz : r.2.vc.obuf.size = g.vc.obuf.size + (ns.rhost.length + 10) := by
        rw [← iobuf_bytes_length _ s4, s5, List.length_append, request_bytes_length,
          iobuf_bytes_length _ hv]
      obtain ⟨tail, t1, t2, t3, t4, t5, t6⟩ := ih (k + 1) r.2
        (done ++ [{ ns with tid := r.1 }]) s4 (by rw [hsz]; omega) hok2
      refine ⟨{ ns with tid := r.1 } :: tail, ?_, ?_, ?_, t4, t5.trans s6, t6.trans s8⟩
      · rw [t1, List.append_assoc]; rfl
      · refine List.Forall₂.cons ?_ t2
        unfold client.restarted
        rw [if_pos hm]
        exact ⟨rfl, hne⟩
      · rw [t3, s5, List.append_assoc]
        congr 1
        simp [client.bind_frames, client.markers, hm, s1]
    · have hroom : client.bind_room (ns :: rest) = client.bind_room rest := by
        simp [client.bind_room, client.markers, hm]
      rw [hroom] at hb
      simp only [client.restart_requests_ok, if_neg hm] at hok
      simp only [client.tunnels_restart_loop, if_neg hm]
      obtain ⟨tail, t1, t2, t3, t4, t5, t6⟩ := ih (k + 1) g (done ++ [ns]) hv hb hok
      refine ⟨ns :: tail, ?_, ?_, ?_, t4, t5, t6⟩
      · rw [t1, List.append_assoc]; rfl
      · refine List.Forall₂.cons ?_ t2
        unfold client.restarted
        rw [if_neg hm]
      · rw [t3]
        congr 1
        simp [client.bind_frames, client.markers, hm]

theorem markers_kill_clients_loop (l : List client.netsock_t) :
    (client.markers (client.tunnels_kill_clients_loop l)).map client.marker_fields =
      (client.markers l).map client.marker_fields ∧
    client.bind_room (client.tunnels_kill_clients_loop l) = client.bind_room l := by
  induction l with
  | nil => exact ⟨rfl, rfl⟩
  | cons a t ih =>
    obtain ⟨ih1, ih2⟩ := ih
    unfold client.bind_room at ih2 ⊢
    unfold client.markers at ih1 ih2 ⊢
    by_cases hm : a.type = client.NETSOCK_RTUNSRV
    · rw [client.tunnels_kill_clients_loop, if_pos hm]
      simp only [List.filter_cons, hm, decide_True, if_true, List.map_cons, List.sum_cons, ih1,
        ih2, client.marker_fields]
      exact ⟨trivial, trivial⟩
    · by_cases h3 : a.type > client.NETSOCK_CTRLCLI
      · rw [client.tunnels_kill_clients_loop, if_neg hm, if_pos h3]
        simp only [List.filter_cons, hm, decide_False, Bool.false_eq_true, if_false]
        exact ⟨ih1, ih2⟩
      · rw [client.tunnels_kill_clients_loop, if_neg hm, if_neg h3]
        simp only [List.filter_cons, hm, decide_False, Bool.false_eq_true, if_false]
        exact ⟨ih1, ih2⟩

theorem markers_restarted (a b : List client.netsock_t)
    (h : List.Forall₂ client.restarted a b) :
    (client.markers b).map client.marker_fields = (client.markers a).map client.marker_fields := by
  induction h with
  | nil => rfl
  | @cons x y xs ys hab _ ih =>
    unfold client.markers at ih ⊢
    unfold client.restarted at hab
    by_cases hm : x.type = client.NETSOCK_RTUNSRV
    · rw [if_pos hm] at hab
      have hy : y.type = client.NETSOCK_RTUNSRV := by rw [hab.1]; exact hm
      have hf : client.marker_fields y = client.marker_fields x := by rw [hab.1]; rfl
      simp only [List.filter_cons, hm, hy, decide_True, if_true, List.map_cons, ih, hf]
    · rw [if_neg hm] at hab
      subst hab
      simp only [List.filter_cons, hm, decide_False, Bool.false_eq_true, if_false]
      exact ih

/-- C20: the reverse listeners across a reconnection. On a table whose records
have the types 0..7, `tunnels_kill_clients` removes every forward, SOCKS5 and
reverse client socket, keeps every listener and controller client in order and
resets each reverse-listener marker to the tid 255, unbound, without touching
the channel; when every request of the following `tunnels_restart` is given an
id, each marker is given a tid other than 255 and no other field of any record
changes, so that the table holds the same markers in the same order with the
same lhost, lport, rhost and rport, and the channel queue is extended by one
BIND frame per marker, in table order, carrying the family any, the rhost and
rport of the marker and the tid stored in it. -/
theorem C20_reverse_listeners_survive (mem : Nat → Bool) (g : client.globals)
    (ht : ∀ ns ∈ g.all_sockets, ns.type ≤ 7)
    (hv : valid_iobuf g.vc.obuf)
    (hb : g.vc.obuf.size + client.bind_room g.all_sockets < 4294967296)
    (hok : client.restart_requests_ok mem 0 (client.tunnels_kill_clients g) []
      (client.tunnels_kill_clients g).all_sockets = true) :
    (client.tunnels_kill_clients g).all_sockets =
      g.all_sockets.filterMap client.kill_clients_spec ∧
    (client.tunnels_kill_clients g).vc = g.vc ∧
    List.Forall₂ client.restarted (client.tunnels_kill_clients g).all_sockets
      (client.tunnels_restart mem (client.tunnels_kill_clients g)).all_sockets ∧
    (client.markers (client.tunnels_restart mem (client.tunnels_kill_clients g)).all_sockets).map
      client.marker_fields = (client.markers g.all_sockets).map client.marker_fields ∧
    iobuf_bytes (client.tunnels_restart mem (client.tunnels_kill_clients g)).vc.obuf =
      iobuf_bytes g.vc.obuf ++
        client.bind_frames (client.tunnels_restart mem (client.tunnels_kill_clients g)).all_sockets := by
  obtain ⟨m1, m2⟩ := markers_kill_clients_loop g.all_sockets
  obtain ⟨tail, t1, t2, t3, -⟩ := tunnels_restart_loop_spec mem
    (client.tunnels_kill_clients g).all_sockets 0 (client.tunnels_kill_clients g) [] hv
    (by show g.vc.obuf.size + client.bind_room (client.tunnels_kill_clients_loop g.all_sockets) < _
        rw [m2]; exact hb) hok
  rw [List.nil_append] at t1
  have hr : (client.tunnels_restart mem (client.tunnels_kill_clients g)).all_sockets = tail := t1
  refine ⟨tunnels_kill_clients_loop_spec _ ht, rfl, ?_, ?_, ?_⟩
  · rw [hr]; exact t2
  · rw [hr, markers_restarted _ _ t2]; exact m1
  · rw [hr]; exact t3

/-- Witness of C20: a controller client, a bound reverse listener holding the
tid 4 and a forward client holding the tid 5; after the reconnection the marker
holds the tid 5 and one BIND frame is queued. -/
theorem C20_reverse_listeners_survive_witness :
    (client.tunnels_restart (fun _ => true) (client.tunnels_kill_clients
      (client.globals.mk
        [{ client.netsock_new 3 with type := 3 },
         { client.netsock_new (-1) with type := 6, tid := 4, rhost := [104], rport := 80, lhost := [108], lport := 8080, bound := true },
         { client.netsock_new 4 with type := 4, tid := 5 }] 4 client.channel_init))).all_sockets =
      [{ client.netsock_new 3 with type := 3 },
       { client.netsock_new (-1) with type := 6, tid := 5, rhost := [104], rport := 80, lhost := [108], lport := 8080 }] ∧
    iobuf_bytes (client.tunnels_restart (fun _ => true) (client.tunnels_kill_clients
      (client.globals.mk
        [{ client.netsock_new 3 with type := 3 },
         { client.netsock_new (-1) with type := 6, tid := 4, rhost := [104], rport := 80, lhost := [108], lport := 8080, bound := true },
         { client.netsock_new 4 with type := 4, tid := 5 }] 4 client.channel_init))).vc.obuf =
      [0, 0, 0, 7, 4, 5, 0, 80, 0, 104, 0] :=
  have h := C20_reverse_listeners_survive (fun _ => true)
    (client.globals.mk
      [{ client.netsock_new 3 with type := 3 },
       { client.netsock_new (-1) with type := 6, tid := 4, rhost := [104], rport := 80, lhost := [108], lport := 8080, bound := true },
       { client.netsock_new 4 with type := 4, tid := 5 }] 4 client.channel_init)
    (by decide) (by decide) (by decide) (by decide)
  ⟨by decide, h.2.2.2.2⟩

/-! ## Theorems: the connection request from the client to the server -/

theorem cstring_append_nul (host rest : List Nat) (h : ∀ b ∈ host, b ≠ 0) :
    cstring (host ++ 0 :: rest) = host := by
  unfold cstring
  induction host with
  | nil => simp
  | cons a t ih =>
    have ha : a ≠ 0 := h a (List.mem_cons_self _ _)
    simp only [List.cons_append, List.takeWhile_cons, ne_eq, ha, not_false_eq_true, decide_True,
      if_true]
    rw [ih (fun b hb => h b (List.mem_cons_of_mem _ hb))]

theorem peek_append_right (l r : List Nat) (n : Nat) (h : l.length = n) :
    peek (l ++ r) n = r.headD 0 := by
  unfold peek
  rw [List.drop_left' h]

/-- The handler of the server on the request of the client. -/
theorem start_tcp_tunnel_request
    (tunnel_create : server.globals → Nat → Int → List Nat → Nat → Bool → server.globals)
    (mem : Bool) (os : server.write_os) (sg : server.globals) (cmd tid tunaf : Nat)
    (host : List Nat) (port : Nat) (bind_tunnel : Bool)
    (hport : port < 65536) (haf : tunaf ≤ 2) (hh : host ≠ []) (hnul : ∀ b ∈ host, b ≠ 0)
    (hfree : ∀ tun ∈ sg.tunnels, tun.id ≠ tid) :
    server.start_tcp_tunnel tunnel_create mem os sg
        ((request_bytes cmd tid tunaf host port).drop 4) (5 + host.length + 1) bind_tunnel =
      (0, tunnel_create sg tid (server.r2taf_to_sysaf tunaf) host port bind_tunnel) := by
  have hmsg : (request_bytes cmd tid tunaf host port).drop 4 =
      [cmd, tid, port / 256 % 256, port % 256, tunaf] ++ (host ++ [0]) := by
    simp [request_bytes, htonl, htons]
  have hl : 0 < host.length := List.length_pos.2 hh
  have hlook := (server_tunnel_lookup_none_iff sg.tunnels tid).2 hfree
  have hlast : peek ([cmd, tid, port / 256 % 256, port % 256, tunaf] ++ (host ++ [0]))
      (5 + (5 + host.length + 1 - 6)) = 0 := by
    rw [← List.append_assoc, peek_append_right _ _ _ (by simp; omega)]
    rfl
  have hstr : cstring (([cmd, tid, port / 256 % 256, port % 256, tunaf] ++ (host ++ [0])).drop 5) =
      host := by
    exact cstring_append_nul host [] hnul
  rw [hmsg]
  unfold server.start_tcp_tunnel
  rw [if_neg (by omega), hlast, hstr]
  have p1 : peek ([cmd, tid, port / 256 % 256, port % 256, tunaf] ++ (host ++ [0])) 1 = tid := rfl
  have p2 : peek ([cmd, tid, port / 256 % 256, port % 256, tunaf] ++ (host ++ [0])) 2 =
      port / 256 % 256 := rfl
  have p3 : peek ([cmd, tid, port / 256 % 256, port % 256, tunaf] ++ (host ++ [0])) 3 =
      port % 256 := rfl
  have p4 : peek ([cmd, tid, port / 256 % 256, port % 256, tunaf] ++ (host ++ [0])) 4 =
      tunaf := rfl
  rw [p1, p2, p3, p4, hlook]
  have hp : port / 256 % 256 * 256 + port % 256 = port := by omega
  simp only [ne_eq, not_true_eq_false, if_false, TUNAF_IPV6, gt_iff_lt, hp,
    show ¬ (2 < tunaf) by omega]

/-- C12: the connection request round trip. When an id is free and the output
buffer of the channel can grow, `channel_request_tunnel` with a non-empty
NUL-free host, a port below 65536 and a family of 0..2 returns a tid other than
255 and appends to the queue of the channel exactly the frame made of the
big-endian length 5 + |host| + 1, the command (CONN, or BIND for a reverse
request), the tid, the port big-endian, the family, the host bytes and a NUL;
the handler the server keeps for that command, given the frame after its
length field and that length, for a tid no tunnel of the server holds, returns
0 and calls `tunnel_create` with the same tid, the system family the address
family denotes (`AF_UNSPEC` for 0, any; `AF_INET` for 1, ipv4; `AF_INET6` for 2,
ipv6), the same host, the same port and the same bind flag. -/
theorem C12_connection_request_round_trip
    (tunnel_create : server.globals → Nat → Int → List Nat → Nat → Bool → server.globals)
    (tunnel_write : server.globals → Nat → List Nat → Int × server.globals)
    (tunnel_close : server.globals → Nat → server.globals)
    (mem smem : Bool) (os : server.write_os) (g : client.globals) (sg : server.globals)
    (tunaf : Nat) (rhost : List Nat) (rport : Nat) (rev : Bool)
    (hv : valid_iobuf g.vc.obuf) (hb : g.vc.obuf.size + rhost.length + 10 < 4294967296)
    (hid : (client.tunnel_generate_id g).1 ≠ 0xff)
    (hres : iobuf_reserve mem g.vc.obuf (rhost.length + 10) ≠ none)
    (hport : rport < 65536) (haf : tunaf ≤ 2) (hh : rhost ≠ []) (hnul : ∀ b ∈ rhost, b ≠ 0)
    (hfree : ∀ tun ∈ sg.tunnels,
      tun.id ≠ (client.channel_request_tunnel mem g tunaf rhost rport rev).1) :
    (client.channel_request_tunnel mem g tunaf rhost rport rev).1 ≠ 0xff ∧
    iobuf_bytes (client.channel_request_tunnel mem g tunaf rhost rport rev).2.vc.obuf =
      iobuf_bytes g.vc.obuf ++
        request_bytes (if rev then R2TCMD_BIND else R2TCMD_CONN)
          (client.channel_request_tunnel mem g tunaf rhost rport rev).1 tunaf rhost rport ∧
    ntohl (request_bytes (if rev then R2TCMD_BIND else R2TCMD_CONN)
      (client.channel_request_tunnel mem g tunaf rhost rport rev).1 tunaf rhost rport) 0 =
      5 + rhost.length + 1 ∧
    ∃ h, server.cmd_handlers tunnel_create tunnel_write tunnel_close smem os
        (if rev then R2TCMD_BIND else R2TCMD_CONN) = some h ∧
      h sg ((request_bytes (if rev then R2TCMD_BIND else R2TCMD_CONN)
          (client.channel_request_tunnel mem g tunaf rhost rport rev).1 tunaf rhost rport).drop 4)
          (5 + rhost.length + 1) =
        (0, tunnel_create sg (client.channel_request_tunnel mem g tunaf rhost rport rev).1
          (if tunaf = TUNAF_ANY then AF_UNSPEC else if tunaf = TUNAF_IPV4 then AF_INET
            else AF_INET6) rhost rport rev) := by
  have hfam : server.r2taf_to_sysaf tunaf =
      (if tunaf = TUNAF_ANY then AF_UNSPEC else if tunaf = TUNAF_IPV4 then AF_INET
        else AF_INET6) := by
    have h3 : tunaf = 0 ∨ tunaf = 1 ∨ tunaf = 2 := by omega
    rcases h3 with h | h | h <;> subst h <;> rfl
  obtain ⟨s1, -, -, -, s5, -⟩ := channel_request_tunnel_spec mem g tunaf rhost rport rev hv hb
    hid hres
  have hs := start_tcp_tunnel_request tunnel_create smem os sg
    (if rev then R2TCMD_BIND else R2TCMD_CONN)
    (client.channel_request_tunnel mem g tunaf rhost rport rev).1 tunaf rhost rport rev
    hport haf hh hnul hfree
  rw [hfam] at hs
  refine ⟨by rw [s1]; exact hid, by rw [s5, s1], ?_, ?_⟩
  · exact ntohl_htonl _ 0 (5 + rhost.length + 1)
      ([if rev then R2TCMD_BIND else R2TCMD_CONN,
        (client.channel_request_tunnel mem g tunaf rhost rport rev).1] ++ htons rport ++
        [tunaf] ++ rhost ++ [0]) (by simp [request_bytes]) (by omega)
  · cases rev
    · exact ⟨_, rfl, hs⟩
    · exact ⟨_, rfl, hs⟩

/-- Witness of C12: the first request of a client, for the host "h", port 80,
family ipv4: the frame 00 00 00 07 00 00 00 50 01 68 00 with the tid 0, and the
handler of the server calls `tunnel_create`, which here records its family and
port in a tunnel, with `AF_INET` (2) and the port 80. -/
theorem C12_connection_request_round_trip_witness :
    iobuf_bytes (client.channel_request_tunnel true client.init 1 [104] 80 false).2.vc.obuf =
      [0, 0, 0, 7, 0, 0, 0, 80, 1, 104, 0] ∧
    ∃ h, server.cmd_handlers
        (fun g id af _ port _ => { g with tunnels :=
          [server.tunnel_t.mk af.toNat port id server.channel_init.wio server.channel_init.wio] })
        (fun g _ _ => (0, g)) (fun g _ => g) true
        (server.write_os.mk none server.write_file_result.io_pending) R2TCMD_CONN = some h ∧
      (h (server.globals.mk server.channel_init []) [0, 0, 0, 80, 1, 104, 0] 7).2.tunnels.map
        (fun t => (t.connected, t.server, t.id)) = [(2, 80, 0)] :=
  have w := C12_connection_request_round_trip
    (fun g id af _ port _ => { g with tunnels :=
      [server.tunnel_t.mk af.toNat port id server.channel_init.wio server.channel_init.wio] })
    (fun g _ _ => (0, g)) (fun g _ => g)
    true true (server.write_os.mk none server.write_file_result.io_pending) client.init
    (server.globals.mk server.channel_init []) 1 [104] 80 false (by decide) (by decide)
    (by decide) (by decide) (by decide) (by decide) (by decide) (by decide)
    (fun _ h => nomatch h)
  ⟨w.2.1, w.2.2.2.elim (fun h hh => ⟨h, hh.1, congrArg
    (fun r => r.2.tunnels.map (fun t => (t.connected, t.server, t.id))) hh.2⟩)⟩

/-! ## Theorems: the SOCKS5 negotiation of the client -/

theorem iobuf_dataptr_eq (b : iobuf) (h : b.size ≠ 0) :
    iobuf_dataptr b = iobuf_bytes b ++ b.data.drop b.size := by
  rw [iobuf_bytes_eq, List.take_append_drop]
  simp [iobuf_dataptr, h]

theorem iobuf_consume_bytes (b : iobuf) (n : Nat) (pre rest : List Nat) (hv : valid_iobuf b)
    (hb : iobuf_bytes b = pre ++ rest) (hn : pre.length = n) :
    valid_iobuf (iobuf_consume b n) ∧ iobuf_bytes (iobuf_consume b n) = rest := by
  obtain ⟨h1, h2⟩ := iobuf_consume_spec b n hv
  refine ⟨h1, ?_⟩
  rw [hb, List.take_left' hn] at h2
  exact List.append_cancel_left h2

theorem socks5_setup_read (e : client.env_t) (rd : read_outcome)
    (inet_ntop : Int → List Nat → Option (List Nat)) (g g1 : client.globals) (cli : Nat)
    (ret : Int) (nread : Nat)
    (hread : client.netsock_read rd (e.mem 4) g cli 0 = (ret, g1, nread)) (hret : 0 ≤ ret) :
    client.socks5_setup e rd inet_ntop g cli = client.socks5_setup_parse e inet_ntop g1 cli := by
  unfold client.socks5_setup
  simp only [hread]
  rw [if_neg (by omega)]

/-- What `socks5_setup` does, after its read, with a complete greeting that
offers the method 0, whatever the descriptor of the client does. -/
theorem socks5_setup_parse_greeting (e : client.env_t)
    (inet_ntop : Int → List Nat → Option (List Nat)) (g1 : client.globals) (cli : Nat)
    (c : client.netsock_t)
    (hc : g1.all_sockets[cli]? = some c) (hst : c.state = client.NETSTATE_AUTHENTICATING)
    (hvi : valid_iobuf c.ibuf)
    (n : Nat) (methods rest : List Nat)
    (hb : iobuf_bytes c.ibuf = 5 :: n :: (methods ++ rest)) (hn : methods.length = n)
    (hpos : 0 < n) (hno : 0 ∈ methods) :
    (client.socks5_setup_parse e inet_ntop g1 cli).1 = 0 ∧
    (∃ c1, (client.socks5_setup_parse e inet_ntop g1 cli).2.all_sockets[cli]? = some c1 ∧
      c1.state = client.NETSTATE_AUTHENTICATED ∧ iobuf_bytes c1.ibuf = rest ∧
      c1.obuf = (net_write e.write (e.mem 1) c.obuf [5, 0]).2.1 ∧ c1.tid = c.tid ∧
      c1.type = c.type) ∧
    (∀ j, j ≠ cli →
      (client.socks5_setup_parse e inet_ntop g1 cli).2.all_sockets[j]? = g1.all_sockets[j]?) ∧
    (client.socks5_setup_parse e inet_ntop g1 cli).2.vc = g1.vc ∧
    (client.socks5_setup_parse e inet_ntop g1 cli).2.last_tid = g1.last_tid := by
  have hlen : c.ibuf.size = n + 2 + rest.length := by
    rw [← iobuf_bytes_length _ hvi, hb]
    simp only [List.length_cons, List.length_append, hn]; omega
  have hbuf := iobuf_dataptr_eq c.ibuf (by omega)
  rw [hb] at hbuf
  obtain ⟨q1, q2⟩ := iobuf_consume_bytes c.ibuf (n + 2) (5 :: n :: methods) rest hvi
    (by rw [hb]; simp) (by simp [hn])
  have hmem0 : ∀ X, 0 ∈ List.take n (methods ++ X) := by
    intro X; rw [List.take_left' hn]; exact hno
  have hl2 : ¬ (n + 2 + rest.length < 2) := by omega
  refine ⟨?_, ?_⟩
  · unfold client.socks5_setup_parse
    simp only [hc, hst, iobuf_datalen, hbuf, hlen]
    simp [peek, client.SOCKS5_VERSION, client.SOCKS5_NOAUTH, hmem0, hl2, Nat.pos_iff_ne_zero.1 hpos]
  · unfold client.socks5_setup_parse
    simp only [hc, hst, iobuf_datalen, hbuf, hlen]
    simp [peek, client.SOCKS5_VERSION, client.SOCKS5_NOAUTH, hmem0, hl2, Nat.pos_iff_ne_zero.1 hpos,
      client.netsock_write, getElem?_update_at, hc]
    refine ⟨q2, ?_⟩
    intro j hj
    simp only [hj, if_false]

/-- C13 (the code diverges from the claim): the method negotiation of SOCKS5.
Once its read has returned without error, `socks5_setup` on a client in the
state Authenticating looks at the bytes of the input buffer. A complete
greeting 05 n m1..mn offering the method 0 makes it return 0, consume exactly
the n + 2 bytes of the greeting and set the state Authenticated, every other
record and the channel being left as they are, whatever becomes of the reply:
the output buffer of the client is the one `net_write` leaves when it is given
the bytes 05 00, and the result of that call is not looked at. When the
descriptor accepts data, what it accepts followed by what the output buffer
holds is what was queued before followed by 05 00; when the output buffer
already holds data, 05 00 is queued after them. When the output buffer is empty
and the write would block, `net_write` returns 1 without writing or queueing
anything: the reply 05 00 is lost, and the client is Authenticated all the
same. A complete greeting with n = 0 or without the method 0 makes it return
the error -1 and change nothing: nothing is consumed and the state stays
Authenticating. An incomplete greeting makes it return 1 and change nothing. -/
theorem C13_socks5_method_negotiation (e : client.env_t) (rd : read_outcome)
    (inet_ntop : Int → List Nat → Option (List Nat)) (g g1 : client.globals) (cli : Nat)
    (c : client.netsock_t) (ret : Int) (nread : Nat)
    (hread : client.netsock_read rd (e.mem 4) g cli 0 = (ret, g1, nread)) (hret : 0 ≤ ret)
    (hc : g1.all_sockets[cli]? = some c) (hst : c.state = client.NETSTATE_AUTHENTICATING)
    (hvi : valid_iobuf c.ibuf) (hvo : valid_iobuf c.obuf)
    (hbo : c.obuf.size + 2 < 4294967296) :
    (∀ (n : Nat) (methods rest : List Nat),
      iobuf_bytes c.ibuf = 5 :: n :: (methods ++ rest) → methods.length = n → 0 < n →
      0 ∈ methods →
      (client.socks5_setup e rd inet_ntop g cli).1 = 0 ∧
      (∃ c1, (client.socks5_setup e rd inet_ntop g cli).2.all_sockets[cli]? = some c1 ∧
        c1.state = client.NETSTATE_AUTHENTICATED ∧ iobuf_bytes c1.ibuf = rest ∧
        c1.obuf = (net_write e.write (e.mem 1) c.obuf [5, 0]).2.1 ∧ c1.tid = c.tid ∧
        c1.type = c.type) ∧
      (∀ j, j ≠ cli →
        (client.socks5_setup e rd inet_ntop g cli).2.all_sockets[j]? = g1.all_sockets[j]?) ∧
      (client.socks5_setup e rd inet_ntop g cli).2.vc = g1.vc ∧
      (client.socks5_setup e rd inet_ntop g cli).2.last_tid = g1.last_tid ∧
      (∀ k, e.write = write_outcome.wrote k → 0 < k → e.mem 1 = true →
        (net_write e.write (e.mem 1) c.obuf [5, 0]).2.2.2 ++
            iobuf_bytes (net_write e.write (e.mem 1) c.obuf [5, 0]).2.1 =
          iobuf_bytes c.obuf ++ [5, 0]) ∧
      (c.obuf.size ≠ 0 → e.mem 1 = true →
        (net_write e.write (e.mem 1) c.obuf [5, 0]).2.2.2 = [] ∧
        iobuf_bytes (net_write e.write (e.mem 1) c.obuf [5, 0]).2.1 =
          iobuf_bytes c.obuf ++ [5, 0]) ∧
      (e.write = write_outcome.pending → c.obuf.size = 0 →
        net_write e.write (e.mem 1) c.obuf [5, 0] = (1, c.obuf, 0, []) ∧
        iobuf_bytes c.obuf = [])) ∧
    (∀ (n : Nat) (methods rest : List Nat),
      iobuf_bytes c.ibuf = 5 :: n :: (methods ++ rest) → methods.length = n →
      n = 0 ∨ 0 ∉ methods →
      client.socks5_setup e rd inet_ntop g cli = (-1, g1)) ∧
    (∀ (n : Nat) (part : List Nat),
      iobuf_bytes c.ibuf = [5] ∨ (iobuf_bytes c.ibuf = 5 :: n :: part ∧ part.length < n) →
      client.socks5_setup e rd inet_ntop g cli = (1, g1)) := by
  rw [socks5_setup_read e rd inet_ntop g g1 cli ret nread hread hret]
  refine ⟨?_, ?_, ?_⟩
  · intro n methods rest hb hn hpos hno
    obtain ⟨p1, p2, p3, p4, p5⟩ := socks5_setup_parse_greeting e inet_ntop g1 cli c hc hst hvi
      n methods rest hb hn hpos hno
    refine ⟨p1, p2, p3, p4, p5, ?_, ?_, ?_⟩
    · intro k hw hk hmem
      rw [hw, hmem]
      exact (net_write_taken k c.obuf [5, 0] hk hvo (by simp) (by simpa using hbo)).2.2
    · intro hu hmem
      rw [hmem]
      exact (net_write_queued e.write c.obuf [5, 0] hvo (by simp) hu (by simpa using hbo)).2
    · intro hw hu
      rw [hw]
      refine ⟨net_write_blocked (e.mem 1) c.obuf [5, 0] (by simp) hu, ?_⟩
      rw [iobuf_bytes_eq, hu]; rfl
  · intro n methods rest hb hn hbad
    have hlen : c.ibuf.size = n + 2 + rest.length := by
      rw [← iobuf_bytes_length _ hvi, hb]
      simp only [List.length_cons, List.length_append, hn]; omega
    have hbuf := iobuf_dataptr_eq c.ibuf (by omega)
    rw [hb] at hbuf
    unfold client.socks5_setup_parse
    simp only [hc, hst, iobuf_datalen, hbuf, hlen]
    rcases hbad with h0 | hno
    · simp [peek, client.SOCKS5_VERSION, h0]
    · have hmem0 : ∀ X, 0 ∉ List.take n (methods ++ X) := by
        intro X; rw [List.take_left' hn]; exact hno
      have hl2 : ¬ (n + 2 + rest.length < 2) := by omega
      simp [peek, client.SOCKS5_VERSION, client.SOCKS5_NOAUTH, hmem0, hl2]
  · intro n part hb
    unfold client.socks5_setup_parse
    rcases hb with hb | ⟨hb, hp⟩
    · have hlen : c.ibuf.size = 1 := by
        rw [← iobuf_bytes_length _ hvi, hb]; rfl
      have hbuf := iobuf_dataptr_eq c.ibuf (by omega)
      rw [hb] at hbuf
      simp only [hc, hst, iobuf_datalen, hbuf, hlen]
      simp [peek, client.SOCKS5_VERSION]
    · have hlen : c.ibuf.size = part.length + 2 := by
        rw [← iobuf_bytes_length _ hvi, hb]; rfl
      have hbuf := iobuf_dataptr_eq c.ibuf (by omega)
      rw [hb] at hbuf
      simp only [hc, hst, iobuf_datalen, hbuf, hlen]
      have h0 : n ≠ 0 := by omega
      have h1 : part.length + 2 < n + 2 := by omega
      simp [peek, client.SOCKS5_VERSION, h0, h1]

/-- Witness of C13, at the failing input: the greeting 05 01 00 in the input
buffer of a client in the state Authenticating whose output buffer is empty,
while a write on its descriptor would block. `socks5_setup` returns 0, the
greeting is consumed and the state is Authenticated (5), the output buffer is
still empty and `net_write` has written nothing: 05 00 is neither sent nor
queued. -/
theorem C13_socks5_method_negotiation_witness :
    (client.socks5_setup
      (client.env_t.mk 0 (fun _ => true) write_outcome.pending true none none (fun _ => 0))
      read_outcome.pending (fun _ _ => none)
      (client.globals.mk [{ client.netsock_new 3 with type := 5, state := 4, min_io_size := 4, ibuf := iobuf.mk 3 8 [5, 1, 0, 0, 0, 0, 0, 0] }] 0xff client.channel_init) 0).1 = 0 ∧
    (client.socks5_setup
      (client.env_t.mk 0 (fun _ => true) write_outcome.pending true none none (fun _ => 0))
      read_outcome.pending (fun _ _ => none)
      (client.globals.mk [{ client.netsock_new 3 with type := 5, state := 4, min_io_size := 4, ibuf := iobuf.mk 3 8 [5, 1, 0, 0, 0, 0, 0, 0] }] 0xff client.channel_init)
      0).2.all_sockets.map (fun ns => (ns.state, iobuf_bytes ns.ibuf, iobuf_bytes ns.obuf)) =
      [(5, [], [])] ∧
    net_write write_outcome.pending true iobuf_init [5, 0] = (1, iobuf_init, 0, []) :=
  have h := (C13_socks5_method_negotiation
    (client.env_t.mk 0 (fun _ => true) write_outcome.pending true none none (fun _ => 0))
    read_outcome.pending (fun _ _ => none)
    (client.globals.mk [{ client.netsock_new 3 with type := 5, state := 4, min_io_size := 4, ibuf := iobuf.mk 3 8 [5, 1, 0, 0, 0, 0, 0, 0] }] 0xff client.channel_init)
    (client.globals.mk [{ client.netsock_new 3 with type := 5, state := 4, min_io_size := 4, ibuf := iobuf.mk 3 8 [5, 1, 0, 0, 0, 0, 0, 0] }] 0xff client.channel_init)
    0 { client.netsock_new 3 with type := 5, state := 4, min_io_size := 4, ibuf := iobuf.mk 3 8 [5, 1, 0, 0, 0, 0, 0, 0] }
    1 0 (by decide) (by decide) (by decide) (by decide) (by decide) (by decide) (by decide)).1
    1 [0] [] (by decide) (by decide) (by decide) (by decide)
  ⟨h.1, by decide, (h.2.2.2.2.2.2.2 rfl rfl).1⟩

theorem netsock_write_frame (os : write_outcome) (mem : Bool) (g : client.globals) (cli : Nat)
    (c : client.netsock_t) (buf : List Nat) (hc : g.all_sockets[cli]? = some c) :
    (client.netsock_write os mem g cli buf).2.vc = g.vc ∧
    (client.netsock_write os mem g cli buf).2.last_tid = g.last_tid ∧
    (∀ j, j ≠ cli → (client.netsock_write os mem g cli buf).2.all_sockets[j]? =
      g.all_sockets[j]?) ∧
    (client.netsock_write os mem g cli buf).2.all_sockets[cli]? =
      some { c with obuf := (net_write os mem c.obuf buf).2.1 } := by
  unfold client.netsock_write
  simp only [hc, getElem?_update_at, if_true, Option.map_some']
  refine ⟨trivial, trivial, ?_, trivial⟩
  intro j hj
  simp only [hj, if_false]

/-- C14 (the code diverges from the claim): the rejection codes of SOCKS5. Once
its read has returned without error, `socks5_setup` on a client in the state
Authenticated whose input buffer holds a request of at least 8 bytes (version
5, reserved byte 0) gives `netsock_write` the two bytes 05 07 when the command
is not connect, and 05 08 when the command is connect and the address type is
none of 1, 3 and 4; it returns the error -1, allocates no tid (the cursor and
the tid of every record are as before), queues nothing on the channel and
changes nothing but the output buffer of the client, which is the one
`net_write` leaves. When the descriptor accepts data, what it accepts followed
by what the output buffer holds is what was queued before followed by the
reply; when the output buffer already holds data, the reply is queued after
them. When the output buffer is empty and the write would block, `net_write`
writes nothing and queues nothing: the record of the client is as it was and
the reply is lost. -/
theorem C14_socks5_rejection_codes (e : client.env_t) (rd : read_outcome)
    (inet_ntop : Int → List Nat → Option (List Nat)) (g g1 : client.globals) (cli : Nat)
    (c : client.netsock_t) (ret : Int) (nread : Nat) (cmd atyp : Nat) (rest : List Nat)
    (hread : client.netsock_read rd (e.mem 4) g cli 0 = (ret, g1, nread)) (hret : 0 ≤ ret)
    (hc : g1.all_sockets[cli]? = some c) (hst : c.state = client.NETSTATE_AUTHENTICATED)
    (hvi : valid_iobuf c.ibuf) (hvo : valid_iobuf c.obuf)
    (hbo : c.obuf.size + 2 < 4294967296)
    (hb : iobuf_bytes c.ibuf = 5 :: cmd :: 0 :: atyp :: rest) (hlen : 4 ≤ rest.length)
    (hbad : cmd ≠ 1 ∨ (atyp ≠ 1 ∧ atyp ≠ 3 ∧ atyp ≠ 4)) :
    (client.socks5_setup e rd inet_ntop g cli).1 = -1 ∧
    (client.socks5_setup e rd inet_ntop g cli).2.vc = g1.vc ∧
    (client.socks5_setup e rd inet_ntop g cli).2.last_tid = g1.last_tid ∧
    (∀ j, j ≠ cli →
      (client.socks5_setup e rd inet_ntop g cli).2.all_sockets[j]? = g1.all_sockets[j]?) ∧
    (client.socks5_setup e rd inet_ntop g cli).2.all_sockets[cli]? =
      some { c with obuf :=
        (net_write e.write (e.mem 1) c.obuf [5, if cmd ≠ 1 then 7 else 8]).2.1 } ∧
    (∀ k, e.write = write_outcome.wrote k → 0 < k → e.mem 1 = true →
      (net_write e.write (e.mem 1) c.obuf [5, if cmd ≠ 1 then 7 else 8]).2.2.2 ++
          iobuf_bytes (net_write e.write (e.mem 1) c.obuf [5, if cmd ≠ 1 then 7 else 8]).2.1 =
        iobuf_bytes c.obuf ++ [5, if cmd ≠ 1 then 7 else 8]) ∧
    (c.obuf.size ≠ 0 → e.mem 1 = true →
      (net_write e.write (e.mem 1) c.obuf [5, if cmd ≠ 1 then 7 else 8]).2.2.2 = [] ∧
      iobuf_bytes (net_write e.write (e.mem 1) c.obuf [5, if cmd ≠ 1 then 7 else 8]).2.1 =
        iobuf_bytes c.obuf ++ [5, if cmd ≠ 1 then 7 else 8]) ∧
    (e.write = write_outcome.pending → c.obuf.size = 0 →
      net_write e.write (e.mem 1) c.obuf [5, if cmd ≠ 1 then 7 else 8] = (1, c.obuf, 0, []) ∧
      iobuf_bytes c.obuf = [] ∧
      (client.socks5_setup e rd inet_ntop g cli).2.all_sockets[cli]? = some c) := by
  rw [socks5_setup_read e rd inet_ntop g g1 cli ret nread hread hret]
  have hl : c.ibuf.size = rest.length + 4 := by
    rw [← iobuf_bytes_length _ hvi, hb]; rfl
  have hbuf := iobuf_dataptr_eq c.ibuf (by omega)
  rw [hb] at hbuf
  have hne : ¬ (client.NETSTATE_AUTHENTICATED = client.NETSTATE_AUTHENTICATING) := by decide
  have hl8 : ¬ (rest.length + 4 < 8) := by omega
  have hp : client.socks5_setup_parse e inet_ntop g1 cli =
      client.socks_error e.write (e.mem 1) g1 cli (if cmd ≠ 1 then 7 else 8) := by
    unfold client.socks5_setup_parse
    simp only [hc, iobuf_datalen, hbuf, hl]
    by_cases hcmd : cmd = 1
    · have ha : atyp ≠ 1 ∧ atyp ≠ 3 ∧ atyp ≠ 4 := by
        rcases hbad with h | h
        · exact absurd hcmd h
        · exact h
      simp [peek, client.SOCKS5_VERSION, hst, hne, hl8, hcmd, client.SOCKS5_CONNECT,
        client.socks5_setup_address, client.SOCKS5_ATYPE_IPV4, client.SOCKS5_ATYPE_IPV6,
        client.SOCKS5_ATYPE_FQDN, ha, client.SOCKS5_UNKADDRTYPE]
    · simp [peek, client.SOCKS5_VERSION, hst, hne, hl8, hcmd, client.SOCKS5_CONNECT,
        client.SOCKS5_UNKCOMMAND]
  rw [hp]
  obtain ⟨w1, w2, w3, w4⟩ := netsock_write_frame e.write (e.mem 1) g1 cli c
    [5, if cmd ≠ 1 then 7 else 8] hc
  refine ⟨rfl, w1, w2, w3, w4, ?_, ?_, ?_⟩
  · intro k hw hk hmem
    rw [hw, hmem]
    exact (net_write_taken k c.obuf _ hk hvo (by simp) (by simpa using hbo)).2.2
  · intro hu hmem
    rw [hmem]
    exact (net_write_queued e.write c.obuf _ hvo (by simp) hu (by simpa using hbo)).2
  · intro hw hu
    have hnw := net_write_blocked (e.mem 1) c.obuf [5, if cmd ≠ 1 then 7 else 8] (by simp) hu
    refine ⟨by rw [hw]; exact hnw, by rw [iobuf_bytes_eq, hu]; rfl, ?_⟩
    have w5 := w4
    rw [hw, hnw] at w5
    rw [hw]
    exact w5

/-- Witness of C14, at the failing input: the request 05 02 00 01 7F 00 00 01
00 50 (command bind) in the input buffer of a client in the state Authenticated
whose output buffer is empty, while a write on its descriptor would block.
`socks5_setup` returns -1 and the output buffer is still empty: 05 07 is
neither sent nor queued. -/
theorem C14_socks5_rejection_codes_witness :
    (client.socks5_setup
      (client.env_t.mk 0 (fun _ => true) write_outcome.pending true none none (fun _ => 0))
      read_outcome.pending (fun _ _ => none)
      (client.globals.mk [{ client.netsock_new 3 with type := 5, state := 5, min_io_size := 4, ibuf := iobuf.mk 10 16 [5, 2, 0, 1, 127, 0, 0, 1, 0, 80, 0, 0, 0, 0, 0, 0] }] 0xff client.channel_init) 0).1 = -1 ∧
    net_write write_outcome.pending true iobuf_init [5, 7] = (1, iobuf_init, 0, []) ∧
    (client.socks5_setup
      (client.env_t.mk 0 (fun _ => true) write_outcome.pending true none none (fun _ => 0))
      read_outcome.pending (fun _ _ => none)
      (client.globals.mk [{ client.netsock_new 3 with type := 5, state := 5, min_io_size := 4, ibuf := iobuf.mk 10 16 [5, 2, 0, 1, 127, 0, 0, 1, 0, 80, 0, 0, 0, 0, 0, 0] }] 0xff client.channel_init)
      0).2.all_sockets[0]? =
      some { client.netsock_new 3 with type := 5, state := 5, min_io_size := 4, ibuf := iobuf.mk 10 16 [5, 2, 0, 1, 127, 0, 0, 1, 0, 80, 0, 0, 0, 0, 0, 0] } :=
  have h := C14_socks5_rejection_codes
    (client.env_t.mk 0 (fun _ => true) write_outcome.pending true none none (fun _ => 0))
    read_outcome.pending (fun _ _ => none)
    (client.globals.mk [{ client.netsock_new 3 with type := 5, state := 5, min_io_size := 4, ibuf := iobuf.mk 10 16 [5, 2, 0, 1, 127, 0, 0, 1, 0, 80, 0, 0, 0, 0, 0, 0] }] 0xff client.channel_init)
    (client.globals.mk [{ client.netsock_new 3 with type := 5, state := 5, min_io_size := 4, ibuf := iobuf.mk 10 16 [5, 2, 0, 1, 127, 0, 0, 1, 0, 80, 0, 0, 0, 0, 0, 0] }] 0xff client.channel_init)
    0 { client.netsock_new 3 with type := 5, state := 5, min_io_size := 4, ibuf := iobuf.mk 10 16 [5, 2, 0, 1, 127, 0, 0, 1, 0, 80, 0, 0, 0, 0, 0, 0] }
    1 0 2 1 [127, 0, 0, 1, 0, 80] (by decide) (by decide) (by decide) (by decide) (by decide)
    (by decide) (by decide) (by decide) (by decide) (by decide)
  ⟨h.1, (h.2.2.2.2.2.2.2 rfl rfl).1, (h.2.2.2.2.2.2.2 rfl rfl).2.2⟩

theorem tunnel_lookup_congr (l l1 : List client.netsock_t) (tid : Nat)
    (h : l.map (fun ns => ns.tid) = l1.map (fun ns => ns.tid)) :
    client.tunnel_lookup l tid = client.tunnel_lookup l1 tid := by
  induction l generalizing l1 with
  | nil =>
    cases l1 with
    | nil => rfl
    | cons b t => simp at h
  | cons a t ih =>
    cases l1 with
    | nil => simp at h
    | cons b t1 =>
      simp only [List.map_cons, List.cons.injEq] at h
      simp only [client.tunnel_lookup, h.1, ih t1 h.2]

theorem tunnel_generate_id_loop_congr (l l1 : List client.netsock_t) (last_tid : Nat)
    (h : l.map (fun ns => ns.tid) = l1.map (fun ns => ns.tid)) :
    ∀ fuel tid, client.tunnel_generate_id_loop l last_tid fuel tid =
      client.tunnel_generate_id_loop l1 last_tid fuel tid := by
  intro fuel
  induction fuel with
  | zero => intro tid; rfl
  | succ fuel ih =>
    intro tid
    simp only [client.tunnel_generate_id_loop, tunnel_lookup_congr l l1 tid h, ih]

theorem tunnel_generate_id_congr (g g1 : client.globals)
    (h : g.all_sockets.map (fun ns => ns.tid) = g1.all_sockets.map (fun ns => ns.tid))
    (hl : g.last_tid = g1.last_tid) :
    (client.tunnel_generate_id g).1 = (client.tunnel_generate_id g1).1 := by
  unfold client.tunnel_generate_id
  rw [tunnel_generate_id_loop_congr _ _ _ h, hl]
  split <;> rfl

theorem cstring_of_nul_free (host : List Nat) (h : ∀ b ∈ host, b ≠ 0) : cstring host = host := by
  have := cstring_append_nul host [] h
  unfold cstring at this ⊢
  rw [List.takeWhile_eq_self_iff]
  intro b hb
  simpa using h b hb

theorem peek_cons_succ (a : Nat) (l : List Nat) (n : Nat) : peek (a :: l) (n + 1) = peek l n := rfl

theorem ntohs_le_bytes (hi lo : Nat) (h1 : hi < 256) (h2 : lo < 256) :
    ntohs_le (lo * 256 + hi) = hi * 256 + lo := by
  unfold ntohs_le
  omega

theorem peek_append_add (pre X : List Nat) (k i : Nat) (hk : k = pre.length + i) :
    peek (pre ++ X) k = peek X i := by
  subst hk
  unfold peek
  rw [← List.drop_drop, List.drop_left' rfl]

/-- The address of a SOCKS5 request read by the `switch` of `socks5_setup`. -/
theorem socks5_setup_address_ok (e : client.env_t)
    (inet_ntop : Int → List Nat → Option (List Nat)) (g : client.globals) (cli : Nat)
    (atyp tunaf : Nat) (field text X : List Nat) (len : Nat)
    (hfield : (atyp = 1 ∧ tunaf = 1 ∧ field.length = 4 ∧ inet_ntop AF_INET field = some text) ∨
      (atyp = 4 ∧ tunaf = 2 ∧ field.length = 16 ∧ inet_ntop AF_INET6 field = some text) ∨
      (atyp = 3 ∧ tunaf = 0 ∧ field = text.length :: text ∧ e.mem 5 = true))
    (hh : cstring text ≠ []) (hlen : 6 + field.length ≤ len) :
    client.socks5_setup_address e inet_ntop g cli (5 :: 1 :: 0 :: atyp :: (field ++ X)) len =
      Except.ok (tunaf, cstring text, 4 + field.length) := by
  unfold client.socks5_setup_address
  rcases hfield with ⟨h1, h2, h3, h4⟩ | ⟨h1, h2, h3, h4⟩ | ⟨h1, h2, h3, h4⟩
  · subst h1; subst h2
    have hl : ¬ (len < 10) := by omega
    have ht : List.take 4 (field ++ X) = field := List.take_left' h3
    simp [peek, client.SOCKS5_ATYPE_IPV4, hl, ht, h4, h3, TUNAF_IPV4]
  · subst h1; subst h2
    have hl : ¬ (len < 22) := by omega
    have ht : List.take 16 (field ++ X) = field := List.take_left' h3
    simp [peek, client.SOCKS5_ATYPE_IPV4, client.SOCKS5_ATYPE_IPV6, client.SOCKS5_ATYPE_FQDN, hl,
      ht, h4, h3, TUNAF_IPV6]
  · subst h1; subst h2; subst h3
    have hl : ¬ (len < 7 + text.length) := by
      simp only [List.length_cons] at hlen; omega
    have ht : List.take text.length (text ++ X) = text := List.take_left' rfl
    simp [peek, client.SOCKS5_ATYPE_IPV4, client.SOCKS5_ATYPE_FQDN, hl, ht, h4, hh,
      TUNAF_ANY]
    omega

/-- The `switch` of `socks5_setup` on a domain whose first byte is NUL: the
host is the empty string, and the function returns the error -1. -/
theorem socks5_setup_address_empty (e : client.env_t)
    (inet_ntop : Int → List Nat → Option (List Nat)) (g : client.globals) (cli : Nat)
    (text X : List Nat) (len : Nat) (hmem : e.mem 5 = true) (hh : cstring text = [])
    (hlen : 7 + text.length ≤ len) :
    client.socks5_setup_address e inet_ntop g cli
        (5 :: 1 :: 0 :: 3 :: ((text.length :: text) ++ X)) len = Except.error (-1, g) := by
  unfold client.socks5_setup_address
  have hl : ¬ (len < 7 + text.length) := by omega
  have ht : List.take text.length (text ++ X) = text := List.take_left' rfl
  simp [peek, client.SOCKS5_ATYPE_IPV4, client.SOCKS5_ATYPE_FQDN, hl, ht, hmem, hh]

/-- C15 (as amended): the connect request of SOCKS5. Once its read has returned
without error, `socks5_setup` on a client in the state Authenticated whose input
buffer holds a complete connect request 05 01 00 atyp, the address field and
the two port bytes, reads the family 1 and the text of the four address bytes
for the type 1, the family 2 and the text of the sixteen address bytes for the
type 4 (the text being what `inet_ntop` writes), the family 0 and the domain
bytes for the type 3 (the field being the length byte and the domain). The host
is that text read as a C string: its bytes before the first NUL. A domain of
one byte or more whose first byte is NUL makes the function return the error
-1 and change nothing. With a non-empty host and a port of 0 it returns the
error -1 and changes nothing. With a non-empty host and another port, an id
being free and the output buffer of the channel able to grow, it returns 0,
appends to the queue of the channel exactly one CONN frame with that family,
the port equal to the big-endian value of the two port bytes and the host
followed by a NUL, consumes the whole request from the input buffer, stores the
allocated tid in the record of the client and sets its state to Connecting, no
other record being changed. The two port bytes are read the way a
little-endian host reads them (`ntohs_le`). -/
theorem C15_socks5_connect_request (e : client.env_t) (rd : read_outcome)
    (inet_ntop : Int → List Nat → Option (List Nat)) (g g1 : client.globals) (cli : Nat)
    (c : client.netsock_t) (ret : Int) (nread : Nat) (atyp tunaf : Nat)
    (field text rest : List Nat) (phi plo : Nat)
    (hread : client.netsock_read rd (e.mem 4) g cli 0 = (ret, g1, nread)) (hret : 0 ≤ ret)
    (hc : g1.all_sockets[cli]? = some c) (hst : c.state = client.NETSTATE_AUTHENTICATED)
    (hvi : valid_iobuf c.ibuf)
    (hb : iobuf_bytes c.ibuf = 5 :: 1 :: 0 :: atyp :: (field ++ phi :: plo :: rest))
    (hphi : phi < 256) (hplo : plo < 256)
    (hfield : (atyp = 1 ∧ tunaf = 1 ∧ field.length = 4 ∧ inet_ntop AF_INET field = some text) ∨
      (atyp = 4 ∧ tunaf = 2 ∧ field.length = 16 ∧ inet_ntop AF_INET6 field = some text) ∨
      (atyp = 3 ∧ tunaf = 0 ∧ field = text.length :: text ∧ e.mem 5 = true)) :
    (atyp = 3 → text ≠ [] → cstring text = [] →
      client.socks5_setup e rd inet_ntop g cli = (-1, g1)) ∧
    (cstring text ≠ [] → phi * 256 + plo = 0 →
      client.socks5_setup e rd inet_ntop g cli = (-1, g1)) ∧
    (cstring text ≠ [] → phi * 256 + plo ≠ 0 → valid_iobuf g1.vc.obuf →
      g1.vc.obuf.size + (cstring text).length + 10 < 4294967296 →
      (client.tunnel_generate_id g1).1 ≠ 0xff →
      iobuf_reserve (e.mem 0) g1.vc.obuf ((cstring text).length + 10) ≠ none →
      (client.socks5_setup e rd inet_ntop g cli).1 = 0 ∧
      iobuf_bytes (client.socks5_setup e rd inet_ntop g cli).2.vc.obuf =
        iobuf_bytes g1.vc.obuf ++
          request_bytes R2TCMD_CONN (client.tunnel_generate_id g1).1 tunaf (cstring text)
            (phi * 256 + plo) ∧
      (∃ c1, (client.socks5_setup e rd inet_ntop g cli).2.all_sockets[cli]? = some c1 ∧
        c1.tid = (client.tunnel_generate_id g1).1 ∧
        c1.state = client.NETSTATE_CONNECTING ∧ iobuf_bytes c1.ibuf = rest ∧
        c1.obuf = c.obuf ∧ c1.type = c.type) ∧
      (∀ j, j ≠ cli →
        (client.socks5_setup e rd inet_ntop g cli).2.all_sockets[j]? =
          g1.all_sockets[j]?)) := by
  rw [socks5_setup_read e rd inet_ntop g g1 cli ret nread hread hret]
  have hne : ¬ (client.NETSTATE_AUTHENTICATED = client.NETSTATE_AUTHENTICATING) := by decide
  have hl : c.ibuf.size = 6 + field.length + rest.length := by
    rw [← iobuf_bytes_length _ hvi, hb]
    simp only [List.length_cons, List.length_append]; omega
  have hbuf := iobuf_dataptr_eq c.ibuf (by omega)
  rw [hb] at hbuf
  simp only [List.cons_append, List.append_assoc] at hbuf
  have hmain : cstring text ≠ [] →
      client.socks5_setup_parse e inet_ntop g1 cli =
        if phi * 256 + plo = 0 then (-1, g1)
        else client.socks5_setup_request e
          { g1 with all_sockets := client.update_at g1.all_sockets cli (fun ns =>
            { ns with ibuf := iobuf_consume ns.ibuf (4 + field.length + 2) }) }
          cli tunaf (cstring text) (phi * 256 + plo) := by
    intro hh
    have htext : text ≠ [] := by
      intro h0; apply hh; rw [h0]; rfl
    have hfl : 2 ≤ field.length := by
      rcases hfield with ⟨-, -, h3, -⟩ | ⟨-, -, h3, -⟩ | ⟨-, -, h3, -⟩
      · omega
      · omega
      · rw [h3]
        have := List.length_pos.2 htext
        simp only [List.length_cons]
        omega
    have haddr := socks5_setup_address_ok e inet_ntop g1 cli atyp tunaf field text
      (phi :: plo :: (rest ++ List.drop c.ibuf.size c.ibuf.data)) c.ibuf.size hfield hh
      (by omega)
    have hp0 : peek (5 :: 1 :: 0 :: atyp :: (field ++ phi :: plo ::
        (rest ++ List.drop c.ibuf.size c.ibuf.data))) (4 + field.length) = phi :=
      peek_append_add (5 :: 1 :: 0 :: atyp :: field) _ _ 0 (by simp; omega)
    have hp1 : peek (5 :: 1 :: 0 :: atyp :: (field ++ phi :: plo ::
        (rest ++ List.drop c.ibuf.size c.ibuf.data))) (4 + field.length + 1) = plo :=
      peek_append_add (5 :: 1 :: 0 :: atyp :: field) _ _ 1 (by simp; omega)
    have hl8 : ¬ (c.ibuf.size < 8) := by omega
    unfold client.socks5_setup_parse
    simp only [hc, iobuf_datalen, hbuf, haddr, hp0, hp1, ntohs_le_bytes phi plo hphi hplo]
    simp [peek, client.SOCKS5_VERSION, hst, hne, hl8, client.SOCKS5_CONNECT,
      show c.ibuf.size ≠ 0 by omega]
  refine ⟨?_, ?_, ?_⟩
  · intro ha htext hempty
    have hf : field = text.length :: text ∧ e.mem 5 = true := by
      rcases hfield with ⟨h1, -⟩ | ⟨h1, -⟩ | ⟨-, -, h3, h4⟩
      · omega
      · omega
      · exact ⟨h3, h4⟩
    have hfl : field.length = text.length + 1 := by rw [hf.1]; rfl
    have htl := List.length_pos.2 htext
    have haddr := socks5_setup_address_empty e inet_ntop g1 cli text
      (phi :: plo :: (rest ++ List.drop c.ibuf.size c.ibuf.data)) c.ibuf.size hf.2 hempty
      (by omega)
    have hl8 : ¬ (c.ibuf.size < 8) := by omega
    rw [ha, hf.1] at hbuf
    unfold client.socks5_setup_parse
    simp only [hc, iobuf_datalen, hbuf, haddr]
    simp [peek, client.SOCKS5_VERSION, hst, hne, hl8, client.SOCKS5_CONNECT,
      show c.ibuf.size ≠ 0 by omega]
  · intro hh h0
    rw [hmain hh, if_pos h0]
  · intro hh h0 hv hbnd hid hres
    rw [hmain hh, if_neg h0]
    have hcong : (client.tunnel_generate_id
        { g1 with all_sockets := client.update_at g1.all_sockets cli (fun ns =>
          { ns with ibuf := iobuf_consume ns.ibuf (4 + field.length + 2) }) }).1 =
        (client.tunnel_generate_id g1).1 := by
      apply tunnel_generate_id_congr
      · apply map_tid_update_at
        intro a; rfl
      · rfl
    obtain ⟨s1, s2, -, -, s5, -⟩ := channel_request_tunnel_spec (e.mem 0)
      { g1 with all_sockets := client.update_at g1.all_sockets cli (fun ns =>
        { ns with ibuf := iobuf_consume ns.ibuf (4 + field.length + 2) }) }
      tunaf (cstring text) (phi * 256 + plo) false hv hbnd (by rw [hcong]; exact hid) hres
    rw [hcong] at s1 s5
    obtain ⟨q1, q2⟩ := iobuf_consume_bytes c.ibuf (4 + field.length + 2)
      (5 :: 1 :: 0 :: atyp :: (field ++ [phi, plo])) rest hvi (by rw [hb]; simp)
      (by simp; omega)
    unfold client.socks5_setup_request
    simp only [s1, hid, if_false, s5, s2, getElem?_update_at, if_true, hc, Option.map_some']
    refine ⟨trivial, ?_, ⟨_, rfl, rfl, rfl, q2, rfl, rfl⟩, ?_⟩
    · simp
    · intro j hj
      simp only [hj, if_false]

/-- Witness of C15: the request 05 01 00 01 7F 00 00 01 00 50 of a client in
the state Authenticated, `inet_ntop` writing dotted decimal: the CONN frame has
the tid 0, the port 80, the family 1 and the host "127.0.0.1" followed by NUL. -/
theorem C15_socks5_connect_request_witness :
    iobuf_bytes (client.socks5_setup
      (client.env_t.mk 0 (fun _ => true) (write_outcome.wrote 2) true none none (fun _ => 0))
      read_outcome.pending (fun af a => if af = AF_INET then inet_ntop4 a else none)
      (client.globals.mk [{ client.netsock_new 3 with type := 5, state := 5, min_io_size := 4, ibuf := iobuf.mk 10 16 [5, 1, 0, 1, 127, 0, 0, 1, 0, 80, 0, 0, 0, 0, 0, 0] }] 0xff client.channel_init) 0).2.vc.obuf =
      [0, 0, 0, 15, 0, 0, 0, 80, 1, 49, 50, 55, 46, 48, 46, 48, 46, 49, 0] :=
  ((C15_socks5_connect_request
    (client.env_t.mk 0 (fun _ => true) (write_outcome.wrote 2) true none none (fun _ => 0))
    read_outcome.pending (fun af a => if af = AF_INET then inet_ntop4 a else none)
    (client.globals.mk [{ client.netsock_new 3 with type := 5, state := 5, min_io_size := 4, ibuf := iobuf.mk 10 16 [5, 1, 0, 1, 127, 0, 0, 1, 0, 80, 0, 0, 0, 0, 0, 0] }] 0xff client.channel_init)
    (client.globals.mk [{ client.netsock_new 3 with type := 5, state := 5, min_io_size := 4, ibuf := iobuf.mk 10 16 [5, 1, 0, 1, 127, 0, 0, 1, 0, 80, 0, 0, 0, 0, 0, 0] }] 0xff client.channel_init)
    0 { client.netsock_new 3 with type := 5, state := 5, min_io_size := 4, ibuf := iobuf.mk 10 16 [5, 1, 0, 1, 127, 0, 0, 1, 0, 80, 0, 0, 0, 0, 0, 0] }
    1 0 1 1 [127, 0, 0, 1] [49, 50, 55, 46, 48, 46, 48, 46, 49] [] 0 80
    (by decide) (by decide) (by decide) (by decide) (by decide) (by decide) (by decide)
    (by decide) (Or.inl ⟨rfl, rfl, rfl, by decide⟩)).2.2
    (by decide) (by decide) (by decide) (by decide) (by decide) (by decide)).2.1

/-- C15 (the literal reading fails). A client in the state Authenticated sends
the connect request 05 01 00 03 03 61 00 63 00 50: the domain of three bytes
61 00 63, port 80. `socks5_setup` returns 0, consumes the ten bytes, stores the
tid 0, sets the state Connecting (2) and queues the CONN frame
00 00 00 07 00 00 00 50 00 61 00, whose host is "a" followed by NUL: the bytes
00 63 of the domain are not in the frame. -/
theorem C15_domain_cut_at_nul :
    (client.socks5_setup
      (client.env_t.mk 0 (fun _ => true) (write_outcome.wrote 2) true none none (fun _ => 0))
      read_outcome.pending (fun _ _ => none)
      (client.globals.mk [{ client.netsock_new 3 with type := 5, state := 5, min_io_size := 4, ibuf := iobuf.mk 10 16 [5, 1, 0, 3, 3, 97, 0, 99, 0, 80, 0, 0, 0, 0, 0, 0] }] 0xff client.channel_init) 0).1 = 0 ∧
    iobuf_bytes (client.socks5_setup
      (client.env_t.mk 0 (fun _ => true) (write_outcome.wrote 2) true none none (fun _ => 0))
      read_outcome.pending (fun _ _ => none)
      (client.globals.mk [{ client.netsock_new 3 with type := 5, state := 5, min_io_size := 4, ibuf := iobuf.mk 10 16 [5, 1, 0, 3, 3, 97, 0, 99, 0, 80, 0, 0, 0, 0, 0, 0] }] 0xff client.channel_init) 0).2.vc.obuf =
      [0, 0, 0, 7, 0, 0, 0, 80, 0, 97, 0] ∧
    (client.socks5_setup
      (client.env_t.mk 0 (fun _ => true) (write_outcome.wrote 2) true none none (fun _ => 0))
      read_outcome.pending (fun _ _ => none)
      (client.globals.mk [{ client.netsock_new 3 with type := 5, state := 5, min_io_size := 4, ibuf := iobuf.mk 10 16 [5, 1, 0, 3, 3, 97, 0, 99, 0, 80, 0, 0, 0, 0, 0, 0] }] 0xff client.channel_init)
      0).2.all_sockets.map (fun ns => (ns.state, ns.tid, iobuf_bytes ns.ibuf)) = [(2, 0, [])] := by
  refine ⟨?_, ?_, ?_⟩ <;> decide

/-! ## Theorems: the controller -/

theorem update_at_update_at (l : List client.netsock_t) (f f1 : client.netsock_t → client.netsock_t) :
    ∀ i, client.update_at (client.update_at l i f) i f1 = client.update_at l i (fun x => f1 (f x)) := by
  induction l with
  | nil => intro i; rfl
  | cons a t ih =>
    intro i
    cases i with
    | zero => rfl
    | succ i => simp only [client.update_at, ih i]

theorem update_at_of_none (l : List client.netsock_t) (f : client.netsock_t → client.netsock_t) :
    ∀ i, l[i]? = none → client.update_at l i f = l := by
  induction l with
  | nil => intro i _; rfl
  | cons a t ih =>
    intro i h
    cases i with
    | zero => simp at h
    | succ i =>
      simp only [List.getElem?_cons_succ] at h
      simp only [client.update_at, ih i h]

/-- The function `netsock_read` changes nothing but the input buffer and the
I/O chunk size of the record it reads into. -/
theorem netsock_read_frame (rd : read_outcome) (mem : Bool) (g : client.globals) (i p : Nat) :
    ∃ ib m, (client.netsock_read rd mem g i p).2.1 =
      { g with all_sockets := client.update_at g.all_sockets i (fun ns =>
        { ns with ibuf := ib, min_io_size := m }) } := by
  unfold client.netsock_read
  cases h : g.all_sockets[i]? with
  | none =>
    refine ⟨iobuf_init, 0, ?_⟩
    simp only [update_at_of_none _ _ _ h]
  | some ns => exact ⟨_, _, rfl⟩

theorem memchr_first (line X : List Nat) (c n : Nat) (hn : line.length < n) (hc : c ∉ line) :
    memchr (line ++ c :: X) 0 c n = some line.length := by
  unfold memchr
  have ht : List.take n (line ++ c :: X) = line ++ c :: List.take (n - line.length - 1) X := by
    rw [List.take_append_eq_append_take, List.take_of_length_le (by omega)]
    congr 1
    obtain ⟨k, hk⟩ : ∃ k, n - line.length = k + 1 := ⟨n - line.length - 1, by omega⟩
    rw [hk, List.take_succ_cons]
    simp
  simp only [List.drop_zero, ht, List.indexOf_append_of_not_mem hc, List.indexOf_cons_self,
    List.length_append, List.length_cons, Nat.add_zero, Nat.zero_add]
  rw [if_pos (by omega)]

theorem memcpy_at (line X : List Nat) (a b : Nat) :
    memcpy (line ++ a :: X) line.length [b] = line ++ b :: X := by
  unfold memcpy
  rw [List.take_left' rfl, List.length_singleton, ← List.drop_drop, List.drop_left' rfl]
  simp

theorem peek_zero_cons (a : Nat) (l : List Nat) : peek (a :: l) 0 = a := rfl

/-- The first iteration of the loop of `controller_read_event` on a block that
begins with a line ended by LF. -/
theorem controller_loop_first (ce : Nat → client.ctrl_env) (cli avail fuel : Nat)
    (g : client.globals) (line X : List Nat) (h10 : 10 ∉ line) (havail : line.length < avail) :
    client.controller_loop ce cli avail (fuel + 1) 0 g (line ++ 10 :: X) 0 =
      if peek (line ++ 0 :: X) 0 = 0 then some (-1, g, line ++ 0 :: X, none)
      else
        match client.controller_command (ce 0) g cli
          (if peek (line ++ 0 :: X) (line.length - 1) = 13 then
            memcpy (line ++ 0 :: X) (line.length - 1) [0] else line ++ 0 :: X) 0 with
        | client.ctrl_step.fail b g1 => some (-1, g1, b, none)
        | client.ctrl_step.ran ret b g1 =>
          if ret = 0 ∧ u32 (0 + u32 (line.length - 0 + 1)) < avail then
            client.controller_loop ce cli avail fuel (0 + 1) g1 b (u32 (0 + u32 (line.length - 0 + 1)))
          else some (ret, g1, b, some (u32 (0 + u32 (line.length - 0 + 1)))) := by
  rw [client.controller_loop]
  simp only [Nat.sub_zero, memchr_first line X 10 avail havail h10, memcpy_at]

theorem controller_read_event_fail (rd : read_outcome) (mem : Bool) (ce : Nat → client.ctrl_env)
    (g g1 : client.globals) (cli : Nat) (c : client.netsock_t) (nread : Nat) (r : Int)
    (b : List Nat)
    (hread : client.netsock_read rd mem g cli 0 = (0, g1, nread))
    (hc : g1.all_sockets[cli]? = some c)
    (hloop : client.controller_loop ce cli c.ibuf.size (c.ibuf.size + 1) 0 g1
      (iobuf_dataptr c.ibuf) 0 = some (r, g1, b, none)) :
    ∃ ib m, client.controller_read_event rd mem ce g cli =
      some (-1, { g with all_sockets := client.update_at g.all_sockets cli (fun ns =>
        { ns with ibuf := ib, min_io_size := m }) }) := by
  obtain ⟨ib0, m0, hf⟩ := netsock_read_frame rd mem g cli 0
  rw [hread] at hf
  simp only at hf
  refine ⟨{ ib0 with data := b }, m0, ?_⟩
  unfold client.controller_read_event
  simp only [hread, ne_eq, not_true_eq_false, if_false, hc, iobuf_datalen, hloop]
  rw [hf]
  simp only [update_at_update_at]

theorem memcpy_cons_succ (a : Nat) (t : List Nat) (n : Nat) (src : List Nat) :
    memcpy (a :: t) (n + 1) src = a :: memcpy t n src := by
  simp [memcpy, Nat.add_right_comm]

theorem controller_command_unknown (ce : client.ctrl_env) (g : client.globals) (cli : Nat)
    (ch : Nat) (t : List Nat) (h0 : ch ≠ 0) (h : ch ∉ client.str "ltrxs-") :
    client.controller_command ce g cli (ch :: t) 0 = client.ctrl_step.fail (ch :: t) g := by
  unfold client.controller_command
  simp only [peek_zero_cons]
  rw [if_pos ⟨h0, h⟩]

theorem controller_command_nul (ce : client.ctrl_env) (g : client.globals) (cli : Nat)
    (t : List Nat) :
    client.controller_command ce g cli (0 :: 0 :: t) 0 =
      client.ctrl_step.fail (0 :: 0 :: t) g := by
  unfold client.controller_command
  simp [peek]

/-- C17: the controller rejects unknown commands without side effect. When the
read of `controller_read_event` has returned 0 and the input buffer of the
controller client begins with a line, ended by LF, that is empty or whose first
character is none of l, t, r, x, s and -, the function returns the error -1 and
the variables are those before the call but for the input buffer, which holds
the input read, and the I/O chunk size of the record of the controller client
itself: no record is added or removed, no other record and no other field
changes, so no answer is written in the output buffer of the client, and the
channel and the cursor are as before. -/
theorem C17_controller_rejects_unknown (rd : read_outcome) (mem : Bool)
    (ce : Nat → client.ctrl_env) (g g1 : client.globals) (cli : Nat) (c : client.netsock_t)
    (nread : Nat) (line rest : List Nat)
    (hread : client.netsock_read rd mem g cli 0 = (0, g1, nread))
    (hc : g1.all_sockets[cli]? = some c) (hvi : valid_iobuf c.ibuf)
    (hb : iobuf_bytes c.ibuf = line ++ 10 :: rest) (hline : 10 ∉ line)
    (hbad : line = [] ∨ ∃ ch l, line = ch :: l ∧ ch ∉ client.str "ltrxs-") :
    ∃ ib m, client.controller_read_event rd mem ce g cli =
      some (-1, { g with all_sockets := client.update_at g.all_sockets cli (fun ns =>
        { ns with ibuf := ib, min_io_size := m }) }) := by
  have hl : c.ibuf.size = line.length + 1 + rest.length := by
    rw [← iobuf_bytes_length _ hvi, hb]
    simp only [List.length_cons, List.length_append]; omega
  have hbuf := iobuf_dataptr_eq c.ibuf (by omega)
  rw [hb] at hbuf
  simp only [List.cons_append, List.append_assoc] at hbuf
  have hfirst := controller_loop_first ce cli c.ibuf.size c.ibuf.size g1 line
    (rest ++ List.drop c.ibuf.size c.ibuf.data) hline (by omega)
  rw [← hbuf] at hfirst
  suffices h : ∃ b, client.controller_loop ce cli c.ibuf.size (c.ibuf.size + 1) 0 g1
      (iobuf_dataptr c.ibuf) 0 = some (-1, g1, b, none) by
    obtain ⟨b, hb2⟩ := h
    exact controller_read_event_fail rd mem ce g g1 cli c nread (-1) b hread hc hb2
  rw [hfirst]
  generalize rest ++ List.drop c.ibuf.size c.ibuf.data = X
  rcases hbad with h0 | ⟨ch, l, h1, h2⟩
  · subst h0
    exact ⟨0 :: X, by simp [peek]⟩
  · subst h1
    by_cases hz : ch = 0
    · exact ⟨ch :: l ++ 0 :: X, by simp [peek, hz]⟩
    · have hp : peek (ch :: l ++ 0 :: X) 0 = ch := rfl
      rw [if_neg (by rw [hp]; exact hz)]
      cases l with
      | nil =>
        by_cases h13 : ch = 13
        · subst h13
          refine ⟨0 :: 0 :: X, ?_⟩
          have : (if peek ([13] ++ 0 :: X) ([13].length - 1) = 13 then
              memcpy ([13] ++ 0 :: X) ([13].length - 1) [0] else [13] ++ 0 :: X) = 0 :: 0 :: X := by
            simp [peek, memcpy]
          rw [this, controller_command_nul]
        · refine ⟨ch :: 0 :: X, ?_⟩
          have : (if peek ([ch] ++ 0 :: X) ([ch].length - 1) = 13 then
              memcpy ([ch] ++ 0 :: X) ([ch].length - 1) [0] else [ch] ++ 0 :: X) = ch :: 0 :: X := by
            simp [peek, h13]
          rw [this, controller_command_unknown _ _ _ _ _ hz h2]
      | cons a l1 =>
        have : ∃ t, (if peek (ch :: a :: l1 ++ 0 :: X) ((ch :: a :: l1).length - 1) = 13 then
            memcpy (ch :: a :: l1 ++ 0 :: X) ((ch :: a :: l1).length - 1) [0]
            else ch :: a :: l1 ++ 0 :: X) = ch :: t := by
          split
          · exact ⟨_, memcpy_cons_succ ch _ (a :: l1).length.pred [0]⟩
          · exact ⟨_, rfl⟩
        obtain ⟨t, ht⟩ := this
        refine ⟨ch :: t, ?_⟩
        rw [ht, controller_command_unknown _ _ _ _ _ hz h2]

/-- Witness of C17: the controller client sends the line "z". -/
theorem C17_controller_rejects_unknown_witness :
    ∃ ib m, client.controller_read_event (read_outcome.got [122, 10]) true
      (fun _ => client.ctrl_env.mk
        (client.env_t.mk 0 (fun _ => true) write_outcome.pending true none none (fun _ => 0))
        none [] false (fun _ => false) (fun _ => []) (fun _ => write_outcome.pending))
      (client.globals.mk [{ client.netsock_new 3 with type := 3, state := 3, min_io_size := 64 }] 0xff client.channel_init) 0 =
      some (-1, { client.globals.mk [{ client.netsock_new 3 with type := 3, state := 3, min_io_size := 64 }] 0xff client.channel_init with
        all_sockets := client.update_at [{ client.netsock_new 3 with type := 3, state := 3, min_io_size := 64 }] 0
          (fun ns => { ns with ibuf := ib, min_io_size := m }) }) :=
  C17_controller_rejects_unknown (read_outcome.got [122, 10]) true
    (fun _ => client.ctrl_env.mk
      (client.env_t.mk 0 (fun _ => true) write_outcome.pending true none none (fun _ => 0))
      none [] false (fun _ => false) (fun _ => []) (fun _ => write_outcome.pending))
    (client.globals.mk [{ client.netsock_new 3 with type := 3, state := 3, min_io_size := 64 }] 0xff client.channel_init)
    (client.netsock_read (read_outcome.got [122, 10]) true
      (client.globals.mk [{ client.netsock_new 3 with type := 3, state := 3, min_io_size := 64 }] 0xff client.channel_init) 0 0).2.1
    0
    { client.netsock_new 3 with type := 3, state := 3, min_io_size := 64, ibuf := (net_read (read_outcome.got [122, 10]) true iobuf_init 0 64).2.1 }
    2 [122] [] (by decide) (by decide) (by decide) (by decide) (by decide)
    (Or.inr ⟨122, [], rfl, by decide⟩)

theorem strtol_digits_spec (digits : List Nat) (hd : ∀ b ∈ digits, isdigit b = true) (d : Nat)
    (rest : List Nat) (hnd : isdigit d = false) :
    ∀ acc, strtol_digits (digits ++ d :: rest) acc =
      (digits.foldl (fun a c => a * 10 + (c - 48)) acc, digits.length) := by
  induction digits with
  | nil => intro acc; simp [strtol_digits, hnd]
  | cons a t ih =>
    intro acc
    have ha := hd a (List.mem_cons_self _ _)
    have := ih (fun b hb => hd b (List.mem_cons_of_mem _ hb)) (acc * 10 + (a - 48))
    rw [List.cons_append, strtol_digits, if_pos ha]
    simp only [this, List.foldl_cons, List.length_cons]

theorem isspace_of_isdigit (c : Nat) (h : isdigit c = true) : isspace c = false := by
  simp only [isdigit, isspace, decide_eq_true_eq, decide_eq_false_iff_not] at h ⊢
  omega

/-- The function `strtol` on a string of digits followed by another character. -/
theorem strtol_decimal (digits : List Nat) (hne : digits ≠ [])
    (hd : ∀ b ∈ digits, isdigit b = true) (d : Nat) (rest : List Nat)
    (hnd : isdigit d = false) :
    strtol (digits ++ d :: rest) =
      (if (decimal_value digits : Int) > LONG_MAX then LONG_MAX else (decimal_value digits : Int),
        digits.length) := by
  cases digits with
  | nil => exact absurd rfl hne
  | cons a t =>
    have ha := hd a (List.mem_cons_self _ _)
    have hs := isspace_of_isdigit a ha
    have h43 : a ≠ 43 := by
      intro h; subst h; revert ha; decide
    have h45 : a ≠ 45 := by
      intro h; subst h; revert ha; decide
    have hdig := strtol_digits_spec (a :: t) hd d rest hnd 0
    have hsign : (match a :: (t ++ d :: rest) with
        | 45 :: _ => 1
        | 43 :: _ => 1
        | _ => 0) = 0 := by
      split
      · rename_i h; simp only [List.cons.injEq] at h; exact absurd h.1 h45
      · rename_i h; simp only [List.cons.injEq] at h; exact absurd h.1 h43
      · rfl
    have hneg : (match a :: (t ++ d :: rest) with
        | 45 :: _ => true
        | _ => false) = false := by
      split
      · rename_i h; simp only [List.cons.injEq] at h; exact absurd h.1 h45
      · rfl
    unfold strtol
    simp only [List.cons_append, List.takeWhile_cons, hs, Bool.false_eq_true, if_false,
      List.length_nil, List.drop_zero, hsign, hneg, Nat.zero_add]
    simp only [List.cons_append] at hdig
    rw [hdig]
    have hv : (0 : Int) ≤ (decimal_value (a :: t) : Int) := Int.ofNat_nonneg _
    have hlm : (0 : Int) < LONG_MAX := by decide
    simp only [List.length_cons, Nat.add_one_ne_zero, if_false, Bool.false_eq_true, decimal_value]
    simp only [decimal_value] at hv
    split
    · rfl
    · rw [if_neg (by omega)]

theorem strtol_minus (Y : List Nat) : (strtol (45 :: Y)).1 ≤ 0 := by
  unfold strtol
  have hs : isspace 45 = false := by decide
  simp only [List.takeWhile_cons, hs, Bool.false_eq_true, if_false, List.length_nil,
    List.drop_zero, List.drop_succ_cons, if_true]
  have hlm : (0 : Int) < LONG_MAX := by decide
  split
  · exact le_refl _
  · have hv : (0 : Int) ≤ ((strtol_digits Y 0).1 : Int) := Int.ofNat_nonneg _
    simp only
    split
    · omega
    · split <;> omega

theorem strtol_not_number (ch : Nat) (Y : List Nat) (hd : isdigit ch = false)
    (hs : isspace ch = false) (h43 : ch ≠ 43) (h45 : ch ≠ 45) : strtol (ch :: Y) = (0, 0) := by
  have hsign : (match ch :: Y with
      | 45 :: _ => 1
      | 43 :: _ => 1
      | _ => 0) = 0 := by
    split
    · rename_i h; simp only [List.cons.injEq] at h; exact absurd h.1 h45
    · rename_i h; simp only [List.cons.injEq] at h; exact absurd h.1 h43
    · rfl
  unfold strtol
  simp only [List.takeWhile_cons, hs, Bool.false_eq_true, if_false, List.length_nil,
    List.drop_zero, hsign, strtol_digits, hd, if_true]

theorem cstring_host (host Y : List Nat) (h0 : ∀ b ∈ host, b ≠ 0) :
    cstring (host ++ 32 :: Y) = host ++ 32 :: cstring Y := by
  unfold cstring
  induction host with
  | nil => simp
  | cons a t ih =>
    have ha : a ≠ 0 := h0 a (List.mem_cons_self _ _)
    simp only [List.cons_append, List.takeWhile_cons, ne_eq, ha, not_false_eq_true, decide_True,
      if_true, ih (fun b hb => h0 b (List.mem_cons_of_mem _ hb))]

theorem strchr_host (block : List Nat) (data : Nat) (host Y : List Nat)
    (hb : block.drop data = host ++ 32 :: Y) (h0 : ∀ b ∈ host, b ≠ 0) (h32 : 32 ∉ host) :
    strchr block data 32 = some (data + host.length) := by
  unfold strchr
  simp only [hb, cstring_host host Y h0, List.indexOf_append_of_not_mem h32,
    List.indexOf_cons_self, List.length_append, List.length_cons, Nat.add_zero]
  rw [if_neg (by decide), if_pos (by omega)]

/-- The function `extract_port` on a host name followed by a space. -/
theorem extract_port_at (block : List Nat) (data : Nat) (host Y : List Nat)
    (hb : block.drop data = host ++ 32 :: Y) (h0 : ∀ b ∈ host, b ≠ 0) (h32 : 32 ∉ host) :
    client.extract_port block data =
      (block.take data ++ host ++ 0 :: Y,
        if (strtol Y).1 ≤ 0 ∨ (strtol Y).1 > 0xffff then none
        else if peek Y (strtol Y).2 ≠ 0 ∧ peek Y (strtol Y).2 ≠ 32 then none
        else some ((strtol Y).1.toNat, data + host.length + 1 + (strtol Y).2)) := by
  have hdl : data ≤ block.length := by
    by_contra h
    rw [List.drop_of_length_le (by omega)] at hb
    cases host <;> simp at hb
  have hpl : (block.take data ++ host).length = data + host.length := by
    rw [List.length_append, List.length_take]; omega
  have hblock0 : block = (block.take data ++ host) ++ 32 :: Y := by
    rw [List.append_assoc, ← hb, List.take_append_drop]
  obtain ⟨pre, hpre, hl⟩ : ∃ pre, pre = block.take data ++ host ∧
      pre.length = data + host.length := ⟨_, rfl, hpl⟩
  rw [← hpre] at hblock0 ⊢
  have hm : memcpy block (data + host.length) [0] = pre ++ 0 :: Y := by
    rw [← hl, hblock0]
    exact memcpy_at _ _ _ _
  have hd : List.drop (data + host.length + 1) (pre ++ 0 :: Y) = Y := by
    rw [← hl, ← List.drop_drop, List.drop_left' rfl]
    rfl
  have hp : ∀ k, peek (pre ++ 0 :: Y) (data + host.length + 1 + k) = peek Y k := by
    intro k
    unfold peek
    rw [← List.drop_drop, hd]
  unfold client.extract_port
  simp only [strchr_host block data host Y hb h0 h32, hm, hd, hp]
  split_ifs <;> rfl

theorem peek_mem (l X : List Nat) (i : Nat) (h : i < l.length) : peek (l ++ X) i ∈ l := by
  induction l generalizing i with
  | nil => simp at h
  | cons a t ih =>
    cases i with
    | zero => exact List.mem_cons_self _ _
    | succ i =>
      rw [List.cons_append, peek_cons_succ]
      exact List.mem_cons_of_mem _ (ih i (by simpa using h))

/-- A command of the controller whose local port, or whose remote port for the
commands t and r, is refused by `extract_port` fails. -/
theorem controller_command_port_fail (ce : client.ctrl_env) (g : client.globals) (cli : Nat)
    (B : List Nat) (cmdch : Nat) (hp : peek B 0 = cmdch) (hcmd : cmdch ∈ client.str "stxr-")
    (h : (client.extract_port B 2).2 = none ∨
      ((cmdch = 116 ∨ cmdch = 114) ∧
        (client.extract_port (client.extract_port B 2).1
          (((client.extract_port B 2).2.getD (0, 0)).2 + 1)).2 = none)) :
    ∃ b, client.controller_command ce g cli B 0 = client.ctrl_step.fail b g := by
  have hin : ¬ (cmdch ≠ 0 ∧ cmdch ∉ client.str "ltrxs-") := by
    intro hh
    apply hh.2
    simp only [client.str] at hcmd ⊢
    revert hcmd
    simp only [String.toList, List.map, List.mem_cons, List.mem_singleton]
    intro hcmd
    simp only [List.not_mem_nil, or_false] at hcmd ⊢
    omega
  have h108 : cmdch ≠ 108 := by
    intro hh; subst hh; revert hcmd; decide
  unfold client.controller_command
  simp only [hp, Nat.zero_add]
  rw [if_neg hin, if_neg h108]
  by_cases h1 : peek B 1 ≠ 32
  · exact ⟨B, by rw [if_pos h1]⟩
  rw [if_neg h1]
  by_cases h2 : peek B 2 = 0
  · exact ⟨B, by rw [if_pos h2]⟩
  rw [if_neg h2]
  rcases hx : client.extract_port B 2 with ⟨B1, o⟩
  rw [hx] at h
  cases o with
  | none => exact ⟨B1, rfl⟩
  | some p =>
    obtain ⟨lport, d1⟩ := p
    rcases h with h | ⟨hc, h⟩
    · simp at h
    · simp only [Option.getD_some] at h
      have h45 : cmdch ≠ 45 := by rcases hc with hc | hc <;> omega
      have h115 : cmdch ≠ 115 := by rcases hc with hc | hc <;> omega
      have h120 : cmdch ≠ 120 := by rcases hc with hc | hc <;> omega
      simp only [h45, h115, h120, if_false]
      by_cases h3 : peek B1 d1 ≠ 32
      · exact ⟨B1, by rw [if_pos h3]⟩
      rw [if_neg h3]
      by_cases h4 : peek B1 (d1 + 1) = 0
      · exact ⟨B1, by rw [if_pos h4]⟩
      rw [if_neg h4]
      rcases hy : client.extract_port B1 (d1 + 1) with ⟨B2, o2⟩
      rw [hy] at h
      simp only at h
      subst h
      exact ⟨B2, rfl⟩

/-- The function `extract_port` on a port written in decimal digits. -/
theorem extract_port_decimal (block : List Nat) (data : Nat) (host digits : List Nat) (d : Nat)
    (more : List Nat) (hb : block.drop data = host ++ 32 :: (digits ++ d :: more))
    (h0 : ∀ b ∈ host, b ≠ 0) (h32 : 32 ∉ host) (hne : digits ≠ [])
    (hd : ∀ b ∈ digits, isdigit b = true) (hnd : isdigit d = false) :
    (client.extract_port block data).2 =
      if 1 ≤ decimal_value digits ∧ decimal_value digits ≤ 65535 ∧ (d = 0 ∨ d = 32) then
        some (decimal_value digits, data + host.length + 1 + digits.length)
      else none := by
  rw [extract_port_at block data host _ hb h0 h32, strtol_decimal digits hne hd d more hnd]
  have hpk : peek (digits ++ d :: more) digits.length = d := by
    rw [peek_append_right _ _ _ rfl]; rfl
  have hlm : LONG_MAX = 9223372036854775807 := rfl
  simp only [hpk]
  generalize decimal_value digits = v
  by_cases hv : (v : Int) > LONG_MAX
  · rw [if_pos hv, if_pos (Or.inr (by rw [hlm]; decide)), if_neg (by rw [hlm] at hv; omega)]
  · rw [if_neg hv]
    by_cases h1 : 1 ≤ v ∧ v ≤ 65535
    · rw [if_neg (by omega)]
      by_cases h2 : d = 0 ∨ d = 32
      · rw [if_neg (by omega), if_pos ⟨h1.1, h1.2, h2⟩]
        simp
      · rw [if_pos (by omega), if_neg (by tauto)]
    · rw [if_pos (by omega), if_neg (by tauto)]

theorem extract_port_minus (block : List Nat) (data : Nat) (host Y : List Nat)
    (hb : block.drop data = host ++ 32 :: 45 :: Y)
    (h0 : ∀ b ∈ host, b ≠ 0) (h32 : 32 ∉ host) :
    (client.extract_port block data).2 = none := by
  rw [extract_port_at block data host _ hb h0 h32]
  simp only
  rw [if_pos (Or.inl (strtol_minus Y))]

theorem extract_port_not_number (block : List Nat) (data : Nat) (host : List Nat) (ch : Nat)
    (Y : List Nat) (hb : block.drop data = host ++ 32 :: ch :: Y)
    (h0 : ∀ b ∈ host, b ≠ 0) (h32 : 32 ∉ host) (hd : isdigit ch = false)
    (hs : isspace ch = false) (h43 : ch ≠ 43) (h45 : ch ≠ 45) :
    (client.extract_port block data).2 = none := by
  rw [extract_port_at block data host _ hb h0 h32, strtol_not_number ch Y hd hs h43 h45]
  simp

theorem controller_port_rejected (rd : read_outcome) (mem : Bool) (ce : Nat → client.ctrl_env)
    (g g1 : client.globals) (cli : Nat) (c : client.netsock_t) (nread cmdch : Nat)
    (args rest : List Nat)
    (hread : client.netsock_read rd mem g cli 0 = (0, g1, nread))
    (hc : g1.all_sockets[cli]? = some c) (hvi : valid_iobuf c.ibuf)
    (hb : iobuf_bytes c.ibuf = cmdch :: 32 :: args ++ 10 :: rest)
    (h10 : 10 ∉ args) (h13 : 13 ∉ args) (hcmd : cmdch ∈ client.str "stxr-")
    (h : (client.extract_port
        (cmdch :: 32 :: args ++ 0 :: (rest ++ c.ibuf.data.drop c.ibuf.size)) 2).2 = none ∨
      ((cmdch = 116 ∨ cmdch = 114) ∧
        (client.extract_port (client.extract_port
          (cmdch :: 32 :: args ++ 0 :: (rest ++ c.ibuf.data.drop c.ibuf.size)) 2).1
          (((client.extract_port
            (cmdch :: 32 :: args ++ 0 :: (rest ++ c.ibuf.data.drop c.ibuf.size)) 2).2.getD
              (0, 0)).2 + 1)).2 = none)) :
    ∃ ib m, client.controller_read_event rd mem ce g cli =
      some (-1, { g with all_sockets := client.update_at g.all_sockets cli (fun ns =>
        { ns with ibuf := ib, min_io_size := m }) }) := by
  have hvals : cmdch = 115 ∨ cmdch = 116 ∨ cmdch = 120 ∨ cmdch = 114 ∨ cmdch = 45 := by
    revert hcmd
    simp only [client.str, String.toList, List.map, List.mem_cons, List.mem_singleton]
    intro hcmd
    simp only [List.not_mem_nil, or_false] at hcmd
    exact hcmd
  have hline10 : 10 ∉ cmdch :: 32 :: args := by
    simp only [List.mem_cons, not_or]
    exact ⟨by omega, by decide, h10⟩
  have hline13 : 13 ∉ cmdch :: 32 :: args := by
    simp only [List.mem_cons, not_or]
    exact ⟨by omega, by decide, h13⟩
  have hl : c.ibuf.size = (cmdch :: 32 :: args).length + 1 + rest.length := by
    rw [← iobuf_bytes_length _ hvi, hb]
    simp only [List.length_cons, List.length_append]; omega
  have hbuf := iobuf_dataptr_eq c.ibuf (by omega)
  rw [hb] at hbuf
  rw [List.append_assoc, show (10 :: rest) ++ List.drop c.ibuf.size c.ibuf.data =
    10 :: (rest ++ List.drop c.ibuf.size c.ibuf.data) from rfl] at hbuf
  have hfirst := controller_loop_first ce cli c.ibuf.size c.ibuf.size g1 (cmdch :: 32 :: args)
    (rest ++ List.drop c.ibuf.size c.ibuf.data) hline10 (by omega)
  rw [← hbuf] at hfirst
  suffices hs : ∃ b, client.controller_loop ce cli c.ibuf.size (c.ibuf.size + 1) 0 g1
      (iobuf_dataptr c.ibuf) 0 = some (-1, g1, b, none) by
    obtain ⟨b, hb2⟩ := hs
    exact controller_read_event_fail rd mem ce g g1 cli c nread (-1) b hread hc hb2
  rw [hfirst]
  generalize rest ++ List.drop c.ibuf.size c.ibuf.data = X at h ⊢
  have hp0 : peek (cmdch :: 32 :: args ++ 0 :: X) 0 = cmdch := rfl
  have hlast : peek (cmdch :: 32 :: args ++ 0 :: X) ((cmdch :: 32 :: args).length - 1) ≠ 13 := by
    intro h13'
    apply hline13
    rw [← h13']
    exact peek_mem _ _ _ (by simp)
  rw [if_neg (by rw [hp0]; omega), if_neg hlast]
  obtain ⟨b, hfail⟩ := controller_command_port_fail (ce 0) g1 cli
    (cmdch :: 32 :: args ++ 0 :: X) cmdch hp0 hcmd h
  exact ⟨b, by rw [hfail]⟩

/-- A command s whose port `extract_port` accepts runs `socks5_bind` with the
host and that port. -/
theorem controller_command_port_ok (ce : client.ctrl_env) (g : client.globals) (cli : Nat)
    (B B1 : List Nat) (lport d1 : Nat) (hp0 : peek B 0 = 115) (h1 : peek B 1 = 32)
    (h2 : peek B 2 ≠ 0) (hx : client.extract_port B 2 = (B1, some (lport, d1))) :
    client.controller_command ce g cli B 0 =
      client.ctrl_step.ran (client.socks5_bind ce g cli (cstring (B1.drop 2)) lport).1 B1
        (client.socks5_bind ce g cli (cstring (B1.drop 2)) lport).2 := by
  unfold client.controller_command
  simp only [hp0, Nat.zero_add, h1, hx]
  rw [if_neg (by decide), if_neg (by decide), if_neg (by simp), if_neg h2]
  simp

theorem takeWhile_isspace_append (ws s : List Nat) (hws : ∀ b ∈ ws, isspace b = true)
    (hs : ∀ a t, s = a :: t → isspace a = false) :
    (ws ++ s).takeWhile isspace = ws := by
  induction ws with
  | nil =>
    cases s with
    | nil => rfl
    | cons a t => simp only [List.nil_append, List.takeWhile_cons, hs a t rfl]; rfl
  | cons a t ih =>
    have ha := hws a (List.mem_cons_self _ _)
    simp only [List.cons_append, List.takeWhile_cons, ha, if_true,
      ih (fun b hb => hws b (List.mem_cons_of_mem _ hb))]

/-- The function `strtol` skips the white space before the number. -/
theorem strtol_skip (ws s : List Nat) (hws : ∀ b ∈ ws, isspace b = true)
    (hs : ∀ a t, s = a :: t → isspace a = false) :
    strtol (ws ++ s) =
      if (strtol s).2 = 0 then (0, 0) else ((strtol s).1, ws.length + (strtol s).2) := by
  have h1 := takeWhile_isspace_append ws s hws hs
  have h2 := takeWhile_isspace_append [] s (by simp) hs
  simp only [List.nil_append] at h2
  unfold strtol
  simp only [h1, h2, List.drop_left, List.length_nil, List.drop_zero, Nat.zero_add]
  generalize strtol_digits _ 0 = D
  by_cases hd : D.2 = 0
  · simp only [hd, if_true]
  · have hz : ∀ sg : Nat, ¬ (sg + D.2 = 0) := fun sg => by omega
    simp only [hd, hz, if_false, Nat.add_assoc]

/-- The function `strtol` on a plus sign and a string of digits followed by
another character. -/
theorem strtol_plus (digits : List Nat) (hd : ∀ b ∈ digits, isdigit b = true) (d : Nat)
    (rest : List Nat) (hnd : isdigit d = false) :
    strtol (43 :: (digits ++ d :: rest)) =
      if digits = [] then (0, 0)
      else (if (decimal_value digits : Int) > LONG_MAX then LONG_MAX
        else (decimal_value digits : Int), 1 + digits.length) := by
  have hs : isspace 43 = false := by decide
  have hdig := strtol_digits_spec digits hd d rest hnd 0
  unfold strtol
  simp only [List.takeWhile_cons, hs, Bool.false_eq_true, if_false, List.length_nil,
    List.drop_zero, List.drop_succ_cons, Nat.zero_add, hdig, List.length_eq_zero]
  by_cases hn : digits = []
  · simp only [hn, if_true]
  · simp only [hn, if_false]
    have hv : (0 : Int) ≤ (decimal_value digits : Int) := Int.ofNat_nonneg _
    have hlm : (0 : Int) < LONG_MAX := by decide
    simp only [decimal_value] at hv ⊢
    split
    · rfl
    · rw [if_neg (by omega)]

/-- The text `strtol` accepts as a number: white space, an optional plus sign
and digits; the value and the offset of the character after the digits. -/
theorem strtol_number (ws sgn digits : List Nat) (d : Nat) (rest : List Nat)
    (hws : ∀ b ∈ ws, isspace b = true) (hsgn : sgn = [] ∨ sgn = [43]) (hne : digits ≠ [])
    (hd : ∀ b ∈ digits, isdigit b = true) (hnd : isdigit d = false) :
    strtol (ws ++ (sgn ++ (digits ++ d :: rest))) =
      (if (decimal_value digits : Int) > LONG_MAX then LONG_MAX
        else (decimal_value digits : Int), ws.length + sgn.length + digits.length) := by
  have hl : digits.length ≠ 0 := by
    intro h; exact hne (List.length_eq_zero.mp h)
  rcases hsgn with h | h <;> subst h
  · obtain ⟨a, t, rfl⟩ := List.exists_cons_of_ne_nil hne
    rw [strtol_skip ws _ hws (by
      intro a1 t1 h
      simp only [List.nil_append, List.cons_append, List.cons.injEq] at h
      rw [← h.1]
      exact isspace_of_isdigit a (hd a (List.mem_cons_self _ _)))]
    rw [List.nil_append, strtol_decimal (a :: t) hne hd d rest hnd]
    rw [if_neg hl]
    rfl
  · rw [strtol_skip ws _ hws (by
      intro a1 t1 h
      simp only [List.cons_append, List.nil_append, List.cons.injEq] at h
      rw [← h.1]
      decide)]
    rw [show [43] ++ (digits ++ d :: rest) = 43 :: (digits ++ d :: rest) from rfl,
      strtol_plus digits hd d rest hnd, if_neg hne]
    rw [if_neg (by simp only; omega)]
    simp only [List.length_singleton, Nat.add_assoc]

/-- The text `strtol` takes for no number: after the white space and an
optional sign comes a character that is no digit. -/
theorem strtol_no_number (ws sgn : List Nat) (ch : Nat) (Y : List Nat)
    (hws : ∀ b ∈ ws, isspace b = true) (hsgn : sgn = [] ∨ sgn = [43] ∨ sgn = [45])
    (hd : isdigit ch = false)
    (hch : sgn = [] → isspace ch = false ∧ ch ≠ 43 ∧ ch ≠ 45) :
    strtol (ws ++ (sgn ++ ch :: Y)) = (0, 0) := by
  have hdg : ∀ v, strtol_digits (ch :: Y) v = (v, 0) := by
    intro v; simp only [strtol_digits, hd, Bool.false_eq_true, if_false]
  rcases hsgn with h | h | h <;> subst h
  · obtain ⟨h1, h2, h3⟩ := hch rfl
    rw [strtol_skip ws _ hws (by
      intro a1 t1 h
      simp only [List.nil_append, List.cons.injEq] at h
      rw [← h.1]; exact h1)]
    rw [List.nil_append, strtol_not_number ch Y hd h1 h2 h3]
    rfl
  · have h0 : strtol ([43] ++ ch :: Y) = (0, 0) := by
      have hs : isspace 43 = false := by decide
      unfold strtol
      simp only [List.singleton_append, List.takeWhile_cons, hs, Bool.false_eq_true, if_false,
        List.length_nil, List.drop_zero, List.drop_succ_cons, hdg, if_true]
    rw [strtol_skip ws _ hws (by
      intro a1 t1 h
      simp only [List.singleton_append, List.cons.injEq] at h
      rw [← h.1]; decide), h0]
    rfl
  · have h0 : strtol ([45] ++ ch :: Y) = (0, 0) := by
      have hs : isspace 45 = false := by decide
      unfold strtol
      simp only [List.singleton_append, List.takeWhile_cons, hs, Bool.false_eq_true, if_false,
        List.length_nil, List.drop_zero, List.drop_succ_cons, hdg, if_true]
    rw [strtol_skip ws _ hws (by
      intro a1 t1 h
      simp only [List.singleton_append, List.cons.injEq] at h
      rw [← h.1]; decide), h0]
    rfl

/-- The function `strtol` gives no positive value to a text whose number begins
with a minus sign. -/
theorem strtol_negative (ws Y : List Nat) (hws : ∀ b ∈ ws, isspace b = true) :
    (strtol (ws ++ 45 :: Y)).1 ≤ 0 := by
  rw [strtol_skip ws _ hws (by
    intro a1 t1 h
    simp only [List.cons.injEq] at h
    rw [← h.1]; decide)]
  split
  · exact le_refl _
  · exact strtol_minus Y

/-- The function `extract_port` on a port that `strtol` reads as a number. -/
theorem extract_port_number (block : List Nat) (data : Nat)
    (host ws sgn digits : List Nat) (d : Nat) (more : List Nat)
    (hb : block.drop data = host ++ 32 :: (ws ++ (sgn ++ (digits ++ d :: more))))
    (h0 : ∀ b ∈ host, b ≠ 0) (h32 : 32 ∉ host) (hws : ∀ b ∈ ws, isspace b = true)
    (hsgn : sgn = [] ∨ sgn = [43]) (hne : digits ≠ [])
    (hd : ∀ b ∈ digits, isdigit b = true) (hnd : isdigit d = false) :
    (client.extract_port block data).2 =
      if 1 ≤ decimal_value digits ∧ decimal_value digits ≤ 65535 ∧ (d = 0 ∨ d = 32) then
        some (decimal_value digits,
          data + host.length + 1 + (ws.length + sgn.length + digits.length))
      else none := by
  rw [extract_port_at block data host _ hb h0 h32,
    strtol_number ws sgn digits d more hws hsgn hne hd hnd]
  have hpk : peek (ws ++ (sgn ++ (digits ++ d :: more)))
      (ws.length + sgn.length + digits.length) = d := by
    rw [peek_append_add ws _ _ (sgn.length + digits.length) (by omega),
      peek_append_add sgn _ _ digits.length rfl, peek_append_right _ _ _ rfl]
    rfl
  have hlm : LONG_MAX = 9223372036854775807 := rfl
  simp only [hpk]
  generalize decimal_value digits = v
  by_cases hv : (v : Int) > LONG_MAX
  · rw [if_pos hv, if_pos (Or.inr (by rw [hlm]; decide)), if_neg (by rw [hlm] at hv; omega)]
  · rw [if_neg hv]
    by_cases h1 : 1 ≤ v ∧ v ≤ 65535
    · rw [if_neg (by omega)]
      by_cases h2 : d = 0 ∨ d = 32
      · rw [if_neg (by omega), if_pos ⟨h1.1, h1.2, h2⟩]
        simp
      · rw [if_pos (by omega), if_neg (by tauto)]
    · rw [if_pos (by omega), if_neg (by tauto)]

theorem extract_port_negative (block : List Nat) (data : Nat) (host ws Y : List Nat)
    (hb : block.drop data = host ++ 32 :: (ws ++ 45 :: Y))
    (h0 : ∀ b ∈ host, b ≠ 0) (h32 : 32 ∉ host) (hws : ∀ b ∈ ws, isspace b = true) :
    (client.extract_port block data).2 = none := by
  rw [extract_port_at block data host _ hb h0 h32]
  simp only
  rw [if_pos (Or.inl (strtol_negative ws Y hws))]

theorem extract_port_no_number (block : List Nat) (data : Nat) (host ws sgn : List Nat)
    (ch : Nat) (Y : List Nat)
    (hb : block.drop data = host ++ 32 :: (ws ++ (sgn ++ ch :: Y)))
    (h0 : ∀ b ∈ host, b ≠ 0) (h32 : 32 ∉ host) (hws : ∀ b ∈ ws, isspace b = true)
    (hsgn : sgn = [] ∨ sgn = [43]) (hd : isdigit ch = false)
    (hch : sgn = [] → isspace ch = false ∧ ch ≠ 43 ∧ ch ≠ 45) :
    (client.extract_port block data).2 = none := by
  rw [extract_port_at block data host _ hb h0 h32,
    strtol_no_number ws sgn ch Y hws (by tauto) hd hch]
  simp

/-- C18 (as amended): the port grammar of the controller. After a host name and
a space, `extract_port` reads the port with `strtol`. On white space (possibly
none), an optional plus sign and decimal digits it returns the port exactly
when the value of the digits lies in 1..65535 and the character after them is a
space or the end of the line (NUL); it returns the null pointer when the number
begins with a minus sign, and when no digit stands where the number should
begin. When the read of `controller_read_event` has returned 0 and the first
line of the input buffer, free of CR, is a command s, t, x, r or - followed by
a space, the function returns the error -1 as soon as `extract_port` refuses
the local port, or the remote port of a command t or r, and the variables are
those before the call but for the input buffer and the I/O chunk size of the
record of the controller client: no tunnel is registered or removed. A command
s whose port is accepted runs `socks5_bind` with that port. -/
theorem C18_controller_port_grammar (rd : read_outcome) (mem : Bool)
    (ce : Nat → client.ctrl_env) (g g1 : client.globals) (cli : Nat) (c : client.netsock_t)
    (nread cmdch : Nat) (args rest : List Nat)
    (hread : client.netsock_read rd mem g cli 0 = (0, g1, nread))
    (hc : g1.all_sockets[cli]? = some c) (hvi : valid_iobuf c.ibuf)
    (hb : iobuf_bytes c.ibuf = cmdch :: 32 :: args ++ 10 :: rest)
    (h10 : 10 ∉ args) (h13 : 13 ∉ args) (hcmd : cmdch ∈ client.str "stxr-") :
    (∀ (block : List Nat) (data : Nat) (host ws sgn digits : List Nat) (d : Nat)
        (more : List Nat),
      block.drop data = host ++ 32 :: (ws ++ (sgn ++ (digits ++ d :: more))) →
      (∀ b ∈ host, b ≠ 0) → 32 ∉ host → (∀ b ∈ ws, isspace b = true) →
      (sgn = [] ∨ sgn = [43]) → digits ≠ [] → (∀ b ∈ digits, isdigit b = true) →
      isdigit d = false →
      (client.extract_port block data).2 =
        if 1 ≤ decimal_value digits ∧ decimal_value digits ≤ 65535 ∧ (d = 0 ∨ d = 32) then
          some (decimal_value digits,
            data + host.length + 1 + (ws.length + sgn.length + digits.length))
        else none) ∧
    (∀ (block : List Nat) (data : Nat) (host ws Y : List Nat),
      block.drop data = host ++ 32 :: (ws ++ 45 :: Y) → (∀ b ∈ host, b ≠ 0) → 32 ∉ host →
      (∀ b ∈ ws, isspace b = true) →
      (client.extract_port block data).2 = none) ∧
    (∀ (block : List Nat) (data : Nat) (host ws sgn : List Nat) (ch : Nat) (Y : List Nat),
      block.drop data = host ++ 32 :: (ws ++ (sgn ++ ch :: Y)) → (∀ b ∈ host, b ≠ 0) →
      32 ∉ host → (∀ b ∈ ws, isspace b = true) → (sgn = [] ∨ sgn = [43]) →
      isdigit ch = false → (sgn = [] → isspace ch = false ∧ ch ≠ 43 ∧ ch ≠ 45) →
      (client.extract_port block data).2 = none) ∧
    ((client.extract_port
        (cmdch :: 32 :: args ++ 0 :: (rest ++ c.ibuf.data.drop c.ibuf.size)) 2).2 = none ∨
      ((cmdch = 116 ∨ cmdch = 114) ∧
        (client.extract_port (client.extract_port
          (cmdch :: 32 :: args ++ 0 :: (rest ++ c.ibuf.data.drop c.ibuf.size)) 2).1
          (((client.extract_port
            (cmdch :: 32 :: args ++ 0 :: (rest ++ c.ibuf.data.drop c.ibuf.size)) 2).2.getD
              (0, 0)).2 + 1)).2 = none) →
      ∃ ib m, client.controller_read_event rd mem ce g cli =
        some (-1, { g with all_sockets := client.update_at g.all_sockets cli (fun ns =>
          { ns with ibuf := ib, min_io_size := m }) })) ∧
    (∀ (B1 : List Nat) (lport d1 : Nat), cmdch = 115 → args ≠ [] → peek args 0 ≠ 0 →
      client.extract_port
        (cmdch :: 32 :: args ++ 0 :: (rest ++ c.ibuf.data.drop c.ibuf.size)) 2 =
        (B1, some (lport, d1)) →
      client.controller_command (ce 0) g1 cli
        (cmdch :: 32 :: args ++ 0 :: (rest ++ c.ibuf.data.drop c.ibuf.size)) 0 =
        client.ctrl_step.ran
          (client.socks5_bind (ce 0) g1 cli (cstring (B1.drop 2)) lport).1 B1
          (client.socks5_bind (ce 0) g1 cli (cstring (B1.drop 2)) lport).2) := by
  refine ⟨?_, ?_, ?_, ?_, ?_⟩
  · intro block data host ws sgn digits d more hb2 h0 h32 hws hsgn hne hd hnd
    exact extract_port_number block data host ws sgn digits d more hb2 h0 h32 hws hsgn hne hd hnd
  · intro block data host ws Y hb2 h0 h32 hws
    exact extract_port_negative block data host ws Y hb2 h0 h32 hws
  · intro block data host ws sgn ch Y hb2 h0 h32 hws hsgn hd hch
    exact extract_port_no_number block data host ws sgn ch Y hb2 h0 h32 hws hsgn hd hch
  · intro h
    exact controller_port_rejected rd mem ce g g1 cli c nread cmdch args rest hread hc hvi hb
      h10 h13 hcmd h
  · intro B1 lport d1 hs hne hp hx
    subst hs
    cases args with
    | nil => exact absurd rfl hne
    | cons a t =>
      exact controller_command_port_ok (ce 0) g1 cli _ B1 lport d1 rfl rfl hp hx

/-- Witness of C18: the controller client sends the line "s h 0". -/
theorem C18_controller_port_grammar_witness :
    ∃ ib m, client.controller_read_event (read_outcome.got [115, 32, 104, 32, 48, 10]) true
      (fun _ => client.ctrl_env.mk
        (client.env_t.mk 0 (fun _ => true) write_outcome.pending true none none (fun _ => 0))
        none [] false (fun _ => false) (fun _ => []) (fun _ => write_outcome.pending))
      (client.globals.mk [{ client.netsock_new 3 with type := 3, state := 3, min_io_size := 64 }] 0xff client.channel_init) 0 =
      some (-1, { client.globals.mk [{ client.netsock_new 3 with type := 3, state := 3, min_io_size := 64 }] 0xff client.channel_init with
        all_sockets := client.update_at [{ client.netsock_new 3 with type := 3, state := 3, min_io_size := 64 }] 0
          (fun ns => { ns with ibuf := ib, min_io_size := m }) }) :=
  (C18_controller_port_grammar (read_outcome.got [115, 32, 104, 32, 48, 10]) true
    (fun _ => client.ctrl_env.mk
      (client.env_t.mk 0 (fun _ => true) write_outcome.pending true none none (fun _ => 0))
      none [] false (fun _ => false) (fun _ => []) (fun _ => write_outcome.pending))
    (client.globals.mk [{ client.netsock_new 3 with type := 3, state := 3, min_io_size := 64 }] 0xff client.channel_init)
    (client.netsock_read (read_outcome.got [115, 32, 104, 32, 48, 10]) true
      (client.globals.mk [{ client.netsock_new 3 with type := 3, state := 3, min_io_size := 64 }] 0xff client.channel_init) 0 0).2.1
    0
    { client.netsock_new 3 with type := 3, state := 3, min_io_size := 64, ibuf := (net_read (read_outcome.got [115, 32, 104, 32, 48, 10]) true iobuf_init 0 64).2.1 }
    6 115 [104, 32, 48] [] (by decide) (by decide) (by decide) (by decide) (by decide)
    (by decide) (by decide)).2.2.2.1 (Or.inl (by decide))

/-- C18 (the literal reading fails). Two port arguments that are no strings of
decimal digits are accepted: `+80`, and a tab followed by `80`. For each of the
lines `s h +80` and `s h `, tab, `80`, `extract_port` returns the port 80, and
when the controller client sends the line ended by LF while `net_server`,
`calloc` and the writes succeed, `controller_read_event` returns 0 and the
table holds a new listener of type s5srv after the controller client. -/
theorem C18_lenient_port_accepted :
    (client.extract_port (client.str "s h +80" ++ [0]) 2).2 = some (80, 7) ∧
    (client.extract_port [115, 32, 104, 32, 9, 56, 48, 0] 2).2 = some (80, 7) ∧
    (client.controller_read_event
      (read_outcome.got (client.str "s h +80" ++ [10])) true
      (fun _ => client.ctrl_env.mk
        (client.env_t.mk 0 (fun _ => true) (write_outcome.wrote 100) true none none (fun _ => 0))
        (some 7) [] true (fun _ => false) (fun _ => []) (fun _ => write_outcome.wrote 100))
      (client.globals.mk [{ client.netsock_new 3 with type := 3, state := 3, min_io_size := 64 }] 0xff client.channel_init)
      0).map (fun r => (r.1, r.2.all_sockets.map (fun ns => ns.type))) =
      some (0, [client.NETSOCK_CTRLCLI, client.NETSOCK_S5SRV]) ∧
    (client.controller_read_event
      (read_outcome.got [115, 32, 104, 32, 9, 56, 48, 10]) true
      (fun _ => client.ctrl_env.mk
        (client.env_t.mk 0 (fun _ => true) (write_outcome.wrote 100) true none none (fun _ => 0))
        (some 7) [] true (fun _ => false) (fun _ => []) (fun _ => write_outcome.wrote 100))
      (client.globals.mk [{ client.netsock_new 3 with type := 3, state := 3, min_io_size := 64 }] 0xff client.channel_init)
      0).map (fun r => (r.1, r.2.all_sockets.map (fun ns => ns.type))) =
      some (0, [client.NETSOCK_CTRLCLI, client.NETSOCK_S5SRV]) := by
  refine ⟨?_, ?_, ?_, ?_⟩ <;> decide

/-! ## Theorems: the process tunnel registered through the controller -/

/-- A command x whose local port `extract_port` accepts, followed by a space and
a command line, runs `tunnel_add` with the remote port 0. -/
theorem controller_command_x (ce : client.ctrl_env) (g : client.globals) (cli : Nat)
    (B B1 : List Nat) (lport d1 : Nat) (hp0 : peek B 0 = 120) (hp1 : peek B 1 = 32)
    (hp2 : peek B 2 ≠ 0) (hx : client.extract_port B 2 = (B1, some (lport, d1)))
    (hq1 : peek B1 d1 = 32) (hq2 : peek B1 (d1 + 1) ≠ 0) :
    client.controller_command ce g cli B 0 =
      client.ctrl_step.ran
        (client.tunnel_add ce g cli (cstring (B1.drop 2)) lport AF_UNSPEC
          (cstring (B1.drop (d1 + 1))) 0).1 B1
        (client.tunnel_add ce g cli (cstring (B1.drop 2)) lport AF_UNSPEC
          (cstring (B1.drop (d1 + 1))) 0).2 := by
  unfold client.controller_command
  simp only [hp0, Nat.zero_add, hp1, hx, hq1]
  rw [if_neg (by simp [client.str]), if_neg (by decide), if_neg (by simp), if_neg hp2]
  rw [if_neg (by decide), if_neg (by decide), if_neg (by simp), if_neg hq2, if_pos trivial]

theorem extract_port_x_8080 (X : List Nat) :
    client.extract_port
      ([120, 32, 48, 46, 48, 46, 48, 46, 48, 32, 56, 48, 56, 48, 32, 99, 109, 100, 46, 101, 120,
        101] ++ 0 :: X) 2 =
      ([120, 32, 48, 46, 48, 46, 48, 46, 48, 0, 56, 48, 56, 48, 32, 99, 109, 100, 46, 101, 120,
        101] ++ 0 :: X, some (8080, 14)) := by
  have hx := extract_port_at
    ([120, 32, 48, 46, 48, 46, 48, 46, 48, 32, 56, 48, 56, 48, 32, 99, 109, 100, 46, 101, 120,
        101] ++ 0 :: X) 2 [48, 46, 48, 46, 48, 46, 48]
    ([56, 48, 56, 48] ++ 32 :: ([99, 109, 100, 46, 101, 120, 101] ++ 0 :: X)) (by rfl)
    (by decide) (by decide)
  rw [strtol_decimal [56, 48, 56, 48] (by decide) (by decide) 32 _ (by decide)] at hx
  have hv : decimal_value [56, 48, 56, 48] = 8080 := by decide
  simp only [hv] at hx
  rw [hx]
  have hlm : ¬ (((8080 : Nat) : Int) > LONG_MAX) := by unfold LONG_MAX; omega
  have hpk : peek ([56, 48, 56, 48] ++ 32 :: ([99, 109, 100, 46, 101, 120, 101] ++ 0 :: X))
      [56, 48, 56, 48].length = 32 := rfl
  rw [if_neg hlm, if_neg (by omega), hpk, if_neg (by omega)]
  rfl

theorem controller_command_x_8080 (ce : client.ctrl_env) (g : client.globals) (cli : Nat)
    (X : List Nat) :
    client.controller_command ce g cli
      ([120, 32, 48, 46, 48, 46, 48, 46, 48, 32, 56, 48, 56, 48, 32, 99, 109, 100, 46, 101, 120,
        101] ++ 0 :: X) 0 =
      client.ctrl_step.ran
        (client.tunnel_add ce g cli [48, 46, 48, 46, 48, 46, 48] 8080 AF_UNSPEC
          [99, 109, 100, 46, 101, 120, 101] 0).1
        ([120, 32, 48, 46, 48, 46, 48, 46, 48, 0, 56, 48, 56, 48, 32, 99, 109, 100, 46, 101, 120,
          101] ++ 0 :: X)
        (client.tunnel_add ce g cli [48, 46, 48, 46, 48, 46, 48] 8080 AF_UNSPEC
          [99, 109, 100, 46, 101, 120, 101] 0).2 := by
  have c1 : cstring (List.drop 2
      ([120, 32, 48, 46, 48, 46, 48, 46, 48, 0, 56, 48, 56, 48, 32, 99, 109, 100, 46, 101, 120,
        101] ++ 0 :: X)) = [48, 46, 48, 46, 48, 46, 48] := by simp [cstring]
  have c2 : cstring (List.drop (14 + 1)
      ([120, 32, 48, 46, 48, 46, 48, 46, 48, 0, 56, 48, 56, 48, 32, 99, 109, 100, 46, 101, 120,
        101] ++ 0 :: X)) = [99, 109, 100, 46, 101, 120, 101] := by simp [cstring]
  have h := controller_command_x ce g cli
    ([120, 32, 48, 46, 48, 46, 48, 46, 48, 32, 56, 48, 56, 48, 32, 99, 109, 100, 46, 101, 120,
      101] ++ 0 :: X)
    ([120, 32, 48, 46, 48, 46, 48, 46, 48, 0, 56, 48, 56, 48, 32, 99, 109, 100, 46, 101, 120,
      101] ++ 0 :: X) 8080 14 (by rfl) (by rfl) (by simp [peek])
    (extract_port_x_8080 X) (by rfl) (by simp [peek])
  rw [c1, c2] at h
  exact h

theorem update_at_append_length (l : List client.netsock_t) (x : client.netsock_t)
    (f : client.netsock_t → client.netsock_t) :
    client.update_at (l ++ [x]) l.length f = l ++ [f x] := by
  induction l with
  | nil => rfl
  | cons a t ih =>
    show a :: client.update_at (t ++ [x]) t.length f = _
    rw [ih]
    rfl

/-- What `tunnel_add` registers when `net_server` and `calloc` succeed: a
listener record at the end of the table, and an answer for the controller
client, whose write gives the value returned. -/
theorem tunnel_add_registers (ce : client.ctrl_env) (g : client.globals) (cli : Nat)
    (c : client.netsock_t) (lhost : List Nat) (lport : Nat) (raf : Int) (rhost : List Nat)
    (rport : Nat) (fd : Int) (hc : g.all_sockets[cli]? = some c)
    (hs : ce.server = some fd) (hcal : ce.e.calloc = true) :
    ∃ text w, text ≠ [] ∧ w = net_write ce.e.write (ce.e.mem 1) c.obuf (text ++ [10]) ∧
      (client.tunnel_add ce g cli lhost lport raf rhost rport).1 = w.1 ∧
      (client.tunnel_add ce g cli lhost lport raf rhost rport).2 =
        { g with all_sockets := (client.update_at
          (g.all_sockets ++ [client.tunsrv_record fd (client.sysaf_to_rdpaf raf) rhost rport])
          cli (fun ns => { ns with obuf := w.2.1 })) } := by
  have hlt : cli < g.all_sockets.length := by
    by_contra h
    rw [List.getElem?_eq_none (by omega)] at hc
    cases hc
  have hget : ∀ x, (g.all_sockets ++ [x])[cli]? = some c := by
    intro x
    rw [List.getElem?_append_left hlt, hc]
  refine ⟨if rport ≠ 0 then
      client.str "tunnel [" ++ lhost ++ client.str "]:" ++ utoa lport ++ client.str " --> [" ++
        rhost ++ client.str "]:" ++ utoa rport ++ client.str " registered"
    else
      client.str "tunnel [" ++ lhost ++ client.str "]:" ++ utoa lport ++ client.str " --> " ++
        rhost ++ client.str " registered", _, ?_, rfl, ?_⟩
  · split <;> simp [client.str]
  · have hpos : (if rport ≠ 0 then
          client.str "tunnel [" ++ lhost ++ client.str "]:" ++ utoa lport ++
            client.str " --> [" ++ rhost ++ client.str "]:" ++ utoa rport ++
            client.str " registered"
        else
          client.str "tunnel [" ++ lhost ++ client.str "]:" ++ utoa lport ++
            client.str " --> " ++ rhost ++ client.str " registered").length > 0 := by
      split <;> simp [client.str]
    unfold client.tunnel_add client.netsock_bind client.netsock_alloc
    simp only [hs, hcal, if_true, update_at_append_length, client.controller_answer, hpos,
      client.netsock_write, hget]
    refine ⟨trivial, ?_⟩
    rfl

theorem controller_read_event_x_8080 (rd : read_outcome) (mem : Bool)
    (ce : Nat → client.ctrl_env) (g g1 : client.globals) (cli : Nat) (c : client.netsock_t)
    (nread : Nat)
    (hread : client.netsock_read rd mem g cli 0 = (0, g1, nread))
    (hc : g1.all_sockets[cli]? = some c) (hvi : valid_iobuf c.ibuf)
    (hb : iobuf_bytes c.ibuf = client.str "x 0.0.0.0 8080 cmd.exe" ++ [10]) :
    ∃ b, client.controller_read_event rd mem ce g cli =
      some ((client.tunnel_add (ce 0) g1 cli (client.str "0.0.0.0") 8080 AF_UNSPEC
          (client.str "cmd.exe") 0).1,
        { (client.tunnel_add (ce 0) g1 cli (client.str "0.0.0.0") 8080 AF_UNSPEC
            (client.str "cmd.exe") 0).2 with
          all_sockets := (client.update_at
            (client.tunnel_add (ce 0) g1 cli (client.str "0.0.0.0") 8080 AF_UNSPEC
              (client.str "cmd.exe") 0).2.all_sockets cli
            (fun ns => { ns with ibuf := iobuf_consume { ns.ibuf with data := b } 23 })) }) := by
  have hline : client.str "x 0.0.0.0 8080 cmd.exe" =
      [120, 32, 48, 46, 48, 46, 48, 46, 48, 32, 56, 48, 56, 48, 32, 99, 109, 100, 46, 101, 120,
        101] := by decide
  have hhost : client.str "0.0.0.0" = [48, 46, 48, 46, 48, 46, 48] := by decide
  have hcmd : client.str "cmd.exe" = [99, 109, 100, 46, 101, 120, 101] := by decide
  rw [hline] at hb
  rw [hhost, hcmd]
  have hl : c.ibuf.size = 23 := by
    rw [← iobuf_bytes_length _ hvi, hb]; rfl
  have hbuf := iobuf_dataptr_eq c.ibuf (by omega)
  rw [hb, List.append_assoc, show [10] ++ List.drop c.ibuf.size c.ibuf.data =
    10 :: ([] ++ List.drop c.ibuf.size c.ibuf.data) from rfl] at hbuf
  have hfirst := controller_loop_first ce cli c.ibuf.size c.ibuf.size g1
    [120, 32, 48, 46, 48, 46, 48, 46, 48, 32, 56, 48, 56, 48, 32, 99, 109, 100, 46, 101, 120,
      101] ([] ++ List.drop c.ibuf.size c.ibuf.data) (by decide) (by rw [hl]; decide)
  rw [← hbuf] at hfirst
  generalize [] ++ List.drop c.ibuf.size c.ibuf.data = X at hfirst
  have p0 : peek ([120, 32, 48, 46, 48, 46, 48, 46, 48, 32, 56, 48, 56, 48, 32, 99, 109, 100,
      46, 101, 120, 101] ++ 0 :: X) 0 = 120 := rfl
  have p21 : peek ([120, 32, 48, 46, 48, 46, 48, 46, 48, 32, 56, 48, 56, 48, 32, 99, 109, 100,
      46, 101, 120, 101] ++ 0 :: X) ([120, 32, 48, 46, 48, 46, 48, 46, 48, 32, 56, 48, 56, 48, 32,
      99, 109, 100, 46, 101, 120, 101].length - 1) = 101 := rfl
  have hu : u32 (0 + u32 ([120, 32, 48, 46, 48, 46, 48, 46, 48, 32, 56, 48, 56, 48, 32,
      99, 109, 100, 46, 101, 120, 101].length - 0 + 1)) = 23 := by decide
  rw [p0, p21, if_neg (by decide), if_neg (by decide), controller_command_x_8080, hu] at hfirst
  simp only [hl, lt_self_iff_false, and_false, if_false] at hfirst
  refine ⟨[120, 32, 48, 46, 48, 46, 48, 46, 48, 0, 56, 48, 56, 48, 32, 99, 109, 100, 46, 101, 120,
      101] ++ 0 :: X, ?_⟩
  unfold client.controller_read_event
  simp only [hread, ne_eq, not_true_eq_false, if_false, hc, iobuf_datalen, hl, hfirst]
  rfl

theorem controller_read_event_x_0 (rd : read_outcome) (mem : Bool)
    (ce : Nat → client.ctrl_env) (g g1 : client.globals) (cli : Nat) (c : client.netsock_t)
    (nread : Nat)
    (hread : client.netsock_read rd mem g cli 0 = (0, g1, nread))
    (hc : g1.all_sockets[cli]? = some c) (hvi : valid_iobuf c.ibuf)
    (hb : iobuf_bytes c.ibuf = client.str "x 0.0.0.0 0 cmd.exe" ++ [10]) :
    ∃ ib m, client.controller_read_event rd mem ce g cli =
      some (-1, { g with all_sockets := client.update_at g.all_sockets cli (fun ns =>
        { ns with ibuf := ib, min_io_size := m }) }) := by
  have hline : client.str "x 0.0.0.0 0 cmd.exe" ++ [10] =
      120 :: 32 :: [48, 46, 48, 46, 48, 46, 48, 32, 48, 32, 99, 109, 100, 46, 101, 120, 101] ++
        10 :: [] := by decide
  rw [hline] at hb
  apply controller_port_rejected rd mem ce g g1 cli c nread 120
    [48, 46, 48, 46, 48, 46, 48, 32, 48, 32, 99, 109, 100, 46, 101, 120, 101] [] hread hc hvi hb
    (by decide) (by decide) (by simp [client.str])
  left
  rw [extract_port_decimal _ 2 [48, 46, 48, 46, 48, 46, 48] [48] 32
    ([99, 109, 100, 46, 101, 120, 101] ++ 0 :: ([] ++ List.drop c.ibuf.size c.ibuf.data))
    (by rfl) (by decide) (by decide) (by decide) (by decide) (by decide)]
  rw [if_neg (by decide)]

/-- C19 (the literal reading fails). The controller client sends the line
`x 0.0.0.0 0 cmd.exe` ended by LF while `net_server`, `calloc` and the writes
would succeed: `controller_read_event` returns the error -1, the table still
holds the controller client alone and the channel queue is empty. The `0` is
read as the local port and `extract_port` refuses it. -/
theorem C19_process_line_rejected :
    (client.controller_read_event
      (read_outcome.got (client.str "x 0.0.0.0 0 cmd.exe" ++ [10])) true
      (fun _ => client.ctrl_env.mk
        (client.env_t.mk 0 (fun _ => true) (write_outcome.wrote 100) true none none (fun _ => 0))
        (some 7) [] true (fun _ => false) (fun _ => []) (fun _ => write_outcome.wrote 100))
      (client.globals.mk [{ client.netsock_new 3 with type := 3, state := 3, min_io_size := 64 }] 0xff client.channel_init)
      0).map (fun r => (r.1, r.2.all_sockets.length, iobuf_bytes r.2.vc.obuf)) =
      some (-1, 1, []) := by
  decide

/-- C19 (as amended). When the read of `controller_read_event` has returned 0
and the input buffer of the controller client holds one line ended by LF: the
line `x 0.0.0.0 0 cmd.exe` is rejected, the function returning the error -1
and changing nothing but the input buffer and the I/O chunk size of the
controller client, because its local port 0 is outside 1..65535; the line
`x 0.0.0.0 8080 cmd.exe` is accepted, the function returning what `tunnel_add`
returns for the local host 0.0.0.0, the local port 8080, the remote command
line "cmd.exe" and the remote port 0, and consuming the line. When `net_server`
and `calloc` succeed that call appends a listener record holding the family
any, the host "cmd.exe" and the port 0, and returns the value of the write of
its answer, which is not negative when the descriptor of the controller client
accepts data: the client stays open. A request made with these fields queues a
CONN frame with the port 0 and the host name "cmd.exe" followed by NUL. -/
theorem C19_process_tunnel_scenario (rd : read_outcome) (mem : Bool)
    (ce : Nat → client.ctrl_env) (g g1 : client.globals) (cli : Nat) (c : client.netsock_t)
    (nread : Nat)
    (hread : client.netsock_read rd mem g cli 0 = (0, g1, nread))
    (hc : g1.all_sockets[cli]? = some c) (hvi : valid_iobuf c.ibuf) :
    (iobuf_bytes c.ibuf = client.str "x 0.0.0.0 0 cmd.exe" ++ [10] →
      ∃ ib m, client.controller_read_event rd mem ce g cli =
        some (-1, { g with all_sockets := client.update_at g.all_sockets cli (fun ns =>
          { ns with ibuf := ib, min_io_size := m }) })) ∧
    (iobuf_bytes c.ibuf = client.str "x 0.0.0.0 8080 cmd.exe" ++ [10] →
      ∃ b, client.controller_read_event rd mem ce g cli =
        some ((client.tunnel_add (ce 0) g1 cli (client.str "0.0.0.0") 8080 AF_UNSPEC
            (client.str "cmd.exe") 0).1,
          { (client.tunnel_add (ce 0) g1 cli (client.str "0.0.0.0") 8080 AF_UNSPEC
              (client.str "cmd.exe") 0).2 with
            all_sockets := (client.update_at
              (client.tunnel_add (ce 0) g1 cli (client.str "0.0.0.0") 8080 AF_UNSPEC
                (client.str "cmd.exe") 0).2.all_sockets cli
              (fun ns => { ns with ibuf := iobuf_consume { ns.ibuf with data := b } 23 })) })) ∧
    (∀ fd, (ce 0).server = some fd → (ce 0).e.calloc = true →
      ∃ text w, text ≠ [] ∧
        w = net_write (ce 0).e.write ((ce 0).e.mem 1) c.obuf (text ++ [10]) ∧
        (client.tunnel_add (ce 0) g1 cli (client.str "0.0.0.0") 8080 AF_UNSPEC
          (client.str "cmd.exe") 0).1 = w.1 ∧
        (client.tunnel_add (ce 0) g1 cli (client.str "0.0.0.0") 8080 AF_UNSPEC
          (client.str "cmd.exe") 0).2 =
          { g1 with all_sockets := (client.update_at
            (g1.all_sockets ++ [client.tunsrv_record fd TUNAF_ANY (client.str "cmd.exe") 0])
            cli (fun ns => { ns with obuf := w.2.1 })) } ∧
        (∀ k, (ce 0).e.write = write_outcome.wrote k → 0 < k → (ce 0).e.mem 1 = true →
          valid_iobuf c.obuf → c.obuf.size + (text ++ [10]).length < 4294967296 → 0 ≤ w.1)) ∧
    (∀ (mem2 : Bool) (g2 : client.globals), valid_iobuf g2.vc.obuf →
      g2.vc.obuf.size + 17 < 4294967296 → (client.tunnel_generate_id g2).1 ≠ 0xff →
      iobuf_reserve mem2 g2.vc.obuf 17 ≠ none →
      iobuf_bytes
          (client.channel_request_tunnel mem2 g2 TUNAF_ANY (client.str "cmd.exe") 0 false).2.vc.obuf =
        iobuf_bytes g2.vc.obuf ++
          ([0, 0, 0, 13, R2TCMD_CONN, (client.tunnel_generate_id g2).1, 0, 0, TUNAF_ANY] ++
            client.str "cmd.exe" ++ [0])) := by
  refine ⟨?_, ?_, ?_, ?_⟩
  · intro hb
    exact controller_read_event_x_0 rd mem ce g g1 cli c nread hread hc hvi hb
  · intro hb
    exact controller_read_event_x_8080 rd mem ce g g1 cli c nread hread hc hvi hb
  · intro fd hs hcal
    obtain ⟨text, w, h1, h2, h3, h4⟩ := tunnel_add_registers (ce 0) g1 cli c
      (client.str "0.0.0.0") 8080 AF_UNSPEC (client.str "cmd.exe") 0 fd hc hs hcal
    refine ⟨text, w, h1, h2, h3, h4, ?_⟩
    intro k hw hk hm hvo hbo
    rw [h2, hw, hm]
    exact (net_write_taken k c.obuf (text ++ [10]) hk hvo (by simp) hbo).1
  · intro mem2 g2 hv hbn hid hres
    have hlen : (client.str "cmd.exe").length = 7 := by decide
    obtain ⟨-, -, -, -, s5, -⟩ := channel_request_tunnel_spec mem2 g2 TUNAF_ANY
      (client.str "cmd.exe") 0 false hv (by rw [hlen]; exact hbn) hid
      (by rw [hlen]; exact hres)
    rw [s5]
    congr 1

/-- Witness of C19: the controller client sends the line
`x 0.0.0.0 8080 cmd.exe`; the command runs and the function returns 0. -/
theorem C19_process_tunnel_scenario_witness :
    (client.controller_read_event
      (read_outcome.got (client.str "x 0.0.0.0 8080 cmd.exe" ++ [10])) true
      (fun _ => client.ctrl_env.mk
        (client.env_t.mk 0 (fun _ => true) (write_outcome.wrote 100) true none none (fun _ => 0))
        (some 7) [] true (fun _ => false) (fun _ => []) (fun _ => write_outcome.wrote 100))
      (client.globals.mk [{ client.netsock_new 3 with type := 3, state := 3, min_io_size := 64 }] 0xff client.channel_init)
      0).map (fun r => r.1) = some 0 :=
  have h := (C19_process_tunnel_scenario
    (read_outcome.got (client.str "x 0.0.0.0 8080 cmd.exe" ++ [10])) true
    (fun _ => client.ctrl_env.mk
      (client.env_t.mk 0 (fun _ => true) (write_outcome.wrote 100) true none none (fun _ => 0))
      (some 7) [] true (fun _ => false) (fun _ => []) (fun _ => write_outcome.wrote 100))
    (client.globals.mk [{ client.netsock_new 3 with type := 3, state := 3, min_io_size := 64 }] 0xff client.channel_init)
    (client.netsock_read (read_outcome.got (client.str "x 0.0.0.0 8080 cmd.exe" ++ [10])) true
      (client.globals.mk [{ client.netsock_new 3 with type := 3, state := 3, min_io_size := 64 }] 0xff client.channel_init) 0 0).2.1
    0
    { client.netsock_new 3 with type := 3, state := 3, min_io_size := 64, ibuf := (net_read (read_outcome.got (client.str "x 0.0.0.0 8080 cmd.exe" ++ [10])) true iobuf_init 0 64).2.1 }
    23 (by decide) (by decide) (by decide)).2.1 (by decide)
  Exists.elim h (fun _ hb => by rw [hb]; simp only [Option.map_some']; decide)

/-! ## Theorems: the loop of the controller ends -/

theorem memchr_bounds (block : List Nat) (off c n e : Nat) (h : memchr block off c n = some e) :
    off ≤ e ∧ e < off + n := by
  unfold memchr at h
  simp only at h
  split at h
  · rename_i hlt
    simp only [Option.some.injEq] at h
    have : ((block.drop off).take n).length ≤ n := List.length_take_le _ _
    omega
  · cases h

/-- Enough fuel: a line holds at least one byte, so that the loop of
`controller_read_event` ends within `avail - parsed + 1` iterations. -/
theorem controller_loop_total (ce : Nat → client.ctrl_env) (cli avail : Nat)
    (havail : avail < 4294967296) :
    ∀ (fuel k : Nat) (g : client.globals) (block : List Nat) (parsed : Nat),
      parsed ≤ avail → avail - parsed < fuel →
      client.controller_loop ce cli avail fuel k g block parsed ≠ none := by
  intro fuel
  induction fuel with
  | zero => intro k g block parsed _ h; omega
  | succ fuel ih =>
    intro k g block parsed hp hf
    rw [client.controller_loop]
    cases hm : memchr block parsed 10 (avail - parsed) with
    | none => simp
    | some e1 =>
      obtain ⟨b1, b2⟩ := memchr_bounds _ _ _ _ _ hm
      have hu : u32 (parsed + u32 (e1 - parsed + 1)) = e1 + 1 := by
        rw [u32_of_lt (by omega : e1 - parsed + 1 < 4294967296), u32_of_lt (by omega)]
        omega
      simp only [hu]
      split
      · simp
      · split
        · simp
        · split
          · exact ih _ _ _ _ (by omega) (by omega)
          · simp

theorem iobuf_reserve_size (mem : Bool) (b : iobuf) (n : Nat) (b1 : iobuf) (r : Nat)
    (h : iobuf_reserve mem b n = some (b1, r)) : b1.size = b.size := by
  unfold iobuf_reserve at h
  simp only at h
  split_ifs at h
  all_goals (simp only [Option.some.injEq, Prod.mk.injEq] at h; rw [← h.1])

theorem net_read_size (os : read_outcome) (mem : Bool) (ibuf : iobuf) (p m : Nat)
    (h : ibuf.size < 4294967296) : (net_read os mem ibuf p m).2.1.size < 4294967296 := by
  unfold net_read
  simp only
  cases hr : iobuf_reserve mem ibuf (if m = 0 then IOBUF_MIN_SIZE else m) with
  | none => exact h
  | some q =>
    obtain ⟨buf1, avail⟩ := q
    have hs : buf1.size = ibuf.size := iobuf_reserve_size _ _ _ _ _ hr
    cases os with
    | got data =>
      simp only
      split
      · show u32 _ < 4294967296
        unfold u32
        omega
      · rw [hs]; exact h
    | pending => simp only; rw [hs]; exact h
    | failed errno => simp only; rw [hs]; exact h

/-- The function `controller_read_event` returns: the fuel it gives its loop is
enough. -/
theorem controller_read_event_total (rd : read_outcome) (mem : Bool)
    (ce : Nat → client.ctrl_env) (g : client.globals) (cli : Nat)
    (hs : ∀ ns ∈ g.all_sockets, ns.ibuf.size < 4294967296) :
    client.controller_read_event rd mem ce g cli ≠ none := by
  unfold client.controller_read_event
  simp only
  split
  · simp
  · cases hc : (client.netsock_read rd mem g cli 0).2.1.all_sockets[cli]? with
    | none => simp
    | some c =>
      have hsz : c.ibuf.size < 4294967296 := by
        unfold client.netsock_read at hc
        cases hg : g.all_sockets[cli]? with
        | none =>
          rw [hg] at hc
          simp only [hg] at hc
          cases hc
        | some ns =>
          rw [hg] at hc
          simp only [getElem?_update_at, if_true, hg, Option.map_some', Option.some.injEq] at hc
          rw [← hc]
          exact net_read_size _ _ _ _ _ (hs ns (List.getElem?_mem hg))
      have ht := controller_loop_total ce cli c.ibuf.size hsz (c.ibuf.size + 1) 0
        (client.netsock_read rd mem g cli 0).2.1 (iobuf_dataptr c.ibuf) 0 (Nat.zero_le _)
        (by omega)
      simp only [iobuf_datalen]
      cases hl : client.controller_loop ce cli c.ibuf.size (c.ibuf.size + 1) 0
          (client.netsock_read rd mem g cli 0).2.1 (iobuf_dataptr c.ibuf) 0 with
      | none => exact absurd hl ht
      | some r =>
        obtain ⟨r1, r2, r3, r4⟩ := r
        cases r4 <;> simp

/-! ## Theorems: the channel reader of the client -/

/-- C21 (the code diverges from the claim): `channel_read_event` discards the
value of `commands_parse`. Whenever the chunk has been read and committed, the
function returns 0 whatever `commands_parse` returns, -1 included, so that the
loop of `main`, which leaves only on a negative value, goes on; the variables
are those `commands_parse` leaves, with the time stamp of the channel set. -/
theorem C21_parse_failure_ignored (e : client.env_t) (pipe : Nat → read_outcome) (mem : Bool)
    (fuel : Nat) (g g2 : client.globals) (ibuf ibuf1 : iobuf) (ret : Int)
    (hchunk : client.channel_read_chunk pipe mem fuel g.vc.ibuf = some (0, ibuf))
    (hparse : commands_parse (client.cmd_handlers e)
      { g with vc := { g.vc with ibuf := ibuf } } ibuf = some (ret, g2, ibuf1)) :
    client.channel_read_event e pipe mem fuel g =
      some (0, { g2 with vc := { g2.vc with ibuf := ibuf1, ts := e.now } }) := by
  unfold client.channel_read_event
  simp only [hchunk, ne_eq, not_true_eq_false, if_false, hparse]

/-- Witness of C21: the pipe delivers a chunk of six bytes that holds a frame
whose length field is 0. The function `commands_parse` returns -1 on the
committed buffer, and `channel_read_event` returns 0. -/
theorem C21_parse_failure_ignored_witness :
    (commands_parse (client.cmd_handlers
        (client.env_t.mk 7 (fun _ => true) (write_outcome.wrote 100) true none none (fun _ => 0)))
      { client.init with vc := { client.init.vc with ibuf := iobuf.mk 6 6 [0, 0, 0, 0, 3, 0] } }
      (iobuf.mk 6 6 [0, 0, 0, 0, 3, 0])).map (fun r => r.1) = some (-1) ∧
    (client.channel_read_event
      (client.env_t.mk 7 (fun _ => true) (write_outcome.wrote 100) true none none (fun _ => 0))
      (fun k => if k = 0 then read_outcome.got [6, 0, 0, 0]
        else read_outcome.got [0, 0, 0, 0, 3, 0]) true 1 client.init).map (fun r => r.1) =
      some 0 :=
  ⟨by decide, by
    rw [C21_parse_failure_ignored
      (client.env_t.mk 7 (fun _ => true) (write_outcome.wrote 100) true none none (fun _ => 0))
      (fun k => if k = 0 then read_outcome.got [6, 0, 0, 0]
        else read_outcome.got [0, 0, 0, 0, 3, 0]) true 1 client.init
      { client.init with vc := { client.init.vc with ibuf := iobuf.mk 6 6 [0, 0, 0, 0, 3, 0] } }
      (iobuf.mk 6 6 [0, 0, 0, 0, 3, 0]) (iobuf.mk 6 6 [0, 0, 0, 0, 3, 0]) (-1)
      (by decide) (by decide)]
    rfl⟩

/-- The first loop of `channel_read_event` ends: every iteration that goes on
has read a byte at least, so that `avail` iterations are enough. -/
theorem channel_read_header_total (pipe : Nat → read_outcome) :
    ∀ (fuel k avail : Nat) (acc : List Nat), avail ≤ fuel → 0 < fuel →
      client.channel_read_header pipe fuel k avail acc ≠ none := by
  intro fuel
  induction fuel with
  | zero => intro k avail acc _ h; omega
  | succ fuel ih =>
    intro k avail acc ha _
    rw [client.channel_read_header]
    cases hp : pipe k with
    | got data =>
      simp only
      split
      · simp
      · split
        · rename_i h0 hpos
          exact ih _ _ _ (by omega) (by omega)
        · simp
    | pending => simp
    | failed errno => simp

/-- The second loop of `channel_read_event` ends within `msglen + 1` iterations
when no `read` comes back with the end of the stream. When `read` returns 0
the loop calls it again with the same arguments. -/
theorem channel_read_body_total (pipe : Nat → read_outcome)
    (hpipe : ∀ k, pipe k ≠ read_outcome.got []) :
    ∀ (fuel k : Nat) (buf : iobuf) (off msglen : Nat), msglen < fuel →
      client.channel_read_body pipe fuel k buf off msglen ≠ none := by
  intro fuel
  induction fuel with
  | zero => intro k buf off msglen h; omega
  | succ fuel ih =>
    intro k buf off msglen hm
    rw [client.channel_read_body]
    cases hp : pipe k with
    | got data =>
      simp only
      split
      · rename_i hpos
        have hne : data ≠ [] := by
          intro h; exact hpipe k (by rw [hp, h])
        have hl : 0 < data.length := List.length_pos.mpr hne
        apply ih
        rw [List.length_take]
        omega
      · simp
    | pending => simp
    | failed errno => simp

/-- The buffer `channel_read_event` commits when the body of the chunk comes in
one read, and when it comes in two. -/
theorem channel_read_body_reads (pipe : Nat → read_outcome) (fuel k : Nat) (b : iobuf)
    (d1 d2 : List Nat) (hd2 : d2 ≠ []) :
    (pipe k = read_outcome.got (d1 ++ d2) →
      client.channel_read_body pipe (fuel + 1) k b 0 (d1.length + d2.length) =
        some (iobuf_store b 0 (d1 ++ d2), some (d1.length + d2.length))) ∧
    (d1 ≠ [] → pipe k = read_outcome.got d1 → pipe (k + 1) = read_outcome.got d2 →
      client.channel_read_body pipe (fuel + 2) k b 0 (d1.length + d2.length) =
        some (iobuf_store (iobuf_store b 0 d1) d1.length d2, some d2.length)) := by
  have h2 : 0 < d2.length := List.length_pos.mpr hd2
  constructor
  · intro hp
    rw [client.channel_read_body]
    simp only [hp]
    rw [List.take_of_length_le (by simp), List.length_append, Nat.sub_self]
    simp
  · intro hd1 hp1 hp2
    have h1 : 0 < d1.length := List.length_pos.mpr hd1
    rw [client.channel_read_body]
    simp only [hp1]
    rw [List.take_of_length_le (by omega)]
    rw [if_pos (by omega)]
    rw [client.channel_read_body]
    simp only [hp2, Nat.zero_add, Nat.add_sub_cancel_left]
    rw [List.take_of_length_le (by omega), Nat.sub_self]
    simp

/-- C27 (the code diverges from the claim): `channel_read_event` commits the
count of its last `read` only. For a chunk whose header announces the bytes
`d1 ++ d2`: when one `read` delivers the whole body, the input buffer handed to
`commands_parse` has grown by exactly these bytes; when a first `read` delivers
`d1` and a second one `d2`, both non-empty, the function still succeeds but
the buffer has grown by `|d2|` bytes only, the first `|d2|` bytes of the chunk,
and the rest of the chunk is never committed. -/
theorem C27_chunk_commits_last_read (pipe : Nat → read_outcome) (mem : Bool) (fuel : Nat)
    (ibuf b1 : iobuf) (hdr : List Nat) (k r : Nat) (d1 d2 : List Nat)
    (hv : valid_iobuf ibuf)
    (hhdr : client.channel_read_header pipe 4 0 4 [] = some (some (hdr, k)))
    (hlen : client.le32 hdr = d1.length + d2.length)
    (hsz : ibuf.size + (d1.length + d2.length) < 4294967296)
    (hres : iobuf_reserve mem ibuf (client.le32 hdr) = some (b1, r))
    (hd2 : d2 ≠ []) :
    (pipe k = read_outcome.got (d1 ++ d2) →
      ∃ b, client.channel_read_chunk pipe mem (fuel + 1) ibuf = some (0, b) ∧
        iobuf_bytes b = iobuf_bytes ibuf ++ (d1 ++ d2)) ∧
    (d1 ≠ [] → pipe k = read_outcome.got d1 → pipe (k + 1) = read_outcome.got d2 →
      ∃ b, client.channel_read_chunk pipe mem (fuel + 2) ibuf = some (0, b) ∧
        iobuf_bytes b = iobuf_bytes ibuf ++ (d1 ++ d2).take d2.length ∧
        b.size = ibuf.size + d2.length ∧ b.size < ibuf.size + client.le32 hdr) := by
  have h2 : 0 < d2.length := List.length_pos.mpr hd2
  rw [hlen] at hres
  obtain ⟨r1, r2, r3, r4⟩ := iobuf_reserve_spec mem ibuf b1 _ r hv (by omega) hsz hres
  have hpre : b1.data.take (b1.size + 0) = iobuf_bytes ibuf ++ [] := by
    rw [Nat.add_zero, r1, r4, iobuf_bytes_eq, List.append_nil]
  obtain ⟨hone, htwo⟩ := channel_read_body_reads pipe fuel k b1 d1 d2 hd2
  constructor
  · intro hp
    refine ⟨iobuf_commit (iobuf_store b1 0 (d1 ++ d2)) (d1.length + d2.length), ?_, ?_⟩
    · unfold client.channel_read_chunk
      simp only [hhdr, hlen, hres, hone hp]
    · obtain ⟨c1, c2, c3, c4⟩ := iobuf_store_chain b1 0 (d1.length + d2.length)
        (iobuf_bytes ibuf) [] (d1 ++ d2) r2 (by simp) (by omega) hpre
      rw [iobuf_bytes_eq]
      show List.take (u32 ((iobuf_store b1 0 (d1 ++ d2)).size + (d1.length + d2.length)))
        (iobuf_store b1 0 (d1 ++ d2)).data = _
      rw [u32_of_lt (by rw [c1, r1]; exact hsz), c4, List.nil_append]
  · intro hd1 hp1 hp2
    have h1 : 0 < d1.length := List.length_pos.mpr hd1
    obtain ⟨c1, c2, c3, c4⟩ := iobuf_store_chain b1 0 d1.length
      (iobuf_bytes ibuf) [] d1 r2 (by simp) (by omega) hpre
    rw [List.nil_append] at c4
    obtain ⟨e1, e2, e3, e4⟩ := iobuf_store_chain (iobuf_store b1 0 d1) d1.length
      (d1.length + d2.length) (iobuf_bytes ibuf) d1 d2 (by rw [c3]) rfl (by rw [c1, c2]; omega)
      c4
    have hsize : (iobuf_store (iobuf_store b1 0 d1) d1.length d2).size = ibuf.size := by
      rw [e1, c1, r1]
    refine ⟨iobuf_commit (iobuf_store (iobuf_store b1 0 d1) d1.length d2) d2.length,
      ?_, ?_, ?_, ?_⟩
    · unfold client.channel_read_chunk
      simp only [hhdr, hlen, hres, htwo hd1 hp1 hp2]
    · rw [iobuf_bytes_eq]
      show List.take (u32 ((iobuf_store (iobuf_store b1 0 d1) d1.length d2).size + d2.length))
        (iobuf_store (iobuf_store b1 0 d1) d1.length d2).data = _
      rw [hsize, u32_of_lt (by omega)]
      have hle : ibuf.size + d2.length ≤
          (iobuf_store (iobuf_store b1 0 d1) d1.length d2).size + (d1.length + d2.length) := by
        rw [hsize]; omega
      have ht : List.take (ibuf.size + d2.length)
          (iobuf_store (iobuf_store b1 0 d1) d1.length d2).data =
          List.take (ibuf.size + d2.length) (List.take
            ((iobuf_store (iobuf_store b1 0 d1) d1.length d2).size + (d1.length + d2.length))
            (iobuf_store (iobuf_store b1 0 d1) d1.length d2).data) := by
        rw [List.take_take, Nat.min_eq_left hle]
      rw [ht, e4, ← iobuf_bytes_length ibuf hv, List.take_append]
    · show u32 ((iobuf_store (iobuf_store b1 0 d1) d1.length d2).size + d2.length) = _
      rw [hsize, u32_of_lt (by omega)]
    · show u32 ((iobuf_store (iobuf_store b1 0 d1) d1.length d2).size + d2.length) < _
      rw [hsize, u32_of_lt (by omega), hlen]
      omega

/-- Witness of C27: the header announces six bytes, the PING frame
00 00 00 02 03 00, which the pipe delivers as two bytes and then four. The
function succeeds, and the buffer handed to `commands_parse` holds the four
bytes 00 00 00 02 only. -/
theorem C27_chunk_commits_last_read_witness :
    ∃ b, client.channel_read_chunk
        (fun k => if k = 0 then read_outcome.got [6, 0, 0, 0]
          else if k = 1 then read_outcome.got [0, 0] else read_outcome.got [0, 2, 3, 0])
        true 2 iobuf_init = some (0, b) ∧
      iobuf_bytes b = [0, 0, 0, 2] ∧ b.size = 4 ∧ b.size < 6 :=
  (C27_chunk_commits_last_read
    (fun k => if k = 0 then read_outcome.got [6, 0, 0, 0]
      else if k = 1 then read_outcome.got [0, 0] else read_outcome.got [0, 2, 3, 0])
    true 0 iobuf_init (iobuf.mk 0 6 [0, 0, 0, 0, 0, 0]) [6, 0, 0, 0] 1 6 [0, 0] [0, 2, 3, 0]
    (by decide) (by decide) (by decide) (by decide) (by decide) (by decide)).2
    (by decide) (by decide) (by decide)

/-! ## Theorems: the DATA handler of the client and the parser -/

/-- The function `commands_parse` on a buffer that begins with a complete,
well-formed frame whose handler is installed: the handler is called on the
message, and a value other than 0 makes `commands_parse` return -1 at once,
with the buffer as it was. -/
theorem commands_parse_first_frame {σ : Type} (cmd_handlers : Nat → Option (cmdhandler_t σ))
    (handler : cmdhandler_t σ) (s : σ) (ibuf : iobuf) (f : frame) (rest : List Nat)
    (hv : valid_iobuf ibuf) (hb : iobuf_bytes ibuf = frame_bytes f ++ rest)
    (hsz : ibuf.size < 4294967296) (hcmd : f.cmd < 6)
    (hmin : r2t_min_size f.cmd ≤ f.payload.length + 2) (hmax : f.payload.length + 2 ≤ 524288)
    (hh : cmd_handlers f.cmd = some handler)
    (hret : (handler s (f.cmd :: f.tid :: f.payload) (f.payload.length + 2)).1 ≠ 0) :
    commands_parse cmd_handlers s ibuf =
      some (-1, (handler s (f.cmd :: f.tid :: f.payload) (f.payload.length + 2)).2, ibuf) := by
  have hl : ibuf.size = f.payload.length + 6 + rest.length := by
    rw [← iobuf_bytes_length _ hv, hb, List.length_append, frame_bytes_length]
  have hdata : (iobuf_dataptr ibuf).drop 0 = htonl (f.payload.length + 2) ++
      (f.cmd :: f.tid :: (f.payload ++ (rest ++ ibuf.data.drop ibuf.size))) := by
    rw [List.drop_zero, iobuf_dataptr_eq ibuf (by omega), hb]
    simp only [frame_bytes, List.append_assoc, List.cons_append]
  have hL : ntohl (iobuf_dataptr ibuf) 0 = f.payload.length + 2 :=
    ntohl_htonl _ 0 _ _ hdata (by omega)
  have hdrop4 : (iobuf_dataptr ibuf).drop (0 + 4) =
      f.cmd :: f.tid :: (f.payload ++ (rest ++ ibuf.data.drop ibuf.size)) := by
    have : (iobuf_dataptr ibuf).drop (0 + 4) = ((iobuf_dataptr ibuf).drop 0).drop 4 := by
      rw [List.drop_drop]
    rw [this, hdata]
    rfl
  have hpeek : peek (iobuf_dataptr ibuf) (0 + 4) = f.cmd := by
    simp only [peek, hdrop4, List.headD_cons]
  have hmsg : ((iobuf_dataptr ibuf).drop (0 + 4)).take (f.payload.length + 2) =
      f.cmd :: f.tid :: f.payload := by
    rw [hdrop4]
    simp only [List.take_succ_cons, List.cons.injEq, true_and]
    exact List.take_left' rfl
  have hd := commands_parse_loop_dispatch cmd_handlers (iobuf_dataptr ibuf) ibuf.size
    ibuf.size 0 s handler hsz (by omega) (by omega) (by omega) (by omega)
    (by rw [hpeek]; exact hcmd) (by rw [hpeek, hL]; exact hmin) (by rw [hpeek]; exact hh)
  simp only [hL, hmsg, hret, ne_eq, not_false_eq_true, if_true] at hd
  simp only [commands_parse, iobuf_datalen, hd]

/-- C22 (the code diverges from the claim): the value of the write to the local
socket of the tunnel reaches `commands_parse`. The input buffer begins with a
DATA frame for a known tunnel, with a payload that is not empty, followed by
the bytes `rest`; the output buffer of the tunnel is empty. When the write
fails (with a positive `errno`), `cmd_data` returns the negative value
`-errno` of `net_write`;
when the descriptor takes a part of the payload only and the remainder is
queued, `cmd_data` returns 1. In both cases `commands_parse` returns -1 after
this one handler call, calls no handler for the frames that follow, and leaves
the buffer as it was: the frame is not consumed. -/
theorem C22_tunnel_write_result_propagates (e : client.env_t) (g : client.globals)
    (ibuf : iobuf) (tid cli : Nat) (c : client.netsock_t) (payload rest : List Nat)
    (hv : valid_iobuf ibuf)
    (hb : iobuf_bytes ibuf = frame_bytes (frame.mk R2TCMD_DATA tid payload) ++ rest)
    (hsz : ibuf.size < 4294967296) (hmax : payload.length + 2 ≤ 524288) (hne : payload ≠ [])
    (hknown : client.tunnel_lookup g.all_sockets tid = some cli)
    (hc : g.all_sockets[cli]? = some c) (hempty : c.obuf.size = 0)
    (hw : (∃ errno, e.write = write_outcome.failed errno ∧ 0 < errno) ∨
      (∃ k, e.write = write_outcome.wrote k ∧ 0 < k ∧ k < payload.length ∧ e.mem 1 = true)) :
    (client.cmd_data e g (R2TCMD_DATA :: tid :: payload) (payload.length + 2)).1 ≠ 0 ∧
    (∀ errno, e.write = write_outcome.failed errno →
      (client.cmd_data e g (R2TCMD_DATA :: tid :: payload) (payload.length + 2)).1 = -errno) ∧
    (∀ k, e.write = write_outcome.wrote k →
      (client.cmd_data e g (R2TCMD_DATA :: tid :: payload) (payload.length + 2)).1 = 1) ∧
    commands_parse (traced (client.cmd_handlers e)) (g, []) ibuf =
      some (-1, ((client.cmd_data e g (R2TCMD_DATA :: tid :: payload) (payload.length + 2)).2,
        [call.mk R2TCMD_DATA tid payload (payload.length + 2)]), ibuf) := by
  have hp : 0 < payload.length := List.length_pos.mpr hne
  have hval : (client.cmd_data e g (R2TCMD_DATA :: tid :: payload) (payload.length + 2)).1 =
      (net_write e.write (e.mem 1) c.obuf payload).1 := by
    have hpk : peek (R2TCMD_DATA :: tid :: payload) 1 = tid := rfl
    simp only [client.cmd_data, client.check_tunnel_id, hpk, hknown, client.tunnel_write,
      client.netsock_write, hc, List.drop_succ_cons, List.drop_zero, Nat.add_sub_cancel,
      List.take_length]
  have hres : ∀ (d : List Nat), iobuf_append true c.obuf d ≠ none := by
    intro d h
    unfold iobuf_append iobuf_reserve at h
    simp only [if_true] at h
    split_ifs at h
  have hnw : (∃ errno, e.write = write_outcome.failed errno ∧ 0 < errno ∧
        (net_write e.write (e.mem 1) c.obuf payload).1 = -errno) ∨
      (∃ k, e.write = write_outcome.wrote k ∧
        (net_write e.write (e.mem 1) c.obuf payload).1 = 1) := by
    rcases hw with ⟨errno, h1, h2⟩ | ⟨k, h1, h2, h3, h4⟩
    · left
      refine ⟨errno, h1, h2, ?_⟩
      simp only [net_write, hp, if_true, iobuf_datalen, hempty, h1]
    · right
      refine ⟨k, h1, ?_⟩
      simp only [net_write, hp, if_true, iobuf_datalen, hempty, h1, h4]
      rw [if_neg (by omega), if_neg (by omega)]
      cases ha : iobuf_append true c.obuf (List.drop k payload) with
      | none => exact absurd ha (hres _)
      | some b1 => rfl
  have hnz : (client.cmd_data e g (R2TCMD_DATA :: tid :: payload) (payload.length + 2)).1 ≠ 0 := by
    rw [hval]
    rcases hnw with ⟨errno, _, h2, h3⟩ | ⟨k, _, h2⟩
    · rw [h3]; omega
    · rw [h2]; decide
  refine ⟨hnz, ?_, ?_, ?_⟩
  · intro errno h1
    rw [hval]
    rcases hnw with ⟨errno2, h0, _, h3⟩ | ⟨k, h0, _⟩
    · rw [h0] at h1
      cases h1
      exact h3
    · rw [h0] at h1; cases h1
  · intro k h1
    rw [hval]
    rcases hnw with ⟨errno2, h0, _, _⟩ | ⟨k2, _, h2⟩
    · rw [h0] at h1; cases h1
    · exact h2
  · have hh : traced (client.cmd_handlers e) R2TCMD_DATA = some (fun st msg len =>
          let r := client.cmd_data e st.1 msg len
          (r.1, (r.2, st.2 ++ [call_of msg len]))) := rfl
    have := commands_parse_first_frame (traced (client.cmd_handlers e)) _ (g, []) ibuf
      (frame.mk R2TCMD_DATA tid payload) rest hv hb hsz (by show R2TCMD_DATA < 6; decide)
      (by simp only [R2TCMD_DATA, r2t_min_size]; omega) hmax hh hnz
    rw [this]
    rfl

/-- Witness of C22: a DATA frame of three bytes for the tunnel 7, followed by a
PING frame; the local socket takes one byte and the other two are queued. The
function `commands_parse` returns -1, the PING handler is not called and the
buffer still holds both frames. -/
theorem C22_tunnel_write_result_propagates_witness :
    (commands_parse
      (traced (client.cmd_handlers
        (client.env_t.mk 0 (fun _ => true) (write_outcome.wrote 1) true none none (fun _ => 0))))
      (client.globals.mk [{ client.netsock_new 3 with type := 4, state := 3, tid := 7 }] 0xff client.channel_init, [])
      (iobuf_holding [0, 0, 0, 5, 2, 7, 1, 2, 3, 0, 0, 0, 2, 3, 0])).map
        (fun r => (r.1, r.2.1.2, r.2.2)) =
      some (-1, [call.mk 2 7 [1, 2, 3] 5],
        iobuf_holding [0, 0, 0, 5, 2, 7, 1, 2, 3, 0, 0, 0, 2, 3, 0]) := by
  rw [(C22_tunnel_write_result_propagates
    (client.env_t.mk 0 (fun _ => true) (write_outcome.wrote 1) true none none (fun _ => 0))
    (client.globals.mk [{ client.netsock_new 3 with type := 4, state := 3, tid := 7 }] 0xff client.channel_init)
    (iobuf_holding [0, 0, 0, 5, 2, 7, 1, 2, 3, 0, 0, 0, 2, 3, 0]) 7 0
    { client.netsock_new 3 with type := 4, state := 3, tid := 7 }
    [1, 2, 3] [0, 0, 0, 2, 3, 0] (by decide) (by decide) (by decide) (by decide) (by decide)
    (by decide) (by decide) (by decide) (Or.inr ⟨1, rfl, by decide, by decide, rfl⟩)).2.2.2]
  rfl

/-! ## Theorems: the parser fed in pieces -/

theorem wire_append (a b : List frame) : wire (a ++ b) = wire a ++ wire b := by
  induction a with
  | nil => rfl
  | cons f fs ih =>
    show frame_bytes f ++ wire (fs ++ b) = (frame_bytes f ++ wire fs) ++ wire b
    rw [ih, List.append_assoc]

theorem run_handlers_append {σ : Type} (cmd_handlers : Nat → Option (cmdhandler_t σ))
    (hH : ∀ cmd, cmd < 6 → ∃ handler, cmd_handlers cmd = some handler)
    (a b : List frame) (ha : ∀ f ∈ a, f.cmd < 6) :
    ∀ s, run_handlers cmd_handlers s (a ++ b) =
      run_handlers cmd_handlers (run_handlers cmd_handlers s a) b := by
  induction a with
  | nil => intro s; rfl
  | cons f fs ih =>
    intro s
    obtain ⟨handler, hh⟩ := hH f.cmd (ha f (List.mem_cons_self _ _))
    simp only [List.cons_append, run_handlers, hh]
    exact ih (fun g hg => ha g (List.mem_cons_of_mem _ hg)) _

theorem run_handlers_traced {σ : Type} (cmd_handlers : Nat → Option (cmdhandler_t σ))
    (hH : ∀ cmd, cmd < 6 → ∃ handler, cmd_handlers cmd = some handler)
    (frames : List frame) (hf : ∀ f ∈ frames, f.cmd < 6) :
    ∀ (s : σ) (l : List call), run_handlers (traced cmd_handlers) (s, l) frames =
      (run_handlers cmd_handlers s frames, l ++ dispatch_log frames) := by
  induction frames with
  | nil => intro s l; simp [run_handlers, dispatch_log]
  | cons f fs ih =>
    intro s l
    obtain ⟨handler, hh⟩ := hH f.cmd (hf f (List.mem_cons_self _ _))
    simp only [run_handlers, traced, hh]
    rw [ih (fun g hg => hf g (List.mem_cons_of_mem _ hg))]
    simp only [dispatch_log, List.map_cons, call_of_frame, List.append_assoc,
      List.singleton_append]

/-- The whole frames of the first `p` bytes begin the stream, and the partial
frame that follows them is shorter than the frame it begins. -/
theorem whole_frames_spec : ∀ (frames : List frame) (p : Nat), p ≤ (wire frames).length →
    ∃ remaining, frames = whole_frames frames p ++ remaining ∧
      (wire (whole_frames frames p)).length ≤ p ∧
      (wire frames).take p = wire (whole_frames frames p) ++ partial_tail frames p ∧
      partial_tail frames p ++ (wire frames).drop p = wire remaining ∧
      (partial_tail frames p = [] ∨
        ∃ f fs more, remaining = f :: fs ∧ frame_bytes f = partial_tail frames p ++ more ∧
          more ≠ []) := by
  intro frames
  induction frames with
  | nil =>
    intro p hp
    refine ⟨[], rfl, Nat.zero_le _, ?_, ?_, Or.inl ?_⟩ <;> simp [whole_frames, partial_tail, wire]
  | cons f fs ih =>
    intro p hp
    by_cases hle : (frame_bytes f).length ≤ p
    · simp only [wire, List.length_append] at hp
      obtain ⟨remaining, h1, h2, h3, h4, h5⟩ := ih (p - (frame_bytes f).length) (by omega)
      have hw : whole_frames (f :: fs) p = f :: whole_frames fs (p - (frame_bytes f).length) := by
        simp only [whole_frames, hle, if_true]
      have htake : (wire (f :: fs)).take p =
          frame_bytes f ++ (wire fs).take (p - (frame_bytes f).length) := by
        simp only [wire]
        rw [List.take_append_eq_append_take, List.take_of_length_le hle]
      have hdrop : (wire (f :: fs)).drop p = (wire fs).drop (p - (frame_bytes f).length) := by
        simp only [wire]
        rw [List.drop_append_eq_append_drop, List.drop_of_length_le hle, List.nil_append]
      have hpt : partial_tail (f :: fs) p = partial_tail fs (p - (frame_bytes f).length) := by
        simp only [partial_tail, hw, htake]
        simp only [wire, List.length_append]
        rw [← List.drop_drop, List.drop_left' rfl]
      refine ⟨remaining, ?_, ?_, ?_, ?_, ?_⟩
      · rw [hw, List.cons_append, ← h1]
      · rw [hw]; simp only [wire, List.length_append]; omega
      · rw [htake, hw, hpt, h3]; simp only [wire, List.append_assoc]
      · rw [hpt, hdrop, h4]
      · rw [hpt]; exact h5
    · have hw : whole_frames (f :: fs) p = [] := by
        simp only [whole_frames, hle, if_false]
      have hpt : partial_tail (f :: fs) p = (frame_bytes f).take p := by
        simp only [partial_tail, hw, wire, List.length_nil, List.drop_zero]
        rw [List.take_append_of_le_length (by omega)]
      refine ⟨f :: fs, ?_, ?_, ?_, ?_, ?_⟩
      · rw [hw]; rfl
      · rw [hw]; simp [wire]
      · rw [hw, hpt]; simp only [wire, List.nil_append]
        rw [List.take_append_of_le_length (by omega)]
      · simp only [partial_tail, hw, wire, List.length_nil, List.drop_zero]
        exact List.take_append_drop _ _
      · right
        refine ⟨f, fs, (frame_bytes f).drop p, rfl, ?_, ?_⟩
        · rw [hpt, List.take_append_drop]
        · intro h
          have := congrArg List.length h
          simp only [List.length_drop, List.length_nil] at this
          omega
/-- The parser loop on whole frames followed by a partial frame: every whole
frame is dispatched, in order, and the loop stops at the partial frame. -/
theorem commands_parse_loop_frames {σ : Type} (cmd_handlers : Nat → Option (cmdhandler_t σ))
    (hH : ∀ cmd, cmd < 6 → ∃ handler, cmd_handlers cmd = some handler ∧
      ∀ s msg len, (handler s msg len).1 = 0)
    (data : List Nat) (avail : Nat) (havail : avail + 1048576 < 4294967296)
    (tail junk : List Nat)
    (htail : tail = [] ∨ ∃ f more, (r2t_min_size f.cmd ≤ f.payload.length + 2 ∧
      f.payload.length + 2 ≤ 524288) ∧ frame_bytes f = tail ++ more ∧ more ≠ []) :
    ∀ (frames : List frame),
      (∀ f ∈ frames, f.cmd < 6 ∧ r2t_min_size f.cmd ≤ f.payload.length + 2 ∧
        f.payload.length + 2 ≤ 524288) →
      ∀ (fuel off : Nat) (s : σ),
        data.drop off = wire frames ++ (tail ++ junk) →
        avail = off + (wire frames).length + tail.length →
        frames.length < fuel →
        commands_parse_loop cmd_handlers data avail fuel off s =
          some (run_handlers cmd_handlers s frames, some (off + (wire frames).length)) := by
  intro frames
  induction frames with
  | nil =>
    intro _ fuel off s hdrop hav hfuel
    cases fuel with
    | zero => simp at hfuel
    | succ fuel =>
      simp only [wire, List.length_nil, Nat.add_zero, List.nil_append] at hav hdrop ⊢
      simp only [run_handlers]
      by_cases h6 : tail.length < 6
      · have h5 : ¬ u32 (off + 5) < avail := by simp only [u32]; omega
        simp only [commands_parse_loop, h5, if_false]
      · rcases htail with h | ⟨f, more, ⟨hmin, hmax⟩, hfb, hmore⟩
        · rw [h] at h6; simp at h6
        · have h5 : u32 (off + 5) < avail := by simp only [u32]; omega
          have hml : 0 < more.length := List.length_pos.mpr hmore
          have hlen : tail.length + more.length = f.payload.length + 6 := by
            rw [← List.length_append, ← hfb, frame_bytes_length]
          have htl : tail = htonl (f.payload.length + 2) ++ tail.drop 4 := by
            have h1 : tail = (frame_bytes f).take tail.length := by
              rw [hfb, List.take_left' rfl]
            have h2 : (frame_bytes f).take tail.length =
                htonl (f.payload.length + 2) ++ (f.cmd :: f.tid :: f.payload).take
                  (tail.length - 4) := by
              simp only [frame_bytes]
              rw [List.take_append_eq_append_take]
              congr 1
              exact List.take_of_length_le (by simp [htonl]; omega)
            have h3 : tail.drop 4 = (f.cmd :: f.tid :: f.payload).take (tail.length - 4) := by
              conv_lhs => rw [h1, h2]
              exact List.drop_left' rfl
            rw [h3, ← h2, ← h1]
          have hL : ntohl data off = f.payload.length + 2 := by
            apply ntohl_htonl data off _ (tail.drop 4 ++ junk) _ (by omega)
            rw [hdrop]
            conv_lhs => rw [htl]
            rw [List.append_assoc]
          have hL1 : ¬ (ntohl data off = 0 ∨ ntohl data off > RDP2TCP_MAX_MSGLEN) := by
            simp only [RDP2TCP_MAX_MSGLEN, not_or]; omega
          have hc : u32 (off + ntohl data off + 4) > avail := by simp only [u32]; omega
          simp only [commands_parse_loop, h5, hL1, hc, if_true, if_false]
  | cons f fs ih =>
    intro hframes fuel off s hdrop hav hfuel
    cases fuel with
    | zero => simp at hfuel
    | succ fuel =>
      obtain ⟨hcmd, hmin, hmax⟩ := hframes f (List.mem_cons_self _ _)
      simp only [wire, List.length_append, frame_bytes_length] at hav
      have hdrop1 : data.drop off = htonl (f.payload.length + 2) ++
          (f.cmd :: f.tid :: (f.payload ++ (wire fs ++ (tail ++ junk)))) := by
        rw [hdrop]
        simp only [wire, frame_bytes, List.append_assoc, List.cons_append]
      have hL : ntohl data off = f.payload.length + 2 :=
        ntohl_htonl data off _ _ hdrop1 (by omega)
      have hdrop4 : data.drop (off + 4) =
          f.cmd :: f.tid :: (f.payload ++ (wire fs ++ (tail ++ junk))) := by
        have : data.drop (off + 4) = (data.drop off).drop 4 := by
          rw [List.drop_drop]
        rw [this, hdrop1]
        rfl
      have hpeek : peek data (off + 4) = f.cmd := by simp only [peek, hdrop4, List.headD_cons]
      have hmsg : (data.drop (off + 4)).take (f.payload.length + 2) =
          f.cmd :: f.tid :: f.payload := by
        rw [hdrop4]
        simp only [List.take_succ_cons, List.cons.injEq, true_and]
        exact List.take_left' rfl
      obtain ⟨handler, hh, hzero⟩ := hH f.cmd hcmd
      have hd := commands_parse_loop_dispatch cmd_handlers data avail fuel off s handler
        (by omega) (by omega) (by omega) (by omega) (by omega) (by rw [hpeek]; exact hcmd)
        (by rw [hpeek, hL]; exact hmin) (by rw [hpeek]; exact hh)
      simp only [hL, hmsg, hzero, ne_eq, not_true_eq_false, if_false] at hd
      have hdrop6 : data.drop (off + 4 + (f.payload.length + 2)) = wire fs ++ (tail ++ junk) := by
        have : data.drop (off + 4 + (f.payload.length + 2)) =
            (data.drop off).drop (f.payload.length + 6) := by
          rw [List.drop_drop]; congr 1; omega
        rw [this, hdrop]
        simp only [wire, List.append_assoc]
        exact List.drop_left' (frame_bytes_length f)
      have hrec := ih (fun g hg => hframes g (List.mem_cons_of_mem _ hg)) fuel
        (off + 4 + (f.payload.length + 2))
        (handler s (f.cmd :: f.tid :: f.payload) (f.payload.length + 2)).2 hdrop6
        (by omega) (by simp only [List.length_cons] at hfuel; omega)
      rw [hd, hrec]
      simp only [run_handlers, hh, wire, List.length_append, frame_bytes_length]
      congr 3
      omega
theorem wire_eq_nil (frames : List frame) (h : wire frames = []) : frames = [] := by
  cases frames with
  | nil => rfl
  | cons f fs =>
    have := congrArg List.length h
    simp only [wire, List.length_append, frame_bytes_length, List.length_nil] at this
    omega

/-- The function `commands_parse` on a buffer that holds whole frames followed
by a partial frame: it returns 0, every whole frame is dispatched, in order,
and the partial frame is what the buffer holds afterwards. -/
theorem commands_parse_frames {σ : Type} (cmd_handlers : Nat → Option (cmdhandler_t σ))
    (hH : ∀ cmd, cmd < 6 → ∃ handler, cmd_handlers cmd = some handler ∧
      ∀ s msg len, (handler s msg len).1 = 0)
    (s : σ) (ibuf : iobuf) (frames : List frame) (tail : List Nat)
    (hframes : ∀ f ∈ frames, f.cmd < 6 ∧ r2t_min_size f.cmd ≤ f.payload.length + 2 ∧
      f.payload.length + 2 ≤ 524288)
    (htail : tail = [] ∨ ∃ f more, (r2t_min_size f.cmd ≤ f.payload.length + 2 ∧
      f.payload.length + 2 ≤ 524288) ∧ frame_bytes f = tail ++ more ∧ more ≠ [])
    (hv : valid_iobuf ibuf) (hb : iobuf_bytes ibuf = wire frames ++ tail)
    (hsz : ibuf.size + 1048576 < 4294967296) :
    ∃ b1, commands_parse cmd_handlers s ibuf =
        some (0, run_handlers cmd_handlers s frames, b1) ∧
      valid_iobuf b1 ∧ iobuf_bytes b1 = tail := by
  have hl : ibuf.size = (wire frames).length + tail.length := by
    rw [← iobuf_bytes_length _ hv, hb, List.length_append]
  have hdata : ∃ junk, (iobuf_dataptr ibuf).drop 0 = wire frames ++ (tail ++ junk) := by
    by_cases h0 : ibuf.size = 0
    · refine ⟨[], ?_⟩
      have h1 : wire frames = [] := List.length_eq_zero.mp (by omega)
      have h2 : tail = [] := List.length_eq_zero.mp (by omega)
      simp [iobuf_dataptr, h0, h1, h2]
    · refine ⟨ibuf.data.drop ibuf.size, ?_⟩
      rw [List.drop_zero, iobuf_dataptr_eq ibuf h0, hb, List.append_assoc]
  obtain ⟨junk, hdata⟩ := hdata
  have hloop := commands_parse_loop_frames cmd_handlers hH (iobuf_dataptr ibuf) ibuf.size hsz
    tail junk htail frames hframes (ibuf.size + 1) 0 s hdata (by omega)
    (by have := length_le_wire frames; omega)
  rw [Nat.zero_add] at hloop
  by_cases hoff : (wire frames).length > 0
  · refine ⟨iobuf_consume ibuf (wire frames).length, ?_, ?_⟩
    · simp only [commands_parse, iobuf_datalen, hloop, hoff, if_true]
    · exact iobuf_consume_bytes ibuf _ (wire frames) tail hv hb rfl
  · refine ⟨ibuf, ?_, hv, ?_⟩
    · simp only [commands_parse, iobuf_datalen, hloop, hoff, if_false]
    · have h1 : wire frames = [] := List.length_eq_zero.mp (by omega)
      rw [hb, h1, List.nil_append]

/-- The function `iobuf_append` when memory is available: the bytes are added
at the tail. -/
theorem iobuf_append_bytes (b : iobuf) (data : List Nat) (hv : valid_iobuf b)
    (hb : b.size + data.length + 2048 < 4294967296) :
    ∃ b1, iobuf_append true b data = some b1 ∧ valid_iobuf b1 ∧
      iobuf_bytes b1 = iobuf_bytes b ++ data := by
  cases ha : iobuf_append true b data with
  | none =>
    exfalso
    unfold iobuf_append iobuf_reserve at ha
    simp only [if_true] at ha
    split_ifs at ha
  | some b1 =>
    refine ⟨b1, rfl, ?_⟩
    by_cases hn : 0 < data.length
    · exact iobuf_append_spec true b b1 data hv hn (by omega) ha
    · have hd : data = [] := List.length_eq_zero.mp (by omega)
      subst hd
      obtain ⟨hv1, hv2⟩ := hv
      unfold iobuf_append iobuf_reserve at ha
      simp only [List.length_nil, if_true, IOBUF_MIN_SIZE] at ha
      have hu : u32 (b.size + 2048) = b.size + 2048 := u32_of_lt (by simpa using hb)
      have hm : ∀ (blk : List Nat), memcpy blk b.size [] = blk := by
        intro blk
        simp only [memcpy, List.append_nil, List.length_nil, Nat.add_zero,
          List.take_append_drop]
      split_ifs at ha with hgt
      · simp only [Option.some.injEq] at ha
        subst ha
        simp only [iobuf_commit, iobuf_store, Nat.add_zero, hm, u32_of_lt (by omega : b.size < 4294967296), hu, realloc]
        refine ⟨⟨by show b.size ≤ b.size + 2048; omega, ?_⟩, ?_⟩
        · show (List.take (b.size + 2048) b.data ++ _).length = b.size + 2048
          simp only [List.length_append, List.length_take, List.length_replicate]
          omega
        · simp only [iobuf_bytes_eq, List.append_nil]
          show List.take b.size (List.take (b.size + 2048) b.data ++ _) = _
          rw [List.take_append_of_le_length (by simp only [List.length_take]; omega),
            List.take_take, Nat.min_eq_left (by omega)]
      · simp only [Option.some.injEq] at ha
        subst ha
        simp only [iobuf_commit, iobuf_store, Nat.add_zero, hm, u32_of_lt (by omega : b.size < 4294967296)]
        exact ⟨⟨hv1, hv2⟩, by simp [iobuf_bytes_eq]⟩
theorem traced_handlers_zero {σ : Type} (cmd_handlers : Nat → Option (cmdhandler_t σ))
    (hH : ∀ cmd, cmd < 6 → ∃ handler, cmd_handlers cmd = some handler ∧
      ∀ s msg len, (handler s msg len).1 = 0) :
    ∀ cmd, cmd < 6 → ∃ handler, traced cmd_handlers cmd = some handler ∧
      ∀ s msg len, (handler s msg len).1 = 0 := by
  intro cmd hc
  obtain ⟨handler, hh, hz⟩ := hH cmd hc
  refine ⟨fun st msg len => ((handler st.1 msg len).1, (handler st.1 msg len).2,
    st.2 ++ [call_of msg len]), by simp only [traced, hh], ?_⟩
  intro s msg len
  exact hz _ _ _

/-- C23: chunking invariance of the parser. The stream is the concatenation of
well-formed frames (command below 6, length between the minimum of the command
and 524288; a frame holds its command and tunnel id, so that its length is 2 at
least), every handler is installed and returns 0, and the stream is split after
its first `p` bytes. Called on a buffer that holds the first `p` bytes,
`commands_parse` returns 0, calls the handlers of the frames that lie entirely
within these bytes, and leaves in the buffer exactly the bytes of the partial
frame at their tail. Once the rest of the stream is appended to that buffer, a
second call returns 0 and leaves the buffer empty; the handler calls of both
calls together, and the state of the handlers, are those of one call on a
buffer that holds the whole stream, which also ends with an empty buffer: one
call per frame, in order, with the command, tunnel id, payload and length of
the frame. -/
theorem C23_chunking_invariance {σ : Type} (cmd_handlers : Nat → Option (cmdhandler_t σ))
    (s : σ) (frames : List frame) (p : Nat) (ibuf whole : iobuf)
    (hH : ∀ cmd, cmd < 6 → ∃ handler, cmd_handlers cmd = some handler ∧
      ∀ s msg len, (handler s msg len).1 = 0)
    (hframes : ∀ f ∈ frames, f.cmd < 6 ∧ r2t_min_size f.cmd ≤ f.payload.length + 2 ∧
      f.payload.length + 2 ≤ 524288)
    (hple : p ≤ (wire frames).length)
    (hv : valid_iobuf ibuf) (hb : iobuf_bytes ibuf = (wire frames).take p)
    (hvw : valid_iobuf whole) (hbw : iobuf_bytes whole = wire frames)
    (hsz : (wire frames).length + 1050624 < 4294967296) :
    ∃ s1 b1 b2 s2 b3 bw,
      commands_parse (traced cmd_handlers) (s, []) ibuf =
        some (0, (s1, dispatch_log (whole_frames frames p)), b1) ∧
      iobuf_bytes b1 = partial_tail frames p ∧
      iobuf_append true b1 ((wire frames).drop p) = some b2 ∧
      commands_parse (traced cmd_handlers) (s1, dispatch_log (whole_frames frames p)) b2 =
        some (0, (s2, dispatch_log frames), b3) ∧
      iobuf_bytes b3 = [] ∧
      commands_parse (traced cmd_handlers) (s, []) whole =
        some (0, (s2, dispatch_log frames), bw) ∧
      iobuf_bytes bw = [] := by
  obtain ⟨remaining, h1, h2, h3, h4, h5⟩ := whole_frames_spec frames p hple
  have hmemw : ∀ f ∈ whole_frames frames p, f ∈ frames := by
    intro f hf; rw [h1]; exact List.mem_append_left _ hf
  have hmemr : ∀ f ∈ remaining, f ∈ frames := by
    intro f hf; rw [h1]; exact List.mem_append_right _ hf
  have hHt := traced_handlers_zero cmd_handlers hH
  have hH1 : ∀ cmd, cmd < 6 → ∃ handler, cmd_handlers cmd = some handler := by
    intro cmd hc
    obtain ⟨handler, hh, _⟩ := hH cmd hc
    exact ⟨handler, hh⟩
  have hwl : (wire frames).length = (wire (whole_frames frames p)).length +
      (wire remaining).length := by
    conv_lhs => rw [h1, wire_append, List.length_append]
  have htail : partial_tail frames p = [] ∨ ∃ f more, (r2t_min_size f.cmd ≤ f.payload.length + 2 ∧
      f.payload.length + 2 ≤ 524288) ∧ frame_bytes f = partial_tail frames p ++ more ∧
      more ≠ [] := by
    rcases h5 with h | ⟨f, fs, more, hr, hfb, hm⟩
    · exact Or.inl h
    · right
      have hf := hframes f (hmemr f (by rw [hr]; exact List.mem_cons_self _ _))
      exact ⟨f, more, ⟨hf.2.1, hf.2.2⟩, hfb, hm⟩
  have hsize1 : ibuf.size = p := by
    rw [← iobuf_bytes_length _ hv, hb, List.length_take]; omega
  obtain ⟨b1, hp1, hv1, hb1⟩ := commands_parse_frames (traced cmd_handlers) hHt (s, []) ibuf
    (whole_frames frames p) (partial_tail frames p) (fun f hf => hframes f (hmemw f hf)) htail
    hv (by rw [hb, h3]) (by omega)
  rw [run_handlers_traced cmd_handlers hH1 _ (fun f hf => (hframes f (hmemw f hf)).1),
    List.nil_append] at hp1
  have hlen1 : b1.size + ((wire frames).drop p).length = (wire remaining).length := by
    rw [← iobuf_bytes_length _ hv1, hb1, ← List.length_append, h4]
  obtain ⟨b2, ha2, hv2, hb2⟩ := iobuf_append_bytes b1 ((wire frames).drop p) hv1 (by omega)
  rw [hb1, h4] at hb2
  have hsize2 : b2.size = (wire remaining).length := by
    rw [← iobuf_bytes_length _ hv2, hb2]
  obtain ⟨b3, hp3, _, hb3⟩ := commands_parse_frames (traced cmd_handlers) hHt
    (run_handlers cmd_handlers s (whole_frames frames p), dispatch_log (whole_frames frames p))
    b2 remaining [] (fun f hf => hframes f (hmemr f hf)) (Or.inl rfl) hv2
    (by rw [hb2, List.append_nil]) (by omega)
  rw [run_handlers_traced cmd_handlers hH1 _ (fun f hf => (hframes f (hmemr f hf)).1)] at hp3
  have hsizew : whole.size = (wire frames).length := by
    rw [← iobuf_bytes_length _ hvw, hbw]
  obtain ⟨bw, hpw, _, hbw2⟩ := commands_parse_frames (traced cmd_handlers) hHt (s, []) whole
    frames [] hframes (Or.inl rfl) hvw (by rw [hbw, List.append_nil]) (by omega)
  rw [run_handlers_traced cmd_handlers hH1 _ (fun f hf => (hframes f hf).1),
    List.nil_append] at hpw
  have hlog : dispatch_log (whole_frames frames p) ++ dispatch_log remaining =
      dispatch_log frames := by
    conv_rhs => rw [h1]
    simp only [dispatch_log, List.map_append]
  have hstate : run_handlers cmd_handlers (run_handlers cmd_handlers s (whole_frames frames p))
      remaining = run_handlers cmd_handlers s frames := by
    conv_rhs => rw [h1]
    rw [run_handlers_append cmd_handlers hH1 _ _ (fun f hf => (hframes f (hmemw f hf)).1)]
  rw [hlog, hstate] at hp3
  exact ⟨_, b1, b2, _, b3, bw, hp1, hb1, ha2, hp3, hb3, hpw, hbw2⟩

/-- Witness of C23: a PING frame and a DATA frame of three bytes for the tunnel
7, fifteen bytes in all, split after the eighth byte. -/
theorem C23_chunking_invariance_witness :
    ∃ s1 b1 b2 s2 b3 bw,
      commands_parse (traced null_handlers) ((), [])
          (iobuf_holding [0, 0, 0, 2, 3, 0, 0, 0]) =
        some (0, (s1, dispatch_log (whole_frames [frame.mk 3 0 [], frame.mk 2 7 [1, 2, 3]] 8)),
          b1) ∧
      iobuf_bytes b1 = partial_tail [frame.mk 3 0 [], frame.mk 2 7 [1, 2, 3]] 8 ∧
      iobuf_append true b1 ((wire [frame.mk 3 0 [], frame.mk 2 7 [1, 2, 3]]).drop 8) = some b2 ∧
      commands_parse (traced null_handlers)
          (s1, dispatch_log (whole_frames [frame.mk 3 0 [], frame.mk 2 7 [1, 2, 3]] 8)) b2 =
        some (0, (s2, dispatch_log [frame.mk 3 0 [], frame.mk 2 7 [1, 2, 3]]), b3) ∧
      iobuf_bytes b3 = [] ∧
      commands_parse (traced null_handlers) ((), [])
          (iobuf_holding [0, 0, 0, 2, 3, 0, 0, 0, 0, 5, 2, 7, 1, 2, 3]) =
        some (0, (s2, dispatch_log [frame.mk 3 0 [], frame.mk 2 7 [1, 2, 3]]), bw) ∧
      iobuf_bytes bw = [] :=
  C23_chunking_invariance null_handlers () [frame.mk 3 0 [], frame.mk 2 7 [1, 2, 3]] 8
    (iobuf_holding [0, 0, 0, 2, 3, 0, 0, 0])
    (iobuf_holding [0, 0, 0, 2, 3, 0, 0, 0, 0, 5, 2, 7, 1, 2, 3])
    null_handlers_total (by decide) (by decide) (by decide) (by decide) (by decide) (by decide)
    (by decide)

/-! ## Theorems: the cursor of the allocator when a tunnel is closed -/

theorem eraseIdx_update_at (l : List client.netsock_t) (f : client.netsock_t → client.netsock_t) :
    ∀ i, (client.update_at l i f).eraseIdx i = l.eraseIdx i := by
  induction l with
  | nil => intro i; rfl
  | cons a rest ih =>
    intro i
    cases i with
    | zero => rfl
    | succ i =>
      show a :: (client.update_at rest i f).eraseIdx i = a :: rest.eraseIdx i
      rw [ih]

/-- In a table whose tids are unique, no other record holds the tid of a record
that holds one. -/
theorem tids_unique_others (l : List client.netsock_t) :
    ∀ (i : Nat) (ns : client.netsock_t), l[i]? = some ns → client.tids_unique l →
      ns.tid ≠ 0xff → ∀ x ∈ l.eraseIdx i, x.tid ≠ ns.tid := by
  induction l with
  | nil => intro i ns h; simp at h
  | cons a rest ih =>
    intro i ns h hu hne x hx
    simp only [client.tids_unique, List.pairwise_cons] at hu
    cases i with
    | zero =>
      simp only [List.getElem?_cons_zero, Option.some.injEq] at h
      subst h
      simp only [List.eraseIdx_cons_zero] at hx
      intro heq
      exact hne (hu.1 x hx heq.symm)
    | succ i =>
      simp only [List.getElem?_cons_succ] at h
      simp only [List.eraseIdx_cons_succ, List.mem_cons] at hx
      rcases hx with hx | hx
      · subst hx
        intro heq
        have := hu.1 ns (List.getElem?_mem h) heq
        exact hne (by rw [← heq, this])
      · exact ih i ns h hu.2 hne x hx

/-- C24: the cursor decrement favours reuse. When `tunnel_close` is applied to
the record that holds the most recently allocated tid (its tid is `last_tid`
and is not 255), the cursor is decremented by one modulo 256, and once the loop
of `main` has reaped the cancelled record, `tunnel_generate_id` returns that
same tid and sets the cursor to it again; on a record whose tid differs from
`last_tid`, or is 255, `tunnel_close` leaves the cursor as it was. The tids of
the table are unique, as they are in every state the client reaches. -/
theorem C24_cursor_decrement (mem : Bool) (g : client.globals) (i : Nat)
    (ns : client.netsock_t) (notify_server : Bool)
    (hns : g.all_sockets[i]? = some ns) (hbyte : ns.tid < 256)
    (hu : client.tids_unique g.all_sockets) :
    (ns.tid = g.last_tid → ns.tid ≠ 0xff →
      (client.tunnel_close mem g i notify_server).last_tid = (g.last_tid + 256 - 1) % 256 ∧
      (client.main_reap (client.tunnel_close mem g i notify_server) i).all_sockets =
        g.all_sockets.eraseIdx i ∧
      (client.tunnel_generate_id
        (client.main_reap (client.tunnel_close mem g i notify_server) i)).1 = ns.tid ∧
      (client.tunnel_generate_id
        (client.main_reap (client.tunnel_close mem g i notify_server) i)).2.last_tid = ns.tid) ∧
    ((ns.tid ≠ g.last_tid ∨ ns.tid = 0xff) →
      (client.tunnel_close mem g i notify_server).last_tid = g.last_tid) := by
  have hsock := tunnel_close_sockets mem g i notify_server
  constructor
  · intro heq hne
    have hlast : (client.tunnel_close mem g i notify_server).last_tid =
        (g.last_tid + 256 - 1) % 256 := by
      simp only [client.tunnel_close, hns, client.netsock_cancel]
      rw [if_pos hne]
      cases notify_server <;> simp [heq, u8]
    have hcanc : (client.tunnel_close mem g i notify_server).all_sockets[i]? =
        some { ns with state := client.NETSTATE_CANCELLED } := by
      rw [hsock, getElem?_update_at]
      simp [hns]
    have hreap : client.main_reap (client.tunnel_close mem g i notify_server) i =
        { client.tunnel_close mem g i notify_server with
          all_sockets := g.all_sockets.eraseIdx i } := by
      simp only [client.main_reap, hcanc, if_true, client.netsock_close]
      rw [hsock, eraseIdx_update_at]
    have hgen := tunnel_generate_id_first
      { client.tunnel_close mem g i notify_server with
        all_sockets := g.all_sockets.eraseIdx i } ns.tid
      (by show u8 ((client.tunnel_close mem g i notify_server).last_tid + 1) = ns.tid
          rw [hlast, ← heq]; simp only [u8]; omega)
      (by show ns.tid ≠ (client.tunnel_close mem g i notify_server).last_tid
          rw [hlast, ← heq]; omega)
      (tids_unique_others g.all_sockets i ns hns hu hne)
    refine ⟨hlast, ?_, ?_, ?_⟩
    · rw [hreap]
    · rw [hreap, hgen]
    · rw [hreap, hgen]
  · intro h
    simp only [client.tunnel_close, hns, client.netsock_cancel]
    by_cases hne : ns.tid ≠ 0xff
    · have hd : ns.tid ≠ g.last_tid := by
        rcases h with h | h
        · exact h
        · exact absurd h hne
      rw [if_pos hne]
      cases notify_server <;> simp [hd]
    · rw [if_neg hne]

/-- Witness of C24: the table holds one tunnel, of tid 7, and the cursor is 7.
Closing the tunnel sets the cursor to 6, and the next id generated, once the
record is reaped, is 7. -/
theorem C24_cursor_decrement_witness :
    (client.tunnel_close true
      (client.globals.mk [{ client.netsock_new 3 with type := 4, state := 3, tid := 7 }] 7 client.channel_init)
      0 true).last_tid = 6 ∧
    (client.tunnel_generate_id (client.main_reap (client.tunnel_close true
      (client.globals.mk [{ client.netsock_new 3 with type := 4, state := 3, tid := 7 }] 7 client.channel_init)
      0 true) 0)).1 = 7 :=
  have h := (C24_cursor_decrement true
    (client.globals.mk [{ client.netsock_new 3 with type := 4, state := 3, tid := 7 }] 7 client.channel_init)
    0 { client.netsock_new 3 with type := 4, state := 3, tid := 7 } true
    (by decide) (by decide) (by unfold client.tids_unique; decide)).1 rfl (by decide)
  ⟨h.1, h.2.2.1⟩

/-! ## Theorems: the zero-copy send of `net_write` -/

/-- C25 (the code diverges from the claim): `net_write` drops the data when the
direct write would block. Called with an empty output buffer and `n > 0` bytes,
`net_write` returns 1 and leaves the buffer empty when `write` fails with
`EAGAIN`: none of the `n` bytes is written and none is kept, although 1 is the
value that tells the caller that the data is queued. The rest of the claim
holds when memory is available: when `write` accepts `k > 0` bytes, the bytes
accepted followed by the buffer are the data, and 0 is returned exactly when
`k` reaches `n`; when the buffer is not empty, nothing is written and the data
is appended after the contents of the buffer. -/
theorem C25_blocked_write_drops_data (mem : Bool) (obuf : iobuf) (data : List Nat)
    (hv : valid_iobuf obuf) (hn : 0 < data.length)
    (hb : obuf.size + data.length < 4294967296) :
    (obuf.size = 0 →
      net_write write_outcome.pending mem obuf data = (1, obuf, 0, []) ∧
      iobuf_bytes obuf = []) ∧
    (∀ k, 0 < k →
      (net_write (write_outcome.wrote k) true obuf data).2.2.2 ++
        iobuf_bytes (net_write (write_outcome.wrote k) true obuf data).2.1 =
        iobuf_bytes obuf ++ data ∧
      (obuf.size = 0 →
        ((net_write (write_outcome.wrote k) true obuf data).1 = 0 ↔ data.length ≤ k))) ∧
    (obuf.size ≠ 0 → ∀ os,
      (net_write os true obuf data).2.2.2 = [] ∧
      iobuf_bytes (net_write os true obuf data).2.1 = iobuf_bytes obuf ++ data) := by
  have hres : ∀ (d : List Nat), iobuf_append true obuf d ≠ none := by
    intro d h
    unfold iobuf_append iobuf_reserve at h
    simp only [if_true] at h
    split_ifs at h
  refine ⟨?_, ?_, ?_⟩
  · intro h0
    constructor
    · simp only [net_write, hn, if_true, iobuf_datalen, h0]
    · rw [iobuf_bytes_eq, h0]; rfl
  · intro k hk
    refine ⟨(net_write_taken k obuf data hk hv hn hb).2.2, ?_⟩
    intro h0
    simp only [net_write, hn, if_true, iobuf_datalen, h0, Nat.pos_iff_ne_zero.1 hk, if_false]
    by_cases hs : data.length - k = 0
    · simp only [hs, if_true, true_iff]
      omega
    · simp only [hs, if_false]
      cases ha : iobuf_append true obuf (List.drop k data) with
      | none => exact absurd ha (hres _)
      | some b1 =>
        simp only
        constructor
        · intro h; cases h
        · intro h; omega
  · intro h0 os
    simp only [net_write, hn, if_true, iobuf_datalen, h0, if_false]
    cases ha : iobuf_append true obuf data with
    | none => exact absurd ha (hres _)
    | some b1 =>
      exact ⟨rfl, (iobuf_append_spec true obuf b1 data hv hn hb ha).2⟩

/-- Witness of C25: three bytes for an empty buffer while the descriptor would
block: 1 is returned and the buffer stays empty. -/
theorem C25_blocked_write_drops_data_witness :
    net_write write_outcome.pending true iobuf_init [1, 2, 3] = (1, iobuf_init, 0, []) ∧
    iobuf_bytes iobuf_init = [] :=
  (C25_blocked_write_drops_data true iobuf_init [1, 2, 3] (by decide) (by decide)
    (by decide)).1 rfl

/-! ## Theorems: the I/O buffer refines a queue of bytes -/

/-- The function `iobuf_reserve` when the size asked for fits: the contents and
the length are unchanged and the free capacity is the size asked for at least. -/
theorem iobuf_reserve_capacity (mem : Bool) (b b1 : iobuf) (size r : Nat) (hv : valid_iobuf b)
    (hb : b.size + reserve_size size < 4294967296)
    (h : iobuf_reserve mem b size = some (b1, r)) :
    valid_iobuf b1 ∧ b1.size = b.size ∧ iobuf_bytes b1 = iobuf_bytes b ∧
    reserve_size size ≤ b1.total - b1.size ∧ r = reserve_size size := by
  have he : iobuf_reserve mem b size = iobuf_reserve mem b (reserve_size size) := by
    unfold iobuf_reserve reserve_size
    by_cases h0 : size = 0
    · simp [h0, IOBUF_MIN_SIZE]
    · simp [h0]
  have hpos : 0 < reserve_size size := by
    unfold reserve_size IOBUF_MIN_SIZE
    split <;> omega
  rw [he] at h
  obtain ⟨r1, r2, r3, r4⟩ := iobuf_reserve_spec mem b b1 _ r hv hpos hb h
  have hr : r = reserve_size size := by
    unfold iobuf_reserve at h
    have hn0 : ¬ reserve_size size = 0 := by omega
    simp only [hn0, if_false] at h
    split_ifs at h <;> simp only [Option.some.injEq, Prod.mk.injEq] at h <;> exact h.2.symm
  refine ⟨⟨by omega, r2⟩, r1, ?_, by omega, hr⟩
  rw [iobuf_bytes_eq, iobuf_bytes_eq, r1, r4]

theorem iobuf_reserve_total (mem : Bool) (b b1 : iobuf) (size r : Nat)
    (ht : b.total < 4294967296) (h : iobuf_reserve mem b size = some (b1, r)) :
    b1.total < 4294967296 := by
  unfold iobuf_reserve at h
  simp only at h
  by_cases hgt : (if size = 0 then IOBUF_MIN_SIZE else size) > b.total - b.size
  · rw [if_pos hgt] at h
    cases mem
    · simp at h
    · simp only [if_true, Option.some.injEq, Prod.mk.injEq] at h
      obtain ⟨h1, -⟩ := h
      subst h1
      exact Nat.mod_lt _ (by omega)
  · rw [if_neg hgt] at h
    simp only [Option.some.injEq, Prod.mk.injEq] at h
    obtain ⟨h1, -⟩ := h
    subst h1
    exact ht

/-- One operation keeps the buffer a valid buffer that holds the queue. -/
theorem iobuf_apply_refines (mem : Bool) (b b1 : iobuf) (q : List Nat) (op : iobuf_op)
    (hv : valid_iobuf b) (ht : b.total < 4294967296) (hq : iobuf_bytes b = q)
    (hfit : ops_fit q [(mem, op)] = true) (h : iobuf_apply mem b op = some b1) :
    valid_iobuf b1 ∧ b1.total < 4294967296 ∧ iobuf_bytes b1 = queue_apply q op := by
  have hsz : b.size = q.length := by rw [← hq, iobuf_bytes_length _ hv]
  cases op with
  | append data =>
    simp only [ops_fit, Bool.and_true, decide_eq_true_eq] at hfit
    simp only [iobuf_apply] at h
    split_ifs at h with hn
    obtain ⟨a1, a2⟩ := iobuf_append_spec mem b b1 data hv hn (by omega) h
    refine ⟨a1, ?_, by rw [a2, hq]; rfl⟩
    unfold iobuf_append at h
    cases hr : iobuf_reserve mem b data.length with
    | none => rw [hr] at h; cases h
    | some p =>
      obtain ⟨b2, r⟩ := p
      rw [hr] at h
      simp only [Option.some.injEq] at h
      rw [← h]
      exact iobuf_reserve_total mem b b2 _ r ht hr
  | reserve size =>
    simp only [ops_fit, Bool.and_true, decide_eq_true_eq] at hfit
    simp only [iobuf_apply, Option.map_eq_some'] at h
    obtain ⟨⟨b2, r⟩, hr, hb2⟩ := h
    simp only at hb2
    subst hb2
    obtain ⟨c1, _, c3, _, _⟩ := iobuf_reserve_capacity mem b b2 size r hv (by omega) hr
    exact ⟨c1, iobuf_reserve_total mem b b2 _ r ht hr, by rw [c3, hq]; rfl⟩
  | commit written =>
    simp only [iobuf_apply] at h
    split_ifs at h with hn
    simp only [Option.some.injEq] at h
    subst h
    obtain ⟨hv1, hv2⟩ := hv
    obtain ⟨a1, a2, a3, a4⟩ := iobuf_store_spec b 0 written hv2 (by omega)
    have hlt : b.size + written.length < 4294967296 := by omega
    refine ⟨⟨?_, ?_⟩, ?_, ?_⟩
    · show u32 ((iobuf_store b 0 written).size + written.length) ≤ (iobuf_store b 0 written).total
      rw [a1, a2, u32_of_lt hlt]; omega
    · show (iobuf_store b 0 written).data.length = (iobuf_store b 0 written).total
      rw [a3, a2]
    · show (iobuf_store b 0 written).total < 4294967296
      rw [a2]; exact ht
    · rw [iobuf_bytes_eq]
      show List.take (u32 ((iobuf_store b 0 written).size + written.length))
        (iobuf_store b 0 written).data = _
      rw [a1, u32_of_lt hlt, show b.size + written.length = b.size + 0 + written.length by omega,
        a4, Nat.add_zero, ← iobuf_bytes_eq, hq]
      rfl
  | consume consumed =>
    simp only [iobuf_apply] at h
    split_ifs at h with hn
    simp only [Option.some.injEq] at h
    subst h
    have hsplit : iobuf_bytes b = q.take consumed ++ q.drop consumed := by
      rw [hq, List.take_append_drop]
    obtain ⟨c1, c2⟩ := iobuf_consume_bytes b consumed _ _ hv hsplit
      (by rw [List.length_take]; omega)
    exact ⟨c1, ht, c2⟩

/-- A sequence of operations keeps the buffer a valid buffer that holds the
queue of the list model. -/
theorem iobuf_run_refines : ∀ (ops : List (Bool × iobuf_op)) (b b1 : iobuf) (q : List Nat),
    valid_iobuf b → b.total < 4294967296 → iobuf_bytes b = q → ops_fit q ops = true →
    iobuf_run b ops = some b1 →
    valid_iobuf b1 ∧ b1.total < 4294967296 ∧ iobuf_bytes b1 = queue_run q ops := by
  intro ops
  induction ops with
  | nil =>
    intro b b1 q hv ht hq _ h
    simp only [iobuf_run, Option.some.injEq] at h
    subst h
    exact ⟨hv, ht, hq⟩
  | cons x rest ih =>
    intro b b1 q hv ht hq hfit h
    obtain ⟨mem, op⟩ := x
    simp only [iobuf_run] at h
    cases ha : iobuf_apply mem b op with
    | none => rw [ha] at h; cases h
    | some b2 =>
      rw [ha] at h
      simp only [ops_fit, Bool.and_eq_true] at hfit
      obtain ⟨s1, s2, s3⟩ := iobuf_apply_refines mem b b2 q op hv ht hq
        (by simp only [ops_fit, Bool.and_true]; exact hfit.1) ha
      exact ih b2 b1 _ s1 s2 s3 hfit.2 h

theorem iobuf_run_take : ∀ (ops : List (Bool × iobuf_op)) (b b1 : iobuf) (k : Nat),
    iobuf_run b ops = some b1 → ∃ bk, iobuf_run b (ops.take k) = some bk := by
  intro ops
  induction ops with
  | nil => intro b b1 k h; exact ⟨b, by simp [iobuf_run]⟩
  | cons x rest ih =>
    intro b b1 k h
    cases k with
    | zero => exact ⟨b, by simp [iobuf_run]⟩
    | succ k =>
      obtain ⟨mem, op⟩ := x
      simp only [iobuf_run, List.take_succ_cons] at h ⊢
      cases ha : iobuf_apply mem b op with
      | none => rw [ha] at h; cases h
      | some b2 =>
        rw [ha] at h
        exact ih b2 b1 k h

theorem ops_fit_take : ∀ (ops : List (Bool × iobuf_op)) (q : List Nat) (k : Nat),
    ops_fit q ops = true → ops_fit q (ops.take k) = true := by
  intro ops
  induction ops with
  | nil => intro q k h; simp [ops_fit]
  | cons x rest ih =>
    intro q k h
    cases k with
    | zero => simp [ops_fit]
    | succ k =>
      obtain ⟨mem, op⟩ := x
      simp only [ops_fit, Bool.and_eq_true, List.take_succ_cons] at h ⊢
      exact ⟨h.1, ih _ k h.2⟩

/-- C26: the I/O buffer refines a queue of bytes. Starting from an initialised
buffer, after any sequence of successful operations (an append of at least one
byte, a reservation, a commit of bytes written through the reserved pointer,
at least one and no more than the free capacity, a consume of at least one byte
and no more than the length), the length and the data of the buffer are those
of the list model, in which append and commit add bytes at the tail, consume
drops the first bytes and a reservation changes nothing; `size <= total` holds
at the end and after every operation of the sequence, where the buffer holds
the queue of the list model too; and a successful reservation made at the end
leaves as free capacity the size asked for at least (2048 when it is 0) and
changes neither the contents nor the length. The sizes are those of an
`unsigned int`: the length of the queue plus the size asked for by an append or
a reservation stays below 2^32. -/
theorem C26_iobuf_refines_queue (ops : List (Bool × iobuf_op)) (b : iobuf)
    (hrun : iobuf_run iobuf_init ops = some b) (hfit : ops_fit [] ops = true) :
    b.size ≤ b.total ∧
    iobuf_datalen b = (queue_run [] ops).length ∧
    (iobuf_dataptr b).take (iobuf_datalen b) = queue_run [] ops ∧
    (∀ k, ∃ bk, iobuf_run iobuf_init (ops.take k) = some bk ∧ bk.size ≤ bk.total ∧
      (iobuf_dataptr bk).take (iobuf_datalen bk) = queue_run [] (ops.take k)) ∧
    (∀ (mem : Bool) (size r : Nat) (b1 : iobuf),
      (queue_run [] ops).length + reserve_size size < 4294967296 →
      iobuf_reserve mem b size = some (b1, r) →
      reserve_size size ≤ b1.total - b1.size ∧ r = reserve_size size ∧
      iobuf_datalen b1 = iobuf_datalen b ∧ iobuf_bytes b1 = iobuf_bytes b ∧
      b1.size ≤ b1.total) := by
  obtain ⟨hv, ht, hq⟩ := iobuf_run_refines ops iobuf_init b [] (by decide) (by decide) rfl hfit hrun
  have hsz : b.size = (queue_run [] ops).length := by rw [← hq, iobuf_bytes_length _ hv]
  refine ⟨hv.1, hsz, hq, ?_, ?_⟩
  · intro k
    obtain ⟨bk, hk⟩ := iobuf_run_take ops iobuf_init b k hrun
    obtain ⟨kv, _, kq⟩ := iobuf_run_refines (ops.take k) iobuf_init bk [] (by decide) (by decide)
      rfl (ops_fit_take ops [] k hfit) hk
    exact ⟨bk, hk, kv.1, kq⟩
  · intro mem size r b1 hb hres
    obtain ⟨c1, c2, c3, c4, c5⟩ := iobuf_reserve_capacity mem b b1 size r hv (by omega) hres
    exact ⟨c4, c5, c2, c3, c1.1⟩

/-- Witness of C26: three bytes are appended, four bytes are reserved, two
bytes are committed and two bytes are consumed; the buffer holds the bytes
3, 4, 5 of the queue. -/
theorem C26_iobuf_refines_queue_witness :
    iobuf_datalen (iobuf.mk 3 7 [3, 4, 5, 4, 5, 0, 0]) = 3 ∧
    (iobuf_dataptr (iobuf.mk 3 7 [3, 4, 5, 4, 5, 0, 0])).take 3 = [3, 4, 5] :=
  have h := C26_iobuf_refines_queue
    [(true, iobuf_op.append [1, 2, 3]), (true, iobuf_op.reserve 4),
      (true, iobuf_op.commit [4, 5]), (true, iobuf_op.consume 2)]
    (iobuf.mk 3 7 [3, 4, 5, 4, 5, 0, 0]) (by decide) (by decide)
  ⟨h.2.1, h.2.2.1⟩

/-! ## Theorems: the family `netaddr_set` records -/

theorem ntohs_le_memory (port : Nat) :
    (port % 256 * 256 + port / 256) % 256 = port / 256 % 256 ∧
    (port % 256 * 256 + port / 256 % 256) / 256 % 256 = port % 256 := by
  constructor
  · rw [Nat.add_comm, Nat.add_mul_mod_self_right]
  · rw [Nat.add_comm, Nat.add_mul_div_right _ _ (by decide : 0 < 256),
      Nat.div_eq_of_lt (Nat.mod_lt _ (by decide)), Nat.zero_add, Nat.mod_mod]

/-- The block `netaddr_set` leaves for an IPv6 address: the family of IPv4, the
port, the four bytes that were at offset 4, the address at offset 8 and the
bytes that were at offset 24. -/
theorem netaddr_set_ipv6 (addr : List Nat) (port : Nat) (a : List Nat)
    (hl : addr.length = 16) :
    netaddr_set AF_INET6 addr port a =
      [2, 0, port / 256 % 256, port % 256] ++
        ((a.drop 4).take 4 ++ (addr ++ (a.drop 4).drop 20)) := by
  have hne : ¬ (AF_INET6 = AF_INET) := by decide
  have ht : List.take 16 addr = addr := List.take_of_length_le (by omega)
  simp only [netaddr_set, hne, if_false, ht, memcpy, le16, ntohs_le, hl]
  simp
  exact ⟨by decide, by decide, (ntohs_le_memory port).1, (ntohs_le_memory port).2⟩

/-- The block `netaddr_set` leaves for an IPv4 address. -/
theorem netaddr_set_ipv4 (addr : List Nat) (port : Nat) (a : List Nat)
    (hl : addr.length = 4) :
    netaddr_set AF_INET addr port a =
      [2, 0, port / 256 % 256, port % 256] ++ (addr ++ (a.drop 4).drop 4) := by
  have ht : List.take 4 addr = addr := List.take_of_length_le (by omega)
  simp only [netaddr_set, if_true, ht, memcpy, le16, ntohs_le, hl]
  simp
  exact ⟨by decide, by decide, (ntohs_le_memory port).1, (ntohs_le_memory port).2⟩

/-- C28 (the code diverges from the claim): `netaddr_set` records the family of
IPv4 for an IPv6 address. For `AF_INET` the family, the four address bytes and
the port are stored, and `netaddr_cmp` tells two such structures apart exactly
when the address or the port differ. For `AF_INET6` the sixteen address bytes
and the port are stored but the family stored is `AF_INET`, not `AF_INET6`;
`netaddr_cmp` then compares the two structures as IPv4 addresses, on the port
and on the four bytes at offset 4, which `netaddr_set` has not written: two
structures set, in blocks of equal contents, from the same port and from two
IPv6 addresses, equal or not, compare as equal. -/
theorem C28_netaddr_set_ipv6_family (addr addr2 addr4 addr5 : List Nat) (port port2 : Nat)
    (a b : List Nat) (ha : a.length = 28)
    (hl : addr.length = 16) (hl2 : addr2.length = 16)
    (hl4 : addr4.length = 4) (hl5 : addr5.length = 4)
    (hp : port < 65536) (hp2 : port2 < 65536) :
    (netaddr_af (netaddr_set AF_INET addr4 port a) = AF_INET.toNat ∧
      ((netaddr_set AF_INET addr4 port a).drop 4).take 4 = addr4 ∧
      ((netaddr_set AF_INET addr4 port a).drop 2).take 2 = htons port ∧
      (netaddr_cmp (netaddr_set AF_INET addr4 port a) (netaddr_set AF_INET addr5 port2 b) = 0 ↔
        addr4 = addr5 ∧ port = port2)) ∧
    (netaddr_af (netaddr_set AF_INET6 addr port a) = AF_INET.toNat ∧
      netaddr_af (netaddr_set AF_INET6 addr port a) ≠ AF_INET6.toNat ∧
      ((netaddr_set AF_INET6 addr port a).drop 8).take 16 = addr ∧
      ((netaddr_set AF_INET6 addr port a).drop 2).take 2 = htons port ∧
      netaddr_cmp (netaddr_set AF_INET6 addr port a) (netaddr_set AF_INET6 addr2 port a) = 0) := by
  have h4 := netaddr_set_ipv4 addr4 port a hl4
  have h5 := netaddr_set_ipv4 addr5 port2 b hl5
  have h6 := netaddr_set_ipv6 addr port a hl
  have h62 := netaddr_set_ipv6 addr2 port a hl2
  have hflow : ((a.drop 4).take 4).length = 4 := by
    rw [List.length_take, List.length_drop]; omega
  have hd4 : ∀ (p q : Nat) (X : List Nat), (List.drop 4 ([2, 0, p, q] ++ X)) = X := by
    intro p q X; rfl
  have hd2 : ∀ (p q : Nat) (X : List Nat), (List.drop 2 ([2, 0, p, q] ++ X)).take 2 = [p, q] := by
    intro p q X; rfl
  have haf : ∀ (p q : Nat) (X : List Nat), netaddr_af ([2, 0, p, q] ++ X) = 2 := by
    intro p q X; rfl
  have hd8 : ∀ (p q : Nat) (F X : List Nat), F.length = 4 →
      List.drop 8 ([2, 0, p, q] ++ (F ++ X)) = X := by
    intro p q F X hF
    show List.drop 4 (List.drop 4 ([2, 0, p, q] ++ (F ++ X))) = X
    rw [hd4, List.drop_left' hF]
  have hinet : AF_INET.toNat = 2 := by decide
  have hinet6 : AF_INET6.toNat = 10 := by decide
  refine ⟨⟨?_, ?_, ?_, ?_⟩, ?_, ?_, ?_, ?_, ?_⟩
  · rw [h4, haf, hinet]
  · rw [h4, hd4, List.take_left' hl4]
  · rw [h4, hd2]; rfl
  · rw [h4, h5]
    simp only [netaddr_cmp, haf, hinet, ne_eq, not_true_eq_false, if_false, if_true, hd2, hd4,
      List.take_left' hl4, List.take_left' hl5]
    constructor
    · intro h
      by_cases hc1 : [port / 256 % 256, port % 256] = [port2 / 256 % 256, port2 % 256]
      · by_cases hc2 : addr4 = addr5
        · simp only [List.cons.injEq, and_true] at hc1
          exact ⟨hc2, by omega⟩
        · simp [hc1, hc2] at h
      · simp [hc1] at h
    · rintro ⟨rfl, rfl⟩
      simp
  · rw [h6, haf, hinet]
  · rw [h6, haf, hinet6]; decide
  · rw [h6, hd8 _ _ _ _ hflow, List.take_left' hl]
  · rw [h6, hd2]; rfl
  · rw [h6, h62]
    simp only [netaddr_cmp, haf, hinet, ne_eq, not_true_eq_false, if_false, if_true, hd2, hd4,
      List.take_left' hflow]

/-- Witness of C28: in a zeroed structure, the IPv6 addresses ::1 and ::2 with
the port 80: the family stored is 2 (`AF_INET`), and the two structures compare
as equal. -/
theorem C28_netaddr_set_ipv6_family_witness :
    netaddr_af (netaddr_set AF_INET6 [0, 0, 0, 0, 0, 0, 0, 0, 0, 0, 0, 0, 0, 0, 0, 1] 80
      (List.replicate 28 0)) = 2 ∧
    netaddr_cmp
      (netaddr_set AF_INET6 [0, 0, 0, 0, 0, 0, 0, 0, 0, 0, 0, 0, 0, 0, 0, 1] 80
        (List.replicate 28 0))
      (netaddr_set AF_INET6 [0, 0, 0, 0, 0, 0, 0, 0, 0, 0, 0, 0, 0, 0, 0, 2] 80
        (List.replicate 28 0)) = 0 :=
  have h := (C28_netaddr_set_ipv6_family [0, 0, 0, 0, 0, 0, 0, 0, 0, 0, 0, 0, 0, 0, 0, 1]
    [0, 0, 0, 0, 0, 0, 0, 0, 0, 0, 0, 0, 0, 0, 0, 2] [127, 0, 0, 1] [127, 0, 0, 1] 80 80
    (List.replicate 28 0) (List.replicate 28 0) (by decide) (by decide) (by decide) (by decide)
    (by decide) (by decide) (by decide)).2
  ⟨h.1, h.2.2.2.2⟩

/-! ## Theorems: the reverse listeners when the channel comes up -/

/-- C29 (the code diverges from the claim): a reverse listener is bound twice
in one connection of the channel. The run starts with the controller client
alone in the table, a channel that has seen no traffic, and `last_state = 0`.
In one iteration of the loop of `main`, the head finds the channel
disconnected and does nothing (`g1`); `channel_read_event` reads a PING frame,
which sets the time stamp of the channel (`g2`); `controller_read_event` reads
the line `r h 8080 t 80`, and `tunnel_add_reverse`, finding the channel
connected now, queues a BIND frame with the tid 0 and stores that tid in the
listener (`g3`). At the head of the next iteration the state has changed from
0 to 1 and `tunnels_restart` runs: it queues a second BIND frame for the same
listener, with the tid 1, and replaces the stored tid, although the listener
held the tid 0 (`g4`). -/
theorem C29_listener_bound_twice :
    ∃ g1 g2 g3 g4,
      client.main_check_state
        (client.env_t.mk 100 (fun _ => true) (write_outcome.wrote 100) true none none (fun _ => 0))
        (client.globals.mk [{ client.netsock_new 5 with type := 3, state := 3, min_io_size := 64 }] 0xff client.channel_init)
        0 = (g1, 0) ∧
      client.channel_read_event
        (client.env_t.mk 100 (fun _ => true) (write_outcome.wrote 100) true none none (fun _ => 0))
        (fun k => if k = 0 then read_outcome.got [6, 0, 0, 0]
          else read_outcome.got [0, 0, 0, 2, 3, 0]) true 1 g1 = some (0, g2) ∧
      client.controller_read_event
        (read_outcome.got (client.str "r h 8080 t 80" ++ [10])) true
        (fun _ => client.ctrl_env.mk
          (client.env_t.mk 100 (fun _ => true) (write_outcome.wrote 100) true none none (fun _ => 0))
          none [] true (fun _ => false) (fun _ => []) (fun _ => write_outcome.wrote 100))
        g2 0 = some (0, g3) ∧
      client.main_check_state
        (client.env_t.mk 101 (fun _ => true) (write_outcome.wrote 100) true none none (fun _ => 0))
        g3 0 = (g4, 1) ∧
      g2.vc.ts = 100 ∧
      g3.all_sockets.map (fun ns => (ns.type, ns.tid)) = [(3, 0xff), (6, 0)] ∧
      iobuf_bytes g3.vc.obuf = request_bytes R2TCMD_BIND 0 TUNAF_ANY (client.str "t") 80 ∧
      g4.all_sockets.map (fun ns => (ns.type, ns.tid)) = [(3, 0xff), (6, 1)] ∧
      iobuf_bytes g4.vc.obuf =
        request_bytes R2TCMD_BIND 0 TUNAF_ANY (client.str "t") 80 ++
          request_bytes R2TCMD_BIND 1 TUNAF_ANY (client.str "t") 80 :=
  ⟨_, _, _, _, rfl, rfl, rfl, rfl, by decide, by decide, by decide, by decide, by decide⟩

/-! ## Theorems: the event table of the server -/

/-- The loop of `event_del_tunnel` stays below `events_count` and counts no more
entries than it has passed. -/
theorem event_del_scan_bounds (tunid : List Nat) (count id : Nat) (hc : count < 4294967295) :
    ∀ (fuel i j : Nat), i ≤ count → j + 2 ≤ i →
      (server.event_del_scan tunid count id fuel i j).1 ≤ count ∧
      (server.event_del_scan tunid count id fuel i j).2 + 2 ≤
        (server.event_del_scan tunid count id fuel i j).1 := by
  intro fuel
  induction fuel with
  | zero =>
    intro i j hi hj
    simp only [server.event_del_scan]
    exact ⟨hi, hj⟩
  | succ fuel ih =>
    intro i j hi hj
    have hu1 : u32 (i + 1) = i + 1 := u32_of_lt (by omega)
    have hu2 : u32 (j + 1) = j + 1 := u32_of_lt (by omega)
    simp only [server.event_del_scan, hu1, hu2]
    split_ifs with h1 h2 h3
    · exact ih _ _ (by omega) (by omega)
    · exact ⟨hi, hj⟩
    · exact ih _ _ (by omega) (by omega)
    · exact ⟨hi, hj⟩

/-- A `memmove` inside the block keeps its length. -/
theorem memmove_length (block : List Nat) (dst src n : Nat) (h : dst + n ≤ block.length) :
    (memmove block dst src n).length = block.length := by
  unfold memmove
  apply memcpy_length
  rw [List.length_take, List.length_drop]
  omega

/-- One call keeps the bounds of the event table and writes inside the arrays,
above the slots 0 and 1;
an add that finds the table full returns -1 and changes nothing. -/
theorem event_apply_bounds (ev : server.events_t) (op : server.event_op)
    (h : events_bounds ev) :
    events_bounds (server.event_apply ev op).2.1 ∧
    (∀ x ∈ (server.event_apply ev op).2.2, 2 ≤ x ∧ x < 258) ∧
    (∀ evt id, op = server.event_op.add_tunnel evt id →
      (ev.events_count + 1 > 257 → server.event_apply ev op = (-1, ev, [])) ∧
      (ev.events_count + 1 ≤ 257 → (server.event_apply ev op).1 = 0 ∧
        (server.event_apply ev op).2.1.events_count = ev.events_count + 1)) ∧
    (∀ proc re we id, op = server.event_op.add_process proc re we id →
      (ev.events_count + 3 > 257 → server.event_apply ev op = (-1, ev, [])) ∧
      (ev.events_count + 3 ≤ 257 → (server.event_apply ev op).1 = 0 ∧
        (server.event_apply ev op).2.1.events_count = ev.events_count + 3)) := by
  obtain ⟨h1, h2, h3, h4⟩ := h
  cases op with
  | add_tunnel evt id =>
    by_cases hfull : ev.events_count ≥ 0x101
    · have he : server.event_apply ev (server.event_op.add_tunnel evt id) = (-1, ev, []) := by
        simp only [server.event_apply, server.event_add_tunnel, hfull, if_true]
      rw [he]
      refine ⟨⟨h1, h2, h3, h4⟩, by simp, ?_, (by intro _ _ _ _ h; cases h)⟩
      intro evt2 id2 _
      exact ⟨fun _ => rfl, fun hh => by omega⟩
    · have hu : u32 (ev.events_count + 1) = ev.events_count + 1 := u32_of_lt (by omega)
      have he : server.event_apply ev (server.event_op.add_tunnel evt id) =
          (0, { events_count := ev.events_count + 1,
                all_events := ev.all_events.set ev.events_count evt,
                evtid_to_tunid := ev.evtid_to_tunid.set ev.events_count id },
            [ev.events_count]) := by
        simp only [server.event_apply, server.event_add_tunnel, hfull, if_false, hu]
      rw [he]
      refine ⟨⟨by show 2 ≤ ev.events_count + 1; omega, by show ev.events_count + 1 ≤ 257; omega,
        by simp [h3], by simp [h4]⟩, ?_, ?_, (by intro _ _ _ _ h; cases h)⟩
      · intro x hx
        simp only [List.mem_singleton] at hx
        omega
      · intro evt2 id2 _
        exact ⟨fun hh => by omega, fun _ => ⟨rfl, rfl⟩⟩
  | add_process proc re we id =>
    have hu2 : u32 (ev.events_count + 2) = ev.events_count + 2 := u32_of_lt (by omega)
    by_cases hfull : ev.events_count + 2 ≥ 0x101
    · have he : server.event_apply ev (server.event_op.add_process proc re we id) =
          (-1, ev, []) := by
        simp only [server.event_apply, server.event_add_process, hu2, hfull, if_true]
      rw [he]
      refine ⟨⟨h1, h2, h3, h4⟩, by simp, (by intro _ _ h; cases h), ?_⟩
      intro _ _ _ _ _
      exact ⟨fun _ => rfl, fun hh => by omega⟩
    · have hu : u32 (ev.events_count + 3) = ev.events_count + 3 := u32_of_lt (by omega)
      have he : server.event_apply ev (server.event_op.add_process proc re we id) =
          (0, { events_count := ev.events_count + 3,
                all_events := ((ev.all_events.set ev.events_count proc).set
                  (ev.events_count + 1) re).set (ev.events_count + 2) we,
                evtid_to_tunid := ((ev.evtid_to_tunid.set ev.events_count id).set
                  (ev.events_count + 1) id).set (ev.events_count + 2) id },
            [ev.events_count, ev.events_count + 1, ev.events_count + 2]) := by
        simp only [server.event_apply, server.event_add_process, hu2, hfull, if_false, hu]
      rw [he]
      refine ⟨⟨by show 2 ≤ ev.events_count + 3; omega, by show ev.events_count + 3 ≤ 257; omega,
        by simp [h3], by simp [h4]⟩, ?_, (by intro _ _ h; cases h), ?_⟩
      · intro x hx
        simp only [List.mem_cons, List.mem_singleton, List.not_mem_nil, or_false] at hx
        omega
      · intro _ _ _ _ _
        exact ⟨fun hh => by omega, fun _ => ⟨rfl, rfl⟩⟩
  | del_tunnel id =>
    obtain ⟨b1, b2⟩ := event_del_scan_bounds ev.evtid_to_tunid ev.events_count id (by omega)
      ev.events_count 2 0 h1 (by omega)
    refine ⟨?_, ?_, (by intro _ _ h; cases h), (by intro _ _ _ _ h; cases h)⟩
    · simp only [server.event_apply, server.event_del_tunnel]
      split_ifs with hj hi
      · refine ⟨?_, ?_, ?_, ?_⟩
        · show 2 ≤ ev.events_count - _
          omega
        · show ev.events_count - _ ≤ 257
          omega
        · show (memmove ev.all_events _ _ _).length = 258
          rw [memmove_length _ _ _ _ (by omega), h3]
        · show (memmove ev.evtid_to_tunid _ _ _).length = 258
          rw [memmove_length _ _ _ _ (by omega), h4]
      · refine ⟨?_, ?_, h3, h4⟩
        · show 2 ≤ ev.events_count - _
          omega
        · show ev.events_count - _ ≤ 257
          omega
      · exact ⟨h1, h2, h3, h4⟩
    · intro x hx
      simp only [server.event_apply, server.event_del_tunnel] at hx
      split_ifs at hx with hj hi
      · simp only [List.mem_range'_1] at hx
        omega
      · simp at hx
      · simp at hx
/-- The element at the head of what follows position `i`. -/
theorem peek_of_drop (l : List Nat) (i x : Nat) (rest : List Nat) (h : l.drop i = x :: rest) :
    peek l i = x := by
  simp only [peek, h, List.headD_cons]

/-- A position with an element below `count` is below `count` and holds it. -/
theorem drop_take_cons (l : List Nat) (count i x : Nat) (rest : List Nat)
    (h : (l.take count).drop i = x :: rest) : i < count ∧ peek l i = x := by
  have hlt : i < count := by
    by_contra hge
    have : (l.take count).drop i = [] := by
      apply List.drop_of_length_le
      rw [List.length_take]
      omega
    rw [this] at h
    cases h
  refine ⟨hlt, ?_⟩
  rw [List.drop_take] at h
  unfold peek
  cases hd : l.drop i with
  | nil => rw [hd] at h; simp at h
  | cons y t =>
    rw [hd] at h
    have hpos : count - i = (count - i - 1) + 1 := by omega
    rw [hpos, List.take_succ_cons] at h
    simp only [List.cons.injEq] at h
    simp only [List.headD_cons]
    exact h.1

/-- The loop of `event_del_tunnel` passes the entries of other tunnels while it
has counted nothing. -/
theorem event_del_scan_skip (tunid : List Nat) (count id : Nat) (hc : count < 4294967295) :
    ∀ (X rest : List Nat) (fuel i : Nat), (tunid.take count).drop i = X ++ rest → id ∉ X →
      server.event_del_scan tunid count id (fuel + X.length) i 0 =
        server.event_del_scan tunid count id fuel (i + X.length) 0 := by
  intro X
  induction X with
  | nil => intro rest fuel i _ _; rfl
  | cons x t ih =>
    intro rest fuel i h hid
    obtain ⟨hlt, hpk⟩ := drop_take_cons tunid count i x (t ++ rest) h
    have hne : x ≠ id := by
      intro he; exact hid (by rw [he]; exact List.mem_cons_self _ _)
    have hu1 : u32 (i + 1) = i + 1 := u32_of_lt (by omega)
    have hstep : (fuel + (x :: t).length) = (fuel + t.length) + 1 := by
      simp only [List.length_cons]; omega
    rw [hstep, server.event_del_scan]
    simp only [hlt, if_true, hpk, hne, if_false, ne_eq, not_true_eq_false, hu1]
    have hdrop : (tunid.take count).drop (i + 1) = t ++ rest := by
      rw [← List.drop_drop, h]
      rfl
    rw [ih rest fuel (i + 1) hdrop (fun hm => hid (List.mem_cons_of_mem _ hm))]
    congr 1
    simp only [List.length_cons]
    omega

/-- The loop of `event_del_tunnel` counts the entries of the tunnel. -/
theorem event_del_scan_block (tunid : List Nat) (count id : Nat) (hc : count < 4294967295) :
    ∀ (n : Nat) (rest : List Nat) (fuel i j : Nat),
      (tunid.take count).drop i = List.replicate n id ++ rest → j ≤ i →
      server.event_del_scan tunid count id (fuel + n) i j =
        server.event_del_scan tunid count id fuel (i + n) (j + n) := by
  intro n
  induction n with
  | zero => intro rest fuel i j _ _; rfl
  | succ n ih =>
    intro rest fuel i j h hj
    rw [List.replicate_succ, List.cons_append] at h
    obtain ⟨hlt, hpk⟩ := drop_take_cons tunid count i id _ h
    have hu1 : u32 (i + 1) = i + 1 := u32_of_lt (by omega)
    have hu2 : u32 (j + 1) = j + 1 := u32_of_lt (by omega)
    rw [show fuel + (n + 1) = (fuel + n) + 1 by omega, server.event_del_scan]
    simp only [hlt, if_true, hpk, hu1, hu2]
    have hdrop : (tunid.take count).drop (i + 1) = List.replicate n id ++ rest := by
      rw [← List.drop_drop, h]
      rfl
    rw [ih rest fuel (i + 1) (j + 1) hdrop (by omega)]
    congr 1 <;> omega

/-- The loop of `event_del_tunnel` ends at `events_count`, and at the entry of
another tunnel once it has counted some. -/
theorem event_del_scan_stop (tunid : List Nat) (count id fuel i j : Nat)
    (h : (i ≥ count) ∨ (j ≠ 0 ∧ ∃ x rest, (tunid.take count).drop i = x :: rest ∧ x ≠ id)) :
    server.event_del_scan tunid count id fuel i j = (i, j) := by
  cases fuel with
  | zero => rfl
  | succ fuel =>
    rw [server.event_del_scan]
    rcases h with h | ⟨hj, x, rest, hd, hx⟩
    · rw [if_neg (by omega)]
    · obtain ⟨hlt, hpk⟩ := drop_take_cons tunid count i x rest hd
      simp only [hlt, if_true, hpk, hx, if_false, ne_eq, hj, not_false_eq_true]
/-- Moving the tail of the used part over its middle leaves head and tail. -/
theorem memmove_take (block P M S : List Nat) (count : Nat)
    (h : block.take count = P ++ (M ++ S)) (hc : count ≤ block.length) :
    (memmove block P.length (P.length + M.length) S.length).take (P.length + S.length) =
      P ++ S := by
  have hcount : count = P.length + (M.length + S.length) := by
    have := congrArg List.length h
    simp only [List.length_take, List.length_append] at this
    omega
  have hblock : block = P ++ (M ++ (S ++ block.drop count)) := by
    conv_lhs => rw [← List.take_append_drop count block, h]
    simp only [List.append_assoc]
  have hsrc : (block.drop (P.length + M.length)).take S.length = S := by
    conv_lhs => rw [hblock]
    rw [← List.drop_drop, List.drop_left' rfl, List.drop_left' rfl, List.take_left' rfl]
  have hpre : block.take P.length = P := by
    conv_lhs => rw [hblock]
    exact List.take_left' rfl
  unfold memmove
  rw [hsrc]
  have := memcpy_take block P.length S (by omega)
  rw [this, hpre]

/-- The handles of registrations around one of them. -/
theorem registry_handles_split (A B : server.registry) (x : Nat × List Nat) :
    server.registry_handles (A ++ x :: B) =
      server.registry_handles A ++ (x.2 ++ server.registry_handles B) := by
  simp only [server.registry_handles, List.flatMap_append, List.flatMap_cons]

/-- The ids of registrations around one of them. -/
theorem registry_ids_split (A B : server.registry) (x : Nat × List Nat) :
    server.registry_ids (A ++ x :: B) =
      server.registry_ids A ++ (List.replicate x.2.length x.1 ++ server.registry_ids B) := by
  simp only [server.registry_ids, List.flatMap_append, List.flatMap_cons]

/-- The handles of two lists of registrations. -/
theorem registry_handles_append (A B : server.registry) :
    server.registry_handles (A ++ B) = server.registry_handles A ++ server.registry_handles B := by
  simp only [server.registry_handles, List.flatMap_append]

/-- The ids of two lists of registrations. -/
theorem registry_ids_append (A B : server.registry) :
    server.registry_ids (A ++ B) = server.registry_ids A ++ server.registry_ids B := by
  simp only [server.registry_ids, List.flatMap_append]

/-- As many ids as handles. -/
theorem registry_ids_length (A : server.registry) :
    (server.registry_ids A).length = (server.registry_handles A).length := by
  induction A with
  | nil => rfl
  | cons x t ih =>
    simp only [server.registry_ids, server.registry_handles, List.flatMap_cons,
      List.length_append, List.length_replicate] at ih ⊢
    rw [ih]

/-- The id of no registration is the id of no entry. -/
theorem registry_ids_not_mem (A : server.registry) (id : Nat)
    (h : id ∉ A.map (fun r => r.1)) : id ∉ server.registry_ids A := by
  induction A with
  | nil => simp [server.registry_ids]
  | cons x t ih =>
    simp only [List.map_cons, List.mem_cons, not_or] at h
    simp only [server.registry_ids, List.flatMap_cons, List.mem_append, not_or]
    refine ⟨?_, ih h.2⟩
    intro hm
    exact h.1 (List.eq_of_mem_replicate hm)

/-- Removing the registration of an id that has none changes nothing. -/
theorem registry_filter_not_mem (A : server.registry) (id : Nat)
    (h : id ∉ A.map (fun r => r.1)) : A.filter (fun r => decide (r.1 ≠ id)) = A := by
  rw [List.filter_eq_self]
  intro r hr
  simp only [ne_eq, decide_eq_true_eq]
  intro he
  exact h (by rw [← he]; exact List.mem_map_of_mem _ hr)
/-- The function `event_del_tunnel` on a table that holds no entry of the
tunnel: nothing changes. -/
theorem event_del_tunnel_absent (ev : server.events_t) (wevt revt : Nat) (regs : server.registry)
    (id : Nat) (hB : events_bounds ev) (hH : server.events_hold ev wevt revt regs)
    (hid : id ∉ regs.map (fun r => r.1)) :
    server.event_del_tunnel ev id = (ev, []) := by
  obtain ⟨b1, b2, b3, b4⟩ := hB
  obtain ⟨h1, h2, h3⟩ := hH
  have hlen := registry_ids_length regs
  have hskip := event_del_scan_skip ev.evtid_to_tunid ev.events_count id (by omega)
    (server.registry_ids regs) [] 2 2 (by rw [h3, List.append_nil])
    (registry_ids_not_mem regs id hid)
  have hfuel : ev.events_count = 2 + (server.registry_ids regs).length := by omega
  have hstop := event_del_scan_stop ev.evtid_to_tunid ev.events_count id 2
    (2 + (server.registry_ids regs).length) 0 (Or.inl (by omega))
  have hscan : server.event_del_scan ev.evtid_to_tunid ev.events_count id ev.events_count 2 0 =
      (ev.events_count, 0) := by
    have hg : ∀ f, f = ev.events_count →
        server.event_del_scan ev.evtid_to_tunid ev.events_count id f 2 0 =
          (ev.events_count, 0) := by
      intro f hf
      rw [hf.trans hfuel, hskip, hstop, ← hfuel]
    exact hg _ rfl
  simp only [server.event_del_tunnel, hscan, gt_iff_lt, lt_self_iff_false, if_false]

/-- The function `event_del_tunnel` on a table that holds the entries of the
tunnel in one run: the run is removed and what follows it moves down. -/
theorem event_del_tunnel_present (ev : server.events_t) (wevt revt : Nat)
    (A B : server.registry) (id : Nat) (hs : List Nat)
    (hB : events_bounds ev) (hH : server.events_hold ev wevt revt (A ++ (id, hs) :: B))
    (hne : hs ≠ []) (hA : id ∉ A.map (fun r => r.1)) (hBid : id ∉ B.map (fun r => r.1)) :
    server.events_hold (server.event_del_tunnel ev id).1 wevt revt (A ++ B) ∧
    (server.event_del_tunnel ev id).1.events_count + hs.length = ev.events_count := by
  obtain ⟨b1, b2, b3, b4⟩ := hB
  obtain ⟨h1, h2, h3⟩ := hH
  rw [registry_handles_split] at h1 h2
  rw [registry_ids_split] at h3
  simp only [List.length_append] at h1
  have hn : 0 < hs.length := List.length_pos.mpr hne
  have hlA := registry_ids_length A
  have hlB := registry_ids_length B
  have hidA := registry_ids_not_mem A id hA
  have hidB := registry_ids_not_mem B id hBid
  have hskip := event_del_scan_skip ev.evtid_to_tunid ev.events_count id (by omega)
    (server.registry_ids A) _ (2 + hs.length + (server.registry_ids B).length) 2 h3 hidA
  have hdropA : (ev.evtid_to_tunid.take ev.events_count).drop (2 + (server.registry_ids A).length) =
      List.replicate hs.length id ++ server.registry_ids B := by
    rw [← List.drop_drop, h3, List.drop_left' rfl]
  have hblock := event_del_scan_block ev.evtid_to_tunid ev.events_count id (by omega)
    hs.length _ (2 + (server.registry_ids B).length) (2 + (server.registry_ids A).length) 0
    hdropA (by omega)
  have hdropB : (ev.evtid_to_tunid.take ev.events_count).drop
      (2 + (server.registry_ids A).length + hs.length) = server.registry_ids B := by
    rw [← List.drop_drop, hdropA, List.drop_left' (by simp)]
  have hstop : server.event_del_scan ev.evtid_to_tunid ev.events_count id
      (2 + (server.registry_ids B).length) (2 + (server.registry_ids A).length + hs.length)
      (0 + hs.length) = (2 + (server.registry_ids A).length + hs.length, 0 + hs.length) := by
    apply event_del_scan_stop
    cases hb : server.registry_ids B with
    | nil => left; rw [hb] at hlB; simp only [List.length_nil] at hlB; omega
    | cons x rest =>
      right
      refine ⟨by omega, x, rest, by rw [hdropB, hb], ?_⟩
      intro hx
      apply hidB
      rw [hb, hx]
      exact List.mem_cons_self _ _
  have hfuel : ev.events_count = 2 + hs.length + (server.registry_ids B).length +
      (server.registry_ids A).length := by omega
  have hscan : server.event_del_scan ev.evtid_to_tunid ev.events_count id ev.events_count 2 0 =
      (2 + (server.registry_ids A).length + hs.length, hs.length) := by
    have hg : ∀ f, f = ev.events_count →
        server.event_del_scan ev.evtid_to_tunid ev.events_count id f 2 0 =
          (2 + (server.registry_ids A).length + hs.length, hs.length) := by
      intro f hf
      rw [hf.trans hfuel, hskip, show 2 + hs.length + (server.registry_ids B).length =
        2 + (server.registry_ids B).length + hs.length by omega, hblock, hstop, Nat.zero_add]
    exact hg _ rfl
  have htun : ev.evtid_to_tunid.take ev.events_count =
      ((ev.evtid_to_tunid.take ev.events_count).take 2 ++ server.registry_ids A) ++
        (List.replicate hs.length id ++ server.registry_ids B) := by
    rw [List.append_assoc, ← h3, List.take_append_drop]
  have hT2 : ((ev.evtid_to_tunid.take ev.events_count).take 2).length = 2 := by
    rw [List.length_take, List.length_take]; omega
  have hevt : ev.all_events.take ev.events_count =
      (wevt :: revt :: server.registry_handles A) ++ (hs ++ server.registry_handles B) := by
    rw [h2]; rfl
  simp only [server.event_del_tunnel, hscan, gt_iff_lt, hn, if_true]
  by_cases hi : 2 + (server.registry_ids A).length + hs.length < ev.events_count
  · simp only [hi, if_true]
    have hsub : 2 + (server.registry_ids A).length + hs.length - hs.length =
        2 + (server.registry_ids A).length := by omega
    have hcnt : ev.events_count - (2 + (server.registry_ids A).length + hs.length) =
        (server.registry_ids B).length := by omega
    rw [hsub, hcnt]
    refine ⟨⟨?_, ?_, ?_⟩, ?_⟩
    · show ev.events_count - hs.length = 2 + (server.registry_handles (A ++ B)).length
      rw [registry_handles_append, List.length_append]; omega
    · show (memmove ev.all_events _ _ _).take (ev.events_count - hs.length) = _
      have hm := memmove_take ev.all_events (wevt :: revt :: server.registry_handles A) hs
        (server.registry_handles B) ev.events_count hevt (by omega)
      simp only [List.length_cons] at hm
      rw [show (server.registry_handles A).length + 1 + 1 = 2 + (server.registry_ids A).length
        by omega, ← hlB] at hm
      rw [show ev.events_count - hs.length = 2 + (server.registry_ids A).length +
        (server.registry_ids B).length by omega, hm, registry_handles_append]
      rfl
    · show ((memmove ev.evtid_to_tunid _ _ _).take (ev.events_count - hs.length)).drop 2 = _
      have hm := memmove_take ev.evtid_to_tunid
        ((ev.evtid_to_tunid.take ev.events_count).take 2 ++ server.registry_ids A)
        (List.replicate hs.length id) (server.registry_ids B) ev.events_count htun (by omega)
      simp only [List.length_append, hT2, List.length_replicate] at hm
      rw [show ev.events_count - hs.length = 2 + (server.registry_ids A).length +
        (server.registry_ids B).length by omega, hm, List.append_assoc,
        List.drop_left' hT2, registry_ids_append]
    · show ev.events_count - hs.length + hs.length = ev.events_count
      omega
  · simp only [hi, if_false]
    have hB0 : (server.registry_ids B).length = 0 := by omega
    have hB1 : server.registry_ids B = [] := List.length_eq_zero.mp hB0
    have hB2 : server.registry_handles B = [] := List.length_eq_zero.mp (by omega)
    refine ⟨⟨?_, ?_, ?_⟩, ?_⟩
    · show ev.events_count - hs.length = 2 + (server.registry_handles (A ++ B)).length
      rw [registry_handles_append, List.length_append]; omega
    · show ev.all_events.take (ev.events_count - hs.length) = _
      have : ev.all_events.take (ev.events_count - hs.length) =
          (ev.all_events.take ev.events_count).take (ev.events_count - hs.length) := by
        rw [List.take_take, Nat.min_eq_left (by omega)]
      rw [this, hevt, registry_handles_append, hB2, List.append_nil, List.append_nil]
      exact List.take_left' (by simp only [List.length_cons]; omega)
    · show (ev.evtid_to_tunid.take (ev.events_count - hs.length)).drop 2 = _
      have : ev.evtid_to_tunid.take (ev.events_count - hs.length) =
          (ev.evtid_to_tunid.take ev.events_count).take (ev.events_count - hs.length) := by
        rw [List.take_take, Nat.min_eq_left (by omega)]
      rw [this, htun, registry_ids_append, hB1, List.append_nil, List.append_nil,
        List.take_left' (by simp only [List.length_append, hT2]; omega),
        List.drop_left' hT2]
    · show ev.events_count - hs.length + hs.length = ev.events_count
      omega
/-- The used part after a store at its end. -/
theorem take_set_succ (l : List Nat) (n x : Nat) (h : n < l.length) :
    (l.set n x).take (n + 1) = l.take n ++ [x] := by
  induction l generalizing n with
  | nil => simp at h
  | cons a t ih =>
    cases n with
    | zero => simp
    | succ n =>
      simp only [List.length_cons] at h
      simp only [List.set_cons_succ, List.take_succ_cons, List.cons_append, ih n (by omega)]

/-- The used part after three stores at its end. -/
theorem take_set_three (l : List Nat) (n x y z : Nat) (h : n + 2 < l.length) :
    (((l.set n x).set (n + 1) y).set (n + 2) z).take (n + 3) = l.take n ++ [x, y, z] := by
  rw [take_set_succ _ (n + 2) z (by simp only [List.length_set]; omega),
    take_set_succ _ (n + 1) y (by simp only [List.length_set]; omega),
    take_set_succ _ n x (by omega)]
  simp

/-- A call that registers no id twice keeps the registrations well formed. -/
theorem registry_apply_ok (regs : server.registry) (op : server.event_op)
    (hok : registry_ok regs) (honce : server.registers_once regs op = true) :
    registry_ok (server.registry_apply regs op) := by
  obtain ⟨hnd, hlen⟩ := hok
  have hadd : ∀ (id : Nat) (hs : List Nat), (hs.length = 1 ∨ hs.length = 3) →
      id ∉ regs.map (fun r => r.1) → registry_ok (regs ++ [(id, hs)]) := by
    intro id hs hl hid
    refine ⟨?_, ?_⟩
    · rw [List.map_append, List.nodup_append]
      refine ⟨hnd, by simp, ?_⟩
      intro a ha hb
      simp only [List.map_cons, List.map_nil, List.mem_singleton] at hb
      exact hid (hb ▸ ha)
    · intro r hr
      rcases List.mem_append.mp hr with h | h
      · exact hlen r h
      · simp only [List.mem_singleton] at h
        rw [h]; exact hl
  cases op with
  | add_tunnel evt id =>
    simp only [server.registers_once, decide_eq_true_eq] at honce
    simp only [server.registry_apply]
    split_ifs with hf
    · exact ⟨hnd, hlen⟩
    · exact hadd id [evt] (Or.inl rfl) (honce.resolve_left hf)
  | add_process proc re we id =>
    simp only [server.registers_once, decide_eq_true_eq] at honce
    simp only [server.registry_apply]
    split_ifs with hf
    · exact ⟨hnd, hlen⟩
    · exact hadd id [proc, re, we] (Or.inr rfl) (honce.resolve_left hf)
  | del_tunnel id =>
    simp only [server.registry_apply]
    refine ⟨?_, ?_⟩
    · exact List.Nodup.sublist (List.Sublist.map _ (List.filter_sublist _)) hnd
    · intro r hr
      exact hlen r (List.mem_of_mem_filter hr)
/-- A well-formed registry with a registration of the tunnel splits around it,
and no other registration names the tunnel. -/
theorem registry_split (regs : server.registry) (id : Nat) (hs : List Nat)
    (hok : registry_ok regs) (hm : (id, hs) ∈ regs) :
    ∃ A B, regs = A ++ (id, hs) :: B ∧ id ∉ A.map (fun r => r.1) ∧
      id ∉ B.map (fun r => r.1) ∧ regs.filter (fun r => decide (r.1 ≠ id)) = A ++ B := by
  obtain ⟨A, B, hAB⟩ := List.append_of_mem hm
  have hnd := hok.1
  rw [hAB, List.map_append, List.map_cons, List.nodup_append, List.nodup_cons] at hnd
  obtain ⟨-, ⟨hB, -⟩, hdis⟩ := hnd
  have hA : id ∉ A.map (fun r => r.1) := fun h => hdis h (List.mem_cons_self _ _)
  refine ⟨A, B, hAB, hA, hB, ?_⟩
  rw [hAB, List.filter_append, List.filter_cons, registry_filter_not_mem A id hA,
    registry_filter_not_mem B id hB]
  simp

/-- One call keeps the table in step with the registrations. -/
theorem event_apply_hold (ev : server.events_t) (wevt revt : Nat) (regs : server.registry)
    (op : server.event_op) (hB : events_bounds ev)
    (hH : server.events_hold ev wevt revt regs) (hok : registry_ok regs) :
    server.events_hold (server.event_apply ev op).2.1 wevt revt
      (server.registry_apply regs op) := by
  cases op with
  | add_tunnel evt id =>
    obtain ⟨b1, b2, b3, b4⟩ := hB
    obtain ⟨h1, h2, h3⟩ := hH
    by_cases hfull : ev.events_count ≥ 0x101
    · have hf2 : 2 + (server.registry_handles regs).length ≥ 0x101 := by omega
      simp only [server.event_apply, server.event_add_tunnel, hfull, if_true,
        server.registry_apply, hf2]
      exact ⟨h1, h2, h3⟩
    · have hf2 : ¬ (2 + (server.registry_handles regs).length ≥ 0x101) := by omega
      have hu : u32 (ev.events_count + 1) = ev.events_count + 1 := u32_of_lt (by omega)
      simp only [server.event_apply, server.event_add_tunnel, hfull, if_false,
        server.registry_apply, hf2, hu]
      have hh : server.registry_handles (regs ++ [(id, [evt])]) =
          server.registry_handles regs ++ [evt] := by
        rw [registry_handles_append]; simp [server.registry_handles]
      have hi : server.registry_ids (regs ++ [(id, [evt])]) =
          server.registry_ids regs ++ [id] := by
        rw [registry_ids_append]; simp [server.registry_ids]
      refine ⟨?_, ?_, ?_⟩
      · show ev.events_count + 1 = 2 + _
        rw [hh, List.length_append, List.length_singleton]; omega
      · show (ev.all_events.set ev.events_count evt).take (ev.events_count + 1) = _
        rw [take_set_succ _ _ _ (by omega), h2, hh]; rfl
      · show ((ev.evtid_to_tunid.set ev.events_count id).take (ev.events_count + 1)).drop 2 = _
        rw [take_set_succ _ _ _ (by omega), List.drop_append_of_le_length
          (by rw [List.length_take]; omega), h3, hi]
  | add_process proc re we id =>
    obtain ⟨b1, b2, b3, b4⟩ := hB
    obtain ⟨h1, h2, h3⟩ := hH
    have hu2 : u32 (ev.events_count + 2) = ev.events_count + 2 := u32_of_lt (by omega)
    by_cases hfull : ev.events_count + 2 ≥ 0x101
    · have hf2 : 2 + (server.registry_handles regs).length + 2 ≥ 0x101 := by omega
      simp only [server.event_apply, server.event_add_process, hu2, hfull, if_true,
        server.registry_apply, hf2]
      exact ⟨h1, h2, h3⟩
    · have hf2 : ¬ (2 + (server.registry_handles regs).length + 2 ≥ 0x101) := by omega
      have hu : u32 (ev.events_count + 3) = ev.events_count + 3 := u32_of_lt (by omega)
      simp only [server.event_apply, server.event_add_process, hu2, hfull, if_false,
        server.registry_apply, hf2, hu]
      have hh : server.registry_handles (regs ++ [(id, [proc, re, we])]) =
          server.registry_handles regs ++ [proc, re, we] := by
        rw [registry_handles_append]; simp [server.registry_handles]
      have hi : server.registry_ids (regs ++ [(id, [proc, re, we])]) =
          server.registry_ids regs ++ [id, id, id] := by
        rw [registry_ids_append]; simp [server.registry_ids, List.replicate]
      refine ⟨?_, ?_, ?_⟩
      · show ev.events_count + 3 = 2 + _
        rw [hh, List.length_append]; simp only [List.length_cons, List.length_nil]; omega
      · show (((ev.all_events.set ev.events_count proc).set (ev.events_count + 1) re).set
          (ev.events_count + 2) we).take (ev.events_count + 3) = _
        rw [take_set_three _ _ _ _ _ (by omega), h2, hh]; rfl
      · show ((((ev.evtid_to_tunid.set ev.events_count id).set (ev.events_count + 1) id).set
          (ev.events_count + 2) id).take (ev.events_count + 3)).drop 2 = _
        rw [take_set_three _ _ _ _ _ (by omega), List.drop_append_of_le_length
          (by rw [List.length_take]; omega), h3, hi]
  | del_tunnel id =>
    show server.events_hold (server.event_del_tunnel ev id).1 wevt revt
      (regs.filter (fun r => decide (r.1 ≠ id)))
    by_cases hid : id ∈ regs.map (fun r => r.1)
    · obtain ⟨r, hr, hrid⟩ := List.mem_map.mp hid
      obtain ⟨rid, hs⟩ := r
      simp only at hrid
      subst hrid
      obtain ⟨A, B, hAB, hA, hBid, hfil⟩ := registry_split regs rid hs hok hr
      have hne : hs ≠ [] := by
        intro h0
        have := hok.2 _ hr
        simp only [h0, List.length_nil] at this
        omega
      rw [hfil]
      exact (event_del_tunnel_present ev wevt revt A B rid hs hB (hAB ▸ hH) hne hA hBid).1
    · rw [event_del_tunnel_absent ev wevt revt regs id hB hH hid,
        registry_filter_not_mem regs id hid]
      exact hH

/-- The table stays in bounds and in step with the registrations over a
sequence of calls that registers no id twice. -/
theorem events_run_hold (wevt revt : Nat) (ops : List server.event_op) :
    ∀ (ev : server.events_t) (regs : server.registry), events_bounds ev →
      server.events_hold ev wevt revt regs → registry_ok regs →
      server.registered_once regs ops = true →
      server.events_hold (server.events_run ev ops).1 wevt revt (server.registry_run regs ops) ∧
      registry_ok (server.registry_run regs ops) := by
  induction ops with
  | nil => intro ev regs _ hH hok _; exact ⟨hH, hok⟩
  | cons op ops ih =>
    intro ev regs hB hH hok honce
    simp only [server.registered_once, Bool.and_eq_true] at honce
    exact ih _ _ (event_apply_bounds ev op hB).1 (event_apply_hold ev wevt revt regs op hB hH hok)
      (registry_apply_ok regs op hok honce.1) honce.2

/-- The table stays in bounds over every sequence of calls, and every index
written lies inside the arrays, above the slots 0 and 1. -/
theorem events_run_bounds (ops : List server.event_op) :
    ∀ (ev : server.events_t), events_bounds ev →
      events_bounds (server.events_run ev ops).1 ∧
      ∀ x ∈ (server.events_run ev ops).2, 2 ≤ x ∧ x < 258 := by
  induction ops with
  | nil => intro ev hB; exact ⟨hB, by intro x hx; simp [server.events_run] at hx⟩
  | cons op ops ih =>
    intro ev hB
    obtain ⟨h1, h2, -⟩ := event_apply_bounds ev op hB
    obtain ⟨i1, i2⟩ := ih _ h1
    refine ⟨i1, ?_⟩
    intro x hx
    simp only [server.events_run, List.mem_append] at hx
    rcases hx with hx | hx
    · exact h2 x hx
    · exact i2 x hx

/-- The table after `events_init` on the static variables. -/
theorem events_init_hold (wevt revt : Nat) :
    events_bounds (server.events_init server.events_static wevt revt) ∧
    server.events_hold (server.events_init server.events_static wevt revt) wevt revt [] ∧
    registry_ok [] := by
  refine ⟨⟨?_, ?_, ?_, ?_⟩, ⟨rfl, rfl, rfl⟩, ?_, ?_⟩
  · show 2 ≤ 2
    exact Nat.le_refl 2
  · show 2 ≤ 257
    decide
  · show (((List.replicate 0x102 0).set 0 wevt).set 1 revt).length = 258
    rw [List.length_set, List.length_set, List.length_replicate]
  · show (List.replicate 0x102 0).length = 258
    rw [List.length_replicate]
  · exact List.nodup_nil
  · intro r hr; cases hr
/-- C30: the event table of the server stays in bounds and deletes exactly one
tunnel's entries. After `events_init` and any sequence of `event_add_tunnel`,
`event_add_process` and `event_del_tunnel` calls, `events_count` lies within
2..257 and the arrays keep their 258 slots; every index written in the sequence
lies in 2..257; a following add that would take `events_count` over 257 returns
-1 and changes nothing, and one that would not returns 0 and adds one entry or
three. When each tunnel id is registered at most once, the table holds the
channel events in the slots 0 and 1 followed by the handles of the registered
tunnels, paired with their ids, in the order of registration; a following
`event_del_tunnel(id)` leaves the table holding the same registrations without
the one of `id`, in the same order and pairing, with `events_count` decreased by
the number of handles registered for `id` (one or three), changes nothing when
`id` is not registered, and writes no slot below 2. -/
theorem C30_event_table_bounds_and_delete (wevt revt : Nat) (ops : List server.event_op) :
    events_bounds (server.events_after wevt revt ops) ∧
    (∀ x ∈ (server.events_run (server.events_init server.events_static wevt revt) ops).2,
      2 ≤ x ∧ x < 258) ∧
    (∀ evt id,
      ((server.events_after wevt revt ops).events_count + 1 > 257 →
        server.event_add_tunnel (server.events_after wevt revt ops) evt id =
          (-1, server.events_after wevt revt ops, [])) ∧
      ((server.events_after wevt revt ops).events_count + 1 ≤ 257 →
        (server.event_add_tunnel (server.events_after wevt revt ops) evt id).1 = 0 ∧
        (server.event_add_tunnel (server.events_after wevt revt ops) evt id).2.1.events_count =
          (server.events_after wevt revt ops).events_count + 1)) ∧
    (∀ proc re we id,
      ((server.events_after wevt revt ops).events_count + 3 > 257 →
        server.event_add_process (server.events_after wevt revt ops) proc re we id =
          (-1, server.events_after wevt revt ops, [])) ∧
      ((server.events_after wevt revt ops).events_count + 3 ≤ 257 →
        (server.event_add_process (server.events_after wevt revt ops) proc re we id).1 = 0 ∧
        (server.event_add_process (server.events_after wevt revt ops) proc re we
          id).2.1.events_count = (server.events_after wevt revt ops).events_count + 3)) ∧
    (server.registered_once [] ops = true →
      server.events_hold (server.events_after wevt revt ops) wevt revt
        (server.registry_run [] ops) ∧
      registry_ok (server.registry_run [] ops) ∧
      ∀ id,
        server.events_hold (server.event_del_tunnel (server.events_after wevt revt ops) id).1
          wevt revt ((server.registry_run [] ops).filter (fun r => decide (r.1 ≠ id))) ∧
        (∀ hs, (id, hs) ∈ server.registry_run [] ops →
          (hs.length = 1 ∨ hs.length = 3) ∧
          (server.event_del_tunnel (server.events_after wevt revt ops) id).1.events_count +
            hs.length = (server.events_after wevt revt ops).events_count) ∧
        (id ∉ (server.registry_run [] ops).map (fun r => r.1) →
          server.event_del_tunnel (server.events_after wevt revt ops) id =
            (server.events_after wevt revt ops, [])) ∧
        (∀ x ∈ (server.event_del_tunnel (server.events_after wevt revt ops) id).2, 2 ≤ x)) := by
  obtain ⟨hB0, hH0, hok0⟩ := events_init_hold wevt revt
  obtain ⟨hB, hW⟩ := events_run_bounds ops _ hB0
  refine ⟨hB, hW, ?_, ?_, ?_⟩
  · intro evt id
    exact (event_apply_bounds _ (server.event_op.add_tunnel evt id) hB).2.2.1 evt id rfl
  · intro proc re we id
    exact (event_apply_bounds _ (server.event_op.add_process proc re we id) hB).2.2.2
      proc re we id rfl
  · intro honce
    obtain ⟨hH, hok⟩ := events_run_hold wevt revt ops _ _ hB0 hH0 hok0 honce
    refine ⟨hH, hok, ?_⟩
    intro id
    refine ⟨event_apply_hold _ wevt revt _ (server.event_op.del_tunnel id) hB hH hok, ?_, ?_, ?_⟩
    · intro hs hm
      obtain ⟨A, B, hAB, hA, hBid, -⟩ := registry_split _ id hs hok hm
      have hl := hok.2 _ hm
      have hne : hs ≠ [] := by
        intro h0
        simp only [h0, List.length_nil] at hl
        omega
      exact ⟨hl, (event_del_tunnel_present _ wevt revt A B id hs hB (hAB ▸ hH) hne hA hBid).2⟩
    · intro hid
      exact event_del_tunnel_absent _ wevt revt _ id hB hH hid
    · intro x hx
      exact ((event_apply_bounds _ (server.event_op.del_tunnel id) hB).2.1 x hx).1

/-- The theorem of C30 on a socket tunnel, a process tunnel and a socket tunnel,
then the deletion of the process tunnel. -/
theorem C30_event_table_bounds_and_delete_witness :
    server.registered_once []
      [server.event_op.add_tunnel 10 1, server.event_op.add_process 20 21 22 2,
        server.event_op.add_tunnel 30 3] = true ∧
    server.events_hold
      (server.event_del_tunnel
        (server.events_after 100 101
          [server.event_op.add_tunnel 10 1, server.event_op.add_process 20 21 22 2,
            server.event_op.add_tunnel 30 3]) 2).1
      100 101 [(1, [10]), (3, [30])] ∧
    (server.event_del_tunnel
        (server.events_after 100 101
          [server.event_op.add_tunnel 10 1, server.event_op.add_process 20 21 22 2,
            server.event_op.add_tunnel 30 3]) 2).1.events_count + 3 = 7 :=
  ⟨by decide,
    (((C30_event_table_bounds_and_delete 100 101
      [server.event_op.add_tunnel 10 1, server.event_op.add_process 20 21 22 2,
        server.event_op.add_tunnel 30 3]).2.2.2.2 (by decide)).2.2 2).1,
    ((((C30_event_table_bounds_and_delete 100 101
      [server.event_op.add_tunnel 10 1, server.event_op.add_process 20 21 22 2,
        server.event_op.add_tunnel 30 3]).2.2.2.2 (by decide)).2.2 2).2.1 [20, 21, 22]
          (by decide)).2⟩

end Rdp2tcp
